import Mathlib

/-!
# cpphttp: a shallow embedding of the serving engine

Bytes (`char`) are `Char`, byte strings are `List Char`, C `int` fields are `Int`
(with an explicit 32-bit wrap where the source can overflow), `intptr_t` cursors
that the source never makes negative are `Nat`.

A pointer into a byte region is modelled by the list of bytes found from that
address on; the null pointer and the empty literal are the empty list.
-/

namespace Cpphttp

/-! ## C helpers -/

/-- Largest value of a 32-bit `int` (`MAX_VALUE(x)` for an `int` x). -/
def INT_MAX : Int := 2147483647

/-- Two's complement wrap of an `int` result to 32 bits. -/
def wrap32 (x : Int) : Int := (x + 2147483648) % 4294967296 - 2147483648

/-- The C string stored in `s`: the bytes before the first NUL. -/
def cstr (s : List Char) : List Char := s.takeWhile (fun c => c != Char.ofNat 0)

/-- `strlen(s)`. -/
def strlen (s : List Char) : Int := ((cstr s).length : Int)

/-- `strcmp(a, b) == 0`. -/
def streq (a b : List Char) : Bool := cstr a == cstr b

/-- `memcmp(p, q, n) == 0`, where `p` and `q` are the bytes found at the two addresses. -/
def memeq (p q : List Char) (n : Nat) : Bool := p.take n == q.take n

/-- The region `data` after `memcpy(data + off, src, n)` (also `memmove`, whose source
is read before the destination is written). -/
def memcpy (data : List Char) (off : Nat) (src : List Char) (n : Nat) : List Char :=
  data.take off ++ src.take n ++ data.drop (off + n)

/-- The text `snprintf` produces for `%d`. -/
def fmt_d (n : Int) : List Char :=
  if n < 0 then '-' :: (Nat.repr n.natAbs).toList else (Nat.repr n.toNat).toList

/-! ## slice.hpp -/

/-- `struct Slice`: `str` holds the bytes found at the pointer `str`. -/
structure Slice where
  str : List Char
  off : Nat
  len : Nat
  deriving DecidableEq, Repr

/-- `Slice::Slice()` and `Slice::whipe`. -/
def Slice.whipe : Slice := { str := [], off := 0, len := 0 }

/-- `Slice::Slice(const char *str2, int len2)`. -/
def Slice.mk2 (str2 : List Char) (len2 : Int) : Slice := { str := str2, off := 0, len := len2.toNat }

/-- The bytes a slice denotes: `len` bytes from `str + off`. -/
def Slice.bytes (s : Slice) : List Char := (s.str.drop s.off).take s.len

/-- `Slice::operator[]`; `none` when the assertion `index >= 0 && index < len` fails. -/
def Slice.at (s : Slice) (index : Int) : Option Char :=
  if 0 ≤ index ∧ index < s.len then some ((s.str.drop s.off).getD index.toNat (Char.ofNat 0)) else none

/-- `Slice::operator==(const char *s)`. -/
def Slice.eq_cstr (sl : Slice) (s : List Char) : Bool :=
  if strlen s != (sl.len : Int) then false
  else memeq (sl.str.drop sl.off) (cstr s) sl.len

/-! ## buffer.hpp -/

/-- `struct Buffer`. `data` holds the bytes of the heap region that have been written
(a prefix of the `size` allocated bytes; bytes never written are not represented).
`fault` is a ghost flag, absent from the source: it records that a copy touched memory
outside the allocated region or that an assertion failed. -/
structure Buffer where
  data : List Char
  size : Int
  used : Int
  fail : Bool
  crlfcrlf : Int
  fault : Bool
  deriving DecidableEq, Repr

/-- `Buffer::Buffer()`. -/
def Buffer.new : Buffer :=
  { data := [], size := 0, used := 0, fail := false, crlfcrlf := -1, fault := false }

/-- The live bytes `[0, used)`. -/
def Buffer.live (b : Buffer) : List Char := b.data.take b.used.toNat

/-- `Buffer::length`. -/
def Buffer.length (b : Buffer) : Int := b.used

/-- `Buffer::failed`. -/
def Buffer.failed (b : Buffer) : Bool := b.fail

/-- `Buffer::ensure_unused_space`. `alloc n` tells whether `new (std::nothrow) char[n]`
returns a region. The copy of the `used` live bytes into the new region leaves the
region when `used` exceeds the old or the new size. Every caller tests `fail` first, so
`assert(!fail)` holds at each call. -/
def Buffer.ensure_unused_space (alloc : Int → Bool) (b : Buffer) (min : Int) : Bool × Buffer :=
  if wrap32 (b.used + min) > b.size then
    let new_size := if b.size > 0 then wrap32 (2 * b.size) else 256
    if !alloc new_size then (false, { b with fail := true })
    else
      (true, { b with
        data := memcpy [] 0 b.data b.used.toNat
        size := new_size
        fault := b.fault || decide (b.used < 0) || decide (b.used > b.size) || decide (b.used > new_size) })
  else (true, b)

/-- `Buffer::write(const char *src, int len)`. -/
def Buffer.write (alloc : Int → Bool) (b : Buffer) (src : List Char) (len : Int) : Buffer :=
  if b.fail then b
  else
    let len := if len < 0 then strlen src else len
    if b.used > INT_MAX - len then { b with fail := true }
    else
      match b.ensure_unused_space alloc len with
      | (false, b1) => b1
      | (true, b1) =>
        { b1 with
          data := memcpy b1.data b1.used.toNat src len.toNat
          used := b1.used + len
          fault := b1.fault || decide (b1.used + len > b1.size) || decide ((src.length : Int) < len) }

/-- `Buffer::overwrite`. -/
def Buffer.overwrite (b : Buffer) (off : Int) (src : List Char) (len : Int) : Buffer :=
  if b.fail then b
  else if off < 0 ∨ off + len > b.used then { b with fail := true }
  else
    { b with
      data := memcpy b.data off.toNat src len.toNat
      fault := b.fault || decide (len < 0) || decide ((src.length : Int) < len) || decide (off + len > b.size) }

/-- The loop of `Buffer::seek`: `n` is `lim - i` while `i < lim`, so `n = 0` is the exit
`i >= lim`. -/
def Buffer.seek_loop (data needle : List Char) (len : Nat) : Nat → Int → Int
  | 0, i => i
  | n + 1, i =>
    if !memeq (data.drop i.toNat) needle len then Buffer.seek_loop data needle len n (i + 1) else i

/-- `Buffer::seek`: the returned index and the buffer with its updated cache. -/
def Buffer.seek (b : Buffer) (needle : List Char) : Int × Buffer :=
  let len := strlen needle
  let hit := decide (len = 4) && streq needle ['\r', '\n', '\r', '\n']
  if hit && decide (b.crlfcrlf > -1) then (b.crlfcrlf, b)
  else
    let is_crlfcrlf := hit
    let lim := b.used - len + 1
    let i := Buffer.seek_loop b.data (cstr needle) len.toNat lim.toNat 0
    if i > lim then (-1, b)
    else (i, if is_crlfcrlf then { b with crlfcrlf := i } else b)

/-- `Buffer::contains`. -/
def Buffer.contains (b : Buffer) (needle : List Char) : Bool × Buffer :=
  (decide ((b.seek needle).1 ≥ 0), (b.seek needle).2)

/-- `Buffer::consume`. -/
def Buffer.consume (b : Buffer) (num : Int) : Buffer :=
  { b with
    data := memcpy b.data 0 (b.data.drop num.toNat) (b.used - num).toNat
    used := b.used - num
    crlfcrlf := -1
    fault := b.fault || decide (num > b.used) || decide (num < 0) }

/-- `Buffer::slice_until`. -/
def Buffer.slice_until (b : Buffer) (token : List Char) (include_token : Bool) : Slice × Buffer :=
  let r := b.seek token
  if r.1 < 0 then (Slice.mk2 [] 0, r.2)
  else
    let e := if include_token then r.1 + strlen token else r.1
    (Slice.mk2 r.2.data e, r.2)

/-- `Buffer::slice`. -/
def Buffer.slice (b : Buffer) (off e : Int) : Slice :=
  if e < off ∨ off < 0 ∨ e ≥ b.used then Slice.mk2 [] 0
  else Slice.mk2 (b.data.drop off.toNat) (e - off)

/-- Result codes of `Socket::read` and `Socket::write`. -/
def WOULD_BLOCK : Int := -1

/-- See `WOULD_BLOCK`. -/
def OTHER_ERROR : Int := -2

/-- What `Buffer::read(Socket&)` leaves behind: the value returned, the buffer, and the
bytes the socket accepted, in order. -/
structure Egress where
  ret : Int
  buf : Buffer
  sent : List Char
  deriving DecidableEq, Repr

/-- One pass through the loop of `Buffer::read(Socket&)` up to the call of `sock.write`,
whose result is `res`: `none` for the early `return 0`, `some true` when the loop goes on,
`some false` when it is left through `break`. -/
def Buffer.read_sock_pass (alloc : Int → Bool) (res : Int) (b : Buffer) :
    Option Bool × Buffer :=
  match b.ensure_unused_space alloc 256 with
  | (false, b1) => (some false, b1)
  | (true, b1) =>
    if res = WOULD_BLOCK then (some false, b1)
    else if res = OTHER_ERROR ∨ res = 0 then (none, { b1 with fail := true })
    else (some true, { b1 with fault := b1.fault || decide (res ≤ 0) })

/-- The loop of `Buffer::read(Socket&)`. The socket is the list of results its successive
`write` calls return; a socket with no result left reports `WOULD_BLOCK`. The value
returned is `none` for the early `return 0`, else the value of `copied` at loop exit,
with the buffer and the bytes handed to the socket so far. -/
def Buffer.read_sock_loop (alloc : Int → Bool) :
    List Int → Buffer → Int → List Char → (Option Int × Buffer × List Char)
  | [], b, copied, sent =>
    if copied < b.used then
      match Buffer.read_sock_pass alloc WOULD_BLOCK b with
      | (none, b1) => (none, b1, sent)
      | (some _, b1) => (some copied, b1, sent)
    else (some copied, b, sent)
  | res :: rest, b, copied, sent =>
    if copied < b.used then
      match Buffer.read_sock_pass alloc res b with
      | (none, b1) => (none, b1, sent)
      | (some false, b1) => (some copied, b1, sent)
      | (some true, b1) =>
        Buffer.read_sock_loop alloc rest b1 (copied + res)
          (sent ++ (b1.data.drop copied.toNat).take res.toNat)
    else (some copied, b, sent)

/-- `Buffer::read(Socket&)`. -/
def Buffer.read_sock (alloc : Int → Bool) (b : Buffer) (sock : List Int) : Egress :=
  if b.fail then { ret := 0, buf := b, sent := [] }
  else
    match Buffer.read_sock_loop alloc sock b 0 [] with
    | (none, b1, sent) => { ret := 0, buf := b1, sent := sent }
    | (some copied, b1, sent) =>
      { ret := copied
        buf := { b1 with
          crlfcrlf := -1
          data := memcpy b1.data copied.toNat b1.data (b1.used - copied).toNat
          used := b1.used - copied }
        sent := sent }

/-! ## parse.hpp -/

/-- `Host::Type`. -/
inductive HostType where
  | NAME | IPV4 | IPV6
  deriving DecidableEq, Repr

/-- `struct Host`; `ipv4` is the 32-bit word, `ipv6` the eight 16-bit groups. -/
structure Host where
  type : HostType
  text : Slice
  ipv4 : Int
  ipv6 : List Int
  deriving DecidableEq, Repr

/-- `Host::Host()` with the default-constructed members. -/
def Host.new : Host :=
  { type := HostType.IPV4, text := Slice.whipe, ipv4 := 0, ipv6 := List.replicate 8 0 }

/-- `struct Authority`. -/
structure Authority where
  userinfo : Slice
  host : Host
  port : Int
  deriving DecidableEq, Repr

/-- `Authority::Authority()`. -/
def Authority.new : Authority := { userinfo := Slice.whipe, host := Host.new, port := -1 }

/-- `struct URL`. -/
structure URL where
  full : Slice
  scheme : Slice
  authority : Authority
  path : Slice
  query : Slice
  fragment : Slice
  deriving DecidableEq, Repr

/-- A default-constructed `URL`. -/
def URL.new : URL :=
  { full := Slice.whipe, scheme := Slice.whipe, authority := Authority.new,
    path := Slice.whipe, query := Slice.whipe, fragment := Slice.whipe }

/-- `struct Header`. -/
structure Header where
  name : Slice
  value : Slice
  deriving DecidableEq, Repr

/-- `enum Method`. -/
inductive Method where
  | GET | POST
  deriving DecidableEq, Repr

/-- `MAX_REQUEST_HEADERS`. -/
def MAX_REQUEST_HEADERS : Nat := 32

/-- `struct Request`; `headers` is the array of `MAX_REQUEST_HEADERS` entries. -/
structure Request where
  valid : Bool
  method : Method
  url : URL
  headers : List Header
  count : Nat
  ignored_count : Nat
  body : Slice
  deriving DecidableEq, Repr

/-- `Request::Request()`. -/
def Request.new : Request :=
  { valid := false, method := Method.GET, url := URL.new,
    headers := List.replicate MAX_REQUEST_HEADERS { name := Slice.whipe, value := Slice.whipe },
    count := 0, ignored_count := 0, body := Slice.whipe }

/-! ## parse.cpp

`struct Scanner` holds `str`, `len` and the cursor `off`; only `off` is ever assigned
after construction, so the cursor is threaded as a separate value and `Scanner` keeps
the two constant fields. A result `none` means that an assertion of the source failed
(or that a byte outside the represented memory was read). -/

/-- The constant part of `struct Scanner`. -/
structure Scanner where
  str : List Char
  len : Nat
  deriving DecidableEq, Repr

/-- `Scanner::end`. -/
def Scanner.end_ (src : Scanner) (off : Nat) : Bool := off == src.len

/-- `Scanner::curr`. -/
def Scanner.curr (src : Scanner) (off : Nat) : Option Char :=
  if off < src.len then src.str[off]? else none

/-- `Scanner::back`. -/
def Scanner.back (_src : Scanner) (off : Nat) : Option Nat :=
  if off > 0 then some (off - 1) else none

/-- `Scanner::peek`. -/
def Scanner.peek (src : Scanner) (off : Nat) : Option Char :=
  if off + 1 < src.len then src.str[off + 1]? else none

/-- `Scanner::consume()`. -/
def Scanner.consume (src : Scanner) (off : Nat) : Option Nat :=
  if off < src.len then some (off + 1) else none

/-- `Scanner::consume(char c)`. -/
def Scanner.consume_char (src : Scanner) (c : Char) (off : Nat) : Option (Bool × Nat) :=
  if src.end_ off then some (false, off)
  else
    (src.curr off).bind fun x =>
      if x != c then some (false, off)
      else (src.consume off).bind fun o => some (true, o)

/-- `Scanner::consume(const char *s)`. -/
def Scanner.consume_str (src : Scanner) (s : List Char) (off : Nat) : Bool × Nat :=
  let l := (cstr s).length
  if off + l > src.len then (false, off)
  else if !memeq (src.str.drop off) (cstr s) l then (false, off)
  else (true, off + l)

/-- The `while (!end() && testfn_body(curr()))` test and the `consume()` it guards, in
`Scanner::consume(CharTestFunc, CharTestFunc)`; the first argument is `len - off`. -/
def Scanner.consume_loop (src : Scanner) (body : Char → Bool) : Nat → Nat → Option Nat
  | 0, off => if src.end_ off then some off else none
  | n + 1, off =>
    if src.end_ off then some off
    else
      (src.curr off).bind fun c =>
        if body c then (src.consume off).bind fun o => Scanner.consume_loop src body n o
        else some off

/-- `Scanner::consume(CharTestFunc testfn_head, CharTestFunc testfn_body)`. -/
def Scanner.consume2 (src : Scanner) (head body : Char → Bool) (off : Nat) : Option (Bool × Nat) :=
  if src.end_ off then some (false, off)
  else
    (src.curr off).bind fun c =>
      if !head c then some (false, off)
      else
        (src.consume off).bind fun o =>
          (src.consume_loop body (src.len - o) o).bind fun o2 => some (true, o2)

/-- `Scanner::consume(CharTestFunc testfn)`. -/
def Scanner.consume1 (src : Scanner) (testfn : Char → Bool) (off : Nat) : Option (Bool × Nat) :=
  src.consume2 testfn testfn off

/-- `is_upper_alpha`. -/
def is_upper_alpha (c : Char) : Bool := decide ('A' ≤ c) && decide (c ≤ 'Z')

/-- `is_alpha`. -/
def is_alpha (c : Char) : Bool :=
  (decide ('a' ≤ c) && decide (c ≤ 'z')) || (decide ('A' ≤ c) && decide (c ≤ 'Z'))

/-- `is_digit`. -/
def is_digit (c : Char) : Bool := decide ('0' ≤ c) && decide (c ≤ '9')

/-- `is_subdelim`. -/
def is_subdelim (c : Char) : Bool :=
  c == '!' || c == '$' || c == '&' || c == Char.ofNat 39 || c == '('
    || c == ')' || c == '*' || c == '+' || c == ',' || c == ';'
    || c == '='

/-- `is_unreserved`. -/
def is_unreserved (c : Char) : Bool :=
  is_alpha c || is_digit c || c == '-' || c == '.' || c == '_' || c == '~'

/-- `is_pchar`. -/
def is_pchar (c : Char) : Bool :=
  is_unreserved c || is_subdelim c || c == ':' || c == '@'

/-- `is_hex`. -/
def is_hex (c : Char) : Bool :=
  (decide ('0' ≤ c) && decide (c ≤ '9'))
    || (decide ('a' ≤ c) && decide (c ≤ 'f'))
    || (decide ('A' ≤ c) && decide (c ≤ 'F'))

/-- `is_space`. -/
def is_space (c : Char) : Bool := c == ' ' || c == '\t' || c == '\r' || c == '\n'

/-- `parse_scheme`: the scheme slice written to `dst` and the cursor. -/
def parse_scheme (src : Scanner) (off : Nat) : Option (Slice × Nat) :=
  let start := off
  (src.consume2 (fun c => is_upper_alpha c)
      (fun c => is_upper_alpha c || is_digit c || c == '+' || c == '-' || c == '.') off).bind fun r =>
    if !r.1 then some (Slice.whipe, r.2)
    else
      (src.consume_char ':' r.2).bind fun r2 =>
        if !r2.1 then some (Slice.whipe, start)
        else some ({ str := src.str.drop r2.2, off := start, len := r2.2 - start }, r2.2)

/-- `parse_user_info`. -/
def parse_user_info (src : Scanner) (off : Nat) : Option (Slice × Nat) :=
  let start := off
  (src.consume1 (fun c => is_unreserved c || is_subdelim c || c == ':') off).bind fun r =>
    if r.1 then
      let r2 := src.consume_str ['@'] r.2
      if !r2.1 then some (Slice.whipe, start)
      else some ({ str := src.str, off := start, len := src.len - start }, r2.2)
    else some (Slice.whipe, r.2)

/-- The `do … while` of the three number readers, entered with the cursor on a digit:
`base` is 16 or 10, `maxv` the largest value of the destination type, `is_d` the loop
test; the first argument is `len - off`. The result is the number and the cursor. -/
def parse_num_loop (src : Scanner) (base maxv : Int) (is_d : Char → Bool) :
    Nat → Int → Nat → Option (Int × Nat)
  | 0, _, _ => none
  | n + 1, dst, off =>
    (src.curr off).bind fun c =>
      let d : Int := (c.toNat : Int) - ('0'.toNat : Int)
      if ¬ (d ≥ 0 ∧ d < base) then none
      else if dst > (maxv - d) / base then
        (src.back off).bind fun o => some (dst, o)
      else
        (src.consume off).bind fun o =>
          if src.end_ o then some (dst * base + d, o)
          else
            (src.curr o).bind fun x =>
              if is_d x then parse_num_loop src base maxv is_d n (dst * base + d) o
              else some (dst * base + d, o)

/-- `parse_u16_base16`: success, the value stored in `dst` (unchanged on failure), cursor. -/
def parse_u16_base16 (src : Scanner) (dst : Int) (off : Nat) : Option (Bool × Int × Nat) :=
  if src.end_ off then some (false, dst, off)
  else
    (src.curr off).bind fun c =>
      if !is_hex c then some (false, dst, off)
      else (parse_num_loop src 16 65535 is_hex (src.len - off) 0 off).bind fun r =>
        some (true, r.1, r.2)

/-- `parse_u8_base10`. -/
def parse_u8_base10 (src : Scanner) (dst : Int) (off : Nat) : Option (Bool × Int × Nat) :=
  if src.end_ off then some (false, dst, off)
  else
    (src.curr off).bind fun c =>
      if !is_digit c then some (false, dst, off)
      else (parse_num_loop src 10 255 is_digit (src.len - off) 0 off).bind fun r =>
        some (true, r.1, r.2)

/-- `parse_u16_base10`. -/
def parse_u16_base10 (src : Scanner) (dst : Int) (off : Nat) : Option (Bool × Int × Nat) :=
  if src.end_ off then some (false, dst, off)
  else
    (src.curr off).bind fun c =>
      if !is_digit c then some (false, dst, off)
      else (parse_num_loop src 10 65535 is_digit (src.len - off) 0 off).bind fun r =>
        some (true, r.1, r.2)
/-- The first loop of `parse_ipv6(Scanner&, IPv6&)`, `while (count < 8 && !src.consume("::"))`;
the first argument is `8 - count`. Result: `false` for `return false`, else the count,
the groups and the cursor at loop exit. -/
def parse_ipv6_head (src : Scanner) : Nat → Nat → List Int → Nat → Option (Bool × Nat × List Int × Nat)
  | 0, count, data, off => some (true, count, data, off)
  | n + 1, count, data, off =>
    let r := src.consume_str [':', ':'] off
    if r.1 then some (true, count, data, r.2)
    else
      let r1 := if count > 0 then src.consume_str [':'] r.2 else (true, r.2)
      if !r1.1 then some (false, count, data, r1.2)
      else
        (parse_u16_base16 src (data.getD count 0) r1.2).bind fun r2 =>
          if !r2.1 then some (false, count, data, r2.2.2)
          else parse_ipv6_head src n (count + 1) (data.set count r2.2.1) r2.2.2

/-- The second loop of `parse_ipv6(Scanner&, IPv6&)`, `while (count + tail_count < 7)`;
the first argument is `7 - (count + tail_count)`, `tail` holds the `tail_count` groups
read so far. -/
def parse_ipv6_tail (src : Scanner) : Nat → List Int → Nat → Option (Bool × List Int × Nat)
  | 0, tail, off => some (true, tail, off)
  | n + 1, tail, off =>
    let r1 := if tail.length > 0 then src.consume_str [':'] off else (true, off)
    if !r1.1 then some (false, tail, r1.2)
    else
      (parse_u16_base16 src 0 r1.2).bind fun r2 =>
        if !r2.1 then some (false, tail, r2.2.2)
        else parse_ipv6_tail src n (tail ++ [r2.2.1]) r2.2.2

/-- `parse_ipv6(Scanner&, IPv6&)`: success, the eight groups of `dst`, cursor. The two
final `for` loops store `implicit_pairs` zeros and then the tail from index `count` on. -/
def parse_ipv6 (src : Scanner) (data : List Int) (off : Nat) : Option (Bool × List Int × Nat) :=
  (parse_ipv6_head src 8 0 data off).bind fun r =>
    if !r.1 then some (false, r.2.2.1, r.2.2.2)
    else
      let count := r.2.1
      if count < 8 then
        (parse_ipv6_tail src (7 - count) [] r.2.2.2).bind fun t =>
          if !t.1 then some (false, r.2.2.1, t.2.2)
          else
            let implicit_pairs := 8 - (count + t.2.1.length)
            some (true, r.2.2.1.take count ++ List.replicate implicit_pairs 0 ++ t.2.1
                          ++ r.2.2.1.drop (count + implicit_pairs + t.2.1.length), t.2.2)
      else some (true, r.2.2.1, r.2.2.2)

/-- `parse_ipv6(Scanner&, Host&)`. -/
def parse_ipv6_host (src : Scanner) (dst : Host) (off : Nat) : Option (Bool × Host × Nat) :=
  let start := off
  (parse_ipv6 src dst.ipv6 off).bind fun r =>
    if r.1 then
      some (true, { dst with
        ipv6 := r.2.1
        type := HostType.IPV6
        text := { str := src.str, off := start, len := r.2.2 - start } }, r.2.2)
    else some (false, { dst with ipv6 := r.2.1 }, r.2.2)

/-- The `for (int i = 0; i < 4; i++)` of `parse_ipv4(Scanner&, IPv4&)`; the first
argument is `4 - i`. Result: `false` for `return false`, else `word` and the cursor. -/
def parse_ipv4_loop (src : Scanner) : Nat → Nat → Int → Nat → Option (Bool × Int × Nat)
  | 0, _, word, off => some (true, word, off)
  | n + 1, i, word, off =>
    (if i > 0 then src.consume_char '.' off else some (true, off)).bind fun r1 =>
      if !r1.1 then some (false, word, r1.2)
      else
        (parse_u8_base10 src 0 r1.2).bind fun r2 =>
          if !r2.1 then some (false, word, r2.2.2)
          else parse_ipv4_loop src n (i + 1) ((word * 256 + r2.2.1) % 4294967296) r2.2.2

/-- `parse_ipv4(Scanner&, IPv4&)`: success, the word of `dst` (unchanged on failure), cursor. -/
def parse_ipv4 (src : Scanner) (dst : Int) (off : Nat) : Option (Bool × Int × Nat) :=
  (parse_ipv4_loop src 4 0 0 off).bind fun r =>
    if r.1 then some (true, r.2.1, r.2.2) else some (false, dst, r.2.2)

/-- `parse_ipv4(Scanner&, Host&)`. -/
def parse_ipv4_host (src : Scanner) (dst : Host) (off : Nat) : Option (Bool × Host × Nat) :=
  let start := off
  (parse_ipv4 src dst.ipv4 off).bind fun r =>
    if r.1 then
      some (true, { dst with
        ipv4 := r.2.1
        type := HostType.IPV4
        text := { str := src.str, off := start, len := r.2.2 - start } }, r.2.2)
    else some (false, dst, r.2.2)

/-- `parse_host`. -/
def parse_host (src : Scanner) (dst : Host) (off : Nat) : Option (Bool × Host × Nat) :=
  if src.end_ off then some (false, dst, off)
  else
    (src.curr off).bind fun c =>
      if c == '[' then
        (parse_ipv6_host src dst off).bind fun r =>
          if !r.1 then some (false, r.2.1, r.2.2)
          else
            (src.consume_char ']' r.2.2).bind fun r2 =>
              if !r2.1 then some (false, r.2.1, r2.2) else some (true, r.2.1, r2.2)
      else
        (if is_digit c then parse_ipv4_host src dst off else some (false, dst, off)).bind fun r =>
          if !r.1 then
            let start := r.2.2
            (src.consume1 (fun x => is_unreserved x || is_subdelim x) r.2.2).bind fun r2 =>
              some (true, { r.2.1 with
                type := HostType.NAME
                text := { str := src.str, off := start, len := r2.2 - start } }, r2.2)
          else some (true, r.2.1, r.2.2)

/-- `parse_authority`. -/
def parse_authority (src : Scanner) (dst : Authority) (off : Nat) :
    Option (Bool × Authority × Nat) :=
  (parse_user_info src off).bind fun u =>
    (parse_host src dst.host u.2).bind fun h =>
      let dst1 := { dst with userinfo := u.1, host := h.2.1 }
      if !h.1 then some (false, dst1, h.2.2)
      else
        (src.consume_char ':' h.2.2).bind fun r =>
          if r.1 then
            if src.end_ r.2 then some (true, { dst1 with port := -1 }, r.2)
            else
              (src.curr r.2).bind fun c =>
                if !is_digit c then some (true, { dst1 with port := -1 }, r.2)
                else
                  (parse_u16_base10 src 0 r.2).bind fun p =>
                    if !p.1 then some (false, dst1, p.2.2)
                    else some (true, { dst1 with port := p.2.1 }, p.2.2)
          else some (true, { dst1 with port := -1 }, r.2)

/-- `parse_query_or_fragment`. -/
def parse_query_or_fragment (src : Scanner) (off : Nat) : Option (Slice × Nat) :=
  (src.consume1 (fun c => is_pchar c || c == '/' || c == '?') off).bind fun r =>
    some ({ str := src.str, off := off, len := r.2 - off }, r.2)

/-- The loop `while (src.consume('/')) src.consume(is_pchar);` of `parse_path_abempty`;
the first argument is `len - off`. -/
def parse_path_abempty_loop (src : Scanner) : Nat → Nat → Option Nat
  | 0, off => (src.consume_char '/' off).bind fun r => if r.1 then none else some r.2
  | n + 1, off =>
    (src.consume_char '/' off).bind fun r =>
      if r.1 then
        (src.consume1 is_pchar r.2).bind fun r2 => parse_path_abempty_loop src n r2.2
      else some r.2

/-- `parse_path_abempty`. -/
def parse_path_abempty (src : Scanner) (off : Nat) : Option (Slice × Nat) :=
  (parse_path_abempty_loop src (src.len - off) off).bind fun o =>
    some ({ str := src.str, off := off, len := o - off }, o)

/-- `parse_path`. -/
def parse_path (src : Scanner) (off : Nat) : Option (Slice × Nat) :=
  (src.consume1 (fun c => is_pchar c || c == '/') off).bind fun r =>
    some ({ str := src.str, off := off, len := r.2 - off }, r.2)

/-- `parse_url`. -/
def parse_url (src : Scanner) (dst : URL) (off : Nat) : Option (Bool × URL × Nat) :=
  let full_off := off
  (parse_scheme src off).bind fun sc =>
    let dst1 := { dst with scheme := sc.1 }
    let r := src.consume_str ['/', '/'] sc.2
    (if r.1 then
        (parse_authority src dst1.authority r.2).bind fun a =>
          let dst2 := { dst1 with authority := a.2.1 }
          if !a.1 then some (false, dst2, a.2.2)
          else
            (src.peek a.2.2).bind fun c =>
              if c == '/' then
                (parse_path_abempty src a.2.2).bind fun p =>
                  some (true, { dst2 with path := p.1 }, p.2)
              else some (true, dst2, a.2.2)
      else
        (parse_path src r.2).bind fun p => some (true, { dst1 with path := p.1 }, p.2)).bind
    fun st =>
      if !st.1 then some (false, st.2.1, st.2.2)
      else
        (src.consume_char '?' st.2.2).bind fun q =>
          (if q.1 then
              (parse_query_or_fragment src q.2).bind fun x =>
                some ({ st.2.1 with query := x.1 }, x.2)
            else some (st.2.1, q.2)).bind fun st2 =>
            (src.consume_char '#' st2.2).bind fun f =>
              (if f.1 then
                  (parse_query_or_fragment src f.2).bind fun x =>
                    some ({ st2.1 with fragment := x.1 }, x.2)
                else some (st2.1, f.2)).bind fun st3 =>
                some (true, { st3.1 with
                  full := { str := src.str, off := full_off, len := st3.2 - full_off } }, st3.2)
/-- What a parsing routine with a `ParseError&` argument leaves behind: the value
returned, the `Request`, the cursor, and the text written to `error`, if any. -/
structure ParseResult where
  ok : Bool
  req : Request
  off : Nat
  error : Option String
  deriving DecidableEq, Repr

/-- `parse_method`: success, `dst` (unchanged on failure), cursor, error text. -/
def parse_method (src : Scanner) (dst : Method) (off : Nat) :
    Option (Bool × Method × Nat × Option String) :=
  let start := off
  (src.consume1 is_upper_alpha off).bind fun r =>
    if !r.1 then some (false, dst, r.2, some "Missing method")
    else
      let text : Slice := { str := src.str, off := start, len := r.2 - start }
      if text.eq_cstr ['G', 'E', 'T'] then some (true, Method.GET, r.2, none)
      else if text.eq_cstr ['P', 'O', 'S', 'T'] then some (true, Method.POST, r.2, none)
      else some (false, dst, r.2, some "Method not supported")

/-- The header loop `do … while (!src.consume("\r\n"))` of `parse_request`. The first
argument bounds the number of passes; every pass that continues moves the cursor by at
least three bytes, so `len - off + 1` is never used up. The result has `ok = true` when
the loop is left through its `while` test. -/
def parse_headers_loop (src : Scanner) : Nat → Request → Nat → Option ParseResult
  | 0, _, _ => none
  | n + 1, dst, off =>
    (src.consume1 (fun c => c != ':') off).bind fun r =>
      let name : Slice := { str := src.str, off := off, len := r.2 - off }
      (src.consume_char ':' r.2).bind fun r2 =>
        if !r2.1 then
          some { ok := false, req := dst, off := r2.2, error := some "Missing ':' after header name" }
        else
          (src.consume1 (fun c => c != '\r') r2.2).bind fun r3 =>
            let value : Slice := { str := src.str, off := r2.2, len := r3.2 - r2.2 }
            let dst1 : Request :=
              if dst.count < MAX_REQUEST_HEADERS then
                { dst with
                  headers := dst.headers.set dst.count { name := name, value := value }
                  count := dst.count + 1 }
              else { dst with ignored_count := dst.ignored_count + 1 }
            let r4 := src.consume_str ['\r', '\n'] r3.2
            if !r4.1 then
              some { ok := false, req := dst1, off := r4.2, error := some "Missing CRLF after header body" }
            else
              let r5 := src.consume_str ['\r', '\n'] r4.2
              if !r5.1 then parse_headers_loop src n dst1 r5.2
              else some { ok := true, req := dst1, off := r5.2, error := none }

/-- The first part of `parse_request`, up to the comment `// Parse headers`: method, one
space, request target and version token with its CRLF. -/
def parse_request_line (src : Scanner) (dst : Request) (off : Nat) : Option ParseResult :=
  (parse_method src dst.method off).bind fun m =>
    let dst1 := { dst with method := m.2.1 }
    if !m.1 then some { ok := false, req := dst1, off := m.2.2.1, error := m.2.2.2 }
    else
      (src.consume_char ' ' m.2.2.1).bind fun sp =>
        if !sp.1 then
          some { ok := false, req := dst1, off := sp.2, error := some "Missing space after method" }
        else
          (parse_url src URL.new sp.2).bind fun u =>
            if !u.1 then some { ok := false, req := dst1, off := u.2.2, error := some "Invalid URL" }
            else
              let dst2 := { dst1 with url := u.2.1 }
              let v1 := src.consume_str [' ', 'H', 'T', 'T', 'P', '/', '1', '\r', '\n'] u.2.2
              let v2 := if v1.1 then v1
                else src.consume_str [' ', 'H', 'T', 'T', 'P', '/', '1', '.', '0', '\r', '\n'] v1.2
              let v3 := if v2.1 then v2
                else src.consume_str [' ', 'H', 'T', 'T', 'P', '/', '1', '.', '1', '\r', '\n'] v2.2
              if !v3.1 then
                some { ok := false, req := dst2, off := v3.2, error := some "Invalid HTTP version token\n" }
              else some { ok := true, req := dst2, off := v3.2, error := none }

/-- `parse_request`, from cursor `off`: the request line, then the headers and the check
that nothing follows the empty line. -/
def parse_request (src : Scanner) (dst : Request) (off : Nat) : Option ParseResult :=
  (parse_request_line src dst off).bind fun l =>
    if !l.ok then some l
    else
      let e := src.consume_str ['\r', '\n'] l.off
      (if !e.1 then parse_headers_loop src (src.len - e.2 + 1) l.req e.2
        else some { ok := true, req := l.req, off := e.2, error := none }).bind fun h =>
        if !h.ok then some h
        else if h.off != src.len then
          some { h with ok := false, error := some "Bad characters after empty line" }
        else some h

/-- `Request::parse(const char *str, int len, ParseError &error)`; the request returned
carries the new `valid`. -/
def Request.parse (r : Request) (str : List Char) (len : Nat) : Option ParseResult :=
  (parse_request { str := str, len := len } r 0).bind fun p =>
    some { p with req := { p.req with valid := p.ok } }

/-- `Request::parse(Slice src, ParseError &error)`. -/
def Request.parse_slice (r : Request) (src : Slice) : Option ParseResult :=
  r.parse src.str src.len

/-- The search loop of `Request::content_length`; the first argument is `count - i`. -/
def Request.find_content_length (r : Request) : Nat → Nat → Option Nat
  | 0, i => some i
  | n + 1, i =>
    (r.headers[i]?).bind fun h =>
      if h.name.eq_cstr "Content-Length".toList then some i
      else Request.find_content_length r n (i + 1)

/-- The loop `while (j < value.len && is_space(value[j])) j++`; the first argument is
`value.len - j`. -/
def skip_spaces (value : Slice) : Nat → Nat → Option Nat
  | 0, j => some j
  | n + 1, j =>
    (value.at (j : Int)).bind fun c => if is_space c then skip_spaces value n (j + 1) else some j

/-- The digit loop `do … while (j < value.len && is_digit(value[j]))`; the first argument
is `value.len - j`. -/
def digits_loop (value : Slice) : Nat → Int → Nat → Option Int
  | 0, _, _ => none
  | n + 1, length, j =>
    (value.at (j : Int)).bind fun c =>
      if !is_digit c then none
      else
        let digit : Int := (c.toNat : Int) - ('0'.toNat : Int)
        if length > (INT_MAX - digit) / 10 then some (-1)
        else if j + 1 < value.len then
          (value.at ((j + 1 : Nat) : Int)).bind fun c2 =>
            if is_digit c2 then digits_loop value n (length * 10 + digit) (j + 1)
            else some (length * 10 + digit)
        else some (length * 10 + digit)

/-- `Request::content_length`. -/
def Request.content_length (r : Request) : Option Int :=
  if !r.valid then some 0
  else
    (r.find_content_length r.count 0).bind fun i =>
      if i == r.count then some 0
      else
        (r.headers[i]?).bind fun h =>
          let value := h.value
          (skip_spaces value value.len 0).bind fun j =>
            if j == value.len then some 0
            else
              (value.at (j : Int)).bind fun c =>
                if !is_digit c then some 0
                else digits_loop value (value.len - j) 0 j
/-! ## queue.hpp -/

/-- `class Queue<T, N>`: `items` is the array of `N` entries, `dflt` is the value `T()`.
`fault` is a ghost flag, absent from the source: it records that an index was computed
modulo `N = 0` or fell outside `items`. -/
structure Queue (α : Type) where
  N : Int
  head : Int
  used : Int
  items : List α
  dflt : α
  fault : Bool

/-- `Queue::Queue()`. -/
def Queue.new {α : Type} (N : Nat) (dflt : α) : Queue α :=
  { N := N, head := 0, used := 0, items := List.replicate N dflt, dflt := dflt, fault := false }

/-- The `int` expression `a % N`, where `a` is an `int` sum: the sum wraps to 32 bits and
the remainder takes the sign of the dividend. -/
def Queue.index (a N : Int) : Int := Int.tmod (wrap32 a) N

/-- Index `j`, computed modulo `N`, is a fault: `N` is zero or `j` is not in `[0, N)`. -/
def Queue.bad (N j : Int) : Bool := decide (N = 0) || decide (j < 0) || decide (N ≤ j)

/-- `Queue::empty`. -/
def Queue.empty {α : Type} (q : Queue α) : Bool := q.used == 0

/-- `Queue::size`. -/
def Queue.size {α : Type} (q : Queue α) : Int := q.used

/-- `Queue::push`. -/
def Queue.push {α : Type} (q : Queue α) (item : α) : Bool × Queue α :=
  if q.used == q.N then (false, q)
  else
    let tail := Queue.index (q.head + q.used) q.N
    (true, { q with
      items := q.items.set tail.toNat item
      used := q.used + 1
      fault := q.fault || Queue.bad q.N tail })

/-- `Queue::pop(T& item)`: success, the queue, and the value stored in `item` (on failure
`item` is not assigned and the third component is `T()`). -/
def Queue.pop {α : Type} (q : Queue α) : Bool × Queue α × α :=
  if q.used == 0 then (false, q, q.dflt)
  else
    let head := Queue.index (q.head + 1) q.N
    (true,
      { q with
        items := q.items.set q.head.toNat q.dflt
        head := head
        used := q.used - 1
        fault := q.fault || Queue.bad q.N q.head || Queue.bad q.N head },
      q.items.getD q.head.toNat q.dflt)

/-- The search loop of `Queue::remove`; the first argument is `used - i`, the last one
collects the faults of the indices computed. -/
def Queue.remove_find {α : Type} [DecidableEq α] (q : Queue α) (item : α) :
    Nat → Int → Bool → Int × Bool
  | 0, i, f => (i, f)
  | n + 1, i, f =>
    let j := Queue.index (q.head + i) q.N
    if q.items.getD j.toNat q.dflt = item then (i, f || Queue.bad q.N j)
    else Queue.remove_find q item n (i + 1) (f || Queue.bad q.N j)

/-- The shifting loop of `Queue::remove`; the first argument is `used - 1 - i`. -/
def Queue.remove_shift {α : Type} (N head : Int) (dflt : α) :
    Nat → Int → List α → Bool → List α × Bool
  | 0, _, items, f => (items, f)
  | n + 1, i, items, f =>
    let j := Queue.index (head + i) N
    let k := Queue.index (j + 1) N
    Queue.remove_shift N head dflt n (i + 1) (items.set j.toNat (items.getD k.toNat dflt))
      (f || Queue.bad N j || Queue.bad N k)

/-- `Queue::remove`. -/
def Queue.remove {α : Type} [DecidableEq α] (q : Queue α) (item : α) : Bool × Queue α :=
  let r := Queue.remove_find q item q.used.toNat 0 q.fault
  let i := r.1
  if i == q.used then (false, { q with fault := r.2 })
  else
    let sh := Queue.remove_shift q.N q.head q.dflt (q.used - 1 - i).toNat i q.items r.2
    let last := Queue.index (q.head + q.used - 1) q.N
    (true, { q with items := sh.1.set last.toNat q.dflt, fault := sh.2 || Queue.bad q.N last })

/-! ## server.hpp -/

/-- `Event::Type`. -/
def Event.RECV : Nat := 1

/-- See `Event.RECV`. -/
def Event.SEND : Nat := 2

/-- `struct Client`. The socket is represented by `events`, the interest mask of its
entry in the event loop, as `Event` flags (`RECV | SEND` at most, so clearing `RECV`
keeps the `SEND` bit only). -/
structure Client where
  events : Nat
  in_ : Buffer
  out : Buffer
  num_served : Int
  queued : Bool
  close_when_flushed : Bool
  deriving DecidableEq, Repr

/-- `Client::Client()`, registered for `events`. -/
def Client.new (events : Nat) : Client :=
  { events := events, in_ := Buffer.new, out := Buffer.new, num_served := 0, queued := false,
    close_when_flushed := false }

/-- `enum State` of `Server`. -/
inductive State where
  | NOTARGET | STATUS | HEADERS | CONTENT
  deriving DecidableEq, Repr

/-- `class Server<MAX_CLIENTS>`. A `Client*` is the index of its slot in the pool (`none`
is `nullptr`); a pool slot is `some c` when its occupancy bit is set; `num_allocated` is
the pool counter. -/
structure Server where
  MAX_CLIENTS : Nat
  state : State
  slots : List (Option Client)
  num_allocated : Int
  queue : Queue (Option Nat)
  target : Option Nat
  offset_content_length : Int
  offset_content : Int
  keep_alive : Int
  req_bytes : Int

/-- `Server::status_text`. -/
def status_text (code : Int) : String :=
  match code with
  | 100 => "Continue"
  | 101 => "Switching Protocols"
  | 102 => "Processing"
  | 200 => "OK"
  | 201 => "Created"
  | 202 => "Accepted"
  | 203 => "Non-Authoritative Information"
  | 204 => "No Content"
  | 205 => "Reset Content"
  | 206 => "Partial Content"
  | 207 => "Multi-Status"
  | 208 => "Already Reported"
  | 300 => "Multiple Choices"
  | 301 => "Moved Permanently"
  | 302 => "Found"
  | 303 => "See Other"
  | 304 => "Not Modified"
  | 305 => "Use Proxy"
  | 306 => "Switch Proxy"
  | 307 => "Temporary Redirect"
  | 308 => "Permanent Redirect"
  | 400 => "Bad Request"
  | 401 => "Unauthorized"
  | 402 => "Payment Required"
  | 403 => "Forbidden"
  | 404 => "Not Found"
  | 405 => "Method Not Allowed"
  | 406 => "Not Acceptable"
  | 407 => "Proxy Authentication Required"
  | 408 => "Request Timeout"
  | 409 => "Conflict"
  | 410 => "Gone"
  | 411 => "Length Required"
  | 412 => "Precondition Failed"
  | 413 => "Request Entity Too Large"
  | 414 => "Request-URI Too Long"
  | 415 => "Unsupported Media Type"
  | 416 => "Requested Range Not Satisfiable"
  | 417 => "Expectation Failed"
  | 418 => "I\x27m a teapot"
  | 420 => "Enhance your calm"
  | 422 => "Unprocessable Entity"
  | 426 => "Upgrade Required"
  | 429 => "Too many requests"
  | 431 => "Request Header Fields Too Large"
  | 449 => "Retry With"
  | 451 => "Unavailable For Legal Reasons"
  | 500 => "Internal Server Error"
  | 501 => "Not Implemented"
  | 502 => "Bad Gateway"
  | 503 => "Service Unavailable"
  | 504 => "Gateway Timeout"
  | 505 => "HTTP Version Not Supported"
  | 509 => "Bandwidth Limit Exceeded"
  | _ => "???"

/-- `Server::should_keep_alive`. -/
def should_keep_alive (num_clients max_clients num_served : Int) : Bool :=
  if wrap32 (10 * num_clients) > wrap32 (7 * max_clients) then false
  else if num_served ≥ 5 then false
  else true

/-- The client a handle points to, when its slot is allocated. -/
def Server.client (s : Server) (h : Nat) : Option Client := (s.slots[h]?).join

/-- Stores `c` in the slot `h` points to. -/
def Server.set_client (s : Server) (h : Nat) (c : Client) : Server :=
  { s with slots := s.slots.set h (some c) }

/-- The client `target` points to; `none` when `target` is null or dangling. -/
def Server.target_client (s : Server) : Option (Nat × Client) :=
  s.target.bind fun h => (s.client h).bind fun c => some (h, c)

/-- `Server::remove_client`; `none` when `assert(pool.allocated(client))` fails. The
event-loop entry of the client disappears with the client. -/
def Server.remove_client (s : Server) (h : Nat) : Option Server :=
  (s.client h).bind fun c =>
    let q := if c.queued then (s.queue.remove (some h)).2 else s.queue
    some { s with queue := q, slots := s.slots.set h none, num_allocated := s.num_allocated - 1 }
/-- The text `snprintf(buf, sizeof(buf), "HTTP/1.1 %d %s\r\n", code, status_text(code))`
produces. -/
def status_line (code : Int) : List Char :=
  "HTTP/1.1 ".toList ++ fmt_d code ++ [' '] ++ (status_text code).toList ++ ['\r', '\n']

/-- `Server::status`. `alloc` is the heap oracle of `Buffer::ensure_unused_space`; `none`
means that an assertion failed. The text is shorter than the 256 bytes of `buf`, so
`snprintf` does not truncate it. -/
def Server.status (alloc : Int → Bool) (s : Server) (code : Int) : Option Server :=
  if s.state = State.NOTARGET then some s
  else
    s.target_client.bind fun t =>
      if s.state ≠ State.STATUS then some s
      else
        let buf := status_line code
        let len : Int := buf.length
        if ¬ (len > 0) then none
        else
          some { s.set_client t.1 { t.2 with out := t.2.out.write alloc buf len } with
            state := State.HEADERS }

/-- `Server::header`. -/
def Server.header (alloc : Int → Bool) (s : Server) (name value : List Char) : Option Server :=
  if s.state = State.NOTARGET then some s
  else
    (if s.state = State.STATUS then s.status alloc 200 else some s).bind fun s1 =>
      if s1.state = State.CONTENT then some s1
      else if s1.state ≠ State.HEADERS then none
      else if streq name "Content-Length".toList then some s1
      else if streq name "Connection".toList then
        some { s1 with keep_alive := if streq value "Close".toList then 0 else 1 }
      else
        s1.target_client.bind fun t =>
          let o1 := t.2.out.write alloc name (-1)
          let o2 := o1.write alloc ": ".toList (-1)
          let o3 := o2.write alloc value (-1)
          let o4 := o3.write alloc "\r\n".toList (-1)
          some (s1.set_client t.1 { t.2 with out := o4 })

/-- The block `if (state == HEADERS) { … }` of `Server::write`: the special headers and the
empty line written before the first byte of the body. -/
def Server.preamble (alloc : Int → Bool) (s1 : Server) : Option Server :=
  s1.target_client.bind fun t =>
    let ka1 := if s1.keep_alive = -1 then 1 else s1.keep_alive
    let num_clients := s1.num_allocated
    let max_clients : Int := s1.MAX_CLIENTS
    let num_served := t.2.num_served
    let ka2 := if !should_keep_alive num_clients max_clients num_served then 0 else ka1
    let o1 :=
      if ka2 = 0 then t.2.out.write alloc "Connection: Close\r\n".toList (-1)
      else if ka2 = 1 then t.2.out.write alloc "Connection: Keep-Alive\r\n".toList (-1)
      else t.2.out
    let o2 := o1.write alloc "Content-Length: ".toList (-1)
    let offset_content_length := o2.length
    let o3 := o2.write alloc "         \r\n".toList (-1)
    let o4 := o3.write alloc "\r\n".toList (-1)
    some { s1.set_client t.1 { t.2 with out := o4 } with
      keep_alive := ka2
      offset_content_length := offset_content_length
      offset_content := o4.length
      state := State.CONTENT }

/-- `Server::write`. -/
def Server.write (alloc : Int → Bool) (s : Server) (str : List Char) (len : Int) : Option Server :=
  let len := if len < 0 then strlen str else len
  if s.state = State.NOTARGET then some s
  else
    s.target_client.bind fun _ =>
      (if s.state = State.STATUS then s.status alloc 200 else some s).bind fun s1 =>
        (if s1.state = State.HEADERS then s1.preamble alloc else some s1).bind fun s2 =>
          s2.target_client.bind fun t =>
            some (s2.set_client t.1 { t.2 with out := t.2.out.write alloc str len })

/-- `Server::send`. -/
def Server.send (alloc : Int → Bool) (s : Server) : Option Server :=
  if s.state = State.NOTARGET then some s
  else
    s.target_client.bind fun _ =>
      (s.write alloc [] (-1)).bind fun s1 =>
        s1.target_client.bind fun t =>
          (if t.2.out.failed then s1.remove_client t.1
            else
              let content_length := t.2.out.length - s1.offset_content
              let buf := fmt_d content_length
              let len : Int := buf.length
              if ¬ (len < 10) then none
              else
                let out := t.2.out.overwrite s1.offset_content_length buf len
                let ev1 := t.2.events ||| Event.SEND
                let cwf := if s1.keep_alive = 0 then true else t.2.close_when_flushed
                let ev2 := if s1.keep_alive = 0 then ev1 &&& Event.SEND else ev1
                let in1 := t.2.in_.consume s1.req_bytes
                let again := if s1.keep_alive ≠ 0 then in1.contains "\r\n\r\n".toList else (false, in1)
                let q := if again.1 then (s1.queue.push (some t.1)).2 else s1.queue
                let c : Client :=
                  { events := ev2, in_ := again.2, out := out, num_served := t.2.num_served + 1,
                    queued := if again.1 then true else t.2.queued, close_when_flushed := cwf }
                some { s1.set_client t.1 c with queue := q }).bind fun s2 =>
            some { s2 with state := State.NOTARGET, target := none, keep_alive := -1, req_bytes := -1 }

/-- One pass through the body of the `do … while (1)` of `Server::wait`, entered once the
candidate queue is not empty: `true` when the pass ends in `break` (then `wait` returns),
`false` when it ends in `continue` or falls through to the next pass. -/
def Server.wait_pass (s : Server) (req : Request) : Option (Bool × Server × Request) :=
  let p := s.queue.pop
  if !p.1 then none
  else
    p.2.2.bind fun h =>
      (s.client h).bind fun c =>
        let hd := c.in_.slice_until "\r\n\r\n".toList true
        let s1 := { s.set_client h { c with queued := false, in_ := hd.2 } with queue := p.2.1 }
        (req.parse_slice hd.1).bind fun pr =>
          if !pr.ok then (s1.remove_client h).bind fun s2 => some (false, s2, pr.req)
          else
            let head_len : Int := hd.1.len
            pr.req.content_length.bind fun body_len =>
              if body_len < 0 then (s1.remove_client h).bind fun s2 => some (false, s2, pr.req)
              else
                let total_len := wrap32 (head_len + body_len)
                if hd.2.length ≥ total_len then
                  some (true,
                    { s1 with target := some h, state := State.STATUS, req_bytes := total_len,
                              keep_alive := -1 },
                    { pr.req with body := hd.2.slice head_len total_len })
                else some (false, s1, pr.req)
/-! ## Call sequences and example states -/

/-- A heap on which every allocation succeeds. -/
def alloc_ok : Int → Bool := fun _ => true

/-- The buffer obtained by appending `bytes` to a new buffer. -/
def Buffer.of (bytes : List Char) : Buffer := Buffer.write alloc_ok Buffer.new bytes bytes.length

/-- A server for `n` clients with one connection, in slot 0, whose input buffer holds
`input` and which sits in the candidate queue: the state in which `Server::wait` finds
the engine after the RECV handler has looked for "\r\n\r\n" and queued the client. -/
def Server.with_candidate (n : Nat) (input : List Char) : Server :=
  { MAX_CLIENTS := n, state := State.NOTARGET,
    slots := some { Client.new Event.RECV with
        in_ := ((Buffer.of input).contains "\r\n\r\n".toList).2, queued := true }
      :: List.replicate (n - 1) none,
    num_allocated := 1, queue := (Queue.push (Queue.new n none) (some 0)).2, target := none,
    offset_content_length := 0, offset_content := 0, keep_alive := -1, req_bytes := -1 }

/-- The calls `header(n1, v1); …; header(nk, vk)`. -/
def Server.headers (alloc : Int → Bool) : Server → List (List Char × List Char) → Option Server
  | s, [] => some s
  | s, h :: hs => (s.header alloc h.1 h.2).bind fun s1 => Server.headers alloc s1 hs

/-- The calls `write(d1); …; write(dm)`. -/
def Server.writes (alloc : Int → Bool) : Server → List (List Char) → Option Server
  | s, [] => some s
  | s, d :: ds => (s.write alloc d (-1)).bind fun s1 => Server.writes alloc s1 ds

/-- The call sequence `status(c); header(n1, v1) … header(nk, vk); write(d1) … write(dm); send()`. -/
def Server.respond (alloc : Int → Bool) (s : Server) (code : Int)
    (hs : List (List Char × List Char)) (ds : List (List Char)) : Option Server :=
  (s.status alloc code).bind fun s1 =>
    (Server.headers alloc s1 hs).bind fun s2 =>
      (Server.writes alloc s2 ds).bind fun s3 => s3.send alloc

/-- The live bytes of the output buffer of the client in slot `h`. -/
def Server.out_bytes (s : Server) (h : Nat) : Option (List Char) :=
  (s.client h).map fun c => c.out.live

/-- The engine as `Server::wait` leaves it when the only client has sent `input`: the
state after the pass that returns the request (or the state before, if the pass does
not return one). -/
def Server.after_wait (n : Nat) (input : List Char) : Server :=
  match Server.wait_pass (Server.with_candidate n input) Request.new with
  | some r => r.2.1
  | none => Server.with_candidate n input

/-- The engine after `wait` has returned the request "GET / HTTP/1.1\r\n\r\n" of the only
client of a server for four clients. -/
def Server.hello : Server := Server.after_wait 4 "GET / HTTP/1.1\r\n\r\n".toList

/-- The client of `Server.hello`, as `wait` leaves it. -/
def Client.hello : Client :=
  { events := Event.RECV, in_ := { Buffer.of "GET / HTTP/1.1\r\n\r\n".toList with crlfcrlf := 14 },
    out := Buffer.new, num_served := 0, queued := false, close_when_flushed := false }

/-- The result of parsing `head` into a fresh `Request` (a failed result if an assertion
stops the parse). -/
def ParseResult.of (head : List Char) : ParseResult :=
  match Request.new.parse head head.length with
  | some r => r
  | none => { ok := false, req := Request.new, off := 0, error := none }
/-! ## Predicates and reference definitions used in the statements -/

/-- The live bytes are represented: `0 <= used <= |data|`. -/
def Buffer.sound (b : Buffer) : Prop := 0 ≤ b.used ∧ b.used ≤ (b.data.length : Int)

instance (b : Buffer) : Decidable b.sound := inferInstanceAs (Decidable (_ ∧ _))

/-- Neither the failure flag nor the ghost fault flag is set. -/
def Buffer.clean (b : Buffer) : Prop := b.fail = false ∧ b.fault = false

instance (b : Buffer) : Decidable b.clean := inferInstanceAs (Decidable (_ ∧ _))

/-- Buffer `b2` is `b` with `xs` appended, as far as the flags allow to tell: the flags
are sticky, `used` has grown by `|xs|` unless `b2` failed, and the live bytes of a clean
`b2` are those of `b` followed by `xs`. -/
def Buffer.Ext (b b2 : Buffer) (xs : List Char) : Prop :=
  (b2.fail = false → b.fail = false ∧ b2.used = b.used + xs.length)
  ∧ (b2.fault = false → b.fault = false)
  ∧ (b.sound → b2.clean → b2.sound ∧ b2.live = b.live ++ xs)

/-- The engine is building a response for the client in slot `h`: that client is `c` with
output buffer `o`, and the response-builder fields and pool counters have the given values. -/
structure Server.At (s : Server) (h : Nat) (c : Client) (o : Buffer) (st : State)
    (ka ocl oc na : Int) (mx : Nat) : Prop where
  state : s.state = st
  target : s.target = some h
  keep_alive : s.keep_alive = ka
  offset_content_length : s.offset_content_length = ocl
  offset_content : s.offset_content = oc
  num_allocated : s.num_allocated = na
  max_clients : s.MAX_CLIENTS = mx
  client : s.client h = some { c with out := o }

/-- The line `header(name, value)` writes for a name that is not reserved. -/
def header_line (nv : List Char × List Char) : List Char :=
  cstr nv.1 ++ ": ".toList ++ cstr nv.2 ++ "\r\n".toList

/-- The `Connection` line of the preamble. -/
def connection_line (keep : Bool) : List Char :=
  if keep then "Connection: Keep-Alive\r\n".toList else "Connection: Close\r\n".toList

/-- The decimal text `digits` left-aligned in the 9-character slot, padded with spaces. -/
def pad9 (digits : List Char) : List Char := digits ++ List.replicate (9 - digits.length) ' '

/-- The response the spec describes: status line, application headers in the order added,
`Connection` line, `Content-Length` line with the padded body length, empty line, body. -/
def response_bytes (code : Int) (hs : List (List Char × List Char)) (keep : Bool)
    (body : List Char) : List Char :=
  status_line code ++ (hs.map header_line).flatten ++ connection_line keep
    ++ "Content-Length: ".toList ++ pad9 (fmt_d body.length) ++ "\r\n\r\n".toList ++ body

/-- The bytes still to be scanned at cursor `off` are `suf`, and `len` covers the whole of
`str`. -/
def Scanner.Rem (src : Scanner) (off : Nat) (suf : List Char) : Prop :=
  src.len = src.str.length ∧ off ≤ src.str.length ∧ src.str.drop off = suf

/-- A slice lies inside the bytes its pointer gives access to. -/
def Slice.in_range (s : Slice) : Prop := s.off + s.len ≤ s.str.length

/-- The text of an optional query in a request target: nothing, or "?" and the query. -/
def query_text (Q : Option (List Char)) : List Char :=
  match Q with
  | none => []
  | some q => '?' :: q

/-- The request line `M SP T SP V CRLF`, with `T` the path `P` and the optional query `Q`. -/
def request_line (M P : List Char) (Q : Option (List Char)) (V : List Char) : List Char :=
  M ++ ' ' :: (P ++ query_text Q ++ ' ' :: (V ++ "\r\n".toList))

/-- The version tokens the parser accepts. -/
def is_version (V : List Char) : Prop :=
  V = "HTTP/1".toList ∨ V = "HTTP/1.0".toList ∨ V = "HTTP/1.1".toList

/-- The header section made of the lines `name:value CRLF`. -/
def header_lines (lines : List (List Char × List Char)) : List Char :=
  (lines.map fun nv => nv.1 ++ ':' :: (nv.2 ++ "\r\n".toList)).flatten

/-- What the spec says about one header line `name:value CRLF` found at cursor `off` of
`str`: it is kept as a pair of slices while fewer than `MAX_REQUEST_HEADERS` are stored,
and counted in `ignored_count` otherwise. -/
def store_one (str : List Char) (dst : Request) (off : Nat) (nv : List Char × List Char) :
    Request :=
  let h : Header :=
    { name := { str := str, off := off, len := nv.1.length },
      value := { str := str, off := off + nv.1.length + 1, len := nv.2.length } }
  if dst.count < MAX_REQUEST_HEADERS then
    { dst with headers := dst.headers.set dst.count h, count := dst.count + 1 }
  else { dst with ignored_count := dst.ignored_count + 1 }

/-- The header lines found from cursor `off` of `str` on, stored in order. -/
def store_headers (str : List Char) : Request → Nat → List (List Char × List Char) → Request
  | dst, _, [] => dst
  | dst, off, nv :: rest =>
    store_headers str (store_one str dst off nv) (off + nv.1.length + 1 + nv.2.length + 2) rest

/-- The header lines are well formed: no ':' and no CR in a name, no CR in a value. -/
def wf_lines (lines : List (List Char × List Char)) : Prop :=
  ∀ nv ∈ lines, (∀ c ∈ nv.1, c ≠ ':' ∧ c ≠ '\r') ∧ ∀ c ∈ nv.2, c ≠ '\r'

/-- The number a run of decimal digits denotes, continuing from `acc`. -/
def decimal_from (acc : Nat) (ds : List Char) : Nat :=
  ds.foldl (fun a c => a * 10 + (c.toNat - 48)) acc

/-- What the spec says `content_length()` returns: 0 when no stored header is named
exactly "Content-Length" or when the value of the first such header has no digit right
after its leading whitespace; else the number denoted by the maximal run of digits found
there when it fits an `int`, and -1 when it does not. -/
def content_length_spec (r : Request) : Int :=
  match (r.headers.take r.count).find? (fun h => h.name.bytes == "Content-Length".toList) with
  | none => 0
  | some h =>
    let digits := (h.value.bytes.dropWhile is_space).takeWhile is_digit
    if digits = [] then 0
    else if decimal_from 0 digits ≤ 2147483647 then (decimal_from 0 digits : Int) else -1

/-- The stored headers of a request are views inside their referents, and `count` does not
exceed the capacity of the header array. -/
def Request.headers_ok (r : Request) : Prop :=
  r.count ≤ r.headers.length
    ∧ ∀ i h, i < r.count → r.headers[i]? = some h → h.name.in_range ∧ h.value.in_range

/-- The invariant of the header loop: the header array has its full capacity, `count`
stays within it, and the stored headers are views inside their referents. -/
def Request.headers_inv (r : Request) : Prop :=
  MAX_REQUEST_HEADERS ≤ r.headers.length ∧ r.count ≤ MAX_REQUEST_HEADERS
    ∧ ∀ i h, i < r.count → r.headers[i]? = some h → h.name.in_range ∧ h.value.in_range

/-- The buffer is in order and can take `k` more bytes, appended in pieces of at most 256
bytes, without failing: no flag is set, `0 <= used <= size`, the region is absent or
holds at least 256 bytes, and `used + k <= 2^29`, so that no doubling of `size` leaves
the range of an `int`. -/
def Buffer.Grows (b : Buffer) (k : Nat) : Prop :=
  b.clean ∧ 0 ≤ b.used ∧ b.used ≤ b.size ∧ (b.size = 0 ∨ 256 ≤ b.size)
    ∧ b.size ≤ 1073741824 ∧ b.used + (k : Int) ≤ 536870912

instance (b : Buffer) (k : Nat) : Decidable (b.Grows k) := inferInstanceAs (Decidable (_ ∧ _))
/-! ## Call sequences on a queue -/

/-- A call made on a `Queue<T, N>`: `push(item)` or `pop(x)`. -/
inductive Queue.Call (α : Type) where
  | push (item : α)
  | pop
  deriving DecidableEq, Repr

/-- What a call did: for `push(item)` the item and the value returned; for `pop(x)` the
value stored in `x`, or `none` when `pop` returned false. -/
inductive Queue.Outcome (α : Type) where
  | pushed (item : α) (ok : Bool)
  | popped (x : Option α)
  deriving DecidableEq, Repr

/-- One call on the queue: the queue it leaves and its outcome. -/
def Queue.call {α : Type} (q : Queue α) : Queue.Call α → Queue α × Queue.Outcome α
  | Queue.Call.push item => ((q.push item).2, Queue.Outcome.pushed item (q.push item).1)
  | Queue.Call.pop =>
    (q.pop.2.1, Queue.Outcome.popped (if q.pop.1 then some q.pop.2.2 else none))

/-- A sequence of calls on the queue: the queue it leaves and the outcomes in order. -/
def Queue.run {α : Type} (q : Queue α) : List (Queue.Call α) → Queue α × List (Queue.Outcome α)
  | [] => (q, [])
  | c :: cs => ((Queue.run (q.call c).1 cs).1, (q.call c).2 :: (Queue.run (q.call c).1 cs).2)

/-- The items of the successful `push` calls of a trace, in order. -/
def Queue.pushes {α : Type} : List (Queue.Outcome α) → List α
  | [] => []
  | Queue.Outcome.pushed item true :: t => item :: Queue.pushes t
  | _ :: t => Queue.pushes t

/-- The values stored by the successful `pop(x)` calls of a trace, in order. -/
def Queue.pops {α : Type} : List (Queue.Outcome α) → List α
  | [] => []
  | Queue.Outcome.popped (some x) :: t => x :: Queue.pops t
  | _ :: t => Queue.pops t

/-- The calls of the `Queue<int, 4>` block of `test_queue.cpp`: 1 to 4 are pushed, then
each `pop(x)` is followed by the next `push` up to 10, then the queue is emptied and
popped once more. -/
def Queue.test_calls : List (Queue.Call Int) :=
  [Queue.Call.push 1, Queue.Call.push 2, Queue.Call.push 3, Queue.Call.push 4,
   Queue.Call.pop, Queue.Call.push 5, Queue.Call.pop, Queue.Call.push 6,
   Queue.Call.pop, Queue.Call.push 7, Queue.Call.pop, Queue.Call.push 8,
   Queue.Call.pop, Queue.Call.push 9, Queue.Call.pop, Queue.Call.push 10,
   Queue.Call.pop, Queue.Call.pop, Queue.Call.pop, Queue.Call.pop, Queue.Call.pop]

/-- One call on the bounded first-in-first-out list of capacity `N` the spec describes:
`push` appends unless `N` items are held, `pop` takes the oldest item unless none is held. -/
def fifo_call {α : Type} (N : Nat) (l : List α) : Queue.Call α → List α × Queue.Outcome α
  | Queue.Call.push item =>
    if l.length = N then (l, Queue.Outcome.pushed item false)
    else (l ++ [item], Queue.Outcome.pushed item true)
  | Queue.Call.pop =>
    match l with
    | [] => ([], Queue.Outcome.popped none)
    | x :: t => (t, Queue.Outcome.popped (some x))

/-- A sequence of calls on the bounded first-in-first-out list of capacity `N`. -/
def fifo_run {α : Type} (N : Nat) (l : List α) : List (Queue.Call α) → List α × List (Queue.Outcome α)
  | [] => (l, [])
  | c :: cs => ((fifo_run N (fifo_call N l c).1 cs).1, (fifo_call N l c).2 :: (fifo_run N (fifo_call N l c).1 cs).2)

/-- The queue `q` of capacity `N` holds the items `l`, oldest first, in its ring: entry
`i` of `l` is found at index `(head + i) % N`. -/
structure Queue.Holds {α : Type} (q : Queue α) (N : Nat) (l : List α) : Prop where
  cap : q.N = N
  head_nonneg : 0 ≤ q.head
  head_lt : q.head < N
  used : q.used = l.length
  len : l.length ≤ N
  items : q.items.length = N
  fault : q.fault = false
  get : ∀ i, i < l.length → q.items[(q.head.toNat + i) % N]? = l[i]?

/-- A call sequence that brings `head + used` of a queue with more than `K` entries to
`2 * K`: `K` pushes of 0, `K` pops, `K` pushes of 1, a push of 2, and two pops. -/
def Queue.overflow_calls (K : Nat) : List (Queue.Call Int) :=
  List.replicate K (Queue.Call.push 0) ++ (List.replicate K Queue.Call.pop
    ++ (List.replicate K (Queue.Call.push 1)
      ++ [Queue.Call.push 2, Queue.Call.pop, Queue.Call.pop]))

/-! ## More call sequences and reference texts of the engine -/

/-- The lines the engine itself adds between the application's headers and the body,
followed by the body: `Connection` line, `Content-Length` line with the padded body
length, empty line, body. -/
def engine_lines (keep : Bool) (body : List Char) : List Char :=
  connection_line keep ++ "Content-Length: ".toList ++ pad9 (fmt_d body.length)
    ++ "\r\n\r\n".toList ++ body

/-- The output buffer `o` once the status line implied by a `header` or `write` call made
in state STATUS is written: `status(200)` runs first in that state only. -/
def implied_status (alloc : Int → Bool) (st : State) (o : Buffer) : Buffer :=
  if st = State.STATUS then o.write alloc (status_line 200) (status_line 200).length else o

/-- The constructor `Server::Server()`: it assigns `state` only, so `target`, the two
offsets, `keep_alive` and `req_bytes` hold the indeterminate values passed here; the
pool and the candidate queue are constructed empty. -/
def Server.new (n : Nat) (target : Option Nat)
    (offset_content_length offset_content keep_alive req_bytes : Int) : Server :=
  { MAX_CLIENTS := n, state := State.NOTARGET, slots := List.replicate n none,
    num_allocated := 0, queue := Queue.new n none, target := target,
    offset_content_length := offset_content_length, offset_content := offset_content,
    keep_alive := keep_alive, req_bytes := req_bytes }

/-- `Server::flush_buffered_bytes_to_client_and_close_if_done` for the client in slot
`h`, as `handle_single_event` calls it on a SEND event; `sock` lists the results of the
successive `write` calls on the socket. `none` means that `assert(pool.allocated(client))`
failed. -/
def Server.flush_buffered_bytes_to_client_and_close_if_done (alloc : Int → Bool) (s : Server)
    (h : Nat) (sock : List Int) : Option Server :=
  (s.client h).bind fun c =>
    let out := (c.out.read_sock alloc sock).buf
    let s1 := s.set_client h { c with out := out }
    if out.failed then s1.remove_client h
    else if out.length = 0 then
      if c.close_when_flushed then s1.remove_client h
      else some (s.set_client h { c with out := out, events := c.events &&& Event.RECV })
    else some s1

/-- The loop `do … while (1)` of `Server::wait` for as long as candidates are queued. The
first argument bounds the number of passes; a pass pops one candidate and pushes none,
so `queue.size() + 1` passes are never used up. `none` means that an assertion failed
or that the queue ran empty, where `wait` blocks in `evloop.wait()`. -/
def Server.wait_loop : Nat → Server → Request → Option (Server × Request)
  | 0, _, _ => none
  | n + 1, s, req =>
    if s.queue.empty then none
    else
      (s.wait_pass req).bind fun r =>
        if r.1 then some (r.2.1, r.2.2) else Server.wait_loop n r.2.1 r.2.2

/-- `Server::wait` when it finds its request among the queued candidates: the engine it
leaves and the request it fills in. -/
def Server.wait (alloc : Int → Bool) (s : Server) (req : Request) : Option (Server × Request) :=
  (s.send alloc).bind fun s1 =>
    if s1.state ≠ State.NOTARGET then none
    else Server.wait_loop (s1.queue.size.toNat + 1) s1 req

/-- The result of parsing the slice `sl` into a fresh `Request` (a failed result if an
assertion stops the parse). -/
def ParseResult.of_slice (sl : Slice) : ParseResult :=
  match Request.new.parse_slice sl with
  | some r => r
  | none => { ok := false, req := Request.new, off := 0, error := none }

/-- The input of the pipelining scenario: two requests received in one piece. -/
def pipelined_input : List Char := "GET /a HTTP/1.1\r\n\r\nGET /b HTTP/1.1\r\n\r\n".toList

/-- The engine of the pipelining scenario before the first `wait`: a server for four
clients whose only client has sent `pipelined_input` and is queued. -/
def Server.pipelined : Server := Server.with_candidate 4 pipelined_input

/-- The engine of the pipelining scenario as the first `wait` leaves it. -/
def Server.pipelined_first : Server :=
  match Server.wait alloc_ok Server.pipelined Request.new with
  | some r => r.1
  | none => Server.pipelined

/-- The request the first `wait` of the pipelining scenario returns. -/
def Request.pipelined_first : Request :=
  match Server.wait alloc_ok Server.pipelined Request.new with
  | some r => r.2
  | none => Request.new

/-- The client of the pipelining scenario as the first `wait` leaves it. -/
def Client.pipelined_first : Client :=
  match Server.pipelined_first.client 0 with
  | some c => c
  | none => Client.new 0

/-- The input buffer of the pipelining scenario once `send` has dropped the first
request and looked for the next head. -/
def Buffer.pipelined_rest : Buffer :=
  ((Client.pipelined_first.in_.consume 19).contains "\r\n\r\n".toList).2

/-! ## netutils.hpp: the entry points `IPv4::parse` and `IPv6::parse` -/

/-- `IPv4::parse(const char *str, int len)`, on an `IPv4` whose word is `data`: the
value returned and the word afterwards. -/
def IPv4.parse (data : Int) (str : List Char) (len : Int) : Option (Bool × Int) :=
  let len := if len < 0 then strlen str else len
  (parse_ipv4 { str := str, len := len.toNat } data 0).bind fun r => some (r.1, r.2.1)

/-- `IPv6::parse(const char *str, int len)`, on an `IPv6` whose groups are `data`: the
value returned and the groups afterwards. -/
def IPv6.parse (data : List Int) (str : List Char) (len : Int) : Option (Bool × List Int) :=
  let len := if len < 0 then strlen str else len
  (parse_ipv6 { str := str, len := len.toNat } data 0).bind fun r => some (r.1, r.2.1)

/-- `IPv6::IPv6()`: eight zero groups. -/
def IPv6.new : List Int := List.replicate 8 0

/-! ## buffer.hpp: read-out and socket ingest -/

/-- What `Buffer::read(char *dst, int max)` leaves behind: the value returned, the
buffer, and the bytes stored in `dst`, in order. -/
structure ReadOut where
  ret : Int
  buf : Buffer
  dst : List Char
  deriving DecidableEq, Repr

/-- `Buffer::read(char *dst, int max)`. A negative `max` makes the two copies run with a
negative count, which the ghost flag records. -/
def Buffer.read (b : Buffer) (max : Int) : ReadOut :=
  if b.fail then { ret := 0, buf := b, dst := [] }
  else
    let copy := min b.used max
    { ret := copy
      buf := { b with
        crlfcrlf := -1
        data := memcpy b.data 0 (b.data.drop copy.toNat) (b.used - copy).toNat
        used := b.used - copy
        fault := b.fault || decide (copy < 0) }
      dst := b.data.take copy.toNat }

/-- What one call of `Socket::read` on a non-blocking socket gives: nothing yet, an
error, or the bytes received (none when the peer closed the connection). -/
inductive Recv where
  | would_block
  | other_error
  | bytes (received : List Char)
  deriving DecidableEq, Repr

/-- The loop of `Buffer::write(Socket&)`. The socket is the list of the results of its
successive `read` calls; a socket with no result left reports `WOULD_BLOCK`. The result
is the value returned and the buffer. A result longer than the `size - used` bytes asked
for is recorded by the ghost flag. -/
def Buffer.write_sock_loop (alloc : Int → Bool) : List Recv → Buffer → Bool × Buffer
  | [], b =>
    match b.ensure_unused_space alloc 256 with
    | (false, b1) => (false, b1)
    | (true, b1) => (false, b1)
  | r :: rest, b =>
    match b.ensure_unused_space alloc 256 with
    | (false, b1) => (false, b1)
    | (true, b1) =>
      match r with
      | Recv.would_block => (false, b1)
      | Recv.other_error => (false, { b1 with fail := true })
      | Recv.bytes received =>
        let res : Int := received.length
        if res = 0 then (true, b1)
        else if b1.used > INT_MAX - res then (false, { b1 with fail := true })
        else
          Buffer.write_sock_loop alloc rest
            { b1 with
              data := memcpy b1.data b1.used.toNat received received.length
              used := b1.used + res
              fault := b1.fault || decide (res > b1.size - b1.used) }

/-- `Buffer::write(Socket&)`: whether the peer closed the connection, and the buffer. -/
def Buffer.write_sock (alloc : Int → Bool) (b : Buffer) (sock : List Recv) : Bool × Buffer :=
  if b.fail then (false, b) else Buffer.write_sock_loop alloc sock b

/-! ## pool.hpp

`class Pool<T, N>` without the storage of the objects: what is proved about the pool
concerns `num_allocated` and the occupancy bitset only. A `T*` is `none` for the null pointer and
`some i` for the address `slots + i`, so `some i` with `0 <= i < N` is the handle of
slot `i` and every other value is an address outside `slots`. The words of the bitset
are `uint64_t` values, that is naturals below `2^64`. -/

/-- `class Pool<T, N>`: the capacity, the counter and the `NUM_BITSETS` words of `used`. -/
structure Pool where
  N : Nat
  num_allocated : Int
  used : List Nat
  deriving DecidableEq, Repr

/-- `Pool::ceil`. -/
def Pool.ceil (U V : Nat) : Nat := (U + V - 1) / V

/-- `Pool::NUM_BITSETS`. -/
def Pool.NUM_BITSETS (N : Nat) : Nat := Pool.ceil N 64

/-- The word `~0ULL`. -/
def Pool.ALL_ONES : Nat := 2 ^ 64 - 1

/-- The `uint64_t` complement `~w`. -/
def Pool.not64 (w : Nat) : Nat := Pool.ALL_ONES - w

/-- The array `table` of `Pool::find_first_set_bit`. -/
def Pool.table : List Nat :=
   [0, 0, 1, 0, 2, 0, 0, 0, 3, 0, 0, 0, 0, 0, 0, 0,
    4, 0, 0, 0, 0, 0, 0, 0, 0, 0, 0, 0, 0, 0, 0, 0,
    5, 0, 0, 0, 0, 0, 0, 0, 0, 0, 0, 0, 0, 0, 0, 0,
    0, 0, 0, 0, 0, 0, 0, 0, 0, 0, 0, 0, 0, 0, 0, 0,
    6, 0, 0, 0, 0, 0, 0, 0, 0, 0, 0, 0, 0, 0, 0, 0,
    0, 0, 0, 0, 0, 0, 0, 0, 0, 0, 0, 0, 0, 0, 0, 0,
    0, 0, 0, 0, 0, 0, 0, 0, 0, 0, 0, 0, 0, 0, 0, 0,
    0, 0, 0, 0, 0, 0, 0, 0, 0, 0, 0, 0, 0, 0, 0, 0,
    7, 0, 0, 0, 0, 0, 0, 0, 0, 0, 0, 0, 0, 0, 0, 0,
    0, 0, 0, 0, 0, 0, 0, 0, 0, 0, 0, 0, 0, 0, 0, 0,
    0, 0, 0, 0, 0, 0, 0, 0, 0, 0, 0, 0, 0, 0, 0, 0,
    0, 0, 0, 0, 0, 0, 0, 0, 0, 0, 0, 0, 0, 0, 0, 0,
    0, 0, 0, 0, 0, 0, 0, 0, 0, 0, 0, 0, 0, 0, 0, 0,
    0, 0, 0, 0, 0, 0, 0, 0, 0, 0, 0, 0, 0, 0, 0, 0,
    0, 0, 0, 0, 0, 0, 0, 0, 0, 0, 0, 0, 0, 0, 0, 0,
    0, 0, 0, 0, 0, 0, 0, 0, 0, 0, 0, 0, 0, 0, 0, 0]

/-- `Pool::find_first_set_bit`. -/
def Pool.find_first_set_bit (bits : Nat) : Int :=
  if bits = 0 then -1
  else
    let bits_no_rightmost := bits &&& (bits - 1)
    let b0 := bits - bits_no_rightmost
    let t1 := b0 >>> 32
    let i1 : Int := if t1 ≠ 0 then 32 else 0
    let b1 := if t1 ≠ 0 then t1 else b0
    let t2 := b1 >>> 16
    let i2 : Int := if t2 ≠ 0 then i1 + 16 else i1
    let b2 := if t2 ≠ 0 then t2 else b1
    let t3 := b2 >>> 8
    let i3 : Int := if t3 ≠ 0 then i2 + 8 else i2
    let b3 := if t3 ≠ 0 then t3 else b2
    i3 + (Pool.table.getD b3 0 : Nat)

/-- `Pool::Pool()`. -/
def Pool.new (N : Nat) : Pool :=
  { N := N, num_allocated := 0, used := List.replicate (Pool.NUM_BITSETS N) 0 }

/-- `Pool::set_bit`; `none` when `assert(index >= 0 && index < N)` fails. -/
def Pool.set_bit (p : Pool) (index : Int) (val : Bool) : Option Pool :=
  if ¬ (index ≥ 0 ∧ index < p.N) then none
  else
    let mask := 1 <<< (index.toNat &&& 63)
    let w := p.used.getD (index.toNat >>> 6) 0
    some { p with
      used := p.used.set (index.toNat >>> 6)
        (if val then w ||| mask else w &&& Pool.not64 mask) }

/-- `Pool::get_bit`; its callers pass an index in `[0, N)` only. -/
def Pool.get_bit (p : Pool) (index : Int) : Bool :=
  let set := p.used.getD (index.toNat >>> 6) 0
  let mask := 1 <<< (index.toNat &&& 63)
  (set &&& mask) == mask

/-- `Pool::owned`. -/
def Pool.owned (p : Pool) (addr : Option Int) : Bool :=
  match addr with
  | none => false
  | some i => decide (0 ≤ i) && decide (i < p.N)

/-- `Pool::allocated`; `get_index(addr)` is the index `i` of the address `slots + i`. -/
def Pool.allocated (p : Pool) (addr : Option Int) : Bool :=
  match addr with
  | none => false
  | some i => p.owned (some i) && p.get_bit i

/-- The loop `while (used[i] == ~0ULL) i++` of `Pool::find_not_allocated`, from index `i`
on the words that follow; `none` when it runs past the last word. -/
def Pool.find_word : List Nat → Nat → Option Nat
  | [], _ => none
  | w :: ws, i => if w = Pool.ALL_ONES then Pool.find_word ws (i + 1) else some i

/-- `Pool::find_not_allocated`: `some none` is the null pointer, `none` a failed
assertion or a read past the bitset. -/
def Pool.find_not_allocated (p : Pool) : Option (Option Int) :=
  if p.num_allocated = p.N then some none
  else
    (Pool.find_word p.used 0).bind fun i =>
      let j := Pool.find_first_set_bit (Pool.not64 (p.used.getD i 0))
      if ¬ (j > -1) then none
      else
        let addr : Int := (i : Int) * 64 + j
        if p.allocated (some addr) then none else some (some addr)

/-- `Pool::mark_allocated`. -/
def Pool.mark_allocated (p : Pool) (addr : Int) : Option Pool :=
  Pool.set_bit { p with num_allocated := p.num_allocated + 1 } addr true

/-- `Pool::mark_not_allocated`. -/
def Pool.mark_not_allocated (p : Pool) (addr : Int) : Option Pool :=
  Pool.set_bit { p with num_allocated := p.num_allocated - 1 } addr false

/-- `Pool::allocate`: the pointer returned and the pool. -/
def Pool.allocate (p : Pool) : Option (Option Int × Pool) :=
  p.find_not_allocated.bind fun addr =>
    match addr with
    | none => some (none, p)
    | some a => (p.mark_allocated a).bind fun p1 => some (some a, p1)

/-- `Pool::currently_allocated_count`. -/
def Pool.currently_allocated_count (p : Pool) : Int := p.num_allocated

/-- `Pool::have_free_space`. -/
def Pool.have_free_space (p : Pool) : Bool := decide (p.num_allocated < p.N)

/-- `Pool::deallocate`. -/
def Pool.deallocate (p : Pool) (addr : Option Int) : Option Pool :=
  if !p.owned addr || !p.allocated addr then some p
  else
    match addr with
    | none => some p
    | some a => p.mark_not_allocated a

/-- A call made on a pool: `allocate()` or `deallocate(addr)`. -/
inductive Pool.Call where
  | allocate
  | deallocate (addr : Option Int)
  deriving DecidableEq, Repr

/-- A sequence of calls on a pool: the pool it leaves and the pointers `allocate`
returned, in order; `none` when an assertion fails on the way. -/
def Pool.run (p : Pool) : List Pool.Call → Option (Pool × List (Option Int))
  | [] => some (p, [])
  | Pool.Call.allocate :: cs =>
    p.allocate.bind fun r => (Pool.run r.2 cs).bind fun t => some (t.1, r.1 :: t.2)
  | Pool.Call.deallocate addr :: cs =>
    (p.deallocate addr).bind fun p1 => Pool.run p1 cs

/-- Occupancy bit `idx` of the bitset: bit `idx % 64` of word `idx / 64`. -/
def Pool.bit (p : Pool) (idx : Nat) : Bool := (p.used.getD (idx / 64) 0).testBit (idx % 64)

/-- The number of set bits in the occupancy bitset. -/
def Pool.popcount (p : Pool) : Nat := (List.range (64 * p.used.length)).countP p.bit

/-- The invariant of the pool: `used` has `NUM_BITSETS` words of 64 bits, `num_allocated`
counts the set bits, lies in `[0, N]`, and no bit at an index `>= N` is set. -/
structure Pool.Inv (p : Pool) : Prop where
  words : p.used.length = Pool.NUM_BITSETS p.N
  word_lt : ∀ w ∈ p.used, w < 2 ^ 64
  count : p.num_allocated = p.popcount
  le : p.num_allocated ≤ p.N
  high : ∀ idx, p.N ≤ idx → p.bit idx = false

/-! ## Reference values for the address readers -/

/-- The `s_addr` that `inet_pton(AF_INET, "a.b.c.d", …)` stores, read as a number on a
little-endian host: the first field is the least significant byte. -/
def s_addr_le (a b c d : Int) : Int := a + b * 2 ^ 8 + c * 2 ^ 16 + d * 2 ^ 24

/-- The text "a.b.c.d": four numbers in decimal, separated by '.'. -/
def dotted (a b c d : Nat) : List Char :=
  (Nat.repr a).toList ++ '.' :: ((Nat.repr b).toList ++ '.' :: ((Nat.repr c).toList ++ '.' ::
    (Nat.repr d).toList))

/-- The number a run of the digits 0 to 9 denotes in base 16, continuing from `acc`. -/
def hex_from (acc : Nat) (ds : List Char) : Nat :=
  ds.foldl (fun a c => a * 16 + (c.toNat - 48)) acc

/-- A group of an IPv6 address written with the digits 0 to 9 only: one to four digits. -/
def dec_group (g : List Char) : Prop := g ≠ [] ∧ g.length ≤ 4 ∧ ∀ x ∈ g, is_digit x = true

/-- The groups `gs`, each preceded by ':', followed by `rest`. -/
def colon_groups (gs : List (List Char)) (rest : List Char) : List Char :=
  gs.foldr (fun g acc => ':' :: (g ++ acc)) rest

/-- The groups `gs` separated by ':', followed by `rest`. -/
def colon_join : List (List Char) → List Char → List Char
  | [], rest => rest
  | g :: gs, rest => g ++ colon_groups gs rest

/-- The text of an IPv6 address written as the groups `hs`, then "::", then the groups
`ts`. -/
def ipv6_text (hs ts : List (List Char)) : List Char :=
  colon_join hs (':' :: ':' :: colon_join ts [])

/-! ## Reference definitions for the buffer queries -/

/-- The four bytes CR LF CR LF. -/
def CRLFCRLF : List Char := ['\r', '\n', '\r', '\n']

/-- The naive search: the index of the first occurrence of `needle` in `hay`, or -1 when
there is none. -/
def naive_seek (needle hay : List Char) : Int :=
  match (List.range (hay.length + 1)).find? (fun i => needle.isPrefixOf (hay.drop i)) with
  | some i => (i : Int)
  | none => -1

/-! ## socket.hpp: the event loop

A socket is represented by its descriptor `fd_`, the token `void *ptr` by an
`Option Nat` (`none` is `nullptr`). The masks `events` and `revents` are the `short`s of
`struct pollfd`, as natural numbers below `2 ^ 16`. `count` and `cursor` are the `int`s
of the class. A call of `POLL(bufs, count, -1)` is an entry of a script: `none` when it
returns a negative number, else the masks it stores in the `revents` of the first
`count` entries. `wait` returns `none` when an assertion fails or when the script is
used up, where the call would block. -/

/-- Value of `POLLIN` in `<poll.h>`. -/
def POLLIN : Nat := 1

/-- Value of `POLLPRI` in `<poll.h>`. -/
def POLLPRI : Nat := 2

/-- Value of `POLLOUT` in `<poll.h>`. -/
def POLLOUT : Nat := 4

/-- See `Event.RECV`. -/
def Event.FAILURE : Nat := 0

/-- `struct Event`. -/
structure Event where
  type : Nat
  data : Option Nat
deriving DecidableEq, Repr

/-- `struct pollfd`. -/
structure pollfd where
  fd : Int
  events : Nat
  revents : Nat
deriving DecidableEq, Repr

/-- `class EventLoop<N>`: the arrays `ptrs[N]` and `bufs[N]`, `count` and `cursor`. -/
structure EventLoop where
  N : Nat
  ptrs : List (Option Nat)
  bufs : List pollfd
  count : Int
  cursor : Int
deriving DecidableEq, Repr

/-- `x & ~bits` stored back into a `short` mask. -/
def clear_bits (x bits : Nat) : Nat := x &&& (65535 ^^^ bits)

/-- `EventLoop()`, with both arrays zeroed. -/
def EventLoop.new (N : Nat) : EventLoop :=
  { N := N, ptrs := List.replicate N none, bufs := List.replicate N ⟨0, 0, 0⟩,
    count := 0, cursor := 0 }

/-- `bufs[i]`. -/
def EventLoop.buf_at (bufs : List pollfd) (i : Int) : pollfd := bufs.getD i.toNat ⟨0, 0, 0⟩

/-- `ptrs[i]`. -/
def EventLoop.ptr_at (l : EventLoop) (i : Int) : Option Nat := l.ptrs.getD i.toNat none

/-- `bufs[i].revents`. -/
def EventLoop.revents_at (l : EventLoop) (i : Int) : Nat := (EventLoop.buf_at l.bufs i).revents

/-- The loop of `find_socket_index`, from index `i`. -/
def EventLoop.find_loop (bufs : List pollfd) (count sock : Int) : Nat → Int → Int
  | 0, _ => -1
  | fuel + 1, i =>
    if i < count then
      if (EventLoop.buf_at bufs i).fd = sock then i
      else EventLoop.find_loop bufs count sock fuel (i + 1)
    else -1

/-- `EventLoop::find_socket_index`. -/
def EventLoop.find_socket_index (l : EventLoop) (sock : Int) : Int :=
  EventLoop.find_loop l.bufs l.count sock l.count.toNat 0

/-- `EventLoop::convert_event_flags`. -/
def EventLoop.convert_event_flags (ev : Nat) : Nat :=
  let out := 0
  let out := if ev &&& Event.RECV ≠ 0 then out ||| POLLIN else out
  let out := if ev &&& Event.SEND ≠ 0 then out ||| POLLOUT else out
  out

/-- `EventLoop::add`. -/
def EventLoop.add (l : EventLoop) (sock : Int) (events : Nat) (ptr : Option Nat) :
    Bool × EventLoop :=
  if l.count = (l.N : Int) then (false, l)
  else
    (true, { l with
      bufs := l.bufs.set l.count.toNat ⟨sock, EventLoop.convert_event_flags events, 0⟩,
      ptrs := l.ptrs.set l.count.toNat ptr,
      count := l.count + 1 })

/-- `EventLoop::add_events`. -/
def EventLoop.add_events (l : EventLoop) (sock : Int) (events : Nat) : EventLoop :=
  let i := l.find_socket_index sock
  if i < 0 then l
  else
    let b := EventLoop.buf_at l.bufs i
    let b1 := { b with events := b.events ||| EventLoop.convert_event_flags events }
    { l with bufs := l.bufs.set i.toNat b1 }

/-- `EventLoop::remove_events`. -/
def EventLoop.remove_events (l : EventLoop) (sock : Int) (events : Nat) : EventLoop :=
  let i := l.find_socket_index sock
  if i < 0 then l
  else
    let b := EventLoop.buf_at l.bufs i
    let b1 := { b with events := clear_bits b.events (EventLoop.convert_event_flags events) }
    { l with bufs := l.bufs.set i.toNat b1 }

/-- `EventLoop::remove`. -/
def EventLoop.remove (l : EventLoop) (sock : Int) : Bool × EventLoop :=
  let i := l.find_socket_index sock
  if i < 0 then (false, l)
  else
    (true, { l with
      bufs := l.bufs.set i.toNat (EventLoop.buf_at l.bufs (l.count - 1)),
      ptrs := l.ptrs.set i.toNat (l.ptr_at (l.count - 1)),
      count := l.count - 1,
      cursor := if l.cursor > i then l.cursor - 1 else l.cursor })

/-- The loop of `EventLoop::skip`. -/
def EventLoop.skip_loop (bufs : List pollfd) (count : Int) : Nat → Int → Int
  | 0, cursor => cursor
  | fuel + 1, cursor =>
    if cursor < count ∧ (EventLoop.buf_at bufs cursor).revents = 0 then
      EventLoop.skip_loop bufs count fuel (cursor + 1)
    else cursor

/-- `EventLoop::skip`; the loop makes at most `count - cursor` steps. -/
def EventLoop.skip (l : EventLoop) : EventLoop :=
  { l with cursor := EventLoop.skip_loop l.bufs l.count (l.count - l.cursor).toNat l.cursor }

/-- The effect of a successful `POLL(bufs, count, -1)` on `bufs`: the first `count`
entries receive the masks `ms`. -/
def EventLoop.store_revents : List pollfd → List Nat → Nat → List pollfd
  | [], _, _ => []
  | b :: bs, _, 0 => b :: bs
  | b :: bs, ms, n + 1 =>
    { b with revents := ms.headD 0 } :: EventLoop.store_revents bs ms.tail n

/-- The loop `while (cursor == count)` of `EventLoop::wait`. The flag of the result is
`false` when a poll failed, where `wait` returns `Event(Event::FAILURE)`. -/
def EventLoop.poll_loop :
    List (Option (List Nat)) → EventLoop → Option (Bool × EventLoop × List (Option (List Nat)))
  | [], l => if l.cursor = l.count then none else some (true, l, [])
  | none :: rest, l =>
    if l.cursor = l.count then some (false, l, rest) else some (true, l, none :: rest)
  | some ms :: rest, l =>
    if l.cursor = l.count then
      EventLoop.poll_loop rest
        (EventLoop.skip { l with
          bufs := EventLoop.store_revents l.bufs ms l.count.toNat, cursor := 0 })
    else some (true, l, some ms :: rest)

/-- The assignment to `bufs[cursor].revents`. -/
def EventLoop.set_revents (l : EventLoop) (m : Nat) : EventLoop :=
  { l with bufs := l.bufs.set l.cursor.toNat { EventLoop.buf_at l.bufs l.cursor with revents := m } }

/-- `EventLoop::wait`. -/
def EventLoop.wait (l : EventLoop) (polls : List (Option (List Nat))) :
    Option (Event × EventLoop × List (Option (List Nat))) :=
  match EventLoop.poll_loop polls l.skip with
  | none => none
  | some (false, l1, rest) => some (Event.mk Event.FAILURE none, l1, rest)
  | some (true, l1, rest) =>
    if ¬ l1.cursor < l1.count then none
    else
      let ptr := l1.ptr_at l1.cursor
      let revents := l1.revents_at l1.cursor
      if revents = 0 then none
      else if revents &&& POLLPRI ≠ 0 then none
      else if revents &&& POLLIN ≠ 0 then
        some (Event.mk Event.RECV ptr, l1.set_revents (clear_bits revents POLLIN), rest)
      else if revents &&& POLLOUT ≠ 0 then
        some (Event.mk Event.SEND ptr, l1.set_revents (clear_bits revents POLLOUT), rest)
      else some (Event.mk Event.FAILURE ptr, l1.set_revents 0, rest)

/-- The invariant of the counters of an event loop. -/
def EventLoop.Inv (l : EventLoop) : Prop :=
  0 ≤ l.cursor ∧ l.cursor ≤ l.count ∧ l.count ≤ (l.N : Int)

/-- No entry before the cursor has a reported event left. -/
def EventLoop.Settled (l : EventLoop) : Prop :=
  ∀ i : Int, 0 ≤ i → i < l.cursor → l.revents_at i = 0

/-- An event loop for four sockets with three entries, as a poll leaves it: the first
has no event, the second `POLLIN | POLLOUT`, the third `POLLERR`. -/
def EventLoop.polled3 : EventLoop :=
  { N := 4, ptrs := [some 10, some 11, some 12, none],
    bufs := [⟨5, 1, 0⟩, ⟨6, 5, 5⟩, ⟨7, 1, 8⟩, ⟨0, 0, 0⟩], count := 3, cursor := 0 }

/-! ## server.hpp: accepting connections and handling events

The events `evloop.wait()` hands to `handle_single_event` are inputs of the model: an
event carries what the sockets involved deliver while it is handled. -/

/-- The lowest free slot among `slots`, counted from index `i`: the slot
`Pool::find_not_allocated` returns. -/
def Server.first_free : List (Option Client) → Nat → Option Nat
  | [], _ => none
  | none :: _, i => some i
  | some _ :: rest, i => Server.first_free rest (i + 1)

/-- `pool.allocate()` followed by the registration of the new client for RECV events:
the handle returned (`none` is the null pointer) and the engine. `Client()` is
constructed in the lowest free slot. -/
def Server.allocate (s : Server) : Option Nat × Server :=
  if s.num_allocated = (s.MAX_CLIENTS : Int) then (none, s)
  else
    match Server.first_free s.slots 0 with
    | none => (none, s)
    | some h =>
      (some h, { s with
        slots := s.slots.set h (some (Client.new Event.RECV)),
        num_allocated := s.num_allocated + 1 })

/-- `pool.deallocate(client)` for an allocated client. -/
def Server.deallocate (s : Server) (h : Nat) : Server :=
  { s with slots := s.slots.set h none, num_allocated := s.num_allocated - 1 }

/-- Whether the client in slot `h` is marked as queued; `none` when the slot is free. -/
def Server.queued (s : Server) (h : Nat) : Option Bool := (s.client h).map fun c => c.queued

/-- The candidate queue holds the handles `l`, oldest first, each once, and these are
the allocated clients marked as queued; the pool has its `MAX_CLIENTS` slots; and while a
response is being built the target is an allocated client that is not queued. -/
structure Server.QueueInv (s : Server) (l : List Nat) : Prop where
  cap_pos : 1 ≤ s.MAX_CLIENTS
  cap_le : s.MAX_CLIENTS ≤ 2 ^ 30
  slots : s.slots.length = s.MAX_CLIENTS
  holds : s.queue.Holds s.MAX_CLIENTS (l.map some)
  nodup : l.Nodup
  queued : ∀ h, s.queued h = some true ↔ h ∈ l
  target : s.state ≠ State.NOTARGET → ∃ h, s.target = some h ∧ s.queued h = some false

/-- From `s` to `s2` only buffers, event masks, counters of served responses and the
fields of the response being built have changed: the candidate queue, the `queued` flags
and the target are the same, and a response is being built in `s2` only if one was in
`s`. -/
structure Server.SameQueue (s s2 : Server) : Prop where
  max : s2.MAX_CLIENTS = s.MAX_CLIENTS
  len : s2.slots.length = s.slots.length
  queue : s2.queue = s.queue
  queued : ∀ k, s2.queued k = s.queued k
  target : s2.target = s.target
  state : s2.state ≠ State.NOTARGET → s.state ≠ State.NOTARGET

/-- C4 (code bug): on a buffer holding "abc" `seek("\r\n\r\n")` returns 0 and on one
holding "abcd" it returns 1, although the needle occurs in neither, so `contains`
answers true; the claim requires -1. -/
theorem seek_returns_index_for_absent_needle :
    ((Buffer.of "abc".toList).seek "\r\n\r\n".toList).1 = 0
    ∧ ((Buffer.of "abcd".toList).seek "\r\n\r\n".toList).1 = 1
    ∧ ((Buffer.of "abc".toList).contains "\r\n\r\n".toList).1 = true
    ∧ ¬ ("\r\n\r\n".toList <:+: (Buffer.of "abcd".toList).live) := by
  decide

set_option maxRecDepth 8000 in
/-- C5 (code bug): appending 300 bytes to a new buffer allocates 256 bytes and copies all
300: the buffer is not marked failed, `used` is 300 and `size` is 256, so `used <= size`
is broken and the copy has left the region. -/
theorem write_300_bytes_overruns_region :
    (Buffer.write alloc_ok Buffer.new (List.replicate 300 'a') 300).fail = false
    ∧ (Buffer.write alloc_ok Buffer.new (List.replicate 300 'a') 300).used = 300
    ∧ (Buffer.write alloc_ok Buffer.new (List.replicate 300 'a') 300).size = 256
    ∧ (Buffer.write alloc_ok Buffer.new (List.replicate 300 'a') 300).fault = true := by
  decide

/-- C6 (code bug): with live bytes "abcdef" and a socket that accepts 2 bytes and then
reports WOULD_BLOCK, `read(Socket&)` returns 2 and the socket got "ab", but the live
bytes left are "abab" instead of the unwritten tail "cdef". -/
theorem read_sock_keeps_head_instead_of_tail :
    (Buffer.read_sock alloc_ok (Buffer.of "abcdef".toList) [2, WOULD_BLOCK]).ret = 2
    ∧ (Buffer.read_sock alloc_ok (Buffer.of "abcdef".toList) [2, WOULD_BLOCK]).sent = "ab".toList
    ∧ (Buffer.read_sock alloc_ok (Buffer.of "abcdef".toList) [2, WOULD_BLOCK]).buf.used = 4
    ∧ (Buffer.read_sock alloc_ok (Buffer.of "abcdef".toList) [2, WOULD_BLOCK]).buf.live
        = "abab".toList := by
  decide

/-- C1 (code bug): when the input buffer holds exactly
"POST /x HTTP/1.1\r\nContent-Length: 5\r\n\r\nhello", the pass of `wait` that returns the
request leaves `req.body` empty (length 0) while `content_length()` is 5. -/
theorem wait_body_empty_when_body_ends_input :
    (Server.wait_pass
        (Server.with_candidate 4 "POST /x HTTP/1.1\r\nContent-Length: 5\r\n\r\nhello".toList)
        Request.new).map (fun r => (r.1, r.2.2.body, r.2.2.content_length))
      = some (true, Slice.mk2 [] 0, some 5) := by
  decide

/-! ### Buffer lemmas -/

theorem take_takeWhile_length (p : Char → Bool) (l : List Char) :
    l.take (l.takeWhile p).length = l.takeWhile p := by
  induction l with
  | nil => simp
  | cons a t ih =>
    by_cases h : p a
    · simp [List.takeWhile_cons, h, ih]
    · simp [List.takeWhile_cons, h]

theorem cstr_length_le (s : List Char) : (cstr s).length ≤ s.length := by
  unfold cstr
  exact (List.takeWhile_sublist _).length_le

theorem take_cstr (s : List Char) : s.take (cstr s).length = cstr s :=
  take_takeWhile_length _ s

theorem memcpy_take (data src : List Char) (u n : Nat) (hul : u ≤ data.length)
    (hsrc : n ≤ src.length) : (memcpy data u src n).take (u + n) = data.take u ++ src.take n := by
  unfold memcpy
  have h1 : (data.take u ++ src.take n).length = u + n := by
    simp [List.length_take, hul, hsrc]
  rw [List.take_append_eq_append_take, h1]
  simp
  omega

theorem memcpy_length (data src : List Char) (u n : Nat) (hul : u ≤ data.length)
    (hsrc : n ≤ src.length) : u + n ≤ (memcpy data u src n).length := by
  unfold memcpy
  simp [List.length_take, hul, hsrc]

theorem Buffer.write_ext (alloc : Int → Bool) (b : Buffer) (src : List Char) (len : Int)
    (n : Nat) (hn : (if len < 0 then strlen src else len) = (n : Int)) (hsrc : n ≤ src.length) :
    Buffer.Ext b (b.write alloc src len) (src.take n) := by
  have hlen : (src.take n).length = n := by simp [hsrc]
  unfold Buffer.write
  cases hf : b.fail with
  | true =>
    simp only [if_true]
    exact ⟨fun h => by simp [hf] at h, fun h => h, fun _ hc => by simp [Buffer.clean, hf] at hc⟩
  | false =>
    simp only [Bool.false_eq_true, if_false, hn]
    by_cases ho : b.used > INT_MAX - (n : Int)
    · simp only [ho, if_true]
      exact ⟨fun h => by simp at h, fun h => h, fun _ hc => by simp [Buffer.clean] at hc⟩
    · simp only [ho, if_false]
      unfold Buffer.ensure_unused_space
      by_cases hg : wrap32 (b.used + (n : Int)) > b.size
      · simp only [hg, if_true]
        cases ha : alloc (if b.size > 0 then wrap32 (2 * b.size) else 256) with
        | true =>
          simp only [Bool.not_true, Bool.false_eq_true, if_false]
          refine ⟨fun _ => ⟨hf, by simp [hlen]⟩, fun h => by
            simp only [Bool.or_eq_false_iff] at h; exact h.1.1.1.1.1, fun hs hc => ?_⟩
          obtain ⟨hs0, hs1⟩ := hs
          have hul : b.used.toNat ≤ b.data.length := by omega
          have e1 : (b.used + (n : Int)).toNat = b.used.toNat + n := by omega
          have hm : memcpy [] 0 b.data b.used.toNat = b.data.take b.used.toNat := by
            simp [memcpy]
          have hul2 : b.used.toNat ≤ (b.data.take b.used.toNat).length := by
            simp [List.length_take, hul]
          refine ⟨⟨by simp only; omega, ?_⟩, ?_⟩
          · simp only [Int.toNat_ofNat, hm]
            have := memcpy_length (b.data.take b.used.toNat) src b.used.toNat n hul2 hsrc
            omega
          · simp only [Buffer.live, Int.toNat_ofNat, hm, e1]
            rw [memcpy_take _ _ _ _ hul2 hsrc, List.take_take, Nat.min_self]
        | false =>
          simp only [Bool.not_false, if_true]
          exact ⟨fun h => by simp at h, fun h => h, fun _ hc => by simp [Buffer.clean] at hc⟩
      · simp only [hg, if_false]
        refine ⟨fun _ => ⟨hf, by simp [hlen]⟩, fun h => by
          simp only [Bool.or_eq_false_iff] at h; exact h.1.1, fun hs hc => ?_⟩
        obtain ⟨hs0, hs1⟩ := hs
        have hul : b.used.toNat ≤ b.data.length := by omega
        have e1 : (b.used + (n : Int)).toNat = b.used.toNat + n := by omega
        refine ⟨⟨by simp only; omega, ?_⟩, ?_⟩
        · simp only [Int.toNat_ofNat]
          have := memcpy_length b.data src b.used.toNat n hul hsrc
          omega
        · simp only [Buffer.live, Int.toNat_ofNat, e1]
          rw [memcpy_take _ _ _ _ hul hsrc]

theorem Buffer.Ext.refl (b : Buffer) : Buffer.Ext b b [] := by
  refine ⟨fun h => ⟨h, by simp⟩, fun h => h, fun hs _ => ⟨hs, by simp⟩⟩

theorem Buffer.Ext.trans {b b1 b2 : Buffer} {xs ys : List Char}
    (h1 : Buffer.Ext b b1 xs) (h2 : Buffer.Ext b1 b2 ys) : Buffer.Ext b b2 (xs ++ ys) := by
  obtain ⟨a1, f1, l1⟩ := h1
  obtain ⟨a2, f2, l2⟩ := h2
  refine ⟨fun h => ?_, fun h => f1 (f2 h), fun hs hc => ?_⟩
  · obtain ⟨h21, h22⟩ := a2 h
    obtain ⟨h11, h12⟩ := a1 h21
    refine ⟨h11, ?_⟩
    rw [h22, h12, List.length_append]
    push_cast
    ring
  · have hc1 : b1.clean := ⟨(a2 hc.1).1, f2 hc.2⟩
    obtain ⟨s1, e1⟩ := l1 hs hc1
    obtain ⟨s2, e2⟩ := l2 s1 hc
    exact ⟨s2, by rw [e2, e1, List.append_assoc]⟩

theorem Buffer.write_cstr_ext (alloc : Int → Bool) (b : Buffer) (src : List Char) :
    Buffer.Ext b (b.write alloc src (-1)) (cstr src) := by
  have h := Buffer.write_ext alloc b src (-1) (cstr src).length (by simp [strlen])
    (cstr_length_le src)
  rwa [take_cstr] at h

theorem Buffer.write_all_ext (alloc : Int → Bool) (b : Buffer) (src : List Char) :
    Buffer.Ext b (b.write alloc src src.length) src := by
  have h := Buffer.write_ext alloc b src src.length src.length (by simp) (le_refl _)
  rwa [List.take_length] at h

theorem cstr_of_no_nul (s : List Char) (h : ∀ c ∈ s, c ≠ Char.ofNat 0) : cstr s = s := by
  unfold cstr
  rw [List.takeWhile_eq_self_iff]
  intro c hc
  simpa using h c hc

/-! ### Engine lemmas -/

theorem Server.client_lt {s : Server} {h : Nat} {c : Client} (hc : s.client h = some c) :
    h < s.slots.length := by
  unfold Server.client at hc
  by_contra hlt
  rw [List.getElem?_eq_none (by omega)] at hc
  simp at hc

theorem Server.client_set_client {s : Server} {h : Nat} {c : Client} (c2 : Client)
    (hc : s.client h = some c) : (s.set_client h c2).client h = some c2 := by
  have hlt := Server.client_lt hc
  simp [Server.set_client, Server.client, hlt]

theorem Server.target_client_of {s : Server} {h : Nat} {c : Client} (ht : s.target = some h)
    (hc : s.client h = some c) : s.target_client = some (h, c) := by
  simp [Server.target_client, ht, hc]

theorem Server.status_at (alloc : Int → Bool) {s : Server} {h : Nat} {c : Client} {o : Buffer}
    {ka ocl oc na : Int} {mx : Nat} (hs : s.At h c o State.STATUS ka ocl oc na mx) (code : Int) :
    ∃ s2, s.status alloc code = some s2
      ∧ s2.At h c (o.write alloc (status_line code) (status_line code).length) State.HEADERS
          ka ocl oc na mx := by
  have htc := Server.target_client_of hs.target hs.client
  have hpos : ((status_line code).length : Int) > 0 := by
    simp [status_line]
    omega
  have e : s.status alloc code = some { s.set_client h { ({ c with out := o } : Client) with
      out := o.write alloc (status_line code) (status_line code).length } with
      state := State.HEADERS } := by
    unfold Server.status
    simp [hs.state, htc, hpos]
  refine ⟨_, e, ?_⟩
  exact ⟨rfl, hs.target, hs.keep_alive, hs.offset_content_length, hs.offset_content,
    hs.num_allocated, hs.max_clients, Server.client_set_client _ hs.client⟩

theorem Server.header_at (alloc : Int → Bool) {s : Server} {h : Nat} {c : Client} {o : Buffer}
    {ka ocl oc na : Int} {mx : Nat} (hs : s.At h c o State.HEADERS ka ocl oc na mx)
    (name value : List Char) (h1 : streq name "Content-Length".toList = false)
    (h2 : streq name "Connection".toList = false) :
    ∃ s2, s.header alloc name value = some s2
      ∧ s2.At h c
          ((((o.write alloc name (-1)).write alloc ": ".toList (-1)).write alloc value (-1)).write
            alloc "\r\n".toList (-1)) State.HEADERS ka ocl oc na mx := by
  have htc := Server.target_client_of hs.target hs.client
  have e : s.header alloc name value = some (s.set_client h { ({ c with out := o } : Client) with
      out := (((o.write alloc name (-1)).write alloc ": ".toList (-1)).write alloc value
        (-1)).write alloc "\r\n".toList (-1) }) := by
    unfold Server.header
    simp only [String.toList] at h1 h2
    simp [hs.state, htc, h1, h2]
  refine ⟨_, e, ?_⟩
  exact ⟨hs.state, hs.target, hs.keep_alive, hs.offset_content_length, hs.offset_content,
    hs.num_allocated, hs.max_clients, Server.client_set_client _ hs.client⟩

theorem Server.append_at {s : Server} {h : Nat} {c : Client}
    {o : Buffer} {st : State} {ka ocl oc na : Int} {mx : Nat}
    (hs : s.At h c o st ka ocl oc na mx) (o2 : Buffer) :
    (s.set_client h { ({ c with out := o } : Client) with out := o2 }).At h c o2 st ka ocl oc
      na mx :=
  ⟨hs.state, hs.target, hs.keep_alive, hs.offset_content_length, hs.offset_content,
    hs.num_allocated, hs.max_clients, Server.client_set_client _ hs.client⟩

theorem Server.preamble_at (alloc : Int → Bool) {s : Server} {h : Nat} {c : Client}
    {o : Buffer} {ocl oc na : Int} {mx : Nat}
    (hs : s.At h c o State.HEADERS (-1) ocl oc na mx) (o1 o2 o3 o4 : Buffer)
    (keep : Bool) (hk : keep = should_keep_alive na mx c.num_served)
    (h1 : o1 = o.write alloc (connection_line keep) (-1))
    (h2 : o2 = o1.write alloc "Content-Length: ".toList (-1))
    (h3 : o3 = o2.write alloc "         \r\n".toList (-1))
    (h4 : o4 = o3.write alloc "\r\n".toList (-1)) :
    ∃ s2, s.preamble alloc = some s2
      ∧ s2.At h c o4 State.CONTENT (if keep then 1 else 0) o2.length o4.length na mx := by
  have htc := Server.target_client_of hs.target hs.client
  have e : s.preamble alloc = some { s.set_client h { ({ c with out := o } : Client) with
      out := o4 } with
        keep_alive := (if keep then 1 else 0)
        offset_content_length := o2.length
        offset_content := o4.length
        state := State.CONTENT } := by
    unfold Server.preamble
    subst h4 h3 h2 h1
    have hk2 := hk.symm
    rw [← hs.num_allocated, ← hs.max_clients] at hk2
    cases keep <;> simp [htc, hs.keep_alive, hk2, connection_line]
  refine ⟨_, e, ?_⟩
  exact ⟨rfl, hs.target, rfl, rfl, rfl, hs.num_allocated, hs.max_clients,
    Server.client_set_client _ hs.client⟩

theorem Server.write_at_headers (alloc : Int → Bool) {s : Server} {h : Nat} {c : Client}
    {o : Buffer} {ocl oc na : Int} {mx : Nat}
    (hs : s.At h c o State.HEADERS (-1) ocl oc na mx) (d : List Char) (o1 o2 o3 o4 : Buffer)
    (keep : Bool) (hk : keep = should_keep_alive na mx c.num_served)
    (h1 : o1 = o.write alloc (connection_line keep) (-1))
    (h2 : o2 = o1.write alloc "Content-Length: ".toList (-1))
    (h3 : o3 = o2.write alloc "         \r\n".toList (-1))
    (h4 : o4 = o3.write alloc "\r\n".toList (-1)) :
    ∃ s2, s.write alloc d (-1) = some s2
      ∧ s2.At h c (o4.write alloc d (strlen d)) State.CONTENT (if keep then 1 else 0)
          o2.length o4.length na mx := by
  have htc := Server.target_client_of hs.target hs.client
  obtain ⟨s1, e1, a1⟩ := Server.preamble_at alloc hs o1 o2 o3 o4 keep hk h1 h2 h3 h4
  have htc1 := Server.target_client_of a1.target a1.client
  have e : s.write alloc d (-1) = some (s1.set_client h { ({ c with out := o4 } : Client) with
      out := o4.write alloc d (strlen d) }) := by
    unfold Server.write
    simp [hs.state, htc, e1, htc1, strlen]
  exact ⟨_, e, Server.append_at a1 _⟩

theorem Server.write_at_content (alloc : Int → Bool) {s : Server} {h : Nat} {c : Client}
    {o : Buffer} {ka ocl oc na : Int} {mx : Nat}
    (hs : s.At h c o State.CONTENT ka ocl oc na mx) (d : List Char) :
    ∃ s2, s.write alloc d (-1) = some s2
      ∧ s2.At h c (o.write alloc d (strlen d)) State.CONTENT ka ocl oc na mx := by
  have htc := Server.target_client_of hs.target hs.client
  have e : s.write alloc d (-1) = some (s.set_client h { ({ c with out := o } : Client) with
      out := o.write alloc d (strlen d) }) := by
    unfold Server.write
    simp [hs.state, htc, strlen]
  refine ⟨_, e, ?_⟩
  exact ⟨hs.state, hs.target, hs.keep_alive, hs.offset_content_length, hs.offset_content,
    hs.num_allocated, hs.max_clients, Server.client_set_client _ hs.client⟩

theorem Buffer.overwrite_sticky (b : Buffer) (off : Int) (buf : List Char) (len : Int)
    (hc : (b.overwrite off buf len).clean) :
    b.clean ∧ 0 ≤ off ∧ off + len ≤ b.used
      ∧ (b.overwrite off buf len).data = memcpy b.data off.toNat buf len.toNat
      ∧ (b.overwrite off buf len).used = b.used ∧ 0 ≤ len := by
  unfold Buffer.overwrite at hc ⊢
  cases hf : b.fail with
  | true => simp [hf, Buffer.clean] at hc
  | false =>
    simp only [hf, Bool.false_eq_true, if_false] at hc ⊢
    by_cases hr : off < 0 ∨ off + len > b.used
    · simp [hr, Buffer.clean] at hc
    · simp only [hr, if_false] at hc ⊢
      simp only [Buffer.clean, Bool.or_eq_false_iff, decide_eq_false_iff_not] at hc
      exact ⟨⟨hf, hc.2.1.1.1⟩, by omega, by omega, trivial, trivial, by omega⟩

theorem Buffer.overwrite_live (b : Buffer) (off : Int) (buf A mid B : List Char)
    (hs : b.sound) (hc : (b.overwrite off buf buf.length).clean)
    (hl : b.live = A ++ mid ++ B) (hoff : off = A.length) (hlen : buf.length ≤ mid.length) :
    (b.overwrite off buf buf.length).live = A ++ buf ++ mid.drop buf.length ++ B := by
  obtain ⟨_, _, _, hd, hu, _⟩ := Buffer.overwrite_sticky b off buf buf.length hc
  have hdata : b.data = A ++ mid ++ B ++ b.data.drop b.used.toNat := by
    rw [← hl]
    exact (List.take_append_drop _ _).symm
  have hused : b.used.toNat = A.length + mid.length + B.length := by
    have h1 : b.live.length = b.used.toNat := by
      unfold Buffer.live
      rw [List.length_take]
      have := hs.1
      have := hs.2
      omega
    rw [← h1, hl]
    simp
    omega
  unfold Buffer.live
  rw [hu, hd, hoff, hused]
  generalize b.data.drop b.used.toNat = rest at hdata
  rw [hdata]
  simp only [memcpy, Int.toNat_ofNat]
  have t1 : (A ++ mid ++ B ++ rest).take A.length = A := by
    simp [List.append_assoc]
  have t2 : (A ++ mid ++ B ++ rest).drop (A.length + buf.length)
      = mid.drop buf.length ++ B ++ rest := by
    simp only [List.append_assoc]
    rw [List.drop_append_eq_append_drop]
    have : List.drop (A.length + buf.length) A = [] := List.drop_of_length_le (by omega)
    rw [this, List.nil_append]
    have e : A.length + buf.length - A.length = buf.length := by omega
    rw [e, List.drop_append_of_le_length hlen]
  rw [t1, t2, List.take_length]
  have t3 : A ++ buf ++ (mid.drop buf.length ++ B ++ rest)
      = (A ++ buf ++ mid.drop buf.length ++ B) ++ rest := by
    simp [List.append_assoc]
  rw [t3, List.take_append_eq_append_take]
  have hL : (A ++ buf ++ mid.drop buf.length ++ B).length = A.length + mid.length + B.length := by
    simp only [List.length_append, List.length_drop]
    omega
  rw [hL, List.take_of_length_le (by omega)]
  simp

theorem Server.remove_client_gone {s : Server} {h : Nat} {c : Client}
    (hc : s.client h = some c) :
    ∃ s2, s.remove_client h = some s2 ∧ s2.slots = s.slots.set h none := by
  unfold Server.remove_client
  simp [hc]

theorem Server.client_set_none (s : Server) (h : Nat) (sl : List (Option Client))
    (hsl : s.slots = sl.set h none) : s.client h = none := by
  unfold Server.client
  rw [hsl]
  by_cases hlt : h < sl.length
  · simp [hlt]
  · rw [List.getElem?_eq_none (by simpa using hlt)]
    rfl

theorem Server.send_at (alloc : Int → Bool) {s s1 : Server} {h : Nat} {c c0 : Client}
    {o0 o : Buffer} {st : State} {ka0 ocl0 oc0 ka ocl oc na : Int} {mx : Nat}
    (hs : s.At h c0 o0 st ka0 ocl0 oc0 na mx) (hst : st ≠ State.NOTARGET)
    (hw : s.write alloc [] (-1) = some s1) (h1 : s1.At h c o State.CONTENT ka ocl oc na mx)
    (hlen : o.fail = false → (fmt_d (o.used - oc)).length < 10) :
    ∃ s2, s.send alloc = some s2 ∧ s2.state = State.NOTARGET ∧ s2.target = none
      ∧ ∀ c2, s2.client h = some c2 →
          c2.out = o.overwrite ocl (fmt_d (o.used - oc)) (fmt_d (o.used - oc)).length := by
  have htc := Server.target_client_of hs.target hs.client
  have htc1 := Server.target_client_of h1.target h1.client
  have hlt := Server.client_lt h1.client
  have hstate : s.state ≠ State.NOTARGET := by rw [hs.state]; exact hst
  unfold Server.send
  simp only [hstate, if_false, htc, Option.some_bind, hw, htc1]
  cases hf : o.fail with
  | true =>
    obtain ⟨s2, e2, hsl⟩ := Server.remove_client_gone h1.client
    simp only [Buffer.failed, hf, if_true, e2, Option.some_bind]
    refine ⟨_, rfl, rfl, rfl, ?_⟩
    intro c2 hc2
    have hn := Server.client_set_none
      { s2 with state := State.NOTARGET, target := none, keep_alive := -1, req_bytes := -1 }
      h s1.slots hsl
    rw [hn] at hc2
    exact absurd hc2 (by simp)
  | false =>
    have hl := hlen hf
    have hl2 : ((fmt_d (o.used - oc)).length : Int) < 10 := by exact_mod_cast hl
    simp [Buffer.failed, hf, Buffer.length, h1.offset_content, h1.offset_content_length, hl2,
      Server.set_client, Server.client, hlt]

/-! ### The response call sequence -/

/-- The output buffer after the four appends of `header(name, value)`. -/
theorem Buffer.header_ext (alloc : Int → Bool) (o : Buffer) (nv : List Char × List Char) :
    Buffer.Ext o
      ((((o.write alloc nv.1 (-1)).write alloc ": ".toList (-1)).write alloc nv.2 (-1)).write
        alloc "\r\n".toList (-1)) (header_line nv) := by
  have e1 := Buffer.write_cstr_ext alloc o nv.1
  have e2 := Buffer.write_cstr_ext alloc (o.write alloc nv.1 (-1)) ": ".toList
  have e3 := Buffer.write_cstr_ext alloc
    ((o.write alloc nv.1 (-1)).write alloc ": ".toList (-1)) nv.2
  have e4 := Buffer.write_cstr_ext alloc
    (((o.write alloc nv.1 (-1)).write alloc ": ".toList (-1)).write alloc nv.2 (-1))
    "\r\n".toList
  have c1 : cstr ": ".toList = ": ".toList := by decide
  have c2 : cstr "\r\n".toList = "\r\n".toList := by decide
  rw [c1] at e2
  rw [c2] at e4
  have := ((e1.trans e2).trans e3).trans e4
  simpa [header_line] using this

theorem Server.headers_at (alloc : Int → Bool) (hs : List (List Char × List Char)) :
    ∀ {s : Server} {h : Nat} {c : Client} {o : Buffer} {ka ocl oc na : Int} {mx : Nat},
      s.At h c o State.HEADERS ka ocl oc na mx →
      (∀ nv ∈ hs, streq nv.1 "Content-Length".toList = false
        ∧ streq nv.1 "Connection".toList = false) →
      ∃ s2 o2, Server.headers alloc s hs = some s2 ∧ s2.At h c o2 State.HEADERS ka ocl oc na mx
        ∧ Buffer.Ext o o2 (hs.map header_line).flatten := by
  induction hs with
  | nil =>
    intro s h c o ka ocl oc na mx ha _
    exact ⟨s, o, rfl, ha, by simpa using Buffer.Ext.refl o⟩
  | cons nv rest ih =>
    intro s h c o ka ocl oc na mx ha hn
    obtain ⟨hn1, hn2⟩ := hn nv (List.mem_cons_self _ _)
    obtain ⟨s1, e1, a1⟩ := Server.header_at alloc ha nv.1 nv.2 hn1 hn2
    obtain ⟨s2, o2, e2, a2, x2⟩ := ih a1 (fun x hx => hn x (List.mem_cons_of_mem _ hx))
    refine ⟨s2, o2, ?_, a2, ?_⟩
    · simp [Server.headers, e1, e2]
    · have := (Buffer.header_ext alloc o nv).trans x2
      simpa using this

theorem Server.writes_at (alloc : Int → Bool) (ds : List (List Char)) :
    ∀ {s : Server} {h : Nat} {c : Client} {o : Buffer} {ka ocl oc na : Int} {mx : Nat},
      s.At h c o State.CONTENT ka ocl oc na mx →
      ∃ s2 o2, Server.writes alloc s ds = some s2 ∧ s2.At h c o2 State.CONTENT ka ocl oc na mx
        ∧ Buffer.Ext o o2 (ds.map cstr).flatten := by
  induction ds with
  | nil =>
    intro s h c o ka ocl oc na mx ha
    exact ⟨s, o, rfl, ha, by simpa using Buffer.Ext.refl o⟩
  | cons d rest ih =>
    intro s h c o ka ocl oc na mx ha
    obtain ⟨s1, e1, a1⟩ := Server.write_at_content alloc ha d
    obtain ⟨s2, o2, e2, a2, x2⟩ := ih a1
    refine ⟨s2, o2, ?_, a2, ?_⟩
    · simp [Server.writes, e1, e2]
    · have hx := Buffer.write_ext alloc o d (strlen d) (cstr d).length (by simp [strlen])
        (cstr_length_le d)
      rw [take_cstr] at hx
      have := hx.trans x2
      simpa using this

theorem fmt_d_natCast (n : Nat) : fmt_d (n : Int) = (Nat.repr n).toList := by
  simp [fmt_d]

theorem fmt_d_length_le (n : Nat) (h : n < 10 ^ 9) : (fmt_d (n : Int)).length ≤ 9 := by
  rw [fmt_d_natCast]
  exact Nat.repr_length n 9 (by decide) h

theorem Server.respond_core (alloc : Int → Bool) (s : Server) (h : Nat) (c : Client)
    (code : Int) (hs : List (List Char × List Char)) (ds : List (List Char))
    (hst : s.state = State.STATUS) (hka : s.keep_alive = -1) (ht : s.target = some h)
    (hc : s.client h = some c) (hsound : c.out.sound)
    (hnames : ∀ nv ∈ hs, streq nv.1 "Content-Length".toList = false
      ∧ streq nv.1 "Connection".toList = false)
    (hbody : (ds.map cstr).flatten.length < 10 ^ 9) :
    ∃ s2, s.respond alloc code hs ds = some s2 ∧ s2.state = State.NOTARGET ∧ s2.target = none
      ∧ ∀ c2, s2.client h = some c2 → c2.out.clean →
          c2.out.live = c.out.live ++ response_bytes code hs
            (should_keep_alive s.num_allocated s.MAX_CLIENTS c.num_served)
            (ds.map cstr).flatten := by
  have ha0 : s.At h c c.out State.STATUS (-1) s.offset_content_length s.offset_content
      s.num_allocated s.MAX_CLIENTS := ⟨hst, ht, hka, rfl, rfl, rfl, rfl, hc⟩
  obtain ⟨s1, e1, a1⟩ := Server.status_at alloc ha0 code
  have x1 := Buffer.write_all_ext alloc c.out (status_line code)
  obtain ⟨s2, oh, e2, a2, x2⟩ := Server.headers_at alloc hs a1 hnames
  generalize hkeep : should_keep_alive s.num_allocated (s.MAX_CLIENTS : Int) c.num_served = keep
  generalize ho1 : oh.write alloc (connection_line keep) (-1) = o1
  generalize ho2 : o1.write alloc "Content-Length: ".toList (-1) = o2
  generalize ho3 : o2.write alloc "         \r\n".toList (-1) = o3
  generalize ho4 : o3.write alloc "\r\n".toList (-1) = o4
  have y1 : Buffer.Ext oh o1 (connection_line keep) := by
    have := Buffer.write_cstr_ext alloc oh (connection_line keep)
    rw [ho1] at this
    have hcs : cstr (connection_line keep) = connection_line keep := by
      cases keep <;> decide
    rwa [hcs] at this
  have y2 : Buffer.Ext o1 o2 "Content-Length: ".toList := by
    have := Buffer.write_cstr_ext alloc o1 "Content-Length: ".toList
    rw [ho2] at this
    have hcs : cstr "Content-Length: ".toList = "Content-Length: ".toList := by decide
    rwa [hcs] at this
  have y3 : Buffer.Ext o2 o3 "         \r\n".toList := by
    have := Buffer.write_cstr_ext alloc o2 "         \r\n".toList
    rw [ho3] at this
    have hcs : cstr "         \r\n".toList = "         \r\n".toList := by decide
    rwa [hcs] at this
  have y4 : Buffer.Ext o3 o4 "\r\n".toList := by
    have := Buffer.write_cstr_ext alloc o3 "\r\n".toList
    rw [ho4] at this
    have hcs : cstr "\r\n".toList = "\r\n".toList := by decide
    rwa [hcs] at this
  have hw0 : ∀ (o : Buffer), Buffer.Ext o (o.write alloc [] (strlen [])) [] := by
    intro o
    have := Buffer.write_ext alloc o [] (strlen []) 0 (by simp [strlen, cstr]) (by simp)
    simpa using this
  -- the engine reaches `send` and its empty `write` leaves the body in place
  have key : ∃ s3 s4 st ka ocl oc o o5, Server.writes alloc s2 ds = some s3
      ∧ s3.At h c o st ka ocl oc s.num_allocated s.MAX_CLIENTS ∧ st ≠ State.NOTARGET
      ∧ s3.write alloc [] (-1) = some s4
      ∧ s4.At h c o5 State.CONTENT (if keep then 1 else 0) o2.length o4.length
          s.num_allocated s.MAX_CLIENTS
      ∧ Buffer.Ext o4 o5 (ds.map cstr).flatten := by
    cases ds with
    | nil =>
      obtain ⟨s4, e4, a4⟩ := Server.write_at_headers alloc a2 [] o1 o2 o3 o4 keep hkeep.symm
        ho1.symm ho2.symm ho3.symm ho4.symm
      exact ⟨s2, s4, _, _, _, _, _, _, rfl, a2, by decide, e4, a4, by simpa using hw0 o4⟩
    | cons d rest =>
      obtain ⟨s3, e3, a3⟩ := Server.write_at_headers alloc a2 d o1 o2 o3 o4 keep hkeep.symm
        ho1.symm ho2.symm ho3.symm ho4.symm
      obtain ⟨s4, ob, e4, a4, x4⟩ := Server.writes_at alloc rest a3
      obtain ⟨s5, e5, a5⟩ := Server.write_at_content alloc a4 []
      refine ⟨s4, s5, _, _, _, _, _, _, ?_, a4, by decide, e5, a5, ?_⟩
      · simp [Server.writes, e3, e4]
      · have hx := Buffer.write_ext alloc o4 d (strlen d) (cstr d).length (by simp [strlen])
          (cstr_length_le d)
        rw [take_cstr] at hx
        have := (hx.trans x4).trans (hw0 ob)
        simpa using this
  obtain ⟨s3, s4, st, ka, ocl, oc, o, o5, e3, a3, hne, e4, a4, x5⟩ := key
  have hlen : o5.fail = false → (fmt_d (o5.used - o4.length)).length < 10 := by
    intro hf
    have hu := (x5.1 hf).2
    have : o5.used - o4.length = (((ds.map cstr).flatten.length : Nat) : Int) := by
      simp only [Buffer.length]
      omega
    rw [this]
    have := fmt_d_length_le _ hbody
    omega
  obtain ⟨s5, e5, hstate, htarget, hout⟩ := Server.send_at alloc a3 hne e4 a4 hlen
  refine ⟨s5, ?_, hstate, htarget, ?_⟩
  · simp [Server.respond, e1, e2, e3, e5]
  · intro c2 hc2 hclean
    have ho := hout c2 hc2
    rw [ho] at hclean ⊢
    obtain ⟨hc5, _, _, _, _, _⟩ := Buffer.overwrite_sticky _ _ _ _ hclean
    have hu5 := (x5.1 hc5.1).2
    have hbl : o5.used - o4.length = (((ds.map cstr).flatten.length : Nat) : Int) := by
      simp only [Buffer.length]
      omega
    rw [hbl] at hclean ⊢
    -- all the appends, from the buffer found by `status` to the one `send` patches
    have zA := ((x1.trans x2).trans y1).trans y2
    have zB := (y3.trans y4).trans x5
    have hc2' : o2.clean := ⟨(zB.1 hc5.1).1, zB.2.1 hc5.2⟩
    obtain ⟨hs2, hl2⟩ := zA.2.2 hsound hc2'
    obtain ⟨hs5, hl5⟩ := zB.2.2 hs2 hc5
    have hu2 := (zA.1 hc2'.1).2
    have hlive0 : (c.out.live.length : Int) = c.out.used := by
      unfold Buffer.live
      rw [List.length_take]
      have := hsound.1
      have := hsound.2
      omega
    have hsp : "         \r\n".toList = List.replicate 9 ' ' ++ "\r\n".toList := by decide
    have hl5' : o5.live = o2.live ++ List.replicate 9 ' '
        ++ ("\r\n".toList ++ "\r\n".toList ++ (ds.map cstr).flatten) := by
      rw [hl5, hsp]
      simp [List.append_assoc]
    have hoff : o2.length = ((o2.live).length : Int) := by
      rw [hl2]
      simp only [Buffer.length, List.length_append]
      rw [hu2]
      push_cast
      simp only [List.length_append]
      push_cast
      omega
    have h9 := fmt_d_length_le _ hbody
    have := Buffer.overwrite_live o5 o2.length (fmt_d ((ds.map cstr).flatten.length : Nat))
      o2.live (List.replicate 9 ' ') _ hs5 hclean hl5' hoff (by simpa using h9)
    rw [this, hl2, List.drop_replicate]
    have e : "\r\n\r\n".toList = "\r\n".toList ++ "\r\n".toList := by decide
    simp only [response_bytes, pad9, e, List.append_assoc]

set_option maxRecDepth 100000 in
/-- C2 (counterexample): the hello-world sequence leaves
"HTTP/1.1 200 OK\r\nContent-Type: text/plain\r\nConnection: Keep-Alive\r\nContent-Length: 13       \r\n\r\nHello, world!"
in the output buffer; the decimal 13 is followed by seven spaces, so the substring
"Content-Length: 13\r\n" does not occur. -/
theorem hello_world_lacks_unpadded_content_length :
    ((Server.hello.respond alloc_ok 200 [("Content-Type".toList, "text/plain".toList)]
        ["Hello, world!".toList]).bind fun s => s.out_bytes 0)
      = some "HTTP/1.1 200 OK\r\nContent-Type: text/plain\r\nConnection: Keep-Alive\r\nContent-Length: 13       \r\n\r\nHello, world!".toList
    ∧ ¬ ("Content-Length: 13\r\n".toList <:+:
        "HTTP/1.1 200 OK\r\nContent-Type: text/plain\r\nConnection: Keep-Alive\r\nContent-Length: 13       \r\n\r\nHello, world!".toList) := by
  decide

/-- C2 (amended): for `status(200); header("Content-Type","text/plain"); write(d); send()`
on a request just returned by `wait` whose client has an empty output buffer, with a body
of n < 10^9 bytes, the sequence returns and, unless a buffer failure occurred, the output
begins with "HTTP/1.1 200 OK\r\n", contains "Content-Type: text/plain\r\n", contains
"Content-Length: " followed by the decimal of n padded with spaces to nine characters and
CRLF, and ends with "\r\n\r\n" followed by the body. -/
theorem hello_sequence_output (alloc : Int → Bool) (s : Server) (h : Nat) (c : Client)
    (d : List Char) (hst : s.state = State.STATUS) (hka : s.keep_alive = -1)
    (ht : s.target = some h) (hc : s.client h = some c) (hsound : c.out.sound)
    (hempty : c.out.live = []) (hbody : (cstr d).length < 10 ^ 9) :
    ∃ s2, s.respond alloc 200 [("Content-Type".toList, "text/plain".toList)] [d] = some s2
      ∧ ∀ c2, s2.client h = some c2 → c2.out.clean →
          "HTTP/1.1 200 OK\r\n".toList <+: c2.out.live
          ∧ "Content-Type: text/plain\r\n".toList <:+: c2.out.live
          ∧ ("Content-Length: ".toList ++ pad9 (fmt_d (cstr d).length) ++ "\r\n".toList)
              <:+: c2.out.live
          ∧ ("\r\n\r\n".toList ++ cstr d) <:+ c2.out.live := by
  obtain ⟨s2, e, _, _, hout⟩ := Server.respond_core alloc s h c 200
    [("Content-Type".toList, "text/plain".toList)] [d] hst hka ht hc hsound (by decide)
    (by simpa using hbody)
  refine ⟨s2, e, fun c2 hc2 hcl => ?_⟩
  have hl := hout c2 hc2 hcl
  have h1 : status_line 200 = "HTTP/1.1 200 OK\r\n".toList := by decide
  have h2 : header_line ("Content-Type".toList, "text/plain".toList)
      = "Content-Type: text/plain\r\n".toList := by decide
  have h3 : "\r\n\r\n".toList = "\r\n".toList ++ "\r\n".toList := by decide
  simp only [hempty, List.nil_append, response_bytes, List.map_cons, List.map_nil,
    List.flatten_cons, List.flatten_nil, List.append_nil, h1, h2] at hl
  rw [hl]
  generalize connection_line _ = conn
  refine ⟨⟨"Content-Type: text/plain\r\n".toList ++ conn ++ "Content-Length: ".toList
      ++ pad9 (fmt_d (cstr d).length) ++ "\r\n\r\n".toList ++ cstr d, by
      simp only [List.append_assoc]⟩,
    ⟨"HTTP/1.1 200 OK\r\n".toList, conn ++ "Content-Length: ".toList
      ++ pad9 (fmt_d (cstr d).length) ++ "\r\n\r\n".toList ++ cstr d, by
      simp only [List.append_assoc]⟩,
    ⟨"HTTP/1.1 200 OK\r\n".toList ++ "Content-Type: text/plain\r\n".toList ++ conn,
      "\r\n".toList ++ cstr d, by rw [h3]; simp only [List.append_assoc]⟩,
    ⟨"HTTP/1.1 200 OK\r\n".toList ++ "Content-Type: text/plain\r\n".toList ++ conn
      ++ "Content-Length: ".toList ++ pad9 (fmt_d (cstr d).length), by
      simp only [List.append_assoc]⟩⟩

/-- C2 (amended), instance: the hello-world call sequence of `main`. -/
theorem hello_sequence_output_witness :
    Server.hello.state = State.STATUS ∧ Server.hello.keep_alive = -1
    ∧ Server.hello.target = some 0 ∧ Server.hello.client 0 = some Client.hello
    ∧ Client.hello.out.sound ∧ Client.hello.out.live = []
    ∧ (cstr "Hello, world!".toList).length < 10 ^ 9
    ∧ ∃ s2, Server.hello.respond alloc_ok 200 [("Content-Type".toList, "text/plain".toList)]
          ["Hello, world!".toList] = some s2
        ∧ ∀ c2, s2.client 0 = some c2 → c2.out.clean →
            "HTTP/1.1 200 OK\r\n".toList <+: c2.out.live
            ∧ "Content-Type: text/plain\r\n".toList <:+: c2.out.live
            ∧ ("Content-Length: ".toList ++ pad9 (fmt_d (cstr "Hello, world!".toList).length)
                ++ "\r\n".toList) <:+: c2.out.live
            ∧ ("\r\n\r\n".toList ++ cstr "Hello, world!".toList) <:+ c2.out.live :=
  ⟨by decide, by decide, by decide, by decide, by decide, by decide, by decide,
    hello_sequence_output alloc_ok Server.hello 0 Client.hello "Hello, world!".toList
      (by decide) (by decide) (by decide) (by decide) (by decide) (by decide) (by decide)⟩


/-! ### Scanner lemmas -/

theorem Scanner.Rem.advance {src : Scanner} {off : Nat} {a b : List Char}
    (h : src.Rem off (a ++ b)) : src.Rem (off + a.length) b := by
  obtain ⟨h1, h2, h3⟩ := h
  have hlen : (src.str.drop off).length = (a ++ b).length := by rw [h3]
  simp only [List.length_drop, List.length_append] at hlen
  refine ⟨h1, by omega, ?_⟩
  rw [← List.drop_drop, h3, List.drop_left]

theorem Scanner.Rem.length {src : Scanner} {off : Nat} {suf : List Char}
    (h : src.Rem off suf) : off + suf.length = src.len := by
  obtain ⟨h1, h2, h3⟩ := h
  have hlen : (src.str.drop off).length = suf.length := by rw [h3]
  simp only [List.length_drop] at hlen
  omega

theorem Scanner.Rem.end_nil {src : Scanner} {off : Nat} (h : src.Rem off []) :
    src.end_ off = true := by
  have := h.length
  simp [Scanner.end_] at this ⊢
  omega

theorem Scanner.Rem.end_cons {src : Scanner} {off : Nat} {c : Char} {t : List Char}
    (h : src.Rem off (c :: t)) : src.end_ off = false := by
  have := h.length
  simp [Scanner.end_] at this ⊢
  omega

theorem Scanner.Rem.curr_cons {src : Scanner} {off : Nat} {c : Char} {t : List Char}
    (h : src.Rem off (c :: t)) : src.curr off = some c := by
  have hl := h.length
  obtain ⟨h1, h2, h3⟩ := h
  simp only [List.length_cons] at hl
  have hlt : off < src.len := by omega
  unfold Scanner.curr
  rw [if_pos hlt]
  have : (src.str.drop off)[0]? = some c := by rw [h3]; simp
  simpa using this

theorem Scanner.Rem.consume_cons {src : Scanner} {off : Nat} {c : Char} {t : List Char}
    (h : src.Rem off (c :: t)) : src.consume off = some (off + 1) := by
  have hl := h.length
  simp only [List.length_cons] at hl
  unfold Scanner.consume
  rw [if_pos (by omega)]

theorem Scanner.Rem.tail {src : Scanner} {off : Nat} {c : Char} {t : List Char}
    (h : src.Rem off (c :: t)) : src.Rem (off + 1) t := by
  have := Scanner.Rem.advance (a := [c]) (b := t) (by simpa using h)
  simpa using this

theorem Scanner.consume_char_hit {src : Scanner} {off : Nat} {c : Char} {t : List Char}
    (h : src.Rem off (c :: t)) : src.consume_char c off = some (true, off + 1) := by
  unfold Scanner.consume_char
  simp [h.end_cons, h.curr_cons, h.consume_cons]

theorem Scanner.consume_char_miss {src : Scanner} {off : Nat} {c : Char} {suf : List Char}
    (h : src.Rem off suf) (hne : suf.head? ≠ some c) :
    src.consume_char c off = some (false, off) := by
  unfold Scanner.consume_char
  cases suf with
  | nil => simp [h.end_nil]
  | cons x t =>
    have hx : x ≠ c := by simpa using hne
    simp [h.end_cons, h.curr_cons, hx]

theorem Scanner.consume_str_hit {src : Scanner} {off : Nat} {l t : List Char}
    (h : src.Rem off (l ++ t)) (hl : cstr l = l) :
    src.consume_str l off = (true, off + l.length) := by
  have hlen := h.length
  obtain ⟨h1, h2, h3⟩ := h
  simp only [List.length_append] at hlen
  unfold Scanner.consume_str
  simp only [hl]
  rw [if_neg (by omega)]
  simp [memeq, h3]

theorem Scanner.consume_str_miss {src : Scanner} {off : Nat} {l suf : List Char}
    (h : src.Rem off suf) (hl : cstr l = l) (hne : ¬ l <+: suf) :
    src.consume_str l off = (false, off) := by
  obtain ⟨h1, h2, h3⟩ := h
  unfold Scanner.consume_str
  simp only [hl]
  by_cases hlen : off + l.length > src.len
  · rw [if_pos hlen]
  · rw [if_neg hlen]
    have : memeq (src.str.drop off) l l.length = false := by
      simp only [memeq, h3, List.take_length]
      by_contra hc
      simp only [Bool.not_eq_false, beq_iff_eq] at hc
      exact hne ⟨suf.drop l.length, by
        have := List.take_append_drop l.length suf
        rw [hc] at this
        exact this⟩
    simp [this]

theorem Scanner.consume_loop_run {src : Scanner} (body : Char → Bool) (run : List Char) :
    ∀ {k : Nat} {t : List Char}, src.Rem k (run ++ t) → (∀ c ∈ run, body c = true) →
      (∀ c, t.head? = some c → body c = false) →
      src.consume_loop body (run.length + t.length) k = some (k + run.length) := by
  induction run with
  | nil =>
    intro off t h _ hstop
    simp only [List.nil_append] at h
    cases t with
    | nil => simp [Scanner.consume_loop, h.end_nil]
    | cons x t2 =>
      have hx := hstop x rfl
      simp [Scanner.consume_loop, h.end_cons, h.curr_cons, hx]
  | cons a r ih =>
    intro off t h hall hstop
    have h' : src.Rem off (a :: (r ++ t)) := by simpa using h
    have ha : body a = true := hall a (List.mem_cons_self _ _)
    have hrec := ih (k := off + 1) (t := t) h'.tail
      (fun c hc => hall c (List.mem_cons_of_mem _ hc)) hstop
    have e : (a :: r).length + t.length = (r.length + t.length) + 1 := by
      simp only [List.length_cons]; omega
    rw [e]
    simp only [Scanner.consume_loop, h'.end_cons, h'.curr_cons, ha, h'.consume_cons,
      Option.some_bind, Bool.false_eq_true, if_false, if_true]
    rw [hrec]
    simp only [List.length_cons]
    congr 1
    omega

theorem Scanner.consume2_run {src : Scanner} (head body : Char → Bool) {off : Nat}
    {a : Char} {run t : List Char} (h : src.Rem off (a :: run ++ t)) (ha : head a = true)
    (hall : ∀ c ∈ run, body c = true) (hstop : ∀ c, t.head? = some c → body c = false) :
    src.consume2 head body off = some (true, off + (a :: run).length) := by
  have h' : src.Rem off (a :: (run ++ t)) := by simpa using h
  have hl := h'.tail.length
  simp only [List.length_append] at hl
  have hf : src.len - (off + 1) = run.length + t.length := by omega
  unfold Scanner.consume2
  simp only [h'.end_cons, h'.curr_cons, ha, h'.consume_cons, Option.some_bind, hf,
    Scanner.consume_loop_run body run h'.tail hall hstop, Bool.false_eq_true, if_false,
    Bool.not_true]
  simp only [List.length_cons]
  congr 2
  omega

theorem Scanner.consume2_none {src : Scanner} (head body : Char → Bool) {off : Nat}
    {suf : List Char} (h : src.Rem off suf) (hstop : ∀ c, suf.head? = some c → head c = false) :
    src.consume2 head body off = some (false, off) := by
  unfold Scanner.consume2
  cases suf with
  | nil => simp [h.end_nil]
  | cons x t => simp [h.end_cons, h.curr_cons, hstop x rfl]

/-- `consume(testfn)` over a maximal run of bytes that pass the test. -/
theorem Scanner.consume1_run {src : Scanner} (p : Char → Bool) {off : Nat} {run t : List Char}
    (h : src.Rem off (run ++ t)) (hall : ∀ c ∈ run, p c = true)
    (hstop : ∀ c, t.head? = some c → p c = false) :
    ∃ b, src.consume1 p off = some (b, off + run.length) := by
  unfold Scanner.consume1
  cases run with
  | nil =>
    refine ⟨false, ?_⟩
    simpa using Scanner.consume2_none p p (by simpa using h) hstop
  | cons a r =>
    exact ⟨true, Scanner.consume2_run p p h (hall a (List.mem_cons_self _ _))
      (fun c hc => hall c (List.mem_cons_of_mem _ hc)) hstop⟩

theorem Scanner.consume1_run_true {src : Scanner} (p : Char → Bool) {off : Nat}
    {run t : List Char} (h : src.Rem off (run ++ t)) (hne : run ≠ [])
    (hall : ∀ c ∈ run, p c = true) (hstop : ∀ c, t.head? = some c → p c = false) :
    src.consume1 p off = some (true, off + run.length) := by
  unfold Scanner.consume1
  cases run with
  | nil => exact absurd rfl hne
  | cons a r =>
    exact Scanner.consume2_run p p h (hall a (List.mem_cons_self _ _))
      (fun c hc => hall c (List.mem_cons_of_mem _ hc)) hstop

theorem Slice.bytes_of_rem {src : Scanner} {off : Nat} {a b : List Char}
    (h : src.Rem off (a ++ b)) :
    ({ str := src.str, off := off, len := off + a.length - off } : Slice).bytes = a := by
  obtain ⟨_, _, h3⟩ := h
  simp [Slice.bytes, h3]

theorem Slice.eq_cstr_rem {src : Scanner} {off : Nat} {a b : List Char} (lit : List Char)
    (h : src.Rem off (a ++ b)) (hl : cstr lit = lit) :
    ({ str := src.str, off := off, len := off + a.length - off } : Slice).eq_cstr lit
      = decide (a = lit) := by
  obtain ⟨_, _, h3⟩ := h
  have e : off + a.length - off = a.length := by omega
  unfold Slice.eq_cstr
  simp only [strlen, hl, e, h3]
  by_cases hlen : lit.length = a.length
  · have : ¬ ((lit.length : Int) != (a.length : Int)) = true := by simp [hlen]
    rw [if_neg this]
    simp only [memeq, List.take_left]
    rw [← hlen, List.take_length]
    by_cases hal : a = lit
    · simp [hal]
    · simp [hal]
  · have : ((lit.length : Int) != (a.length : Int)) = true := by
      simp only [bne_iff_ne, ne_eq, Nat.cast_inj]
      exact hlen
    rw [if_pos this]
    have hal : a ≠ lit := fun hh => hlen (by rw [hh])
    simp [hal]

theorem not_upper_space : is_upper_alpha ' ' = false := by decide

/-- `parse_method` on a non-empty run of upper-case letters followed by a space. -/
theorem parse_method_run {src : Scanner} {off : Nat} {M t : List Char} (dst : Method)
    (h : src.Rem off (M ++ ' ' :: t)) (hne : M ≠ [])
    (hup : ∀ c ∈ M, is_upper_alpha c = true) :
    parse_method src dst off =
      some (if M = "GET".toList then (true, Method.GET, off + M.length, none)
        else if M = "POST".toList then (true, Method.POST, off + M.length, none)
        else (false, dst, off + M.length, some "Method not supported")) := by
  have hc := Scanner.consume1_run_true is_upper_alpha h hne hup
    (fun c hc => by
      simp only [List.head?_cons, Option.some.injEq] at hc
      rw [← hc]; exact not_upper_space)
  unfold parse_method
  simp only [hc, Option.some_bind, Bool.not_true, Bool.false_eq_true, if_false]
  have e1 := Slice.eq_cstr_rem "GET".toList h (by decide)
  have e2 := Slice.eq_cstr_rem "POST".toList h (by decide)
  simp only [String.toList] at e1 e2 ⊢
  rw [e1, e2]
  by_cases h1 : M = ['G', 'E', 'T']
  · simp [h1]
  · by_cases h2 : M = ['P', 'O', 'S', 'T']
    · simp [h2]
    · simp [h1, h2]

theorem query_text_head (Q : Option (List Char)) (t : List Char) (c : Char)
    (h : (query_text Q ++ ' ' :: t).head? = some c) : c = '?' ∨ c = ' ' := by
  cases Q with
  | none => simp [query_text] at h; exact Or.inr h.symm
  | some q => simp [query_text] at h; exact Or.inl h.symm

/-- `parse_url` on an origin-form target: a path starting with one "/" and an optional
query, followed by a space. -/
theorem parse_url_origin {src : Scanner} {off : Nat} {p t : List Char}
    {Q : Option (List Char)} (h : src.Rem off (('/' :: p) ++ (query_text Q ++ ' ' :: t)))
    (hp : ∀ c ∈ p, (is_pchar c || c == '/') = true) (hnn : p.head? ≠ some '/')
    (hq : ∀ q, Q = some q → ∀ c ∈ q, (is_pchar c || c == '/' || c == '?') = true) :
    ∃ u, parse_url src URL.new off
        = some (true, u, off + (('/' :: p) ++ query_text Q).length)
      ∧ u.path.bytes = '/' :: p ∧ u.query.bytes = Q.getD [] := by
  have h0 : src.Rem off ('/' :: (p ++ (query_text Q ++ ' ' :: t))) := by simpa using h
  -- no scheme
  have a1 : src.consume2 (fun c => is_upper_alpha c)
      (fun c => is_upper_alpha c || is_digit c || c == '+' || c == '-' || c == '.') off
      = some (false, off) :=
    Scanner.consume2_none _ _ h0 (fun c hc => by
      simp only [List.head?_cons, Option.some.injEq] at hc
      rw [← hc]; decide)
  -- no authority
  have a2 : src.consume_str ['/', '/'] off = (false, off) := by
    apply Scanner.consume_str_miss h0 (by decide)
    cases p with
    | nil =>
      cases Q with
      | none => simp [query_text]
      | some q => simp [query_text]
    | cons x r =>
      have hx : x ≠ '/' := by simpa using hnn
      simp [Ne.symm hx]
  -- the path
  have a3 := Scanner.consume1_run_true (fun c => is_pchar c || c == '/') h (by simp)
    (fun c hc => by
      rcases List.mem_cons.mp hc with rfl | hc
      · decide
      · exact hp c hc)
    (fun c hc => by
      rcases query_text_head Q t c hc with rfl | rfl <;> decide)
  have hpath := Slice.bytes_of_rem h
  have h1 := Scanner.Rem.advance h
  unfold parse_url parse_scheme parse_path
  simp only [a1, Option.some_bind, Bool.not_false, if_true, a2, Bool.false_eq_true, if_false, a3]
  cases Q with
  | none =>
    simp only [query_text, List.nil_append] at h1
    have a4 := Scanner.consume_char_miss (c := '?') h1 (by simp)
    have a5 := Scanner.consume_char_miss (c := '#') h1 (by simp)
    simp only [a4, a5, Option.some_bind, Bool.false_eq_true, if_false, Bool.not_true,
      query_text, List.append_nil]
    refine ⟨_, rfl, hpath, ?_⟩
    simp [URL.new, Slice.whipe, Slice.bytes]
  | some q =>
    simp only [query_text, List.cons_append] at h1
    have a4 := Scanner.consume_char_hit h1
    have h2 : src.Rem (off + ('/' :: p).length + 1) (q ++ ' ' :: t) := h1.tail
    obtain ⟨b, a5⟩ := Scanner.consume1_run (fun c => is_pchar c || c == '/' || c == '?') h2
      (hq q rfl) (fun c hc => by
        simp only [List.head?_cons, Option.some.injEq] at hc
        rw [← hc]; decide)
    have h3 := Scanner.Rem.advance h2
    have a6 := Scanner.consume_char_miss (c := '#') h3 (by simp)
    have hquery := Slice.bytes_of_rem h2
    unfold parse_query_or_fragment
    have e : off + (('/' :: p) ++ query_text (some q)).length
        = off + ('/' :: p).length + 1 + q.length := by
      simp only [query_text, List.length_append, List.length_cons]
      omega
    rw [e]
    simp only [a4, a5, a6, Option.some_bind, Bool.false_eq_true, if_false, Bool.not_true, if_true]
    exact ⟨_, rfl, hpath, hquery⟩

theorem version_token {src : Scanner} {off : Nat} {V rest : List Char}
    (h : src.Rem off (' ' :: (V ++ "\r\n".toList) ++ rest)) (hV : is_version V) :
    (let v1 := src.consume_str [' ', 'H', 'T', 'T', 'P', '/', '1', '\r', '\n'] off
     let v2 := if v1.1 then v1
       else src.consume_str [' ', 'H', 'T', 'T', 'P', '/', '1', '.', '0', '\r', '\n'] v1.2
     let v3 := if v2.1 then v2
       else src.consume_str [' ', 'H', 'T', 'T', 'P', '/', '1', '.', '1', '\r', '\n'] v2.2
     v3) = (true, off + (' ' :: (V ++ "\r\n".toList)).length) := by
  rcases hV with rfl | rfl | rfl
  · have a1 := Scanner.consume_str_hit (l := [' ', 'H', 'T', 'T', 'P', '/', '1', '\r', '\n'])
      (t := rest) (by simpa using h) (by decide)
    simp only [a1, if_true]
    rfl
  · have a1 := Scanner.consume_str_miss (l := [' ', 'H', 'T', 'T', 'P', '/', '1', '\r', '\n'])
      h (by decide) (by simp)
    have a2 := Scanner.consume_str_hit
      (l := [' ', 'H', 'T', 'T', 'P', '/', '1', '.', '0', '\r', '\n'])
      (t := rest) (by simpa using h) (by decide)
    simp only [a1, a2, if_true, Bool.false_eq_true, if_false]
    rfl
  · have a1 := Scanner.consume_str_miss (l := [' ', 'H', 'T', 'T', 'P', '/', '1', '\r', '\n'])
      h (by decide) (by simp)
    have a2 := Scanner.consume_str_miss
      (l := [' ', 'H', 'T', 'T', 'P', '/', '1', '.', '0', '\r', '\n'])
      h (by decide) (by simp)
    have a3 := Scanner.consume_str_hit
      (l := [' ', 'H', 'T', 'T', 'P', '/', '1', '.', '1', '\r', '\n'])
      (t := rest) (by simpa using h) (by decide)
    simp only [a1, a2, a3, if_true, Bool.false_eq_true, if_false]
    rfl

/-- The request line of a head `M SP T SP V CRLF …` with an origin-form target. -/
theorem parse_request_line_spec {src : Scanner} (dst : Request) {M p V rest : List Char}
    {Q : Option (List Char)} (h : src.Rem 0 (request_line M ('/' :: p) Q V ++ rest))
    (hM : M ≠ []) (hup : ∀ c ∈ M, is_upper_alpha c = true)
    (hp : ∀ c ∈ p, (is_pchar c || c == '/') = true) (hnn : p.head? ≠ some '/')
    (hq : ∀ q, Q = some q → ∀ c ∈ q, (is_pchar c || c == '/' || c == '?') = true)
    (hV : is_version V) :
    ∃ res, parse_request_line src dst 0 = some res
      ∧ (res.ok = true ↔ (M = "GET".toList ∨ M = "POST".toList))
      ∧ (res.ok = false → res.error = some "Method not supported" ∧ res.req = dst)
      ∧ (res.ok = true → res.off = (request_line M ('/' :: p) Q V).length ∧ res.error = none
          ∧ res.req.method = (if M = "GET".toList then Method.GET else Method.POST)
          ∧ res.req.url.path.bytes = '/' :: p ∧ res.req.url.query.bytes = Q.getD []
          ∧ res.req.headers = dst.headers ∧ res.req.count = dst.count
          ∧ res.req.ignored_count = dst.ignored_count ∧ res.req.body = dst.body
          ∧ res.req.valid = dst.valid) := by
  have h0 : src.Rem 0 (M ++ ' ' :: (('/' :: p) ++ (query_text Q ++ ' ' ::
      ((V ++ "\r\n".toList) ++ rest)))) := by
    simpa [request_line, List.append_assoc] using h
  have m := parse_method_run dst.method h0 hM hup
  have h1 := (Scanner.Rem.advance h0).tail
  have sp := Scanner.consume_char_hit (Scanner.Rem.advance h0)
  obtain ⟨u, hu, hpath, hquery⟩ := parse_url_origin h1 hp hnn hq
  have h2 : src.Rem (0 + M.length + 1 + (('/' :: p) ++ query_text Q).length)
      (' ' :: (V ++ "\r\n".toList) ++ rest) := by
    have := Scanner.Rem.advance (a := ('/' :: p) ++ query_text Q)
      (b := ' ' :: ((V ++ "\r\n".toList) ++ rest)) (by simpa [List.append_assoc] using h1)
    simpa using this
  have hv := version_token h2 hV
  have hlen : 0 + M.length + 1 + (('/' :: p) ++ query_text Q).length
      + (' ' :: (V ++ "\r\n".toList)).length = (request_line M ('/' :: p) Q V).length := by
    simp only [request_line, List.length_append, List.length_cons]
    omega
  unfold parse_request_line
  simp only [m]
  by_cases hG : M = "GET".toList
  · simp only [hG, if_true, Option.some_bind, Bool.not_true, Bool.false_eq_true, if_false]
    rw [hG] at sp hu hv hlen
    simp only [sp, hu, Option.some_bind, Bool.not_true, Bool.false_eq_true, if_false]
    simp only [hv]
    exact ⟨_, rfl, by simp, by simp, fun _ => ⟨hlen, rfl, rfl, hpath, hquery, rfl, rfl, rfl,
      rfl, rfl⟩⟩
  · by_cases hP : M = "POST".toList
    · have hne : ¬ ("POST".toList = "GET".toList) := by decide
      rw [hP] at sp hu hv hlen
      simp only [hP, hne, if_true, if_false, Option.some_bind, Bool.not_true,
        Bool.false_eq_true]
      simp only [sp, hu, Option.some_bind, Bool.not_true, Bool.false_eq_true, if_false]
      simp only [hv]
      exact ⟨_, rfl, by simp, by simp, fun _ => ⟨hlen, rfl, rfl, hpath, hquery, rfl, rfl, rfl,
        rfl, rfl⟩⟩
    · simp only [hG, hP, if_false, Option.some_bind, Bool.not_false, if_true]
      exact ⟨_, rfl, by simp [hG, hP], fun _ => ⟨rfl, rfl⟩, by simp⟩

/-- Parsing a head that consists of a request line and the empty line (shared by the
statements about header-less heads). -/
theorem Request.parse_line_only (dst : Request) {M p V : List Char} {Q : Option (List Char)}
    (hM : M ≠ []) (hup : ∀ c ∈ M, is_upper_alpha c = true)
    (hp : ∀ c ∈ p, (is_pchar c || c == '/') = true) (hnn : p.head? ≠ some '/')
    (hq : ∀ q, Q = some q → ∀ c ∈ q, (is_pchar c || c == '/' || c == '?') = true)
    (hV : is_version V) :
    ∃ res, dst.parse (request_line M ('/' :: p) Q V ++ "\r\n".toList)
        (request_line M ('/' :: p) Q V ++ "\r\n".toList).length = some res
      ∧ (res.ok = true ↔ (M = "GET".toList ∨ M = "POST".toList))
      ∧ (res.ok = false → res.error = some "Method not supported")
      ∧ (res.ok = true → res.req.valid = true
          ∧ res.off = (request_line M ('/' :: p) Q V ++ "\r\n".toList).length
          ∧ res.req.method = (if M = "GET".toList then Method.GET else Method.POST)
          ∧ res.req.url.path.bytes = '/' :: p ∧ res.req.url.query.bytes = Q.getD []
          ∧ res.req.headers = dst.headers ∧ res.req.count = dst.count
          ∧ res.req.ignored_count = dst.ignored_count) := by
  generalize hsrc : Scanner.mk (request_line M ('/' :: p) Q V ++ "\r\n".toList)
    (request_line M ('/' :: p) Q V ++ "\r\n".toList).length = src
  have h : src.Rem 0 (request_line M ('/' :: p) Q V ++ "\r\n".toList) := by
    subst hsrc
    exact ⟨rfl, Nat.zero_le _, rfl⟩
  have hsl : src.len = (request_line M ('/' :: p) Q V ++ "\r\n".toList).length := by
    subst hsrc; rfl
  obtain ⟨l, hl, hiff, hfail, hok⟩ := parse_request_line_spec dst h hM hup hp hnn hq hV
  unfold Request.parse parse_request
  rw [hsrc]
  simp only [hl, Option.some_bind]
  cases hlo : l.ok with
  | false =>
    simp only [Bool.not_false, if_true, Option.some_bind]
    refine ⟨_, rfl, ?_, fun _ => (hfail hlo).1, fun hc => ?_⟩
    · rw [← hiff, hlo]
    · rw [hlo] at hc
      exact absurd hc (by decide)
  | true =>
    obtain ⟨hoff, herr, hmeth, hpath, hquery, hh, hcnt, hign, _, _⟩ := hok hlo
    have h2 : src.Rem l.off ("\r\n".toList ++ []) := by
      have := Scanner.Rem.advance (a := request_line M ('/' :: p) Q V) (b := "\r\n".toList) h
      rw [hoff]
      simpa using this
    have e := Scanner.consume_str_hit h2 (by decide)
    have hend : l.off + "\r\n".toList.length = src.len := by
      rw [hsl, hoff, List.length_append]
    simp only [String.toList] at e hend
    simp only [Bool.not_true, Bool.false_eq_true, if_false, e, Option.some_bind, hend,
      bne_self_eq_false]
    refine ⟨_, rfl, ?_, by simp, fun _ => ⟨rfl, ?_, hmeth, hpath, hquery, hh, hcnt, hign⟩⟩
    · rw [← hiff, hlo]
    · simp only [hsl]

theorem header_lines_cons (nv : List Char × List Char) (rest : List (List Char × List Char)) :
    header_lines (nv :: rest) = nv.1 ++ ':' :: (nv.2 ++ ('\r' :: '\n' :: header_lines rest)) := by
  simp [header_lines]

theorem header_lines_head_ne (lines : List (List Char × List Char)) (hw : wf_lines lines)
    (t : List Char) (c : Char) (hne : lines ≠ [])
    (h : (header_lines lines ++ t).head? = some c) : c ≠ '\r' := by
  cases lines with
  | nil => exact absurd rfl hne
  | cons nv rest =>
    rw [header_lines_cons] at h
    have hn := (hw nv (List.mem_cons_self _ _)).1
    cases hnv : nv.1 with
    | nil =>
      rw [hnv] at h
      simp at h
      rw [← h]; decide
    | cons x xs =>
      rw [hnv] at h
      simp at h
      rw [← h]
      exact (hn x (by rw [hnv]; exact List.mem_cons_self _ _)).2

/-- The header loop on a non-empty sequence of well-formed header lines followed by the
empty line. -/
theorem parse_headers_loop_spec {src : Scanner} (rest : List (List Char × List Char)) :
    ∀ (nv : List Char × List Char) (dst : Request) (off fuel : Nat),
      src.Rem off (header_lines (nv :: rest) ++ "\r\n".toList) → wf_lines (nv :: rest) →
      rest.length < fuel →
      parse_headers_loop src fuel dst off
        = some { ok := true, req := store_headers src.str dst off (nv :: rest),
                 off := off + (header_lines (nv :: rest) ++ "\r\n".toList).length,
                 error := none } := by
  induction rest with
  | nil =>
    intro nv dst off fuel h hw hf
    obtain ⟨n, v⟩ := nv
    have hwn := (hw (n, v) (List.mem_cons_self _ _)).1
    have hwv := (hw (n, v) (List.mem_cons_self _ _)).2
    have h0 : src.Rem off (n ++ ':' :: (v ++ ('\r' :: '\n' :: ['\r', '\n']))) := by
      simpa [header_lines] using h
    obtain ⟨b1, c1⟩ := Scanner.consume1_run (fun c => c != ':') h0
      (fun c hc => by simpa using (hwn c hc).1) (fun c hc => by
        simp only [List.head?_cons, Option.some.injEq] at hc
        rw [← hc]; decide)
    have h1 := Scanner.Rem.advance h0
    have c2 := Scanner.consume_char_hit h1
    have h2 : src.Rem (off + n.length + 1) (v ++ ('\r' :: '\n' :: ['\r', '\n'])) := h1.tail
    obtain ⟨b3, c3⟩ := Scanner.consume1_run (fun c => c != '\r') h2
      (fun c hc => by simpa using hwv c hc) (fun c hc => by
        simp only [List.head?_cons, Option.some.injEq] at hc
        rw [← hc]; decide)
    have h3 : src.Rem (off + n.length + 1 + v.length) (['\r', '\n'] ++ ['\r', '\n']) :=
      Scanner.Rem.advance h2
    have c4 := Scanner.consume_str_hit h3 (by decide)
    have h4 : src.Rem (off + n.length + 1 + v.length + 2) (['\r', '\n'] ++ []) :=
      Scanner.Rem.advance h3
    have c5 := Scanner.consume_str_hit h4 (by decide)
    cases fuel with
    | zero => omega
    | succ k =>
      simp only [parse_headers_loop, c1, c2, c3, c4, c5, Option.some_bind, Bool.not_true,
        Bool.false_eq_true, if_false, List.length_cons, List.length_nil]
      simp [store_headers, store_one, header_lines]
      omega
  | cons nv2 rest ih =>
    intro nv dst off fuel h hw hf
    obtain ⟨n, v⟩ := nv
    have hwn := (hw (n, v) (List.mem_cons_self _ _)).1
    have hwv := (hw (n, v) (List.mem_cons_self _ _)).2
    have hw2 : wf_lines (nv2 :: rest) := fun x hx => hw x (List.mem_cons_of_mem _ hx)
    have h0 : src.Rem off (n ++ ':' :: (v ++ ('\r' :: '\n' ::
        (header_lines (nv2 :: rest) ++ ['\r', '\n'])))) := by
      rw [header_lines_cons] at h
      simpa [List.append_assoc] using h
    obtain ⟨b1, c1⟩ := Scanner.consume1_run (fun c => c != ':') h0
      (fun c hc => by simpa using (hwn c hc).1) (fun c hc => by
        simp only [List.head?_cons, Option.some.injEq] at hc
        rw [← hc]; decide)
    have h1 := Scanner.Rem.advance h0
    have c2 := Scanner.consume_char_hit h1
    have h2 : src.Rem (off + n.length + 1)
        (v ++ ('\r' :: '\n' :: (header_lines (nv2 :: rest) ++ ['\r', '\n']))) := h1.tail
    obtain ⟨b3, c3⟩ := Scanner.consume1_run (fun c => c != '\r') h2
      (fun c hc => by simpa using hwv c hc) (fun c hc => by
        simp only [List.head?_cons, Option.some.injEq] at hc
        rw [← hc]; decide)
    have h3 : src.Rem (off + n.length + 1 + v.length)
        (['\r', '\n'] ++ (header_lines (nv2 :: rest) ++ ['\r', '\n'])) :=
      Scanner.Rem.advance h2
    have c4 := Scanner.consume_str_hit h3 (by decide)
    have h4 : src.Rem (off + n.length + 1 + v.length + 2)
        (header_lines (nv2 :: rest) ++ ['\r', '\n']) := Scanner.Rem.advance h3
    have c5 := Scanner.consume_str_miss (l := ['\r', '\n']) h4 (by decide) (by
      intro hpre
      obtain ⟨t, ht⟩ := hpre
      have := header_lines_head_ne (nv2 :: rest) hw2 ['\r', '\n'] '\r' (by simp)
        (by rw [← ht]; rfl)
      exact this rfl)
    cases fuel with
    | zero => omega
    | succ k =>
      have hrec := ih nv2 (store_one src.str dst off (n, v))
        (off + n.length + 1 + v.length + 2) k h4 hw2 (by simp only [List.length_cons] at hf; omega)
      simp only [store_one] at hrec
      simp only [parse_headers_loop, c1, c2, c3, c4, c5, Option.some_bind, Bool.not_true,
        Bool.false_eq_true, if_false, Bool.not_false, if_true, List.length_cons,
        List.length_nil, Nat.add_sub_cancel_left]
      simp only [String.toList] at hrec
      rw [hrec]
      simp only [store_headers, store_one, header_lines_cons, List.length_append,
        List.length_cons, String.toList]
      congr 2
      omega

/-! ### Stored headers -/

theorem store_headers_length (str : List Char) (lines : List (List Char × List Char)) :
    ∀ (dst : Request) (off : Nat),
      (store_headers str dst off lines).headers.length = dst.headers.length := by
  induction lines with
  | nil => intro dst off; rfl
  | cons nv rest ih =>
    intro dst off
    simp only [store_headers]
    rw [ih]
    unfold store_one
    split <;> simp

theorem store_one_count (str : List Char) (dst : Request) (off : Nat)
    (nv : List Char × List Char) :
    (store_one str dst off nv).count
        = (if dst.count < MAX_REQUEST_HEADERS then dst.count + 1 else dst.count)
      ∧ (store_one str dst off nv).ignored_count
        = (if dst.count < MAX_REQUEST_HEADERS then dst.ignored_count else dst.ignored_count + 1)
      ∧ (store_one str dst off nv).headers.length = dst.headers.length := by
  unfold store_one
  split <;> simp

theorem store_headers_count (str : List Char) (lines : List (List Char × List Char)) :
    ∀ (dst : Request) (off : Nat), dst.count ≤ MAX_REQUEST_HEADERS →
      (store_headers str dst off lines).count = min (dst.count + lines.length) MAX_REQUEST_HEADERS
      ∧ (store_headers str dst off lines).ignored_count
          = dst.ignored_count + (dst.count + lines.length
              - min (dst.count + lines.length) MAX_REQUEST_HEADERS) := by
  induction lines with
  | nil =>
    intro dst off h
    simp only [store_headers, List.length_nil, Nat.add_zero]
    omega
  | cons nv rest ih =>
    intro dst off h
    obtain ⟨e1, e2, _⟩ := store_one_count str dst off nv
    simp only [store_headers, List.length_cons]
    obtain ⟨h1, h2⟩ := ih (store_one str dst off nv) (off + nv.1.length + 1 + nv.2.length + 2)
      (by rw [e1]; split <;> omega)
    rw [h1, h2, e1, e2]
    split <;> omega

theorem store_headers_keep (str : List Char) (lines : List (List Char × List Char)) :
    ∀ (dst : Request) (off j : Nat), j < dst.count →
      (store_headers str dst off lines).headers[j]? = dst.headers[j]? := by
  induction lines with
  | nil => intro dst off j _; rfl
  | cons nv rest ih =>
    intro dst off j hj
    obtain ⟨e1, _, _⟩ := store_one_count str dst off nv
    simp only [store_headers]
    rw [ih _ _ j (by rw [e1]; split <;> omega)]
    unfold store_one
    split
    · simp only
      rw [List.getElem?_set_ne (by omega)]
    · rfl

theorem store_headers_get (str : List Char) (lines : List (List Char × List Char)) :
    ∀ (dst : Request) (off i : Nat) (tail : List Char) (nv : List Char × List Char),
      str.drop off = header_lines lines ++ tail → lines[i]? = some nv →
      dst.count + i < MAX_REQUEST_HEADERS → dst.count + i < dst.headers.length →
      ∃ h, (store_headers str dst off lines).headers[dst.count + i]? = some h
        ∧ h.name.bytes = nv.1 ∧ h.value.bytes = nv.2 := by
  induction lines with
  | nil => intro dst off i tail nv _ hi; simp at hi
  | cons x rest ih =>
    intro dst off i tail nv hd hi hlt hlen
    have hc : dst.count < MAX_REQUEST_HEADERS := by omega
    obtain ⟨e1, _, e3⟩ := store_one_count str dst off x
    rw [if_pos hc] at e1
    have hd2 : str.drop (off + x.1.length + 1 + x.2.length + 2) = header_lines rest ++ tail := by
      rw [header_lines_cons] at hd
      have e : off + x.1.length + 1 + x.2.length + 2
          = off + (x.1 ++ ':' :: (x.2 ++ ['\r', '\n'])).length := by
        simp only [List.length_append, List.length_cons, List.length_nil]
        omega
      rw [e, ← List.drop_drop, hd]
      have e2 : x.1 ++ ':' :: (x.2 ++ '\r' :: '\n' :: header_lines rest) ++ tail
          = (x.1 ++ ':' :: (x.2 ++ ['\r', '\n'])) ++ (header_lines rest ++ tail) := by
        simp [List.append_assoc]
      rw [e2, List.drop_left]
    simp only [store_headers]
    cases i with
    | zero =>
      simp only [List.getElem?_cons_zero, Option.some.injEq] at hi
      subst hi
      simp only [Nat.add_zero] at hlen ⊢
      rw [store_headers_keep _ _ _ _ dst.count (by rw [e1]; omega)]
      unfold store_one
      simp only [hc, if_true]
      rw [List.getElem?_set_eq_of_lt _ hlen]
      refine ⟨_, rfl, ?_, ?_⟩
      · rw [header_lines_cons] at hd
        simp [Slice.bytes, hd]
      · have hd1 : str.drop (off + x.1.length + 1)
            = x.2 ++ ('\r' :: '\n' :: header_lines rest ++ tail) := by
          rw [header_lines_cons] at hd
          have e : off + x.1.length + 1 = off + (x.1 ++ [':']).length := by
            simp only [List.length_append, List.length_cons, List.length_nil]
            omega
          rw [e, ← List.drop_drop, hd]
          have e2 : x.1 ++ ':' :: (x.2 ++ '\r' :: '\n' :: header_lines rest) ++ tail
              = (x.1 ++ [':']) ++ (x.2 ++ ('\r' :: '\n' :: header_lines rest ++ tail)) := by
            simp [List.append_assoc]
          rw [e2, List.drop_left]
        simp [Slice.bytes, hd1]
    | succ k =>
      simp only [List.getElem?_cons_succ] at hi
      have := ih (store_one str dst off x) (off + x.1.length + 1 + x.2.length + 2) k tail nv
        hd2 hi (by rw [e1]; omega) (by rw [e1, e3]; omega)
      rw [e1] at this
      have e : dst.count + (k + 1) = dst.count + 1 + k := by omega
      rw [e]
      exact this

theorem header_lines_length_ge (lines : List (List Char × List Char)) :
    lines.length ≤ (header_lines lines).length := by
  induction lines with
  | nil => simp
  | cons x r ih =>
    rw [header_lines_cons]
    simp only [List.length_append, List.length_cons]
    omega

/-- Parsing a head made of an accepted request line, at least one well-formed header line
and the empty line (shared by the statements about header storage). -/
theorem Request.parse_with_headers (dst : Request) {M p V : List Char}
    {Q : Option (List Char)} (nv : List Char × List Char)
    (rest : List (List Char × List Char))
    (hM : M = "GET".toList ∨ M = "POST".toList)
    (hp : ∀ c ∈ p, (is_pchar c || c == '/') = true) (hnn : p.head? ≠ some '/')
    (hq : ∀ q, Q = some q → ∀ c ∈ q, (is_pchar c || c == '/' || c == '?') = true)
    (hV : is_version V) (hw : wf_lines (nv :: rest)) :
    ∃ res base, dst.parse
        (request_line M ('/' :: p) Q V ++ (header_lines (nv :: rest) ++ "\r\n".toList))
        (request_line M ('/' :: p) Q V ++ (header_lines (nv :: rest) ++ "\r\n".toList)).length
          = some res
      ∧ res.ok = true ∧ res.error = none
      ∧ base.headers = dst.headers ∧ base.count = dst.count
      ∧ base.ignored_count = dst.ignored_count
      ∧ res.req = { store_headers
          (request_line M ('/' :: p) Q V ++ (header_lines (nv :: rest) ++ "\r\n".toList))
          base (request_line M ('/' :: p) Q V).length (nv :: rest) with valid := true } := by
  generalize hhead :
    request_line M ('/' :: p) Q V ++ (header_lines (nv :: rest) ++ "\r\n".toList) = head
  generalize hsrc : Scanner.mk head head.length = src
  have hstr : src.str = head := by subst hsrc; rfl
  have h : src.Rem 0
      (request_line M ('/' :: p) Q V ++ (header_lines (nv :: rest) ++ "\r\n".toList)) := by
    subst hsrc
    rw [hhead]
    exact ⟨rfl, Nat.zero_le _, rfl⟩
  have hMne : M ≠ [] := by
    rcases hM with rfl | rfl <;> decide
  have hup : ∀ c ∈ M, is_upper_alpha c = true := by
    rcases hM with rfl | rfl <;> decide
  obtain ⟨l, hl, hiff, _, hok⟩ := parse_request_line_spec dst h hMne hup hp hnn hq hV
  have hlo : l.ok = true := hiff.mpr hM
  obtain ⟨hoff, herr, hmeth, hpath, hquery, hh, hcnt, hign, _, _⟩ := hok hlo
  have h2 : src.Rem l.off (header_lines (nv :: rest) ++ "\r\n".toList) := by
    have := Scanner.Rem.advance h
    rw [hoff]
    simpa using this
  have e := Scanner.consume_str_miss (l := ['\r', '\n']) h2 (by decide) (by
    intro hpre
    obtain ⟨t, ht⟩ := hpre
    have := header_lines_head_ne (nv :: rest) hw "\r\n".toList '\r' (by simp)
      (by rw [← ht]; rfl)
    exact this rfl)
  have hloop := parse_headers_loop_spec rest nv l.req l.off (src.len - l.off + 1) h2 hw (by
    have hl2 := h2.length
    have := header_lines_length_ge (nv :: rest)
    simp only [List.length_cons] at this
    simp only [List.length_append] at hl2
    omega)
  have hend : l.off + (header_lines (nv :: rest) ++ "\r\n".toList).length = src.len :=
    h2.length
  unfold Request.parse parse_request
  rw [hsrc]
  simp only [hl, Option.some_bind, hlo, Bool.not_true, Bool.false_eq_true, if_false, e,
    Bool.not_false, if_true, hloop, hend, bne_self_eq_false]
  refine ⟨_, l.req, rfl, rfl, rfl, hh, hcnt, hign, ?_⟩
  simp only [hstr, hoff]

/-- Parsing a head with any number of well-formed header lines into a fresh `Request`
(shared by the statements about header storage). -/
theorem Request.parse_header_lines {M p V : List Char} {Q : Option (List Char)}
    (lines : List (List Char × List Char))
    (hM : M = "GET".toList ∨ M = "POST".toList)
    (hp : ∀ c ∈ p, (is_pchar c || c == '/') = true) (hnn : p.head? ≠ some '/')
    (hq : ∀ q, Q = some q → ∀ c ∈ q, (is_pchar c || c == '/' || c == '?') = true)
    (hV : is_version V) (hw : wf_lines lines) :
    ∃ res, Request.new.parse
        (request_line M ('/' :: p) Q V ++ (header_lines lines ++ "\r\n".toList))
        (request_line M ('/' :: p) Q V ++ (header_lines lines ++ "\r\n".toList)).length
          = some res
      ∧ res.ok = true
      ∧ res.req.count = min lines.length MAX_REQUEST_HEADERS
      ∧ res.req.ignored_count = lines.length - min lines.length MAX_REQUEST_HEADERS
      ∧ ∀ i nv, i < MAX_REQUEST_HEADERS → lines[i]? = some nv →
          ∃ h, res.req.headers[i]? = some h ∧ h.name.bytes = nv.1 ∧ h.value.bytes = nv.2 := by
  cases lines with
  | nil =>
    have hMne : M ≠ [] := by
      rcases hM with rfl | rfl <;> decide
    have hup : ∀ c ∈ M, is_upper_alpha c = true := by
      rcases hM with rfl | rfl <;> decide
    obtain ⟨res, hres, hiff, _, hok⟩ := Request.parse_line_only Request.new hMne hup hp hnn hq hV
    have hlo : res.ok = true := hiff.mpr hM
    obtain ⟨_, _, _, _, _, _, hcnt, hign⟩ := hok hlo
    refine ⟨res, by simpa [header_lines] using hres, hlo, ?_, ?_, ?_⟩
    · rw [hcnt]; rfl
    · rw [hign]; rfl
    · intro i nv _ hi
      simp at hi
  | cons x rest =>
    obtain ⟨res, base, hres, hok, _, hh, hcnt, hign, hreq⟩ :=
      Request.parse_with_headers Request.new x rest hM hp hnn hq hV hw
    have hc0 : base.count = 0 := by rw [hcnt]; rfl
    have hi0 : base.ignored_count = 0 := by rw [hign]; rfl
    have hl0 : base.headers.length = MAX_REQUEST_HEADERS := by
      rw [hh]; simp [Request.new]
    obtain ⟨c1, c2⟩ := store_headers_count
      (request_line M ('/' :: p) Q V ++ (header_lines (x :: rest) ++ "\r\n".toList)) (x :: rest)
      base (request_line M ('/' :: p) Q V).length (by rw [hc0]; exact Nat.zero_le _)
    refine ⟨res, hres, hok, ?_, ?_, ?_⟩
    · rw [hreq]
      simp only
      rw [c1, hc0, Nat.zero_add]
    · rw [hreq]
      simp only
      rw [c2, hc0, hi0, Nat.zero_add, Nat.zero_add]
    · intro i nv hi hnv
      have := store_headers_get
        (request_line M ('/' :: p) Q V ++ (header_lines (x :: rest) ++ "\r\n".toList)) (x :: rest)
        base (request_line M ('/' :: p) Q V).length i "\r\n".toList nv (List.drop_left _ _) hnv
        (by rw [hc0]; omega) (by rw [hc0, hl0]; omega)
      rw [hc0, Nat.zero_add] at this
      rw [hreq]
      exact this

theorem wf_lines_replicate (k : Nat) : wf_lines (List.replicate k (['a'], ['b'])) := by
  intro nv hnv
  rw [List.mem_replicate] at hnv
  rw [hnv.2]
  decide

/-- C7: for a head `M SP T SP V CRLF CRLF` with `M` a non-empty run of upper-case letters,
`T` a path "/"… (not starting with "//") with an optional "?" query, and `V` one of
"HTTP/1", "HTTP/1.0", "HTTP/1.1", `Request::parse` on a fresh `Request` returns, and it
succeeds if and only if `M` is "GET" or "POST"; a rejected method is reported as
"Method not supported"; on success the whole input is consumed, `method` is GET or POST
accordingly, `url.path` is the path of `T`, `url.query` its query, and no header is
recorded. -/
theorem parse_accepts_exactly_get_and_post (M p V : List Char) (Q : Option (List Char))
    (hM : M ≠ []) (hup : ∀ c ∈ M, is_upper_alpha c = true)
    (hp : ∀ c ∈ p, (is_pchar c || c == '/') = true) (hnn : p.head? ≠ some '/')
    (hq : ∀ q, Q = some q → ∀ c ∈ q, (is_pchar c || c == '/' || c == '?') = true)
    (hV : is_version V) :
    ∃ res, Request.new.parse (request_line M ('/' :: p) Q V ++ "\r\n".toList)
        (request_line M ('/' :: p) Q V ++ "\r\n".toList).length = some res
      ∧ (res.ok = true ↔ (M = "GET".toList ∨ M = "POST".toList))
      ∧ (res.ok = false → res.error = some "Method not supported")
      ∧ (res.ok = true → res.req.valid = true
          ∧ res.off = (request_line M ('/' :: p) Q V ++ "\r\n".toList).length
          ∧ res.req.method = (if M = "GET".toList then Method.GET else Method.POST)
          ∧ res.req.url.path.bytes = '/' :: p ∧ res.req.url.query.bytes = Q.getD []
          ∧ res.req.count = 0 ∧ res.req.ignored_count = 0) := by
  obtain ⟨res, h1, h2, h3, h4⟩ := Request.parse_line_only Request.new hM hup hp hnn hq hV
  refine ⟨res, h1, h2, h3, fun hok => ?_⟩
  obtain ⟨a, b, c, d, e, _, f, g⟩ := h4 hok
  exact ⟨a, b, c, d, e, f, g⟩

/-- C7, instance: the head "GET /b HTTP/1.1\r\n\r\n". -/
theorem parse_accepts_exactly_get_and_post_witness :
    "GET".toList ≠ [] ∧ (∀ c ∈ "GET".toList, is_upper_alpha c = true)
    ∧ (∀ c ∈ "b".toList, (is_pchar c || c == '/') = true) ∧ "b".toList.head? ≠ some '/'
    ∧ is_version "HTTP/1.1".toList
    ∧ ∃ res, Request.new.parse
          (request_line "GET".toList ('/' :: "b".toList) none "HTTP/1.1".toList ++ "\r\n".toList)
          (request_line "GET".toList ('/' :: "b".toList) none "HTTP/1.1".toList
            ++ "\r\n".toList).length = some res
        ∧ (res.ok = true ↔ ("GET".toList = "GET".toList ∨ "GET".toList = "POST".toList))
        ∧ (res.ok = false → res.error = some "Method not supported")
        ∧ (res.ok = true → res.req.valid = true
            ∧ res.off = (request_line "GET".toList ('/' :: "b".toList) none "HTTP/1.1".toList
                ++ "\r\n".toList).length
            ∧ res.req.method
                = (if "GET".toList = "GET".toList then Method.GET else Method.POST)
            ∧ res.req.url.path.bytes = '/' :: "b".toList
            ∧ res.req.url.query.bytes = (none : Option (List Char)).getD []
            ∧ res.req.count = 0 ∧ res.req.ignored_count = 0) :=
  ⟨by decide, by decide, by decide, by decide, Or.inr (Or.inr rfl),
    parse_accepts_exactly_get_and_post "GET".toList "b".toList "HTTP/1.1".toList none
      (by decide) (by decide) (by decide) (by decide) (fun q hq => by simp at hq)
      (Or.inr (Or.inr rfl))⟩

/-- C8: for a head with an accepted request line and n header lines `name:value CRLF`
(no ':' and no CR in a name, no CR in a value) parsed into a fresh `Request`, parsing
succeeds with `count = min(n, 32)` and `ignored_count = n - min(n, 32)`, and for every
i < min(n, 32) `headers[i]` holds exactly the i-th name and value, in input order. -/
theorem parse_stores_first_32_headers (M p V : List Char) (Q : Option (List Char))
    (lines : List (List Char × List Char))
    (hM : M = "GET".toList ∨ M = "POST".toList)
    (hp : ∀ c ∈ p, (is_pchar c || c == '/') = true) (hnn : p.head? ≠ some '/')
    (hq : ∀ q, Q = some q → ∀ c ∈ q, (is_pchar c || c == '/' || c == '?') = true)
    (hV : is_version V) (hw : wf_lines lines) :
    ∃ res, Request.new.parse
        (request_line M ('/' :: p) Q V ++ (header_lines lines ++ "\r\n".toList))
        (request_line M ('/' :: p) Q V ++ (header_lines lines ++ "\r\n".toList)).length
          = some res
      ∧ res.ok = true
      ∧ res.req.count = min lines.length 32
      ∧ res.req.ignored_count = lines.length - min lines.length 32
      ∧ ∀ i nv, i < 32 → lines[i]? = some nv →
          ∃ h, res.req.headers[i]? = some h ∧ h.name.bytes = nv.1 ∧ h.value.bytes = nv.2 :=
  Request.parse_header_lines lines hM hp hnn hq hV hw

/-- C8, instance: "POST /x HTTP/1.1" with the two header lines "Content-Length: 5" and
"Foo:bar". -/
theorem parse_stores_first_32_headers_witness :
    ("POST".toList = "GET".toList ∨ "POST".toList = "POST".toList)
    ∧ (∀ c ∈ "x".toList, (is_pchar c || c == '/') = true) ∧ "x".toList.head? ≠ some '/'
    ∧ is_version "HTTP/1.1".toList
    ∧ wf_lines [("Content-Length".toList, " 5".toList), ("Foo".toList, "bar".toList)]
    ∧ ∃ res, Request.new.parse
          (request_line "POST".toList ('/' :: "x".toList) none "HTTP/1.1".toList
            ++ (header_lines [("Content-Length".toList, " 5".toList),
                  ("Foo".toList, "bar".toList)] ++ "\r\n".toList))
          (request_line "POST".toList ('/' :: "x".toList) none "HTTP/1.1".toList
            ++ (header_lines [("Content-Length".toList, " 5".toList),
                  ("Foo".toList, "bar".toList)] ++ "\r\n".toList)).length = some res
        ∧ res.ok = true
        ∧ res.req.count
            = min [("Content-Length".toList, " 5".toList), ("Foo".toList, "bar".toList)].length 32
        ∧ res.req.ignored_count
            = [("Content-Length".toList, " 5".toList), ("Foo".toList, "bar".toList)].length
              - min [("Content-Length".toList, " 5".toList),
                  ("Foo".toList, "bar".toList)].length 32
        ∧ ∀ i nv, i < 32 →
            [("Content-Length".toList, " 5".toList), ("Foo".toList, "bar".toList)][i]? = some nv →
            ∃ h, res.req.headers[i]? = some h ∧ h.name.bytes = nv.1 ∧ h.value.bytes = nv.2 :=
  ⟨Or.inr rfl, by decide, by decide, Or.inr (Or.inr rfl), by unfold wf_lines; decide,
    parse_stores_first_32_headers "POST".toList "x".toList "HTTP/1.1".toList none
      [("Content-Length".toList, " 5".toList), ("Foo".toList, "bar".toList)]
      (Or.inr rfl) (by decide) (by decide) (fun q hq => by simp at hq) (Or.inr (Or.inr rfl))
      (by unfold wf_lines; decide)⟩

/-- C9 (counterexample): the head "GET / HTTP/1.1" with 32 header lines "a:b" parses with
`count == 32` and `ignored_count == 0`: the 32nd header is stored, not dropped. -/
theorem parse_32_headers_stores_all :
    ∃ res, Request.new.parse
        (request_line "GET".toList ['/'] none "HTTP/1.1".toList
          ++ (header_lines (List.replicate 32 (['a'], ['b'])) ++ "\r\n".toList))
        (request_line "GET".toList ['/'] none "HTTP/1.1".toList
          ++ (header_lines (List.replicate 32 (['a'], ['b'])) ++ "\r\n".toList)).length
          = some res
      ∧ res.ok = true ∧ res.req.count = 32 ∧ res.req.ignored_count = 0
      ∧ ¬ (res.req.count = 31 ∧ res.req.ignored_count = 1) := by
  obtain ⟨res, h1, h2, h3, h4, _⟩ := Request.parse_header_lines (M := "GET".toList) (p := [])
    (V := "HTTP/1.1".toList) (Q := none) (List.replicate 32 (['a'], ['b'])) (Or.inl rfl)
    (by decide) (by decide) (fun q hq => by simp at hq) (Or.inr (Or.inr rfl))
    (wf_lines_replicate 32)
  simp only [List.length_replicate, MAX_REQUEST_HEADERS] at h3 h4
  exact ⟨res, h1, h2, by simpa using h3, by simpa using h4, by
    intro hc
    rw [hc.1] at h3
    simp at h3⟩

/-- C9 (amended): header-capacity boundary. A head with 31 header lines parsed into a fresh
`Request` has all 31 stored with `ignored_count == 0`; a head with 32 header lines has all
32 stored, `count == 32` and `ignored_count == 0`; a head with 33 header lines has its
33rd header dropped, leaving `count == 32` and `ignored_count == 1`. -/
theorem header_capacity_boundary (M p V : List Char) (Q : Option (List Char))
    (lines : List (List Char × List Char))
    (hM : M = "GET".toList ∨ M = "POST".toList)
    (hp : ∀ c ∈ p, (is_pchar c || c == '/') = true) (hnn : p.head? ≠ some '/')
    (hq : ∀ q, Q = some q → ∀ c ∈ q, (is_pchar c || c == '/' || c == '?') = true)
    (hV : is_version V) (hw : wf_lines lines) :
    ∃ res, Request.new.parse
        (request_line M ('/' :: p) Q V ++ (header_lines lines ++ "\r\n".toList))
        (request_line M ('/' :: p) Q V ++ (header_lines lines ++ "\r\n".toList)).length
          = some res
      ∧ res.ok = true
      ∧ (lines.length = 31 → res.req.count = 31 ∧ res.req.ignored_count = 0)
      ∧ (lines.length = 32 → res.req.count = 32 ∧ res.req.ignored_count = 0)
      ∧ (lines.length = 33 → res.req.count = 32 ∧ res.req.ignored_count = 1)
      ∧ ∀ i nv, i < 32 → lines[i]? = some nv →
          ∃ h, res.req.headers[i]? = some h ∧ h.name.bytes = nv.1 ∧ h.value.bytes = nv.2 := by
  obtain ⟨res, h1, h2, h3, h4, h5⟩ := Request.parse_header_lines lines hM hp hnn hq hV hw
  simp only [MAX_REQUEST_HEADERS] at h3 h4 h5
  refine ⟨res, h1, h2, fun hl => ?_, fun hl => ?_, fun hl => ?_, h5⟩
  · rw [hl] at h3 h4
    exact ⟨by simpa using h3, by simpa using h4⟩
  · rw [hl] at h3 h4
    exact ⟨by simpa using h3, by simpa using h4⟩
  · rw [hl] at h3 h4
    exact ⟨by simpa using h3, by simpa using h4⟩

/-- C9 (amended), instance: "GET / HTTP/1.1" with 33 header lines "a:b". -/
theorem header_capacity_boundary_witness :
    ("GET".toList = "GET".toList ∨ "GET".toList = "POST".toList)
    ∧ is_version "HTTP/1.1".toList ∧ wf_lines (List.replicate 33 (['a'], ['b']))
    ∧ ∃ res, Request.new.parse
          (request_line "GET".toList ('/' :: []) none "HTTP/1.1".toList
            ++ (header_lines (List.replicate 33 (['a'], ['b'])) ++ "\r\n".toList))
          (request_line "GET".toList ('/' :: []) none "HTTP/1.1".toList
            ++ (header_lines (List.replicate 33 (['a'], ['b'])) ++ "\r\n".toList)).length
            = some res
        ∧ res.ok = true
        ∧ ((List.replicate 33 (['a'], ['b'])).length = 31 →
            res.req.count = 31 ∧ res.req.ignored_count = 0)
        ∧ ((List.replicate 33 (['a'], ['b'])).length = 32 →
            res.req.count = 32 ∧ res.req.ignored_count = 0)
        ∧ ((List.replicate 33 (['a'], ['b'])).length = 33 →
            res.req.count = 32 ∧ res.req.ignored_count = 1)
        ∧ ∀ i nv, i < 32 → (List.replicate 33 (['a'], ['b']))[i]? = some nv →
            ∃ h, res.req.headers[i]? = some h ∧ h.name.bytes = nv.1 ∧ h.value.bytes = nv.2 :=
  ⟨Or.inl rfl, Or.inr (Or.inr rfl), wf_lines_replicate 33,
    header_capacity_boundary "GET".toList [] "HTTP/1.1".toList none
      (List.replicate 33 (['a'], ['b'])) (Or.inl rfl) (by decide) (by decide)
      (fun q hq => by simp at hq) (Or.inr (Or.inr rfl)) (wf_lines_replicate 33)⟩

/-! ### `content_length` -/

theorem Slice.bytes_length {s : Slice} (h : s.in_range) : s.bytes.length = s.len := by
  unfold Slice.in_range at h
  simp only [Slice.bytes, List.length_take, List.length_drop]
  omega

theorem Slice.at_eq {s : Slice} (h : s.in_range) (k : Nat) (hk : k < s.len) :
    s.at (k : Int) = s.bytes[k]? := by
  unfold Slice.in_range at h
  unfold Slice.at
  have h1 : (0 : Int) ≤ (k : Int) ∧ (k : Int) < (s.len : Int) := ⟨by omega, by omega⟩
  rw [if_pos h1]
  simp only [Slice.bytes, Int.toNat_ofNat]
  rw [List.getElem?_take_of_lt hk]
  have hlt : k < (s.str.drop s.off).length := by
    simp only [List.length_drop]; omega
  rw [List.getD_eq_getElem?_getD, List.getElem?_eq_getElem hlt]
  rfl

theorem Slice.eq_cstr_iff {s : Slice} (h : s.in_range) (lit : List Char) (hl : cstr lit = lit) :
    s.eq_cstr lit = (s.bytes == lit) := by
  have hb := Slice.bytes_length h
  unfold Slice.eq_cstr
  simp only [strlen, hl]
  by_cases hlen : lit.length = s.len
  · have : ¬ ((lit.length : Int) != (s.len : Int)) = true := by simp [hlen]
    rw [if_neg this]
    simp only [memeq, Slice.bytes]
    rw [← hlen, List.take_length]
  · have : ((lit.length : Int) != (s.len : Int)) = true := by
      simp only [bne_iff_ne, ne_eq, Nat.cast_inj]
      exact hlen
    rw [if_pos this]
    have : s.bytes ≠ lit := fun hh => hlen (by rw [← hh, hb])
    simp [this]

theorem digit_bounds {c : Char} (h : is_digit c = true) : 48 ≤ c.toNat ∧ c.toNat ≤ 57 := by
  simp only [is_digit, Bool.and_eq_true, decide_eq_true_eq] at h
  obtain ⟨h1, h2⟩ := h
  rw [Char.le_def] at h1 h2
  constructor
  · exact h1
  · exact h2

theorem decimal_from_mono (ds : List Char) : ∀ acc, acc ≤ decimal_from acc ds := by
  induction ds with
  | nil => intro acc; exact Nat.le_refl _
  | cons c t ih =>
    intro acc
    have := ih (acc * 10 + (c.toNat - 48))
    simp only [decimal_from, List.foldl_cons] at this ⊢
    omega

theorem skip_spaces_spec {value : Slice} (hv : value.in_range) :
    ∀ (n j : Nat), j + n = value.len →
      skip_spaces value n j = some (j + ((value.bytes.drop j).takeWhile is_space).length) := by
  have hb := Slice.bytes_length hv
  intro n
  induction n with
  | zero =>
    intro j hj
    have : value.bytes.drop j = [] := List.drop_of_length_le (by omega)
    simp [skip_spaces, this]
  | succ n ih =>
    intro j hj
    have hlt : j < value.bytes.length := by omega
    have hd : value.bytes.drop j = value.bytes[j] :: value.bytes.drop (j + 1) :=
      List.drop_eq_getElem_cons hlt
    have ha := Slice.at_eq hv j (by omega)
    rw [List.getElem?_eq_getElem hlt] at ha
    simp only [skip_spaces, ha, Option.some_bind, hd, List.takeWhile_cons]
    by_cases hs : is_space value.bytes[j] = true
    · simp only [hs, if_true, List.length_cons]
      rw [ih (j + 1) (by omega)]
      congr 1
      omega
    · simp only [hs, if_false, List.length_nil, Nat.add_zero]
      simp

theorem digits_loop_spec {value : Slice} (hv : value.in_range) :
    ∀ (n j acc : Nat) (c : Char) (t : List Char), j + n = value.len → acc ≤ 2147483647 →
      value.bytes.drop j = c :: t → is_digit c = true →
      digits_loop value n (acc : Int) j
        = some (if decimal_from acc ((c :: t).takeWhile is_digit) ≤ 2147483647
            then (decimal_from acc ((c :: t).takeWhile is_digit) : Int) else -1) := by
  have hb := Slice.bytes_length hv
  intro n
  induction n with
  | zero =>
    intro j acc c t hj _ hd _
    have : value.bytes.drop j = [] := List.drop_of_length_le (by omega)
    rw [this] at hd
    exact absurd hd (by simp)
  | succ n ih =>
    intro j acc c t hj hacc hd hc
    have hlt : j < value.bytes.length := by omega
    have hd' : value.bytes.drop j = value.bytes[j] :: value.bytes.drop (j + 1) :=
      List.drop_eq_getElem_cons hlt
    rw [hd] at hd'
    obtain ⟨hcj, htj⟩ := List.cons.inj hd'
    have ha := Slice.at_eq hv j (by omega)
    rw [List.getElem?_eq_getElem hlt, ← hcj] at ha
    obtain ⟨b1, b2⟩ := digit_bounds hc
    have h0 : ('0'.toNat : Int) = 48 := by decide
    have hstep : decimal_from acc ((c :: t).takeWhile is_digit)
        = decimal_from (acc * 10 + (c.toNat - 48)) (t.takeWhile is_digit) := by
      simp [List.takeWhile_cons, hc, decimal_from]
    have hmono := decimal_from_mono (t.takeWhile is_digit) (acc * 10 + (c.toNat - 48))
    simp only [digits_loop, ha, Option.some_bind, hc, Bool.not_true, Bool.false_eq_true,
      if_false, h0, INT_MAX]
    by_cases hover : (acc : Int) > (2147483647 - ((c.toNat : Int) - 48)) / 10
    · rw [if_pos hover]
      have : ¬ decimal_from acc ((c :: t).takeWhile is_digit) ≤ 2147483647 := by
        rw [hstep]
        omega
      rw [if_neg this]
    · rw [if_neg hover]
      have hacc2 : acc * 10 + (c.toNat - 48) ≤ 2147483647 := by omega
      have hcast : (acc : Int) * 10 + ((c.toNat : Int) - 48)
          = ((acc * 10 + (c.toNat - 48) : Nat) : Int) := by omega
      by_cases hmore : j + 1 < value.len
      · rw [if_pos hmore]
        have hlt2 : j + 1 < value.bytes.length := by omega
        have hd2 : value.bytes.drop (j + 1)
            = value.bytes[j + 1] :: value.bytes.drop (j + 1 + 1) :=
          List.drop_eq_getElem_cons hlt2
        have ha2 := Slice.at_eq hv (j + 1) hmore
        rw [List.getElem?_eq_getElem hlt2] at ha2
        simp only [ha2, Option.some_bind]
        by_cases hc2 : is_digit value.bytes[j + 1] = true
        · rw [if_pos hc2, hcast]
          rw [ih (j + 1) _ value.bytes[j + 1] (value.bytes.drop (j + 1 + 1)) (by omega) hacc2
            hd2 hc2]
          rw [hstep, htj, hd2]
        · rw [if_neg hc2]
          have : t.takeWhile is_digit = [] := by
            rw [htj, hd2]
            simp [List.takeWhile_cons, hc2]
          rw [hstep, this]
          simp only [decimal_from, List.foldl_nil]
          rw [if_pos hacc2, hcast]
      · rw [if_neg hmore]
        have : t = [] := by
          rw [htj]
          exact List.drop_of_length_le (by omega)
        rw [hstep, this]
        simp only [List.takeWhile_nil, decimal_from, List.foldl_nil]
        rw [if_pos hacc2, hcast]

theorem find_congr_headers (p q : Header → Bool) (L : List Header)
    (h : ∀ x ∈ L, p x = q x) : L.find? p = L.find? q := by
  induction L with
  | nil => rfl
  | cons a t ih =>
    have ha := h a (List.mem_cons_self _ _)
    have := ih (fun x hx => h x (List.mem_cons_of_mem _ hx))
    simp only [List.find?_cons, ha, this]

theorem find_content_length_spec (r : Request) (L : List Header) :
    ∀ (i : Nat), (∀ k, k < L.length → r.headers[i + k]? = L[k]?) →
      (L.find? (fun h => h.name.eq_cstr "Content-Length".toList) = none
          ∧ r.find_content_length L.length i = some (i + L.length))
      ∨ ∃ j h, j < L.length
          ∧ L.find? (fun h => h.name.eq_cstr "Content-Length".toList) = some h
          ∧ r.headers[i + j]? = some h
          ∧ r.find_content_length L.length i = some (i + j) := by
  induction L with
  | nil =>
    intro i _
    exact Or.inl ⟨rfl, rfl⟩
  | cons a t ih =>
    intro i hk
    have h0 : r.headers[i]? = some a := by
      have := hk 0 (by simp)
      simpa using this
    cases hp : a.name.eq_cstr "Content-Length".toList with
    | true =>
      refine Or.inr ⟨0, a, Nat.succ_pos _, ?_, h0, ?_⟩
      · rw [List.find?_cons]
        simp only [hp]
      · simp only [List.length_cons, Request.find_content_length, h0, Option.some_bind, hp,
          if_true]
        rfl
    | false =>
      have hrec := ih (i + 1) (fun k hk2 => by
        have := hk (k + 1) (by simp only [List.length_cons]; omega)
        rw [List.getElem?_cons_succ] at this
        rw [← this]
        congr 1
        omega)
      rcases hrec with ⟨h1, h2⟩ | ⟨j, h, hj, h1, h2, h3⟩
      · refine Or.inl ⟨?_, ?_⟩
        · rw [List.find?_cons]
          simp only [hp, h1]
        · simp only [List.length_cons, Request.find_content_length, h0, Option.some_bind, hp,
            Bool.false_eq_true, if_false]
          rw [h2]
          congr 1
          omega
      · refine Or.inr ⟨j + 1, h, by simp only [List.length_cons]; omega, ?_, ?_, ?_⟩
        · rw [List.find?_cons]
          simp only [hp, h1]
        · rw [← h2]
          congr 1
          omega
        · simp only [List.length_cons, Request.find_content_length, h0, Option.some_bind, hp,
            Bool.false_eq_true, if_false]
          rw [h3]
          congr 1
          omega

theorem drop_takeWhile_length (p : Char → Bool) (l : List Char) :
    l.drop (l.takeWhile p).length = l.dropWhile p := by
  have h := List.takeWhile_append_dropWhile p l
  have := List.drop_left (l.takeWhile p) (l.dropWhile p)
  rw [h] at this
  exact this

/-- `content_length()` computes what the spec says, on every valid request whose stored
headers are views inside their referents. -/
theorem Request.content_length_of_ok (r : Request) (hv : r.valid = true)
    (hok : r.headers_ok) : r.content_length = some (content_length_spec r) := by
  obtain ⟨hcnt, hin⟩ := hok
  have hL : (r.headers.take r.count).length = r.count := by
    rw [List.length_take]; omega
  have hget : ∀ k, k < (r.headers.take r.count).length
      → r.headers[0 + k]? = (r.headers.take r.count)[k]? := by
    intro k hk
    rw [hL] at hk
    rw [Nat.zero_add, List.getElem?_take_of_lt hk]
  have hcongr : (r.headers.take r.count).find? (fun h => h.name.bytes == "Content-Length".toList)
      = (r.headers.take r.count).find? (fun h => h.name.eq_cstr "Content-Length".toList) := by
    apply find_congr_headers
    intro x hx
    obtain ⟨k, hk, hxk⟩ := List.getElem_of_mem hx
    rw [hL] at hk
    have hk2 : r.headers[k]? = some x := by
      rw [← hxk, ← List.getElem?_eq_getElem, List.getElem?_take_of_lt hk]
    exact (Slice.eq_cstr_iff (hin k x hk hk2).1 _ (by decide)).symm
  unfold Request.content_length content_length_spec
  rw [hcongr]
  simp only [hv, Bool.not_true, Bool.false_eq_true, if_false]
  rcases find_content_length_spec r (r.headers.take r.count) 0 hget with
    ⟨h1, h2⟩ | ⟨j, h, hj, h1, h2, h3⟩
  · rw [hL] at h2
    simp only [h1, h2, Option.some_bind, Nat.zero_add, beq_self_eq_true, if_true]
  · rw [hL] at hj h3
    rw [Nat.zero_add] at h2 h3
    have hne : (j == r.count) = false := by
      simp only [beq_eq_false_iff_ne, ne_eq]
      omega
    have hvr := (hin j h hj h2).2
    have hb := Slice.bytes_length hvr
    have hsk := skip_spaces_spec hvr h.value.len 0 (by omega)
    simp only [Nat.zero_add, List.drop_zero] at hsk
    simp only [h1, h3, Option.some_bind, hne, Bool.false_eq_true, if_false, h2, hsk]
    have hdw := drop_takeWhile_length is_space h.value.bytes
    have hle : (h.value.bytes.takeWhile is_space).length ≤ h.value.bytes.length :=
      (List.takeWhile_sublist _).length_le
    by_cases hend : (h.value.bytes.takeWhile is_space).length = h.value.len
    · have hnil : h.value.bytes.dropWhile is_space = [] := by
        rw [← hdw]
        exact List.drop_of_length_le (by omega)
      simp [hend, hnil]
    · have hlt : (h.value.bytes.takeWhile is_space).length < h.value.bytes.length := by omega
      have hne2 : ((h.value.bytes.takeWhile is_space).length == h.value.len) = false := by
        simp only [beq_eq_false_iff_ne, ne_eq]
        exact hend
      have hd : h.value.bytes.dropWhile is_space
          = h.value.bytes[(h.value.bytes.takeWhile is_space).length]
            :: h.value.bytes.drop ((h.value.bytes.takeWhile is_space).length + 1) := by
        rw [← hdw]
        exact List.drop_eq_getElem_cons hlt
      have ha := Slice.at_eq hvr (h.value.bytes.takeWhile is_space).length (by omega)
      rw [List.getElem?_eq_getElem hlt] at ha
      generalize h.value.bytes[(h.value.bytes.takeWhile is_space).length] = c at hd ha
      simp only [hne2, Bool.false_eq_true, if_false, ha, Option.some_bind]
      by_cases hdig : is_digit c = true
      · have hdl := digits_loop_spec hvr
          (h.value.len - (h.value.bytes.takeWhile is_space).length)
          (h.value.bytes.takeWhile is_space).length 0 c
          (h.value.bytes.drop ((h.value.bytes.takeWhile is_space).length + 1))
          (by omega) (by omega) (by rw [hdw]; exact hd) hdig
        have hnn : (h.value.bytes.dropWhile is_space).takeWhile is_digit ≠ [] := by
          rw [hd]
          simp [List.takeWhile_cons, hdig]
        simp only [hdig, Bool.not_true, Bool.false_eq_true, if_false, hnn]
        rw [← hd] at hdl
        exact hdl
      · have hnil : (h.value.bytes.dropWhile is_space).takeWhile is_digit = [] := by
          rw [hd]
          simp [List.takeWhile_cons, hdig]
        simp [hdig, hnil]

theorem content_length_spec_range (r : Request) :
    content_length_spec r = -1 ∨ 0 ≤ content_length_spec r := by
  unfold content_length_spec
  split
  · exact Or.inr (le_refl _)
  · simp only
    split
    · exact Or.inr (le_refl _)
    · split
      · exact Or.inr (Int.natCast_nonneg _)
      · exact Or.inl rfl

/-! ### Stored headers stay inside the input -/

theorem Scanner.consume_loop_bounds {src : Scanner} (body : Char → Bool) :
    ∀ (n off o : Nat), src.consume_loop body n off = some o → off ≤ src.len →
      off ≤ o ∧ o ≤ src.len := by
  intro n
  induction n with
  | zero =>
    intro off o h hle
    unfold Scanner.consume_loop at h
    split at h
    · simp only [Option.some.injEq] at h
      omega
    · exact absurd h (by simp)
  | succ n ih =>
    intro off o h hle
    unfold Scanner.consume_loop at h
    split at h
    · simp only [Option.some.injEq] at h
      omega
    · cases hc : src.curr off with
      | none => simp [hc] at h
      | some c =>
        simp only [hc, Option.some_bind] at h
        split at h
        · cases hn : src.consume off with
          | none => simp [hn] at h
          | some o1 =>
            simp only [hn, Option.some_bind] at h
            unfold Scanner.consume at hn
            split at hn
            · simp only [Option.some.injEq] at hn
              have := ih o1 o h (by omega)
              omega
            · exact absurd hn (by simp)
        · simp only [Option.some.injEq] at h
          omega

theorem Scanner.consume2_bounds {src : Scanner} (head body : Char → Bool) {off : Nat}
    {r : Bool × Nat} (h : src.consume2 head body off = some r) :
    off ≤ r.2 ∧ r.2 ≤ src.len := by
  unfold Scanner.consume2 at h
  split at h
  · rename_i he
    simp only [Option.some.injEq] at h
    simp only [Scanner.end_, beq_iff_eq] at he
    rw [← h]
    simp only
    omega
  · cases hc : src.curr off with
    | none => simp [hc] at h
    | some c =>
      have hlt : off < src.len := by
        unfold Scanner.curr at hc
        split at hc
        · assumption
        · exact absurd hc (by simp)
      simp only [hc, Option.some_bind] at h
      split at h
      · simp only [Option.some.injEq] at h
        rw [← h]
        simp only
        omega
      · cases hn : src.consume off with
        | none => simp [hn] at h
        | some o1 =>
          simp only [hn, Option.some_bind] at h
          unfold Scanner.consume at hn
          rw [if_pos hlt] at hn
          simp only [Option.some.injEq] at hn
          cases hl : src.consume_loop body (src.len - o1) o1 with
          | none => simp [hl] at h
          | some o2 =>
            simp only [hl, Option.some_bind, Option.some.injEq] at h
            have := Scanner.consume_loop_bounds body _ _ _ hl (by omega)
            rw [← h]
            simp only
            omega

theorem Scanner.consume_char_bounds {src : Scanner} {c : Char} {off : Nat} {r : Bool × Nat}
    (h : src.consume_char c off = some r) (hle : off ≤ src.len) :
    off ≤ r.2 ∧ r.2 ≤ src.len := by
  unfold Scanner.consume_char at h
  split at h
  · simp only [Option.some.injEq] at h
    rw [← h]
    simp only
    omega
  · cases hc : src.curr off with
    | none => simp [hc] at h
    | some x =>
      have hlt : off < src.len := by
        unfold Scanner.curr at hc
        split at hc
        · assumption
        · exact absurd hc (by simp)
      simp only [hc, Option.some_bind] at h
      split at h
      · simp only [Option.some.injEq] at h
        rw [← h]
        simp only
        omega
      · unfold Scanner.consume at h
        rw [if_pos hlt] at h
        simp only [Option.some_bind, Option.some.injEq] at h
        rw [← h]
        simp only
        omega

theorem Scanner.consume_str_bounds (src : Scanner) (lit : List Char) (off : Nat)
    (hle : off ≤ src.len) :
    off ≤ (src.consume_str lit off).2 ∧ (src.consume_str lit off).2 ≤ src.len := by
  unfold Scanner.consume_str
  simp only
  split
  · simp only
    omega
  · split
    · simp only
      omega
    · simp only
      omega

theorem Request.headers_inv_store {dst : Request} (hinv : dst.headers_inv) (hd : Header)
    (hn : hd.name.in_range) (hv : hd.value.in_range) :
    Request.headers_inv
      (if dst.count < MAX_REQUEST_HEADERS then
        { dst with headers := dst.headers.set dst.count hd, count := dst.count + 1 }
      else { dst with ignored_count := dst.ignored_count + 1 }) := by
  obtain ⟨h1, h2, h3⟩ := hinv
  split
  · rename_i hc
    refine ⟨by simpa using h1, by simp only; omega, ?_⟩
    intro i h hi hget
    simp only at hi hget
    by_cases hic : i = dst.count
    · subst hic
      rw [List.getElem?_set_eq_of_lt _ (by omega)] at hget
      simp only [Option.some.injEq] at hget
      rw [← hget]
      exact ⟨hn, hv⟩
    · rw [List.getElem?_set_ne (fun hh => hic hh.symm)] at hget
      exact h3 i h (by omega) hget
  · exact ⟨h1, h2, h3⟩

theorem parse_headers_loop_inv {src : Scanner} (hsl : src.len ≤ src.str.length) :
    ∀ (fuel : Nat) (dst : Request) (off : Nat) (res : ParseResult),
      parse_headers_loop src fuel dst off = some res → dst.headers_inv →
      res.req.headers_inv := by
  intro fuel
  induction fuel with
  | zero =>
    intro dst off res h _
    exact absurd h (by simp [parse_headers_loop])
  | succ n ih =>
    intro dst off res h hinv
    unfold parse_headers_loop at h
    cases h1 : src.consume1 (fun c => c != ':') off with
    | none => simp [h1] at h
    | some r =>
      have b1 := Scanner.consume2_bounds _ _ h1
      simp only [h1, Option.some_bind] at h
      cases h2 : src.consume_char ':' r.2 with
      | none => simp [h2] at h
      | some r2 =>
        have b2 := Scanner.consume_char_bounds h2 b1.2
        simp only [h2, Option.some_bind] at h
        split at h
        · simp only [Option.some.injEq] at h
          rw [← h]
          exact hinv
        · cases h3 : src.consume1 (fun c => c != '\r') r2.2 with
          | none => simp [h3] at h
          | some r3 =>
            have b3 := Scanner.consume2_bounds _ _ h3
            simp only [h3, Option.some_bind] at h
            have hstore := Request.headers_inv_store hinv
              { name := { str := src.str, off := off, len := r.2 - off },
                value := { str := src.str, off := r2.2, len := r3.2 - r2.2 } }
              (by simp only [Slice.in_range]; omega) (by simp only [Slice.in_range]; omega)
            split at h
            · simp only [Option.some.injEq] at h
              rw [← h]
              exact hstore
            · split at h
              · exact ih _ _ _ h hstore
              · simp only [Option.some.injEq] at h
                rw [← h]
                exact hstore

theorem ite_some_or {α : Type} {c : Prop} [Decidable c] {a b l : α}
    (h : (if c then some a else some b) = some l) : l = a ∨ l = b := by
  split at h
  · exact Or.inl (Option.some.inj h).symm
  · exact Or.inr (Option.some.inj h).symm

theorem parse_request_line_keeps {src : Scanner} {dst : Request} {off : Nat}
    {l : ParseResult} (h : parse_request_line src dst off = some l) :
    l.req.headers = dst.headers ∧ l.req.count = dst.count := by
  unfold parse_request_line at h
  cases hm : parse_method src dst.method off with
  | none => simp [hm] at h
  | some m =>
    simp only [hm, Option.some_bind] at h
    by_cases c1 : (!m.1) = true
    · rw [if_pos c1] at h
      simp only [Option.some.injEq] at h
      rw [← h]
      exact ⟨rfl, rfl⟩
    · rw [if_neg c1] at h
      cases hs : src.consume_char ' ' m.2.2.1 with
      | none => simp [hs] at h
      | some sp =>
        simp only [hs, Option.some_bind] at h
        by_cases c2 : (!sp.1) = true
        · rw [if_pos c2] at h
          simp only [Option.some.injEq] at h
          rw [← h]
          exact ⟨rfl, rfl⟩
        · rw [if_neg c2] at h
          cases hu : parse_url src URL.new sp.2 with
          | none => simp [hu] at h
          | some u =>
            simp only [hu, Option.some_bind] at h
            by_cases c3 : (!u.1) = true
            · rw [if_pos c3] at h
              simp only [Option.some.injEq] at h
              rw [← h]
              exact ⟨rfl, rfl⟩
            · rw [if_neg c3] at h
              rcases ite_some_or h with hl | hl <;> rw [hl] <;> exact ⟨rfl, rfl⟩

/-- A request that `Request::parse` accepted, from a fresh `Request` and an input whose
`len` bytes are all there, is valid and its stored headers lie inside the input. -/
theorem Request.parse_ok_headers {str : List Char} {len : Nat} {res : ParseResult}
    (hlen : len ≤ str.length) (h : Request.new.parse str len = some res)
    (hok : res.ok = true) : res.req.valid = true ∧ res.req.headers_ok := by
  unfold Request.parse at h
  cases hp : parse_request { str := str, len := len } Request.new 0 with
  | none => simp [hp] at h
  | some p =>
    simp only [hp, Option.some_bind, Option.some.injEq] at h
    have hpok : p.ok = true := by rw [← h] at hok; exact hok
    have hinv0 : Request.new.headers_inv := by
      refine ⟨by simp [Request.new], Nat.zero_le _, ?_⟩
      intro i h hi
      exact absurd hi (by simp [Request.new])
    have hpinv : p.req.headers_inv := by
      unfold parse_request at hp
      cases hl : parse_request_line { str := str, len := len } Request.new 0 with
      | none => simp [hl] at hp
      | some l =>
        obtain ⟨k1, k2⟩ := parse_request_line_keeps hl
        have hlinv : l.req.headers_inv := by
          obtain ⟨a, b, c⟩ := hinv0
          refine ⟨by rw [k1]; exact a, by rw [k2]; exact b, ?_⟩
          intro i h hi hg
          rw [k2] at hi
          rw [k1] at hg
          exact c i h hi hg
        simp only [hl, Option.some_bind] at hp
        split at hp
        · simp only [Option.some.injEq] at hp
          rw [← hp]
          exact hlinv
        · split at hp
          · rename_i hne
            cases hh : parse_headers_loop { str := str, len := len }
                (len - (Scanner.consume_str { str := str, len := len } ['\r', '\n'] l.off).2 + 1)
                l.req (Scanner.consume_str { str := str, len := len } ['\r', '\n'] l.off).2 with
            | none => simp [hh] at hp
            | some hres =>
              have hi := @parse_headers_loop_inv { str := str, len := len } hlen _ _ _ _
                hh hlinv
              simp only [hh, Option.some_bind] at hp
              split at hp
              · simp only [Option.some.injEq] at hp
                rw [← hp]; exact hi
              · split at hp
                · simp only [Option.some.injEq] at hp
                  rw [← hp]; exact hi
                · simp only [Option.some.injEq] at hp
                  rw [← hp]; exact hi
          · simp only [Option.some_bind] at hp
            split at hp
            · simp only [Option.some.injEq] at hp
              rw [← hp]; exact hlinv
            · split at hp
              · simp only [Option.some.injEq] at hp
                rw [← hp]; exact hlinv
              · simp only [Option.some.injEq] at hp
                rw [← hp]; exact hlinv
    rw [← h]
    refine ⟨hpok, ?_⟩
    obtain ⟨a, b, c⟩ := hpinv
    exact ⟨by simp only; omega, c⟩

/-- C10: for every request that `Request::parse` accepted (from a fresh `Request`, on an
input whose `len` bytes are all present), `content_length()` returns what the spec says:
0 when no stored header is named exactly "Content-Length" or the value of the first such
header has no decimal digit right after its leading whitespace, else the number denoted
by the maximal run of digits there if it is at most 2^31 - 1 and -1 if it is larger; the
result is never a negative number other than -1. -/
theorem content_length_matches_spec (str : List Char) (len : Nat) (res : ParseResult)
    (hlen : len ≤ str.length) (h : Request.new.parse str len = some res)
    (hok : res.ok = true) :
    res.req.content_length = some (content_length_spec res.req)
      ∧ (content_length_spec res.req = -1 ∨ 0 ≤ content_length_spec res.req) := by
  obtain ⟨hv, hh⟩ := Request.parse_ok_headers hlen h hok
  exact ⟨Request.content_length_of_ok res.req hv hh, content_length_spec_range res.req⟩

/-- C10, instances: the value " 5" gives 5 and the value " 99999999999999999999" gives -1. -/
theorem content_length_matches_spec_witness :
    "POST /x HTTP/1.1\r\nContent-Length: 5\r\n\r\n".toList.length
        ≤ "POST /x HTTP/1.1\r\nContent-Length: 5\r\n\r\n".toList.length
    ∧ Request.new.parse "POST /x HTTP/1.1\r\nContent-Length: 5\r\n\r\n".toList
        "POST /x HTTP/1.1\r\nContent-Length: 5\r\n\r\n".toList.length
        = some (ParseResult.of "POST /x HTTP/1.1\r\nContent-Length: 5\r\n\r\n".toList)
    ∧ (ParseResult.of "POST /x HTTP/1.1\r\nContent-Length: 5\r\n\r\n".toList).ok = true
    ∧ ((ParseResult.of "POST /x HTTP/1.1\r\nContent-Length: 5\r\n\r\n".toList).req.content_length
          = some (content_length_spec
              (ParseResult.of "POST /x HTTP/1.1\r\nContent-Length: 5\r\n\r\n".toList).req)
        ∧ (content_length_spec
              (ParseResult.of "POST /x HTTP/1.1\r\nContent-Length: 5\r\n\r\n".toList).req = -1
          ∨ 0 ≤ content_length_spec
              (ParseResult.of "POST /x HTTP/1.1\r\nContent-Length: 5\r\n\r\n".toList).req))
    ∧ (ParseResult.of "POST /x HTTP/1.1\r\nContent-Length: 5\r\n\r\n".toList).req.content_length
        = some 5
    ∧ (ParseResult.of
        "POST /x HTTP/1.1\r\nContent-Length: 99999999999999999999\r\n\r\n".toList).req.content_length
        = some (-1) :=
  ⟨Nat.le_refl _, by decide, by decide,
    content_length_matches_spec "POST /x HTTP/1.1\r\nContent-Length: 5\r\n\r\n".toList
      "POST /x HTTP/1.1\r\nContent-Length: 5\r\n\r\n".toList.length
      (ParseResult.of "POST /x HTTP/1.1\r\nContent-Length: 5\r\n\r\n".toList)
      (Nat.le_refl _) (by decide) (by decide),
    by decide, by decide⟩

/-! ### The queue as a bounded list -/

theorem wrap32_of_range (x : Int) (h0 : -2147483648 ≤ x) (h1 : x ≤ 2147483647) :
    wrap32 x = x := by
  unfold wrap32
  omega

theorem Queue.index_eq (a N : Nat) (ha : a < 2 ^ 31) :
    Queue.index (a : Int) (N : Int) = ((a % N : Nat) : Int) := by
  unfold Queue.index
  rw [wrap32_of_range _ (by omega) (by omega),
    Int.tmod_eq_emod (Int.ofNat_nonneg _) (Int.ofNat_nonneg _)]
  norm_cast

theorem Queue.bad_mod (a N : Nat) (hN : 1 ≤ N) :
    Queue.bad (N : Int) ((a % N : Nat) : Int) = false := by
  have := Nat.mod_lt a (show N > 0 by omega)
  simp only [Queue.bad, Bool.or_eq_false_iff, decide_eq_false_iff_not]
  refine ⟨⟨by omega, by omega⟩, by omega⟩

theorem Queue.ring_ne (hd i j N : Nat) (hij : i < j) (hj : j < N) :
    (hd + i) % N ≠ (hd + j) % N := by
  intro h
  have h1 : i % N = j % N := Nat.ModEq.add_left_cancel' hd h
  rw [Nat.mod_eq_of_lt (by omega), Nat.mod_eq_of_lt hj] at h1
  omega

theorem Queue.new_holds {α : Type} (N : Nat) (dflt : α) (hN : 1 ≤ N) :
    (Queue.new N dflt).Holds N [] :=
  ⟨rfl, le_refl _, by simp [Queue.new]; omega, rfl, Nat.zero_le _, by simp [Queue.new], rfl,
    fun i hi => absurd hi (by simp)⟩

theorem Queue.push_full {α : Type} {q : Queue α} {N : Nat} {l : List α} (h : q.Holds N l)
    (hfull : l.length = N) (item : α) : q.push item = (false, q) := by
  unfold Queue.push
  have : q.used = q.N := by rw [h.used, h.cap, hfull]
  simp [this]

/-- A `push` with room, while the `int` sum `head + used` does not wrap. -/
theorem Queue.push_holds_sum {α : Type} {q : Queue α} {N : Nat} {l : List α}
    (h : q.Holds N l) (hsum : q.head + (l.length : Int) < 2147483648) (hroom : l.length < N)
    (item : α) :
    (q.push item).1 = true ∧ (q.push item).2.Holds N (l ++ [item])
      ∧ (q.push item).2.head = q.head := by
  obtain ⟨hd, hhd⟩ := Int.eq_ofNat_of_zero_le h.head_nonneg
  have hlt : hd < N := by have := h.head_lt; omega
  have hne : ¬ (q.used = q.N) := by rw [h.used, h.cap]; omega
  have hidx : Queue.index (q.head + q.used) q.N = (((hd + l.length) % N : Nat) : Int) := by
    rw [hhd, h.used, h.cap, ← Queue.index_eq _ _ (by omega)]
    norm_cast
  have hbad : Queue.bad q.N (Queue.index (q.head + q.used) q.N) = false := by
    rw [hidx, h.cap]
    exact Queue.bad_mod _ _ (by omega)
  unfold Queue.push
  simp only [beq_iff_eq, hne, if_false, hbad, Bool.or_false]
  refine ⟨trivial, ⟨h.cap, h.head_nonneg, h.head_lt, ?_, ?_, ?_, h.fault, ?_⟩, trivial⟩
  · simp [h.used]
  · simp; omega
  · simp [h.items]
  · intro i hi
    simp only [List.length_append, List.length_singleton] at hi
    simp only [hidx]
    simp only [hhd, Int.toNat_ofNat]
    have hpos : N > 0 := by omega
    by_cases hil : i = l.length
    · subst hil
      rw [List.getElem?_set_self (by rw [h.items]; exact Nat.mod_lt _ hpos)]
      simp
    · have hi2 : i < l.length := by omega
      rw [List.getElem?_set_ne (Ne.symm (Queue.ring_ne hd i l.length N hi2 hroom))]
      have := h.get i hi2
      rw [hhd, Int.toNat_ofNat] at this
      rw [this, List.getElem?_append_left hi2]

theorem Queue.push_holds {α : Type} {q : Queue α} {N : Nat} {l : List α} (h : q.Holds N l)
    (hN : N ≤ 2 ^ 30) (hroom : l.length < N) (item : α) :
    (q.push item).1 = true ∧ (q.push item).2.Holds N (l ++ [item]) := by
  have h1 := h.head_lt
  obtain ⟨r1, r2, _⟩ := Queue.push_holds_sum h (by omega) hroom item
  exact ⟨r1, r2⟩

theorem Queue.pop_empty {α : Type} {q : Queue α} {N : Nat} (h : q.Holds N []) :
    q.pop = (false, q, q.dflt) := by
  unfold Queue.pop
  have : q.used = 0 := by simpa using h.used
  simp [this]

/-- A `pop` from a queue that is not empty, for every capacity an `int` can hold. -/
theorem Queue.pop_holds_head {α : Type} {q : Queue α} {N : Nat} {x : α} {t : List α}
    (h : q.Holds N (x :: t)) (hN : N < 2147483648) :
    q.pop.1 = true ∧ q.pop.2.2 = x ∧ q.pop.2.1.Holds N t
      ∧ q.pop.2.1.head = (((q.head.toNat + 1) % N : Nat) : Int) := by
  obtain ⟨hd, hhd⟩ := Int.eq_ofNat_of_zero_le h.head_nonneg
  have hlt : hd < N := by have := h.head_lt; omega
  have hlen := h.len
  simp only [List.length_cons] at hlen
  have hne : ¬ (q.used = 0) := by rw [h.used]; simp; omega
  have hidx : Queue.index (q.head + 1) q.N = (((hd + 1) % N : Nat) : Int) := by
    rw [hhd, h.cap, ← Queue.index_eq _ _ (by omega)]
    norm_cast
  have hbad : Queue.bad q.N (Queue.index (q.head + 1) q.N) = false := by
    rw [hidx, h.cap]
    exact Queue.bad_mod _ _ (by omega)
  have hbad0 : Queue.bad q.N q.head = false := by
    rw [h.cap, hhd]
    simp only [Queue.bad, Bool.or_eq_false_iff, decide_eq_false_iff_not]
    refine ⟨⟨by omega, by omega⟩, by omega⟩
  have hpos : N > 0 := by omega
  have h0 := h.get 0 (by simp)
  rw [hhd, Int.toNat_ofNat, Nat.add_zero, Nat.mod_eq_of_lt hlt] at h0
  unfold Queue.pop
  simp only [beq_iff_eq, hne, if_false, hbad, hbad0, Bool.or_false]
  refine ⟨trivial, ?_, ⟨h.cap, ?_, ?_, ?_, by omega, ?_, h.fault, ?_⟩, ?_⟩
  · rw [hhd, Int.toNat_ofNat]
    simp [List.getD, h0]
  · rw [hidx]; exact Int.ofNat_nonneg _
  · rw [hidx]
    have := Nat.mod_lt (hd + 1) hpos
    show (((hd + 1) % N : Nat) : Int) < N
    omega
  · simp [h.used]
  · simp [h.items]
  · intro i hi
    simp only [hidx]
    simp only [hhd, Int.toNat_ofNat]
    have e : ((hd + 1) % N + i) % N = (hd + (i + 1)) % N := by
      rw [Nat.add_mod, Nat.mod_mod, ← Nat.add_mod]
      congr 1
      omega
    rw [e]
    have hne2 : hd ≠ (hd + (i + 1)) % N := by
      have := Queue.ring_ne hd 0 (i + 1) N (by omega) (by omega)
      rw [Nat.add_zero, Nat.mod_eq_of_lt hlt] at this
      exact this
    rw [List.getElem?_set_ne hne2]
    have := h.get (i + 1) (by simp; omega)
    rw [hhd, Int.toNat_ofNat] at this
    rw [this]
    simp
  · show Queue.index (q.head + 1) q.N = _
    rw [hidx, hhd, Int.toNat_ofNat]

theorem Queue.pop_holds {α : Type} {q : Queue α} {N : Nat} {x : α} {t : List α}
    (h : q.Holds N (x :: t)) (hN : N ≤ 2 ^ 30) :
    q.pop.1 = true ∧ q.pop.2.2 = x ∧ q.pop.2.1.Holds N t := by
  obtain ⟨r1, r2, r3, _⟩ := Queue.pop_holds_head h (by omega)
  exact ⟨r1, r2, r3⟩

theorem Queue.call_holds {α : Type} {q : Queue α} {N : Nat} {l : List α} (h : q.Holds N l)
    (hN : N ≤ 2 ^ 30) (c : Queue.Call α) :
    (q.call c).2 = (fifo_call N l c).2 ∧ (q.call c).1.Holds N (fifo_call N l c).1 := by
  cases c with
  | push item =>
    by_cases hfull : l.length = N
    · have e := Queue.push_full h hfull item
      simp only [Queue.call, fifo_call, e, hfull, if_true]
      exact ⟨trivial, h⟩
    · have hroom : l.length < N := by have := h.len; omega
      obtain ⟨e1, e2⟩ := Queue.push_holds h hN hroom item
      simp only [Queue.call, fifo_call, e1, hfull, if_false]
      exact ⟨trivial, e2⟩
  | pop =>
    cases l with
    | nil =>
      have e := Queue.pop_empty h
      simp only [Queue.call, fifo_call, e]
      exact ⟨rfl, h⟩
    | cons x t =>
      obtain ⟨e1, e2, e3⟩ := Queue.pop_holds h hN
      simp only [Queue.call, fifo_call, e1, e2, if_true]
      exact ⟨trivial, e3⟩

theorem Queue.run_holds {α : Type} (N : Nat) (hN : N ≤ 2 ^ 30) (calls : List (Queue.Call α)) :
    ∀ (q : Queue α) (l : List α), q.Holds N l →
      (q.run calls).2 = (fifo_run N l calls).2 ∧ (q.run calls).1.Holds N (fifo_run N l calls).1 := by
  induction calls with
  | nil =>
    intro q l h
    exact ⟨rfl, h⟩
  | cons c cs ih =>
    intro q l h
    obtain ⟨e1, e2⟩ := Queue.call_holds h hN c
    obtain ⟨r1, r2⟩ := ih _ _ e2
    simp only [Queue.run, fifo_run]
    exact ⟨by rw [e1, r1], r2⟩

/-- The bounded list hands out what was put in, in the same order. -/
theorem fifo_run_order {α : Type} (N : Nat) (calls : List (Queue.Call α)) :
    ∀ (l : List α), l ++ Queue.pushes (fifo_run N l calls).2
      = Queue.pops (fifo_run N l calls).2 ++ (fifo_run N l calls).1 := by
  induction calls with
  | nil =>
    intro l
    simp [fifo_run, Queue.pushes, Queue.pops]
  | cons c cs ih =>
    intro l
    cases c with
    | push item =>
      by_cases hfull : l.length = N
      · have := ih l
        simpa [fifo_run, fifo_call, hfull, Queue.pushes, Queue.pops] using this
      · have := ih (l ++ [item])
        simpa [fifo_run, fifo_call, hfull, Queue.pushes, Queue.pops] using this
    | pop =>
      cases l with
      | nil =>
        have := ih []
        simpa [fifo_run, fifo_call, Queue.pushes, Queue.pops] using this
      | cons x t =>
        have := ih t
        simpa [fifo_run, fifo_call, Queue.pushes, Queue.pops] using this

theorem Queue.run_pops_empty {α : Type} (q : Queue α) (hq : q.used = 0) (k : Nat) :
    q.run (List.replicate k Queue.Call.pop)
      = (q, List.replicate k (Queue.Outcome.popped none)) := by
  induction k with
  | zero => rfl
  | succ n ih =>
    have e : q.pop = (false, q, q.dflt) := by
      unfold Queue.pop
      simp [hq]
    simp only [List.replicate_succ, Queue.run, Queue.call, e, ih]
    simp

theorem Queue.run_zero {α : Type} (dflt : α) (calls : List (Queue.Call α)) :
    (Queue.run (Queue.new 0 dflt) calls).1 = Queue.new 0 dflt
      ∧ (Queue.run (Queue.new 0 dflt) calls).2 = calls.map fun c =>
          match c with
          | Queue.Call.push item => Queue.Outcome.pushed item false
          | Queue.Call.pop => Queue.Outcome.popped none := by
  induction calls with
  | nil => exact ⟨rfl, rfl⟩
  | cons c cs ih =>
    have e1 : ∀ item, (Queue.new 0 dflt).push item = (false, Queue.new 0 dflt) := by
      intro item
      simp [Queue.push, Queue.new]
    have e2 : (Queue.new 0 dflt).pop = (false, Queue.new 0 dflt, dflt) := by
      simp [Queue.pop, Queue.new]
    cases c with
    | push item =>
      simp only [Queue.run, Queue.call, e1, List.map_cons]
      exact ⟨ih.1, by rw [ih.2]⟩
    | pop =>
      simp only [Queue.run, Queue.call, e2, List.map_cons]
      exact ⟨ih.1, by rw [ih.2]; simp⟩

/-! ### A queue of more than 2^30 entries -/

theorem Queue.run_append {α : Type} (a b : List (Queue.Call α)) :
    ∀ (q : Queue α), Queue.run q (a ++ b)
      = ((Queue.run (Queue.run q a).1 b).1, (Queue.run q a).2 ++ (Queue.run (Queue.run q a).1 b).2) := by
  induction a with
  | nil => intro q; rfl
  | cons c cs ih =>
    intro q
    show Queue.run q (c :: (cs ++ b)) = _
    simp only [Queue.run]
    rw [ih]
    rfl

theorem Queue.run_pushes {α : Type} (N : Nat) (x : α) :
    ∀ (k : Nat) (q : Queue α) (l : List α), q.Holds N l →
      q.head + (l.length : Int) + (k : Int) ≤ 2147483648 → l.length + k ≤ N →
      (Queue.run q (List.replicate k (Queue.Call.push x))).2
          = List.replicate k (Queue.Outcome.pushed x true)
        ∧ (Queue.run q (List.replicate k (Queue.Call.push x))).1.Holds N
            (l ++ List.replicate k x)
        ∧ (Queue.run q (List.replicate k (Queue.Call.push x))).1.head = q.head := by
  intro k
  induction k with
  | zero =>
    intro q l h _ _
    exact ⟨rfl, by simpa using h, rfl⟩
  | succ n ih =>
    intro q l h hs hr
    obtain ⟨p1, p2, p3⟩ := Queue.push_holds_sum h (by omega) (by omega) x
    obtain ⟨r1, r2, r3⟩ := ih (q.push x).2 (l ++ [x]) p2
      (by rw [p3, List.length_append, List.length_singleton]; push_cast; omega)
      (by rw [List.length_append, List.length_singleton]; omega)
    simp only [List.replicate_succ, Queue.run, Queue.call, p1]
    refine ⟨by rw [r1], ?_, by rw [r3, p3]⟩
    have e : l ++ x :: List.replicate n x = l ++ [x] ++ List.replicate n x := by simp
    rw [e]
    exact r2

theorem Queue.run_pops {α : Type} (N : Nat) (hN : N < 2147483648) :
    ∀ (l1 : List α) (q : Queue α) (l2 : List α), q.Holds N (l1 ++ l2) →
      (Queue.run q (List.replicate l1.length Queue.Call.pop)).2
          = l1.map (fun x => Queue.Outcome.popped (some x))
        ∧ (Queue.run q (List.replicate l1.length Queue.Call.pop)).1.Holds N l2
        ∧ (Queue.run q (List.replicate l1.length Queue.Call.pop)).1.head
            = (((q.head.toNat + l1.length) % N : Nat) : Int) := by
  intro l1
  induction l1 with
  | nil =>
    intro q l2 h
    refine ⟨rfl, by simpa using h, ?_⟩
    obtain ⟨hd, hhd⟩ := Int.eq_ofNat_of_zero_le h.head_nonneg
    have hlt : hd < N := by have := h.head_lt; omega
    show q.head = _
    rw [hhd, Int.toNat_ofNat, List.length_nil, Nat.add_zero, Nat.mod_eq_of_lt hlt]
  | cons x t ih =>
    intro q l2 h
    obtain ⟨p1, p2, p3, p4⟩ := Queue.pop_holds_head (x := x) (t := t ++ l2) h hN
    obtain ⟨r1, r2, r3⟩ := ih q.pop.2.1 l2 p3
    simp only [List.length_cons, List.replicate_succ, Queue.run, Queue.call, p1, p2, if_true,
      List.map_cons]
    refine ⟨by rw [r1], r2, ?_⟩
    rw [r3, p4, Int.toNat_ofNat]
    congr 1
    rw [Nat.add_mod, Nat.mod_mod, ← Nat.add_mod]
    congr 1
    omega

theorem Queue.index_wraps : Queue.index 2147483648 1073741825 = -1073741823 := by
  decide

theorem Queue.index_full : Queue.index 1073741825 1073741825 = 0 := by
  decide

/-- The last three calls of the overflowing sequence, on a queue of `K + 1 = 2^30 + 1`
entries that holds `K` items from index `K` on. -/
theorem Queue.overflow_tail (K : Nat) (hK : K = 1073741824) (q : Queue Int) (l : List Int)
    (h : q.Holds (K + 1) l) (hl : l.length = K) (hl0 : l[0]? = some 1) (hh : q.head = K) :
    (Queue.run q [Queue.Call.push 2, Queue.Call.pop, Queue.Call.pop]).2
        = [Queue.Outcome.pushed 2 true, Queue.Outcome.popped (some 1),
            Queue.Outcome.popped (some 2)]
      ∧ (Queue.run q [Queue.Call.push 2, Queue.Call.pop, Queue.Call.pop]).1.fault = true := by
  have hu : q.used = (K : Int) := by rw [h.used, hl]
  have hn : q.N = ((K + 1 : Nat) : Int) := h.cap
  have hlen : q.items.length = K + 1 := h.items
  have hg : q.items[K]? = some 1 := by
    have := h.get 0 (by omega)
    rw [hh, Int.toNat_ofNat, Nat.add_zero, Nat.mod_eq_of_lt (by omega)] at this
    rw [this, hl0]
  have e1 : q.head + q.used = 2147483648 := by rw [hh, hu]; omega
  have e2 : q.N = 1073741825 := by rw [hn]; omega
  have hbeq : (q.used == q.N) = false := by
    rw [beq_eq_false_iff_ne, hu, hn]
    omega
  have hb : Queue.bad 1073741825 (-1073741823) = true := by decide
  have ht : (-1073741823 : Int).toNat = 0 := by decide
  have hpush : q.push 2
      = (true, Queue.mk q.N q.head (q.used + 1) (q.items.set 0 2) q.dflt true) := by
    unfold Queue.push
    rw [hbeq]
    simp only [Bool.false_eq_true, if_false]
    rw [e1]
    have e3 : Queue.index 2147483648 q.N = -1073741823 := by rw [e2]; exact Queue.index_wraps
    have e4 : Queue.bad q.N (-1073741823) = true := by rw [e2]; exact hb
    rw [e3, e4, ht, Bool.or_true]
  have hbeq1 : ((q.used + 1) == (0 : Int)) = false := by
    rw [beq_eq_false_iff_ne, hu]
    omega
  have hpop1 : (Queue.mk q.N q.head (q.used + 1) (q.items.set 0 2) q.dflt true).pop
      = (true, Queue.mk q.N 0 (q.used + 1 - 1) ((q.items.set 0 2).set K q.dflt) q.dflt true,
          1) := by
    unfold Queue.pop
    simp only
    rw [hbeq1]
    simp only [Bool.false_eq_true, if_false, Bool.true_or]
    have f1 : Queue.index (q.head + 1) q.N = 0 := by
      have : q.head + 1 = 1073741825 := by rw [hh]; omega
      rw [this, e2]
      exact Queue.index_full
    have hk : q.head.toNat = K := by rw [hh, Int.toNat_ofNat]
    have hget : (q.items.set 0 2).getD K q.dflt = 1 := by
      rw [List.getD_eq_getElem?_getD, List.getElem?_set_ne (by omega), hg]
      rfl
    rw [f1, hk, hget]
  have hbeq2 : ((q.used + 1 - 1) == (0 : Int)) = false := by
    rw [beq_eq_false_iff_ne, hu]
    omega
  have hpop2 : (Queue.mk q.N 0 (q.used + 1 - 1) ((q.items.set 0 2).set K q.dflt) q.dflt
      true).pop.1 = true
      ∧ (Queue.mk q.N 0 (q.used + 1 - 1) ((q.items.set 0 2).set K q.dflt) q.dflt
        true).pop.2.2 = 2
      ∧ (Queue.mk q.N 0 (q.used + 1 - 1) ((q.items.set 0 2).set K q.dflt) q.dflt
        true).pop.2.1.fault = true := by
    unfold Queue.pop
    simp only
    rw [hbeq2]
    simp only [Bool.false_eq_true, if_false, Bool.true_or, true_and]
    have ht0 : (0 : Int).toNat = 0 := rfl
    rw [ht0, List.getD_eq_getElem?_getD, List.getElem?_set_ne (by omega),
      List.getElem?_set_self (by omega)]
    exact ⟨rfl, trivial⟩
  obtain ⟨c1, c2, c3⟩ := hpop2
  simp only [Queue.run, Queue.call, hpush, hpop1, c1, c2, if_true]
  exact ⟨trivial, c3⟩

theorem Queue.pushes_append {α : Type} (a b : List (Queue.Outcome α)) :
    Queue.pushes (a ++ b) = Queue.pushes a ++ Queue.pushes b := by
  induction a with
  | nil => rfl
  | cons o t ih =>
    cases o with
    | pushed item ok =>
      cases ok with
      | true => exact congrArg _ ih
      | false => exact ih
    | popped x => exact ih

theorem Queue.pops_append {α : Type} (a b : List (Queue.Outcome α)) :
    Queue.pops (a ++ b) = Queue.pops a ++ Queue.pops b := by
  induction a with
  | nil => rfl
  | cons o t ih =>
    cases o with
    | pushed item ok => exact ih
    | popped x =>
      cases x with
      | none => exact ih
      | some v => exact congrArg _ ih

theorem Queue.pushes_pushed {α : Type} (x : α) (k : Nat) :
    Queue.pushes (List.replicate k (Queue.Outcome.pushed x true)) = List.replicate k x
      ∧ Queue.pops (List.replicate k (Queue.Outcome.pushed x true)) = [] := by
  induction k with
  | zero => exact ⟨rfl, rfl⟩
  | succ n ih => simp only [List.replicate_succ, Queue.pushes, Queue.pops, ih, and_self]

theorem Queue.pops_popped {α : Type} (l : List α) :
    Queue.pushes (l.map fun x => Queue.Outcome.popped (some x)) = []
      ∧ Queue.pops (l.map fun x => Queue.Outcome.popped (some x)) = l := by
  induction l with
  | nil => exact ⟨rfl, rfl⟩
  | cons x t ih => simp only [List.map_cons, Queue.pushes, Queue.pops, ih, and_self]

/-- The overflowing call sequence on a new queue of `K + 1 = 2^30 + 1` entries. -/
theorem Queue.overflow_run (K : Nat) (hK : K = 1073741824) :
    (Queue.run (Queue.new (K + 1) (0 : Int)) (Queue.overflow_calls K)).2
        = List.replicate K (Queue.Outcome.pushed 0 true)
          ++ ((List.replicate K (0 : Int)).map (fun x => Queue.Outcome.popped (some x))
            ++ (List.replicate K (Queue.Outcome.pushed 1 true)
              ++ [Queue.Outcome.pushed 2 true, Queue.Outcome.popped (some 1),
                  Queue.Outcome.popped (some 2)]))
      ∧ (Queue.run (Queue.new (K + 1) (0 : Int)) (Queue.overflow_calls K)).1.fault = true := by
  have h0 := Queue.new_holds (K + 1) (0 : Int) (by omega)
  have hh0 : (Queue.new (K + 1) (0 : Int)).head = 0 := rfl
  unfold Queue.overflow_calls
  rw [Queue.run_append, Queue.run_append, Queue.run_append]
  simp only
  obtain ⟨o1, H1, hd1⟩ := Queue.run_pushes (K + 1) (0 : Int) K _ [] h0
    (by rw [hh0]; simp only [List.length_nil]; omega) (by simp)
  rw [hh0] at hd1
  generalize (Queue.run (Queue.new (K + 1) (0 : Int))
    (List.replicate K (Queue.Call.push 0))) = r1 at o1 H1 hd1 ⊢
  rw [List.nil_append] at H1
  have H1' : r1.1.Holds (K + 1) (List.replicate K (0 : Int) ++ []) := by
    rw [List.append_nil]
    exact H1
  obtain ⟨o2, H2, hd2⟩ := Queue.run_pops (K + 1) (by omega) (List.replicate K (0 : Int)) r1.1
    [] H1'
  rw [List.length_replicate, hd1] at hd2
  rw [List.length_replicate] at o2 H2
  have hd2' : (Queue.run r1.1 (List.replicate K Queue.Call.pop)).1.head = (K : Int) := by
    rw [hd2]
    have : (0 : Int).toNat = 0 := rfl
    rw [this, Nat.zero_add, Nat.mod_eq_of_lt (by omega)]
  generalize (Queue.run r1.1 (List.replicate K Queue.Call.pop)) = r2 at o2 H2 hd2' ⊢
  obtain ⟨o3, H3, hd3⟩ := Queue.run_pushes (K + 1) (1 : Int) K r2.1 [] H2
    (by rw [hd2']; simp only [List.length_nil]; omega) (by simp)
  rw [hd2'] at hd3
  generalize (Queue.run r2.1 (List.replicate K (Queue.Call.push 1))) = r3 at o3 H3 hd3 ⊢
  rw [List.nil_append] at H3
  obtain ⟨o4, f4⟩ := Queue.overflow_tail K hK r3.1 (List.replicate K 1) H3
    (List.length_replicate _ _)
    (by rw [List.getElem?_replicate, if_pos (by omega)]) hd3
  rw [o1, o2, o3, o4]
  exact ⟨rfl, f4⟩

/-- C19 (counterexample): a queue of 2^30 + 1 entries on which 2^30 items are pushed and
popped, 2^30 more pushed, and then the item 2. At that push `head + used` is 2^31, which
wraps as an `int`: the index is negative (the ghost flag records it; the model stores the
item at index 0, over the second item of the last batch). All pushes return true, yet the
pop number 2^30 + 2 yields 2, while the push number 2^30 + 2 stored 1. -/
theorem queue_above_2_30_entries_breaks_order :
    Queue.pushes (Queue.run (Queue.new (1073741824 + 1) (0 : Int))
        (Queue.overflow_calls 1073741824)).2
      = List.replicate 1073741824 0 ++ (List.replicate 1073741824 1 ++ [2])
    ∧ Queue.pops (Queue.run (Queue.new (1073741824 + 1) (0 : Int))
        (Queue.overflow_calls 1073741824)).2
      = List.replicate 1073741824 0 ++ [1, 2]
    ∧ (Queue.pushes (Queue.run (Queue.new (1073741824 + 1) (0 : Int))
        (Queue.overflow_calls 1073741824)).2)[1073741824 + 1]? = some 1
    ∧ (Queue.pops (Queue.run (Queue.new (1073741824 + 1) (0 : Int))
        (Queue.overflow_calls 1073741824)).2)[1073741824 + 1]? = some 2
    ∧ (Queue.run (Queue.new (1073741824 + 1) (0 : Int))
        (Queue.overflow_calls 1073741824)).1.fault = true := by
  have key : ∀ K : Nat, K = 1073741824 →
      Queue.pushes (Queue.run (Queue.new (K + 1) (0 : Int)) (Queue.overflow_calls K)).2
        = List.replicate K 0 ++ (List.replicate K 1 ++ [2])
      ∧ Queue.pops (Queue.run (Queue.new (K + 1) (0 : Int)) (Queue.overflow_calls K)).2
        = List.replicate K 0 ++ [1, 2]
      ∧ (Queue.pushes (Queue.run (Queue.new (K + 1) (0 : Int))
          (Queue.overflow_calls K)).2)[K + 1]? = some 1
      ∧ (Queue.pops (Queue.run (Queue.new (K + 1) (0 : Int))
          (Queue.overflow_calls K)).2)[K + 1]? = some 2
      ∧ (Queue.run (Queue.new (K + 1) (0 : Int)) (Queue.overflow_calls K)).1.fault = true := by
    intro K hK
    obtain ⟨ht, hf⟩ := Queue.overflow_run K hK
    have e1 : Queue.pushes (Queue.run (Queue.new (K + 1) (0 : Int))
        (Queue.overflow_calls K)).2 = List.replicate K 0 ++ (List.replicate K 1 ++ [2]) := by
      rw [ht, Queue.pushes_append, Queue.pushes_append, Queue.pushes_append,
        (Queue.pushes_pushed (0 : Int) K).1, (Queue.pops_popped (List.replicate K (0 : Int))).1,
        (Queue.pushes_pushed (1 : Int) K).1]
      rfl
    have e2 : Queue.pops (Queue.run (Queue.new (K + 1) (0 : Int))
        (Queue.overflow_calls K)).2 = List.replicate K 0 ++ [1, 2] := by
      rw [ht, Queue.pops_append, Queue.pops_append, Queue.pops_append,
        (Queue.pushes_pushed (0 : Int) K).2, (Queue.pops_popped (List.replicate K (0 : Int))).2,
        (Queue.pushes_pushed (1 : Int) K).2]
      rfl
    refine ⟨e1, e2, ?_, ?_, hf⟩
    · rw [e1, List.getElem?_append_right (by rw [List.length_replicate]; omega),
        List.length_replicate, List.getElem?_append_left (by rw [List.length_replicate]; omega),
        List.getElem?_replicate, if_pos (by omega)]
    · rw [e2, List.getElem?_append_right (by rw [List.length_replicate]; omega),
        List.length_replicate]
      have : K + 1 - K = 1 := by omega
      rw [this]
      rfl
  exact key 1073741824 rfl

/-- C19 (amended): for every capacity `1 <= N <= 2^30`, so that `head + used` does not
wrap as an `int`, and every sequence of `push` and `pop(x)` calls on a new queue, the
calls return what the bounded first-in-first-out list of capacity `N` returns; `size()` is the number of
successful pushes minus the number of successful pops; the k-th successful `pop(x)`
stores the item of the k-th successful `push`; no index leaves the ring. -/
theorem queue_is_bounded_fifo {α : Type} (N : Nat) (dflt : α) (calls : List (Queue.Call α))
    (h1 : 1 ≤ N) (h2 : N ≤ 2 ^ 30) :
    (Queue.run (Queue.new N dflt) calls).2 = (fifo_run N [] calls).2
      ∧ (Queue.run (Queue.new N dflt) calls).1.size
          = ((Queue.pushes (Queue.run (Queue.new N dflt) calls).2).length : Int)
            - ((Queue.pops (Queue.run (Queue.new N dflt) calls).2).length : Int)
      ∧ Queue.pops (Queue.run (Queue.new N dflt) calls).2
          = (Queue.pushes (Queue.run (Queue.new N dflt) calls).2).take
              (Queue.pops (Queue.run (Queue.new N dflt) calls).2).length
      ∧ (Queue.run (Queue.new N dflt) calls).1.fault = false := by
  obtain ⟨e, hh⟩ := Queue.run_holds N h2 calls _ _ (Queue.new_holds N dflt h1)
  have ho := fifo_run_order N calls ([] : List α)
  rw [List.nil_append] at ho
  rw [e]
  refine ⟨rfl, ?_, ?_, hh.fault⟩
  · rw [Queue.size, hh.used, ho]
    simp
  · rw [ho]
    simp

/-- C19 (amended), on the calls of the test: pushing 1 to 10 into a queue of capacity 4, with the
pops of the test in between, hands out 1, 2, …, 10 in this order and leaves the queue
empty. -/
theorem queue_is_bounded_fifo_witness :
    (1 ≤ 4 ∧ 4 ≤ 2 ^ 30)
      ∧ Queue.pops (Queue.run (Queue.new 4 (0 : Int)) Queue.test_calls).2
          = [1, 2, 3, 4, 5, 6, 7, 8, 9, 10]
      ∧ (Queue.run (Queue.new 4 (0 : Int)) Queue.test_calls).1.size = 0
      ∧ Queue.pops (Queue.run (Queue.new 4 (0 : Int)) Queue.test_calls).2
          = (Queue.pushes (Queue.run (Queue.new 4 (0 : Int)) Queue.test_calls).2).take
              (Queue.pops (Queue.run (Queue.new 4 (0 : Int)) Queue.test_calls).2).length :=
  ⟨⟨by decide, by decide⟩, by decide, by decide,
    (queue_is_bounded_fifo 4 (0 : Int) Queue.test_calls (by decide) (by decide)).2.2.1⟩

/-- C20: for every queue, `push` returns false exactly when `size() == N` and `pop`
exactly when `size() == 0`, and a failing call returns the queue as it was (items, size
and the ghost flag, so no index was computed modulo `N`); with `N = 0` every push and
every pop fails and the queue stays the new one; with `N = 1` a second push fails and,
once the item is popped, every further pop fails. -/
theorem queue_calls_fail_exactly_at_the_bounds {α : Type} :
    (∀ (q : Queue α) (item : α),
        ((q.push item).1 = false ↔ q.size = q.N) ∧ ((q.push item).1 = false → (q.push item).2 = q))
      ∧ (∀ (q : Queue α),
        (q.pop.1 = false ↔ q.size = 0) ∧ (q.pop.1 = false → q.pop.2.1 = q))
      ∧ (∀ (dflt : α) (calls : List (Queue.Call α)),
        (Queue.run (Queue.new 0 dflt) calls).1 = Queue.new 0 dflt
          ∧ (Queue.run (Queue.new 0 dflt) calls).2 = calls.map fun c =>
              match c with
              | Queue.Call.push item => Queue.Outcome.pushed item false
              | Queue.Call.pop => Queue.Outcome.popped none)
      ∧ (∀ (dflt a b : α) (k : Nat),
        (Queue.run (Queue.new 1 dflt)
            ([Queue.Call.push a, Queue.Call.push b, Queue.Call.pop]
              ++ List.replicate k Queue.Call.pop)).2
          = [Queue.Outcome.pushed a true, Queue.Outcome.pushed b false,
              Queue.Outcome.popped (some a)] ++ List.replicate k (Queue.Outcome.popped none)) := by
  refine ⟨?_, ?_, Queue.run_zero, ?_⟩
  · intro q item
    unfold Queue.push Queue.size
    by_cases h : q.used = q.N <;> simp [h]
  · intro q
    unfold Queue.pop Queue.size
    by_cases h : q.used = 0 <;> simp [h]
  · intro dflt a b k
    have e1 : (Queue.new 1 dflt).push a
        = (true, { Queue.new 1 dflt with items := [a], used := 1 }) := by
      simp [Queue.push, Queue.new, Queue.index, Queue.bad, wrap32]
    have e2 : ({ Queue.new 1 dflt with items := [a], used := 1 } : Queue α).push b
        = (false, { Queue.new 1 dflt with items := [a], used := 1 }) := by
      simp [Queue.push, Queue.new]
    have e3 : ({ Queue.new 1 dflt with items := [a], used := 1 } : Queue α).pop
        = (true, Queue.new 1 dflt, a) := by
      simp [Queue.pop, Queue.new, Queue.index, Queue.bad, wrap32]
    have e4 := Queue.run_pops_empty (Queue.new 1 dflt) rfl k
    simp only [List.cons_append, List.nil_append, Queue.run, Queue.call, e1, e2, e3]
    simp [e4]

/-- C20, instances: the calls of the `Queue<int, 0>` and `Queue<int, 1>` blocks of the
test, and a failing `push` that returns the queue unchanged. -/
theorem queue_calls_fail_exactly_at_the_bounds_witness :
    (((Queue.new 0 (0 : Int)).push 10).1 = false
      ∧ ((Queue.new 0 (0 : Int)).push 10).2 = Queue.new 0 (0 : Int))
    ∧ (Queue.run (Queue.new 0 (0 : Int)) [Queue.Call.push 10, Queue.Call.pop]).2
        = [Queue.Outcome.pushed 10 false, Queue.Outcome.popped none]
    ∧ (Queue.run (Queue.new 1 (0 : Int))
          ([Queue.Call.push 10, Queue.Call.push 4, Queue.Call.pop]
            ++ List.replicate 1 Queue.Call.pop)).2
        = [Queue.Outcome.pushed 10 true, Queue.Outcome.pushed 4 false,
            Queue.Outcome.popped (some 10)] ++ List.replicate 1 (Queue.Outcome.popped none) :=
  ⟨⟨by decide,
      ((@queue_calls_fail_exactly_at_the_bounds Int).1 (Queue.new 0 (0 : Int)) 10).2
        (by decide)⟩,
    by decide, (@queue_calls_fail_exactly_at_the_bounds Int).2.2.2 0 10 4 1⟩

/-! ### The engine with an explicit `Connection` choice -/

theorem Server.preamble_any (alloc : Int → Bool) {s : Server} {h : Nat} {c : Client}
    {o : Buffer} {ka ocl oc na : Int} {mx : Nat}
    (hs : s.At h c o State.HEADERS ka ocl oc na mx) (hka : ka = -1 ∨ ka = 0 ∨ ka = 1)
    (o1 o2 o3 o4 : Buffer) (keep : Bool)
    (hk : keep = (decide (ka ≠ 0) && should_keep_alive na mx c.num_served))
    (h1 : o1 = o.write alloc (connection_line keep) (-1))
    (h2 : o2 = o1.write alloc "Content-Length: ".toList (-1))
    (h3 : o3 = o2.write alloc "         \r\n".toList (-1))
    (h4 : o4 = o3.write alloc "\r\n".toList (-1)) :
    ∃ s2, s.preamble alloc = some s2
      ∧ s2.At h c o4 State.CONTENT (if keep then 1 else 0) o2.length o4.length na mx := by
  have htc := Server.target_client_of hs.target hs.client
  have e : s.preamble alloc = some { s.set_client h { ({ c with out := o } : Client) with
      out := o4 } with
        keep_alive := (if keep then 1 else 0)
        offset_content_length := o2.length
        offset_content := o4.length
        state := State.CONTENT } := by
    unfold Server.preamble
    subst h4 h3 h2 h1
    rw [← hs.num_allocated, ← hs.max_clients] at hk
    cases hska : should_keep_alive s.num_allocated (s.MAX_CLIENTS : Int) c.num_served <;>
      rw [hska] at hk <;> rcases hka with rfl | rfl | rfl <;> subst hk <;>
      simp [htc, hs.keep_alive, hska, connection_line]
  refine ⟨_, e, ?_⟩
  exact ⟨rfl, hs.target, rfl, rfl, rfl, hs.num_allocated, hs.max_clients,
    Server.client_set_client _ hs.client⟩

theorem Server.write_at_headers_any (alloc : Int → Bool) {s : Server} {h : Nat} {c : Client}
    {o : Buffer} {ka ocl oc na : Int} {mx : Nat}
    (hs : s.At h c o State.HEADERS ka ocl oc na mx) (hka : ka = -1 ∨ ka = 0 ∨ ka = 1)
    (d : List Char) (o1 o2 o3 o4 : Buffer) (keep : Bool)
    (hk : keep = (decide (ka ≠ 0) && should_keep_alive na mx c.num_served))
    (h1 : o1 = o.write alloc (connection_line keep) (-1))
    (h2 : o2 = o1.write alloc "Content-Length: ".toList (-1))
    (h3 : o3 = o2.write alloc "         \r\n".toList (-1))
    (h4 : o4 = o3.write alloc "\r\n".toList (-1)) :
    ∃ s2, s.write alloc d (-1) = some s2
      ∧ s2.At h c (o4.write alloc d (strlen d)) State.CONTENT (if keep then 1 else 0)
          o2.length o4.length na mx := by
  have htc := Server.target_client_of hs.target hs.client
  obtain ⟨s1, e1, a1⟩ := Server.preamble_any alloc hs hka o1 o2 o3 o4 keep hk h1 h2 h3 h4
  have htc1 := Server.target_client_of a1.target a1.client
  have e : s.write alloc d (-1) = some (s1.set_client h { ({ c with out := o4 } : Client) with
      out := o4.write alloc d (strlen d) }) := by
    unfold Server.write
    simp [hs.state, htc, e1, htc1, strlen]
  exact ⟨_, e, Server.append_at a1 _⟩

/-- What `send` leaves, field by field, when the response being built is in state
CONTENT after the empty `write`. -/
theorem Server.send_full (alloc : Int → Bool) {s s1 : Server} {h : Nat} {c c0 : Client}
    {o0 o : Buffer} {st : State} {ka0 ocl0 oc0 ka ocl oc na : Int} {mx : Nat}
    (hs : s.At h c0 o0 st ka0 ocl0 oc0 na mx) (hst : st ≠ State.NOTARGET)
    (hw : s.write alloc [] (-1) = some s1) (h1 : s1.At h c o State.CONTENT ka ocl oc na mx)
    (hlen : o.fail = false → (fmt_d (o.used - oc)).length < 10) :
    ∃ s2, s.send alloc = some s2 ∧ s2.state = State.NOTARGET ∧ s2.target = none
      ∧ s2.keep_alive = -1 ∧ s2.req_bytes = -1
      ∧ (o.fail = true → s2.client h = none)
      ∧ (o.fail = false → ∃ c2, s2.client h = some c2
          ∧ c2.out = o.overwrite ocl (fmt_d (o.used - oc)) (fmt_d (o.used - oc)).length
          ∧ c2.close_when_flushed = (decide (ka = 0) || c.close_when_flushed)
          ∧ c2.num_served = c.num_served + 1
          ∧ c2.in_ = (if ka ≠ 0 then
              ((c.in_.consume s1.req_bytes).contains "\r\n\r\n".toList).2
              else c.in_.consume s1.req_bytes)
          ∧ c2.queued = ((decide (ka ≠ 0)
              && ((c.in_.consume s1.req_bytes).contains "\r\n\r\n".toList).1) || c.queued)
          ∧ s2.queue = (if (decide (ka ≠ 0)
              && ((c.in_.consume s1.req_bytes).contains "\r\n\r\n".toList).1) = true
              then (s1.queue.push (some h)).2 else s1.queue)) := by
  have htc := Server.target_client_of hs.target hs.client
  have htc1 := Server.target_client_of h1.target h1.client
  have hlt := Server.client_lt h1.client
  have hstate : s.state ≠ State.NOTARGET := by rw [hs.state]; exact hst
  unfold Server.send
  simp only [hstate, if_false, htc, Option.some_bind, hw, htc1]
  cases hf : o.fail with
  | true =>
    obtain ⟨s2, e2, hsl⟩ := Server.remove_client_gone h1.client
    simp only [Buffer.failed, hf, if_true, e2, Option.some_bind]
    refine ⟨_, rfl, rfl, rfl, rfl, rfl, ?_, ?_⟩
    · intro _
      exact Server.client_set_none
        { s2 with state := State.NOTARGET, target := none, keep_alive := -1, req_bytes := -1 }
        h s1.slots hsl
    · intro hc
      exact absurd hc (by simp)
  | false =>
    have hl := hlen hf
    have hl2 : ((fmt_d (o.used - oc)).length : Int) < 10 := by exact_mod_cast hl
    by_cases hka : ka = 0
    · simp [Buffer.failed, hf, Buffer.length, h1.offset_content, h1.offset_content_length, hl2,
        Server.set_client, Server.client, hlt, h1.keep_alive, hka]
    · cases hcon : ((c.in_.consume s1.req_bytes).contains "\r\n\r\n".toList).1 <;>
      · simp only [String.toList] at hcon
        simp [Buffer.failed, hf, Buffer.length, h1.offset_content, h1.offset_content_length,
          hl2, Server.set_client, Server.client, hlt, h1.keep_alive, hka, hcon]

/-! ### `status`, `header`, `write` and `send` in every state -/

theorem Server.header_status (alloc : Int → Bool) {s : Server} {h : Nat} {c : Client}
    {o : Buffer} {ka ocl oc na : Int} {mx : Nat}
    (hs : s.At h c o State.STATUS ka ocl oc na mx) (name value : List Char) :
    ∃ s1, s.status alloc 200 = some s1
      ∧ s1.At h c (o.write alloc (status_line 200) (status_line 200).length) State.HEADERS
          ka ocl oc na mx
      ∧ s.header alloc name value = s1.header alloc name value := by
  obtain ⟨s1, e1, a1⟩ := Server.status_at alloc hs 200
  refine ⟨s1, e1, a1, ?_⟩
  have h1 : s1.state = State.HEADERS := a1.state
  unfold Server.header
  simp [hs.state, e1, h1]

theorem Server.header_content_length (alloc : Int → Bool) {s : Server}
    (hst : s.state = State.HEADERS) (name value : List Char)
    (h1 : streq name "Content-Length".toList = true) : s.header alloc name value = some s := by
  unfold Server.header
  simp only [String.toList] at h1
  simp [hst, h1]

theorem Server.header_connection (alloc : Int → Bool) {s : Server}
    (hst : s.state = State.HEADERS) (name value : List Char)
    (h1 : streq name "Content-Length".toList = false)
    (h2 : streq name "Connection".toList = true) :
    s.header alloc name value
      = some { s with keep_alive := if streq value "Close".toList then 0 else 1 } := by
  unfold Server.header
  simp only [String.toList] at h1 h2
  simp [hst, h1, h2]

theorem Server.At.set_keep_alive {s : Server} {h : Nat} {c : Client} {o : Buffer} {st : State}
    {ka ocl oc na : Int} {mx : Nat} (hs : s.At h c o st ka ocl oc na mx) (k : Int) :
    Server.At { s with keep_alive := k } h c o st k ocl oc na mx :=
  ⟨hs.state, hs.target, rfl, hs.offset_content_length, hs.offset_content, hs.num_allocated,
    hs.max_clients, hs.client⟩


theorem Server.preamble_returns (alloc : Int → Bool) {s : Server} {h : Nat} {c : Client}
    {o : Buffer} {ka ocl oc na : Int} {mx : Nat}
    (hs : s.At h c o State.HEADERS ka ocl oc na mx) :
    ∃ s2 o4 ka2 ocl2, s.preamble alloc = some s2
      ∧ s2.At h c o4 State.CONTENT ka2 ocl2 o4.length na mx
      ∧ s2.queue = s.queue ∧ s2.req_bytes = s.req_bytes := by
  have htc := Server.target_client_of hs.target hs.client
  unfold Server.preamble
  simp only [htc, Option.some_bind]
  exact ⟨_, _, _, _, rfl, ⟨rfl, hs.target, rfl, rfl, rfl, hs.num_allocated, hs.max_clients,
    Server.client_set_client _ hs.client⟩, rfl, rfl⟩

theorem Server.status_keeps (alloc : Int → Bool) {s s1 : Server} (code : Int)
    (e : s.status alloc code = some s1) :
    s1.queue = s.queue ∧ s1.req_bytes = s.req_bytes := by
  unfold Server.status at e
  split at e
  · cases e
    exact ⟨rfl, rfl⟩
  · cases ht : s.target_client with
    | none => simp [ht] at e
    | some t =>
      simp only [ht, Option.some_bind] at e
      split at e
      · cases e
        exact ⟨rfl, rfl⟩
      · split at e
        · simp at e
        · cases e
          exact ⟨rfl, rfl⟩

/-- Every `write` made while a response is being built returns, in state CONTENT; `o1`
is the output buffer before the final append of `str`. -/
theorem Server.write_returns (alloc : Int → Bool) {s : Server} {h : Nat} {c : Client}
    {o : Buffer} {st : State} {ka ocl oc na : Int} {mx : Nat}
    (hs : s.At h c o st ka ocl oc na mx) (hst : st ≠ State.NOTARGET) (str : List Char)
    (len : Int) :
    ∃ s2 o1 ka2 ocl2 oc2, s.write alloc str len = some s2
      ∧ s2.At h c (o1.write alloc str (if len < 0 then strlen str else len)) State.CONTENT
          ka2 ocl2 oc2 na mx
      ∧ (st = State.CONTENT → o1 = o ∧ oc2 = oc ∧ ka2 = ka ∧ ocl2 = ocl)
      ∧ (st ≠ State.CONTENT → oc2 = o1.length)
      ∧ s2.queue = s.queue ∧ s2.req_bytes = s.req_bytes := by
  have htc := Server.target_client_of hs.target hs.client
  have hstate : s.state ≠ State.NOTARGET := by rw [hs.state]; exact hst
  cases st with
  | NOTARGET => exact absurd rfl hst
  | STATUS =>
    obtain ⟨s1, e1, a1⟩ := Server.status_at alloc hs 200
    obtain ⟨s2, o4, ka2, ocl2, e2, a2, q2, r2⟩ := Server.preamble_returns alloc a1
    have htc2 := Server.target_client_of a2.target a2.client
    have hq1 := Server.status_keeps alloc 200 e1
    refine ⟨_, o4, ka2, ocl2, o4.length, ?_, Server.append_at a2 _, by simp, fun _ => rfl,
      ?_, ?_⟩
    · unfold Server.write
      simp only [hstate, if_false, htc, Option.some_bind, hs.state, if_true, e1, a1.state, e2,
        htc2]
      rw [if_neg hst]
    · show s2.queue = s.queue
      rw [q2, hq1.1]
    · show s2.req_bytes = s.req_bytes
      rw [r2, hq1.2]
  | HEADERS =>
    obtain ⟨s2, o4, ka2, ocl2, e2, a2, q2, r2⟩ := Server.preamble_returns alloc hs
    have htc2 := Server.target_client_of a2.target a2.client
    have hne : ¬ (State.HEADERS = State.STATUS) := by decide
    refine ⟨_, o4, ka2, ocl2, o4.length, ?_, Server.append_at a2 _, by simp, fun _ => rfl,
      ?_, ?_⟩
    · unfold Server.write
      simp only [hstate, if_false, htc, Option.some_bind, hs.state, hne, if_true, e2, htc2]
      rw [if_neg hst]
    · exact q2
    · exact r2
  | CONTENT =>
    have hne : ¬ (State.CONTENT = State.STATUS) := by decide
    have hne2 : ¬ (State.CONTENT = State.HEADERS) := by decide
    refine ⟨_, o, ka, ocl, oc, ?_, Server.append_at hs _, fun _ => ⟨rfl, rfl, rfl, rfl⟩,
      fun hc => absurd rfl hc, rfl, rfl⟩
    unfold Server.write
    simp only [hstate, if_false, htc, Option.some_bind, hs.state, hne, hne2]
    rw [if_neg hst]

/-- The empty append of `send` leaves the length of a buffer that has not failed. -/
theorem Buffer.write_nil_used (alloc : Int → Bool) (o : Buffer)
    (hf : (o.write alloc [] (if (-1 : Int) < 0 then strlen [] else -1)).fail = false) :
    (o.write alloc [] (if (-1 : Int) < 0 then strlen [] else -1)).used = o.used := by
  have e : (if (-1 : Int) < 0 then strlen [] else -1) = strlen [] := by simp
  rw [e] at hf ⊢
  have := Buffer.write_ext alloc o [] (strlen []) 0 (by simp [strlen, cstr]) (by simp)
  have := (this.1 hf).2
  simpa using this

/-- `send` returns from every state in which a response is being built. The bound on
the body length is the one `assert(len < 10)` needs. -/
theorem Server.send_returns (alloc : Int → Bool) {s : Server} {h : Nat} {c : Client}
    {o : Buffer} {st : State} {ka ocl oc na : Int} {mx : Nat}
    (hs : s.At h c o st ka ocl oc na mx) (hst : st ≠ State.NOTARGET)
    (hbody : st = State.CONTENT → -100000000 < o.used - oc ∧ o.used - oc < 1000000000) :
    ∃ s2, s.send alloc = some s2 ∧ s2.state = State.NOTARGET ∧ s2.target = none
      ∧ s2.keep_alive = -1 ∧ s2.req_bytes = -1 := by
  obtain ⟨s1, o1, ka2, ocl2, oc2, e1, a1, hc, hn, _, _⟩ :=
    Server.write_returns alloc hs hst [] (-1)
  have hlen : (o1.write alloc [] (if (-1 : Int) < 0 then strlen [] else -1)).fail = false →
      (fmt_d ((o1.write alloc [] (if (-1 : Int) < 0 then strlen [] else -1)).used - oc2)).length
        < 10 := by
    intro hf
    rw [Buffer.write_nil_used alloc o1 hf]
    by_cases hcs : st = State.CONTENT
    · obtain ⟨r1, r2, _, _⟩ := hc hcs
      obtain ⟨b1, b2⟩ := hbody hcs
      rw [r1, r2]
      generalize o.used - oc = n at b1 b2
      by_cases hn0 : 0 ≤ n
      · obtain ⟨m, rfl⟩ := Int.eq_ofNat_of_zero_le hn0
        have := fmt_d_length_le m (by omega)
        omega
      · have hneg : n < 0 := by omega
        have hm : n.natAbs < 10 ^ 8 := by omega
        have := Nat.repr_length n.natAbs 8 (by decide) hm
        simp only [fmt_d, hneg, if_true, List.length_cons]
        have e : (Nat.repr n.natAbs).toList.length = (Nat.repr n.natAbs).length := rfl
        omega
    · rw [hn hcs]
      simp only [Buffer.length, sub_self]
      decide
  obtain ⟨s2, e2, x1, x2, x3, x4, _, _⟩ := Server.send_full alloc hs hst e1 a1 hlen
  exact ⟨s2, e2, x1, x2, x3, x4⟩

/-! ### What the response calls leave alone -/

theorem Server.preamble_keeps (alloc : Int → Bool) {s s1 : Server}
    (e : s.preamble alloc = some s1) : s1.queue = s.queue ∧ s1.req_bytes = s.req_bytes := by
  unfold Server.preamble at e
  cases ht : s.target_client with
  | none => simp [ht] at e
  | some t =>
    simp only [ht, Option.some_bind] at e
    cases e
    exact ⟨rfl, rfl⟩

theorem Server.header_keeps (alloc : Int → Bool) {s s1 : Server} (name value : List Char)
    (e : s.header alloc name value = some s1) :
    s1.queue = s.queue ∧ s1.req_bytes = s.req_bytes := by
  unfold Server.header at e
  split at e
  · cases e
    exact ⟨rfl, rfl⟩
  · cases h0 : (if s.state = State.STATUS then s.status alloc 200 else some s) with
    | none => simp [h0] at e
    | some s0 =>
      have k0 : s0.queue = s.queue ∧ s0.req_bytes = s.req_bytes := by
        split at h0
        · exact Server.status_keeps alloc 200 h0
        · cases h0
          exact ⟨rfl, rfl⟩
      simp only [h0, Option.some_bind] at e
      split at e
      · cases e
        exact k0
      · split at e
        · simp at e
        · split at e
          · cases e
            exact k0
          · split at e
            · cases e
              exact k0
            · cases ht : s0.target_client with
              | none => simp [ht] at e
              | some t =>
                simp only [ht, Option.some_bind] at e
                cases e
                exact k0

theorem Server.write_keeps (alloc : Int → Bool) {s s1 : Server} (str : List Char) (len : Int)
    (e : s.write alloc str len = some s1) :
    s1.queue = s.queue ∧ s1.req_bytes = s.req_bytes := by
  unfold Server.write at e
  simp only at e
  split at e
  · cases e
    exact ⟨rfl, rfl⟩
  · cases ht : s.target_client with
    | none => simp [ht] at e
    | some t =>
      simp only [ht, Option.some_bind] at e
      cases h0 : (if s.state = State.STATUS then s.status alloc 200 else some s) with
      | none => simp [h0] at e
      | some s0 =>
        have k0 : s0.queue = s.queue ∧ s0.req_bytes = s.req_bytes := by
          split at h0
          · exact Server.status_keeps alloc 200 h0
          · cases h0
            exact ⟨rfl, rfl⟩
        simp only [h0, Option.some_bind] at e
        cases h2 : (if s0.state = State.HEADERS then s0.preamble alloc else some s0) with
        | none => simp [h2] at e
        | some s2 =>
          have k2 : s2.queue = s0.queue ∧ s2.req_bytes = s0.req_bytes := by
            split at h2
            · exact Server.preamble_keeps alloc h2
            · cases h2
              exact ⟨rfl, rfl⟩
          simp only [h2, Option.some_bind] at e
          cases ht2 : s2.target_client with
          | none => simp [ht2] at e
          | some t2 =>
            simp only [ht2, Option.some_bind] at e
            cases e
            exact ⟨k2.1.trans k0.1, k2.2.trans k0.2⟩

theorem Server.headers_keeps (alloc : Int → Bool) (hs : List (List Char × List Char)) :
    ∀ {s s1 : Server}, Server.headers alloc s hs = some s1 →
      s1.queue = s.queue ∧ s1.req_bytes = s.req_bytes := by
  induction hs with
  | nil =>
    intro s s1 e
    cases e
    exact ⟨rfl, rfl⟩
  | cons x r ih =>
    intro s s1 e
    simp only [Server.headers] at e
    cases h0 : s.header alloc x.1 x.2 with
    | none => simp [h0] at e
    | some s0 =>
      simp only [h0, Option.some_bind] at e
      have k0 := Server.header_keeps alloc _ _ h0
      have k1 := ih e
      exact ⟨k1.1.trans k0.1, k1.2.trans k0.2⟩

theorem Server.writes_keeps (alloc : Int → Bool) (ds : List (List Char)) :
    ∀ {s s1 : Server}, Server.writes alloc s ds = some s1 →
      s1.queue = s.queue ∧ s1.req_bytes = s.req_bytes := by
  induction ds with
  | nil =>
    intro s s1 e
    cases e
    exact ⟨rfl, rfl⟩
  | cons x r ih =>
    intro s s1 e
    simp only [Server.writes] at e
    cases h0 : s.write alloc x (-1) with
    | none => simp [h0] at e
    | some s0 =>
      simp only [h0, Option.some_bind] at e
      have k0 := Server.write_keeps alloc _ _ h0
      have k1 := ih e
      exact ⟨k1.1.trans k0.1, k1.2.trans k0.2⟩

theorem response_bytes_eq (code : Int) (hs : List (List Char × List Char)) (keep : Bool)
    (body : List Char) :
    response_bytes code hs keep body
      = status_line code ++ (hs.map header_line).flatten ++ engine_lines keep body := by
  simp [response_bytes, engine_lines, List.append_assoc]

/-- From state HEADERS with any `Connection` choice: the body writes and `send`. The
buffer `ob` is any earlier stage of the output buffer, `X` what was appended since. -/
theorem Server.finish_core (alloc : Int → Bool) {s : Server} {h : Nat} {c : Client}
    {oh ob : Buffer} {ka ocl oc na : Int} {mx : Nat} {X : List Char}
    (a2 : s.At h c oh State.HEADERS ka ocl oc na mx) (hka : ka = -1 ∨ ka = 0 ∨ ka = 1)
    (hx : Buffer.Ext ob oh X) (hsound : ob.sound) (ds : List (List Char))
    (hbody : (ds.map cstr).flatten.length < 10 ^ 9) :
    ∃ s5, ((Server.writes alloc s ds).bind fun s3 => s3.send alloc) = some s5
      ∧ s5.state = State.NOTARGET ∧ s5.target = none ∧ s5.keep_alive = -1
      ∧ ∀ c2, s5.client h = some c2 →
          c2.close_when_flushed
              = (!(decide (ka ≠ 0) && should_keep_alive na mx c.num_served)
                  || c.close_when_flushed)
          ∧ c2.num_served = c.num_served + 1
          ∧ c2.in_ = (if (decide (ka ≠ 0) && should_keep_alive na mx c.num_served) = true then
              ((c.in_.consume s.req_bytes).contains "\r\n\r\n".toList).2
              else c.in_.consume s.req_bytes)
          ∧ c2.queued = (((decide (ka ≠ 0) && should_keep_alive na mx c.num_served)
              && ((c.in_.consume s.req_bytes).contains "\r\n\r\n".toList).1) || c.queued)
          ∧ s5.queue = (if ((decide (ka ≠ 0) && should_keep_alive na mx c.num_served)
              && ((c.in_.consume s.req_bytes).contains "\r\n\r\n".toList).1) = true
              then (s.queue.push (some h)).2 else s.queue)
          ∧ (c2.out.clean →
              c2.out.live = ob.live ++ X
                ++ engine_lines (decide (ka ≠ 0) && should_keep_alive na mx c.num_served)
                    (ds.map cstr).flatten) := by
  generalize hkeep : (decide (ka ≠ 0) && should_keep_alive na (mx : Int) c.num_served) = keep
  generalize ho1 : oh.write alloc (connection_line keep) (-1) = o1
  generalize ho2 : o1.write alloc "Content-Length: ".toList (-1) = o2
  generalize ho3 : o2.write alloc "         \r\n".toList (-1) = o3
  generalize ho4 : o3.write alloc "\r\n".toList (-1) = o4
  have y1 : Buffer.Ext oh o1 (connection_line keep) := by
    have := Buffer.write_cstr_ext alloc oh (connection_line keep)
    rw [ho1] at this
    have hcs : cstr (connection_line keep) = connection_line keep := by
      cases keep <;> decide
    rwa [hcs] at this
  have y2 : Buffer.Ext o1 o2 "Content-Length: ".toList := by
    have := Buffer.write_cstr_ext alloc o1 "Content-Length: ".toList
    rw [ho2] at this
    have hcs : cstr "Content-Length: ".toList = "Content-Length: ".toList := by decide
    rwa [hcs] at this
  have y3 : Buffer.Ext o2 o3 "         \r\n".toList := by
    have := Buffer.write_cstr_ext alloc o2 "         \r\n".toList
    rw [ho3] at this
    have hcs : cstr "         \r\n".toList = "         \r\n".toList := by decide
    rwa [hcs] at this
  have y4 : Buffer.Ext o3 o4 "\r\n".toList := by
    have := Buffer.write_cstr_ext alloc o3 "\r\n".toList
    rw [ho4] at this
    have hcs : cstr "\r\n".toList = "\r\n".toList := by decide
    rwa [hcs] at this
  have hw0 : ∀ (o : Buffer), Buffer.Ext o (o.write alloc [] (strlen [])) [] := by
    intro o
    have := Buffer.write_ext alloc o [] (strlen []) 0 (by simp [strlen, cstr]) (by simp)
    simpa using this
  have key : ∃ s3 s4 st ka3 ocl3 oc3 o o5, Server.writes alloc s ds = some s3
      ∧ s3.At h c o st ka3 ocl3 oc3 na mx ∧ st ≠ State.NOTARGET
      ∧ s3.write alloc [] (-1) = some s4
      ∧ s4.At h c o5 State.CONTENT (if keep then 1 else 0) o2.length o4.length na mx
      ∧ Buffer.Ext o4 o5 (ds.map cstr).flatten := by
    cases ds with
    | nil =>
      obtain ⟨s4, e4, a4⟩ := Server.write_at_headers_any alloc a2 hka [] o1 o2 o3 o4 keep
        hkeep.symm ho1.symm ho2.symm ho3.symm ho4.symm
      exact ⟨s, s4, _, _, _, _, _, _, rfl, a2, by decide, e4, a4, by simpa using hw0 o4⟩
    | cons d rest =>
      obtain ⟨s3, e3, a3⟩ := Server.write_at_headers_any alloc a2 hka d o1 o2 o3 o4 keep
        hkeep.symm ho1.symm ho2.symm ho3.symm ho4.symm
      obtain ⟨s4, ob4, e4, a4, x4⟩ := Server.writes_at alloc rest a3
      obtain ⟨s5, e5, a5⟩ := Server.write_at_content alloc a4 []
      refine ⟨s4, s5, _, _, _, _, _, _, ?_, a4, by decide, e5, a5, ?_⟩
      · simp [Server.writes, e3, e4]
      · have hx := Buffer.write_ext alloc o4 d (strlen d) (cstr d).length (by simp [strlen])
          (cstr_length_le d)
        rw [take_cstr] at hx
        have := (hx.trans x4).trans (hw0 ob4)
        simpa using this
  obtain ⟨s3, s4, st, ka3, ocl3, oc3, o, o5, e3, a3, hne, e4, a4, x5⟩ := key
  have hlen : o5.fail = false → (fmt_d (o5.used - o4.length)).length < 10 := by
    intro hf
    have hu := (x5.1 hf).2
    have : o5.used - o4.length = (((ds.map cstr).flatten.length : Nat) : Int) := by
      simp only [Buffer.length]
      omega
    rw [this]
    have := fmt_d_length_le _ hbody
    omega
  obtain ⟨s5, e5, hstate, htarget, hka5, _, hgone, hthere⟩ :=
    Server.send_full alloc a3 hne e4 a4 hlen
  refine ⟨s5, ?_, hstate, htarget, hka5, ?_⟩
  · simp [e3, e5]
  · intro c2 hc2
    cases hf5 : o5.fail with
    | true =>
      rw [hgone hf5] at hc2
      exact absurd hc2 (by simp)
    | false =>
      obtain ⟨c3, hc3, hout, hcwf, hns, hin, hqd, hqu⟩ := hthere hf5
      rw [hc3] at hc2
      have hcc : c3 = c2 := Option.some.inj hc2
      subst hcc
      have k3 := Server.writes_keeps alloc ds e3
      have k4 := Server.write_keeps alloc _ _ e4
      rw [k4.2, k3.2] at hin hqd hqu
      rw [k4.1, k3.1] at hqu
      refine ⟨?_, hns, ?_, ?_, ?_, ?_⟩
      · rw [hcwf]
        cases keep <;> simp
      · rw [hin]
        cases keep <;> simp
      · rw [hqd]
        cases keep <;> simp
      · rw [hqu]
        cases keep <;> simp
      · intro hclean
        rw [hout] at hclean ⊢
        obtain ⟨hc5, _, _, _, _, _⟩ := Buffer.overwrite_sticky _ _ _ _ hclean
        have hu5 := (x5.1 hc5.1).2
        have hbl : o5.used - o4.length = (((ds.map cstr).flatten.length : Nat) : Int) := by
          simp only [Buffer.length]
          omega
        rw [hbl] at hclean ⊢
        have zA := (hx.trans y1).trans y2
        have zB := (y3.trans y4).trans x5
        have hc2' : o2.clean := ⟨(zB.1 hc5.1).1, zB.2.1 hc5.2⟩
        obtain ⟨hs2, hl2⟩ := zA.2.2 hsound hc2'
        obtain ⟨hs5, hl5⟩ := zB.2.2 hs2 hc5
        have hu2 := (zA.1 hc2'.1).2
        have hlive0 : (ob.live.length : Int) = ob.used := by
          unfold Buffer.live
          rw [List.length_take]
          have := hsound.1
          have := hsound.2
          omega
        have hsp : "         \r\n".toList = List.replicate 9 ' ' ++ "\r\n".toList := by decide
        have hl5' : o5.live = o2.live ++ List.replicate 9 ' '
            ++ ("\r\n".toList ++ "\r\n".toList ++ (ds.map cstr).flatten) := by
          rw [hl5, hsp]
          simp [List.append_assoc]
        have hoff : o2.length = ((o2.live).length : Int) := by
          rw [hl2]
          simp only [Buffer.length, List.length_append]
          rw [hu2]
          push_cast
          simp only [List.length_append]
          push_cast
          omega
        have h9 := fmt_d_length_le _ hbody
        have := Buffer.overwrite_live o5 o2.length (fmt_d ((ds.map cstr).flatten.length : Nat))
          o2.live (List.replicate 9 ' ') _ hs5 hclean hl5' hoff (by simpa using h9)
        rw [this, hl2, List.drop_replicate]
        have e : "\r\n\r\n".toList = "\r\n".toList ++ "\r\n".toList := by decide
        simp only [engine_lines, pad9, e, List.append_assoc]

theorem Server.headers_append (alloc : Int → Bool) (a b : List (List Char × List Char)) :
    ∀ (s : Server), Server.headers alloc s (a ++ b)
      = (Server.headers alloc s a).bind fun s1 => Server.headers alloc s1 b := by
  induction a with
  | nil => intro s; rfl
  | cons x r ih =>
    intro s
    simp only [List.cons_append, Server.headers]
    cases s.header alloc x.1 x.2 with
    | none => rfl
    | some s1 => simp [ih]

theorem should_keep_alive_iff (num_clients max_clients num_served : Int)
    (h0 : 0 ≤ num_clients) (h1 : num_clients ≤ 214748364) (h2 : 0 < max_clients)
    (h3 : max_clients ≤ 306783378) :
    should_keep_alive num_clients max_clients num_served = false
      ↔ (10 * num_clients > 7 * max_clients ∨ num_served ≥ 5) := by
  unfold should_keep_alive
  rw [wrap32_of_range _ (by omega) (by omega), wrap32_of_range _ (by omega) (by omega)]
  by_cases a : 10 * num_clients > 7 * max_clients
  · simp [a]
  · by_cases b : num_served ≥ 5
    · simp [a, b]
    · simp [a, b]


/-! ### Re-queueing after `send` -/

/-- What the response sequence leaves of the input buffer and of the candidate queue
when the application adds no `Connection` header. -/
theorem Server.respond_requeue (alloc : Int → Bool) (s : Server) (h : Nat) (c : Client)
    (code : Int) (hs : List (List Char × List Char)) (ds : List (List Char))
    (hst : s.state = State.STATUS) (hka : s.keep_alive = -1) (ht : s.target = some h)
    (hc : s.client h = some c) (hsound : c.out.sound)
    (hnames : ∀ nv ∈ hs, streq nv.1 "Content-Length".toList = false
      ∧ streq nv.1 "Connection".toList = false)
    (hbody : (ds.map cstr).flatten.length < 10 ^ 9) :
    ∃ s2, s.respond alloc code hs ds = some s2 ∧ s2.state = State.NOTARGET
      ∧ ∀ c2, s2.client h = some c2 →
          c2.in_ = (if should_keep_alive s.num_allocated s.MAX_CLIENTS c.num_served = true then
              ((c.in_.consume s.req_bytes).contains "\r\n\r\n".toList).2
              else c.in_.consume s.req_bytes)
          ∧ c2.queued = ((should_keep_alive s.num_allocated s.MAX_CLIENTS c.num_served
              && ((c.in_.consume s.req_bytes).contains "\r\n\r\n".toList).1) || c.queued)
          ∧ s2.queue = (if (should_keep_alive s.num_allocated s.MAX_CLIENTS c.num_served
              && ((c.in_.consume s.req_bytes).contains "\r\n\r\n".toList).1) = true
              then (s.queue.push (some h)).2 else s.queue)
          ∧ c2.num_served = c.num_served + 1 := by
  have ha0 : s.At h c c.out State.STATUS (-1) s.offset_content_length s.offset_content
      s.num_allocated s.MAX_CLIENTS := ⟨hst, ht, hka, rfl, rfl, rfl, rfl, hc⟩
  obtain ⟨s1, e1, a1⟩ := Server.status_at alloc ha0 code
  have k1 := Server.status_keeps alloc code e1
  have x1 := Buffer.write_all_ext alloc c.out (status_line code)
  obtain ⟨s2, o2, e2, a2, x2⟩ := Server.headers_at alloc hs a1 hnames
  have k2 := Server.headers_keeps alloc hs e2
  obtain ⟨s5, e5, hstate, _, _, hcl⟩ := Server.finish_core alloc a2 (Or.inl rfl) (x1.trans x2)
    hsound ds hbody
  refine ⟨s5, ?_, hstate, ?_⟩
  · cases hw : Server.writes alloc s2 ds with
    | none => simp [hw] at e5
    | some s6 =>
      simp only [hw, Option.some_bind] at e5
      simp only [Server.respond, e1, Option.some_bind, e2, hw, e5]
  · intro c2 hc2
    obtain ⟨_, g2, g3, g4, g5, _⟩ := hcl c2 hc2
    rw [k2.2, k1.2] at g3 g4 g5
    rw [k2.1, k1.1] at g5
    have hd : decide ((-1 : Int) ≠ 0) = true := by decide
    simp only [hd, Bool.true_and] at g3 g4 g5
    exact ⟨g3, g4, g5, g2⟩

theorem Server.wait_notarget (alloc alloc2 : Int → Bool) (s : Server) (req : Request)
    (hst : s.state = State.NOTARGET) : Server.wait alloc s req = Server.wait alloc2 s req := by
  unfold Server.wait Server.send
  simp [hst]

/-- The pass of `wait` that finds a complete request at the front of the queue. -/
theorem Server.wait_candidate (alloc : Int → Bool) {s : Server} {h : Nat} {c : Client}
    (req : Request) (pr : ParseResult) (n : Int) (hst : s.state = State.NOTARGET)
    (hne : s.queue.empty = false) (hp1 : s.queue.pop.1 = true)
    (hp2 : s.queue.pop.2.2 = some h) (hc : s.client h = some c)
    (hparse : req.parse_slice (c.in_.slice_until "\r\n\r\n".toList true).1 = some pr)
    (hok : pr.ok = true) (hcl : pr.req.content_length = some n) (hn : 0 ≤ n)
    (hfit : (c.in_.slice_until "\r\n\r\n".toList true).2.length
      ≥ wrap32 (((c.in_.slice_until "\r\n\r\n".toList true).1.len : Int) + n)) :
    ∃ s3 r, Server.wait alloc s req = some (s3, r) ∧ r.url = pr.req.url
      ∧ r.method = pr.req.method ∧ s3.state = State.STATUS ∧ s3.target = some h
      ∧ s3.req_bytes = wrap32 (((c.in_.slice_until "\r\n\r\n".toList true).1.len : Int) + n) := by
  have hsend : s.send alloc = some s := by
    unfold Server.send
    simp [hst]
  have hneg : ¬ (n < 0) := by omega
  have hpass : ∃ s3 r, s.wait_pass req = some (true, s3, r) ∧ r.url = pr.req.url
      ∧ r.method = pr.req.method ∧ s3.state = State.STATUS ∧ s3.target = some h
      ∧ s3.req_bytes
        = wrap32 (((c.in_.slice_until "\r\n\r\n".toList true).1.len : Int) + n) := by
    unfold Server.wait_pass
    simp only [hp1, hp2, Bool.not_true, Bool.false_eq_true, if_false, Option.some_bind, hc,
      hparse, hok, hcl, hneg, hfit, if_true]
    exact ⟨_, _, rfl, rfl, rfl, rfl, rfl, rfl⟩
  obtain ⟨s3, r, e3, g⟩ := hpass
  refine ⟨s3, r, ?_, g⟩
  unfold Server.wait
  simp only [hsend, Option.some_bind, hst, ne_eq, not_true_eq_false, if_false,
    Server.wait_loop, hne, Bool.false_eq_true, e3, if_true]

/-- What the SEND handler does with a client marked `close_when_flushed`. -/
theorem Server.flush_closing (alloc : Int → Bool) {s : Server} {h : Nat} {c : Client}
    (hc : s.client h = some c) (hcw : c.close_when_flushed = true) (sock : List Int) :
    ∃ s2, s.flush_buffered_bytes_to_client_and_close_if_done alloc h sock = some s2
      ∧ (((c.out.read_sock alloc sock).buf.length = 0
            ∨ (c.out.read_sock alloc sock).buf.failed = true) →
          s2.client h = none ∧ s2.num_allocated = s.num_allocated - 1)
      ∧ ((c.out.read_sock alloc sock).buf.failed = false →
          (c.out.read_sock alloc sock).buf.length ≠ 0 →
          s2 = s.set_client h { c with out := (c.out.read_sock alloc sock).buf }) := by
  generalize hout : (c.out.read_sock alloc sock).buf = out
  have hc1 : (s.set_client h { c with out := out }).client h = some { c with out := out } :=
    Server.client_set_client _ hc
  have hrm : ∃ s2, (s.set_client h { c with out := out }).remove_client h = some s2
      ∧ s2.client h = none ∧ s2.num_allocated = s.num_allocated - 1 := by
    obtain ⟨s2, e2, hsl⟩ := Server.remove_client_gone hc1
    refine ⟨s2, e2, Server.client_set_none s2 h _ hsl, ?_⟩
    unfold Server.remove_client at e2
    simp only [hc1, Option.some_bind, Option.some.injEq] at e2
    rw [← e2]
    rfl
  unfold Server.flush_buffered_bytes_to_client_and_close_if_done
  simp only [hc, Option.some_bind, hout]
  rw [if_pos hcw]
  cases hf : out.failed with
  | true =>
    obtain ⟨s2, e2, g1, g2⟩ := hrm
    rw [if_pos rfl, e2]
    exact ⟨s2, rfl, fun _ => ⟨g1, g2⟩, fun hx => absurd hx (by simp)⟩
  | false =>
    rw [if_neg (by simp)]
    by_cases hl : out.length = 0
    · obtain ⟨s2, e2, g1, g2⟩ := hrm
      rw [if_pos hl, e2]
      exact ⟨s2, rfl, fun _ => ⟨g1, g2⟩, fun _ hx => absurd hl hx⟩
    · rw [if_neg hl]
      refine ⟨_, rfl, fun hx => ?_, fun _ _ => rfl⟩
      rcases hx with hx | hx
      · exact absurd hx hl
      · exact absurd hx (by simp)


/-! ### Appends that cannot fail -/

/-- An append of at most 256 bytes to a buffer that `Grows`, on a heap that never refuses,
succeeds: the flags stay clear and `used` grows by the length appended. -/
theorem Buffer.write_grows (alloc : Int → Bool) (halloc : ∀ n, alloc n = true) (b : Buffer)
    (src : List Char) (len : Int) (n k : Nat)
    (hn : (if len < 0 then strlen src else len) = (n : Int)) (hsrc : n ≤ src.length)
    (h256 : n ≤ 256) (hg : b.Grows (n + k)) :
    (b.write alloc src len).Grows k ∧ (b.write alloc src len).used = b.used + n := by
  obtain ⟨⟨hf, hfa⟩, h0, h1, h2, h3, h4⟩ := hg
  push_cast at h4
  unfold Buffer.write
  simp only [hf, Bool.false_eq_true, if_false, hn]
  have ho : ¬ (b.used > INT_MAX - (n : Int)) := by
    unfold INT_MAX
    omega
  rw [if_neg ho]
  have hw : wrap32 (b.used + (n : Int)) = b.used + n :=
    wrap32_of_range _ (by omega) (by omega)
  unfold Buffer.ensure_unused_space
  rw [hw]
  by_cases hgr : b.used + (n : Int) > b.size
  · rw [if_pos hgr]
    simp only [halloc, Bool.not_true, Bool.false_eq_true, if_false]
    by_cases hs0 : b.size > 0
    · have hs256 : 256 ≤ b.size := by omega
      have hw2 : wrap32 (2 * b.size) = 2 * b.size :=
        wrap32_of_range _ (by omega) (by omega)
      simp only [hs0, if_true, hw2]
      refine ⟨⟨⟨hf, ?_⟩, ?_, ?_, ?_, ?_, ?_⟩, trivial⟩
      · simp only [hfa, Bool.false_or, Bool.or_eq_false_iff, decide_eq_false_iff_not]
        refine ⟨⟨⟨⟨by omega, by omega⟩, by omega⟩, by omega⟩, by omega⟩
      · show 0 ≤ b.used + (n : Int)
        omega
      · show b.used + (n : Int) ≤ 2 * b.size
        omega
      · right
        show 256 ≤ 2 * b.size
        omega
      · show 2 * b.size ≤ 1073741824
        omega
      · show b.used + (n : Int) + (k : Int) ≤ 536870912
        omega
    · have hsz : b.size = 0 := by omega
      simp only [hs0, if_false]
      refine ⟨⟨⟨hf, ?_⟩, ?_, ?_, ?_, ?_, ?_⟩, trivial⟩
      · simp only [hfa, Bool.false_or, Bool.or_eq_false_iff, decide_eq_false_iff_not]
        refine ⟨⟨⟨⟨by omega, by omega⟩, by omega⟩, by omega⟩, by omega⟩
      · show 0 ≤ b.used + (n : Int)
        omega
      · show b.used + (n : Int) ≤ 256
        omega
      · right
        show (256 : Int) ≤ 256
        omega
      · show (256 : Int) ≤ 1073741824
        omega
      · show b.used + (n : Int) + (k : Int) ≤ 536870912
        omega
  · rw [if_neg hgr]
    refine ⟨⟨⟨hf, ?_⟩, ?_, ?_, h2, h3, ?_⟩, rfl⟩
    · simp only [hfa, Bool.false_or, Bool.or_eq_false_iff, decide_eq_false_iff_not]
      refine ⟨by omega, by omega⟩
    · show 0 ≤ b.used + (n : Int)
      omega
    · show b.used + (n : Int) ≤ b.size
      omega
    · show b.used + (n : Int) + (k : Int) ≤ 536870912
      omega

theorem Buffer.write_cstr_grows (alloc : Int → Bool) (halloc : ∀ n, alloc n = true)
    (b : Buffer) (src : List Char) (k : Nat) (h256 : (cstr src).length ≤ 256)
    (hg : b.Grows ((cstr src).length + k)) :
    (b.write alloc src (-1)).Grows k
      ∧ (b.write alloc src (-1)).used = b.used + (cstr src).length :=
  Buffer.write_grows alloc halloc b src (-1) (cstr src).length k (by simp [strlen])
    (cstr_length_le src) h256 hg

theorem Buffer.Grows.mono {b : Buffer} {k j : Nat} (h : b.Grows k) (hj : j ≤ k) :
    b.Grows j := by
  obtain ⟨a, b0, c, d, e, f⟩ := h
  exact ⟨a, b0, c, d, e, by omega⟩

theorem header_line_length (nv : List Char × List Char) :
    (header_line nv).length = (cstr nv.1).length + 2 + (cstr nv.2).length + 2 := by
  simp [header_line]
  omega

theorem engine_lines_length (keep : Bool) (body : List Char) (hb : body.length < 10 ^ 9) :
    (engine_lines keep body).length = (connection_line keep).length + 29 + body.length := by
  have h9 := fmt_d_length_le _ hb
  simp only [engine_lines, pad9, List.length_append, List.length_replicate]
  have e1 : "Content-Length: ".toList.length = 16 := by decide
  have e2 : "\r\n\r\n".toList.length = 4 := by decide
  rw [e1, e2]
  omega

theorem connection_line_cstr (keep : Bool) :
    cstr (connection_line keep) = connection_line keep
      ∧ (connection_line keep).length ≤ 256 := by
  cases keep <;> decide

/-- The four appends of `header(name, value)` on a buffer that `Grows`. -/
theorem Buffer.header_grows (alloc : Int → Bool) (halloc : ∀ n, alloc n = true) (o : Buffer)
    (nv : List Char × List Char) (k : Nat) (h1 : (cstr nv.1).length ≤ 256)
    (h2 : (cstr nv.2).length ≤ 256) (hg : o.Grows ((header_line nv).length + k)) :
    ((((o.write alloc nv.1 (-1)).write alloc ": ".toList (-1)).write alloc nv.2 (-1)).write
        alloc "\r\n".toList (-1)).Grows k
      ∧ ((((o.write alloc nv.1 (-1)).write alloc ": ".toList (-1)).write alloc nv.2 (-1)).write
        alloc "\r\n".toList (-1)).used = o.used + (header_line nv).length := by
  rw [header_line_length] at hg ⊢
  have c1 : cstr ": ".toList = ": ".toList := by decide
  have c2 : cstr "\r\n".toList = "\r\n".toList := by decide
  have l1 : ": ".toList.length = 2 := by decide
  have l2 : "\r\n".toList.length = 2 := by decide
  obtain ⟨g1, u1⟩ := Buffer.write_cstr_grows alloc halloc o nv.1
    (2 + (cstr nv.2).length + 2 + k) h1 (hg.mono (by omega))
  obtain ⟨g2, u2⟩ := Buffer.write_cstr_grows alloc halloc _ ": ".toList
    ((cstr nv.2).length + 2 + k) (by rw [c1, l1]; omega) (g1.mono (by rw [c1, l1]; omega))
  obtain ⟨g3, u3⟩ := Buffer.write_cstr_grows alloc halloc _ nv.2 (2 + k) h2
    (g2.mono (by omega))
  obtain ⟨g4, u4⟩ := Buffer.write_cstr_grows alloc halloc _ "\r\n".toList k
    (by rw [c2, l2]; omega) (g3.mono (by rw [c2, l2]))
  refine ⟨g4, ?_⟩
  rw [u4, u3, u2, u1, c1, c2, l1, l2]
  push_cast
  omega

theorem Server.headers_grows (alloc : Int → Bool) (halloc : ∀ n, alloc n = true)
    (hs : List (List Char × List Char)) :
    ∀ {s : Server} {h : Nat} {c : Client} {o : Buffer} {ka ocl oc na : Int} {mx : Nat} (k : Nat),
      s.At h c o State.HEADERS ka ocl oc na mx →
      (∀ nv ∈ hs, streq nv.1 "Content-Length".toList = false
        ∧ streq nv.1 "Connection".toList = false) →
      (∀ nv ∈ hs, (cstr nv.1).length ≤ 256 ∧ (cstr nv.2).length ≤ 256) →
      o.Grows ((hs.map header_line).flatten.length + k) →
      ∃ s2 o2, Server.headers alloc s hs = some s2 ∧ s2.At h c o2 State.HEADERS ka ocl oc na mx
        ∧ o2.Grows k ∧ o2.used = o.used + (hs.map header_line).flatten.length := by
  induction hs with
  | nil =>
    intro s h c o ka ocl oc na mx k ha _ _ hg
    exact ⟨s, o, rfl, ha, by simpa using hg, by simp⟩
  | cons nv rest ih =>
    intro s h c o ka ocl oc na mx k ha hn hp hg
    obtain ⟨hn1, hn2⟩ := hn nv (List.mem_cons_self _ _)
    obtain ⟨hp1, hp2⟩ := hp nv (List.mem_cons_self _ _)
    obtain ⟨s1, e1, a1⟩ := Server.header_at alloc ha nv.1 nv.2 hn1 hn2
    have hlen : ((nv :: rest).map header_line).flatten.length
        = (header_line nv).length + (rest.map header_line).flatten.length := by
      simp
    rw [hlen] at hg ⊢
    obtain ⟨g1, u1⟩ := Buffer.header_grows alloc halloc o nv
      ((rest.map header_line).flatten.length + k) hp1 hp2 (hg.mono (by omega))
    obtain ⟨s2, o2, e2, a2, g2, u2⟩ := ih k a1 (fun x hx => hn x (List.mem_cons_of_mem _ hx))
      (fun x hx => hp x (List.mem_cons_of_mem _ hx)) g1
    refine ⟨s2, o2, ?_, a2, g2, ?_⟩
    · simp [Server.headers, e1, e2]
    · rw [u2, u1]
      push_cast
      ring

theorem Server.writes_grows (alloc : Int → Bool) (halloc : ∀ n, alloc n = true)
    (ds : List (List Char)) :
    ∀ {s : Server} {h : Nat} {c : Client} {o : Buffer} {ka ocl oc na : Int} {mx : Nat} (k : Nat),
      s.At h c o State.CONTENT ka ocl oc na mx →
      (∀ d ∈ ds, (cstr d).length ≤ 256) →
      o.Grows ((ds.map cstr).flatten.length + k) →
      ∃ s2 o2, Server.writes alloc s ds = some s2 ∧ s2.At h c o2 State.CONTENT ka ocl oc na mx
        ∧ o2.Grows k ∧ o2.used = o.used + (ds.map cstr).flatten.length := by
  induction ds with
  | nil =>
    intro s h c o ka ocl oc na mx k ha _ hg
    exact ⟨s, o, rfl, ha, by simpa using hg, by simp⟩
  | cons d rest ih =>
    intro s h c o ka ocl oc na mx k ha hp hg
    obtain ⟨s1, e1, a1⟩ := Server.write_at_content alloc ha d
    have hlen : ((d :: rest).map cstr).flatten.length
        = (cstr d).length + (rest.map cstr).flatten.length := by
      simp
    rw [hlen] at hg ⊢
    obtain ⟨g1, u1⟩ := Buffer.write_grows alloc halloc o d (strlen d) (cstr d).length
      ((rest.map cstr).flatten.length + k) (by simp [strlen]) (cstr_length_le d)
      (hp d (List.mem_cons_self _ _)) (hg.mono (by omega))
    obtain ⟨s2, o2, e2, a2, g2, u2⟩ := ih k a1 (fun x hx => hp x (List.mem_cons_of_mem _ hx)) g1
    refine ⟨s2, o2, ?_, a2, g2, ?_⟩
    · simp [Server.writes, e1, e2]
    · rw [u2, u1]
      push_cast
      ring

theorem Buffer.overwrite_clean (b : Buffer) (off : Int) (src : List Char) (hc : b.clean)
    (h0 : 0 ≤ off) (h1 : off + (src.length : Int) ≤ b.used) (h2 : b.used ≤ b.size) :
    (b.overwrite off src src.length).clean := by
  obtain ⟨hf, hfa⟩ := hc
  unfold Buffer.overwrite
  simp only [hf, Bool.false_eq_true, if_false]
  rw [if_neg (by omega)]
  refine ⟨rfl, ?_⟩
  simp only [hfa, Bool.false_or, Bool.or_eq_false_iff, decide_eq_false_iff_not]
  refine ⟨⟨by omega, by omega⟩, by omega⟩

/-- From state HEADERS on a buffer that `Grows`: the body writes and `send` keep the
client, with an output buffer whose flags are clear. -/
theorem Server.finish_grows (alloc : Int → Bool) (halloc : ∀ n, alloc n = true) {s : Server}
    {h : Nat} {c : Client} {oh : Buffer} {ka ocl oc na : Int} {mx : Nat}
    (a2 : s.At h c oh State.HEADERS ka ocl oc na mx) (hka : ka = -1 ∨ ka = 0 ∨ ka = 1)
    (ds : List (List Char)) (hbody : (ds.map cstr).flatten.length < 10 ^ 9)
    (hp : ∀ d ∈ ds, (cstr d).length ≤ 256)
    (hg : oh.Grows (engine_lines (decide (ka ≠ 0) && should_keep_alive na mx c.num_served)
      (ds.map cstr).flatten).length) :
    ∃ s5 c2, ((Server.writes alloc s ds).bind fun s3 => s3.send alloc) = some s5
      ∧ s5.client h = some c2 ∧ c2.out.clean := by
  generalize hkeep : (decide (ka ≠ 0) && should_keep_alive na (mx : Int) c.num_served) = keep
    at hg
  rw [engine_lines_length keep _ hbody] at hg
  generalize hB : (ds.map cstr).flatten.length = B at hg hbody
  generalize ho1 : oh.write alloc (connection_line keep) (-1) = o1
  generalize ho2 : o1.write alloc "Content-Length: ".toList (-1) = o2
  generalize ho3 : o2.write alloc "         \r\n".toList (-1) = o3
  generalize ho4 : o3.write alloc "\r\n".toList (-1) = o4
  obtain ⟨hcs, hcl⟩ := connection_line_cstr keep
  have c2 : cstr "Content-Length: ".toList = "Content-Length: ".toList := by decide
  have c3 : cstr "         \r\n".toList = "         \r\n".toList := by decide
  have c4 : cstr "\r\n".toList = "\r\n".toList := by decide
  have l2 : "Content-Length: ".toList.length = 16 := by decide
  have l3 : "         \r\n".toList.length = 11 := by decide
  have l4 : "\r\n".toList.length = 2 := by decide
  obtain ⟨g1, u1⟩ := Buffer.write_cstr_grows alloc halloc oh (connection_line keep) (29 + B)
    (by rw [hcs]; exact hcl) (hg.mono (by rw [hcs]; omega))
  rw [ho1] at g1 u1
  rw [hcs] at u1
  obtain ⟨g2, u2⟩ := Buffer.write_cstr_grows alloc halloc o1 "Content-Length: ".toList (13 + B)
    (by rw [c2, l2]; omega) (g1.mono (by rw [c2, l2]; omega))
  rw [ho2] at g2 u2
  rw [c2, l2] at u2
  obtain ⟨g3, u3⟩ := Buffer.write_cstr_grows alloc halloc o2 "         \r\n".toList (2 + B)
    (by rw [c3, l3]; omega) (g2.mono (by rw [c3, l3]; omega))
  rw [ho3] at g3 u3
  rw [c3, l3] at u3
  obtain ⟨g4, u4⟩ := Buffer.write_cstr_grows alloc halloc o3 "\r\n".toList B
    (by rw [c4, l4]; omega) (g3.mono (by rw [c4, l4]))
  rw [ho4] at g4 u4
  rw [c4, l4] at u4
  have hw0 : ∀ (o : Buffer), o.Grows 0 →
      (o.write alloc [] (strlen [])).Grows 0 ∧ (o.write alloc [] (strlen [])).used = o.used := by
    intro o ho
    have := Buffer.write_grows alloc halloc o [] (strlen []) 0 0 (by simp [strlen, cstr])
      (by simp) (by omega) ho
    simpa using this
  have key : ∃ s3 s4 st ka3 ocl3 oc3 o o5, Server.writes alloc s ds = some s3
      ∧ s3.At h c o st ka3 ocl3 oc3 na mx ∧ st ≠ State.NOTARGET
      ∧ s3.write alloc [] (-1) = some s4
      ∧ s4.At h c o5 State.CONTENT (if keep then 1 else 0) o2.length o4.length na mx
      ∧ o5.Grows 0 ∧ o5.used = o4.used + B := by
    cases ds with
    | nil =>
      obtain ⟨s4, e4, a4⟩ := Server.write_at_headers_any alloc a2 hka [] o1 o2 o3 o4 keep
        hkeep.symm ho1.symm ho2.symm ho3.symm ho4.symm
      have hB0 : B = 0 := by rw [← hB]; rfl
      subst hB0
      obtain ⟨g5, u5⟩ := hw0 o4 g4
      exact ⟨s, s4, _, _, _, _, _, _, rfl, a2, by decide, e4, a4, g5, by rw [u5]; simp⟩
    | cons d rest =>
      obtain ⟨s3, e3, a3⟩ := Server.write_at_headers_any alloc a2 hka d o1 o2 o3 o4 keep
        hkeep.symm ho1.symm ho2.symm ho3.symm ho4.symm
      have hBd : B = (cstr d).length + (rest.map cstr).flatten.length := by
        rw [← hB]
        simp
      obtain ⟨gd, ud⟩ := Buffer.write_grows alloc halloc o4 d (strlen d) (cstr d).length
        ((rest.map cstr).flatten.length + 0) (by simp [strlen]) (cstr_length_le d)
        (hp d (List.mem_cons_self _ _)) (g4.mono (by omega))
      obtain ⟨s4, ob4, e4, a4, g5, u5⟩ := Server.writes_grows alloc halloc rest 0 a3
        (fun x hx => hp x (List.mem_cons_of_mem _ hx)) gd
      obtain ⟨s5, e5, a5⟩ := Server.write_at_content alloc a4 []
      obtain ⟨g6, u6⟩ := hw0 ob4 g5
      refine ⟨s4, s5, _, _, _, _, _, _, ?_, a4, by decide, e5, a5, g6, ?_⟩
      · simp [Server.writes, e3, e4]
      · rw [u6, u5, ud, hBd]
        push_cast
        ring
  obtain ⟨s3, s4, st, ka3, ocl3, oc3, o, o5, e3, a3, hne, e4, a4, g5, u5⟩ := key
  have hdiff : o5.used - o4.length = ((B : Nat) : Int) := by
    simp only [Buffer.length]
    omega
  have h9 := fmt_d_length_le B hbody
  have hlen : o5.fail = false → (fmt_d (o5.used - o4.length)).length < 10 := by
    intro _
    rw [hdiff]
    omega
  obtain ⟨s5, e5, _, _, _, _, _, hthere⟩ := Server.send_full alloc a3 hne e4 a4 hlen
  obtain ⟨c2, hc2, hout, _⟩ := hthere g5.1.1
  refine ⟨s5, c2, by simp [e3, e5], hc2, ?_⟩
  rw [hout, hdiff]
  obtain ⟨_, q0, _, _, _, _⟩ := g2
  obtain ⟨q1, _, q2, _, _, _⟩ := g5
  refine Buffer.overwrite_clean o5 o2.length _ q1 ?_ ?_ q2
  · simpa [Buffer.length] using q0
  · simp only [Buffer.length]
    have : ((fmt_d (B : Int)).length : Int) ≤ 9 := by exact_mod_cast h9
    omega

/-- The response sequence on a buffer that `Grows`: the client is kept and the flags of
its output buffer are clear. -/
theorem Server.respond_grows (alloc : Int → Bool) (halloc : ∀ n, alloc n = true) (s : Server)
    (h : Nat) (c : Client) (code : Int) (hs : List (List Char × List Char))
    (ds : List (List Char)) (hst : s.state = State.STATUS) (hka : s.keep_alive = -1)
    (ht : s.target = some h) (hc : s.client h = some c)
    (hnames : ∀ nv ∈ hs, streq nv.1 "Content-Length".toList = false
      ∧ streq nv.1 "Connection".toList = false)
    (hbody : (ds.map cstr).flatten.length < 10 ^ 9)
    (hline : (status_line code).length ≤ 256)
    (hph : ∀ nv ∈ hs, (cstr nv.1).length ≤ 256 ∧ (cstr nv.2).length ≤ 256)
    (hpd : ∀ d ∈ ds, (cstr d).length ≤ 256)
    (hg : c.out.Grows (response_bytes code hs
      (should_keep_alive s.num_allocated s.MAX_CLIENTS c.num_served)
      (ds.map cstr).flatten).length) :
    ∃ s2 c2, s.respond alloc code hs ds = some s2 ∧ s2.client h = some c2 ∧ c2.out.clean := by
  have ha0 : s.At h c c.out State.STATUS (-1) s.offset_content_length s.offset_content
      s.num_allocated s.MAX_CLIENTS := ⟨hst, ht, hka, rfl, rfl, rfl, rfl, hc⟩
  obtain ⟨s1, e1, a1⟩ := Server.status_at alloc ha0 code
  rw [response_bytes_eq] at hg
  simp only [List.length_append] at hg
  obtain ⟨g1, _⟩ := Buffer.write_grows alloc halloc c.out (status_line code)
    (status_line code).length (status_line code).length
    ((hs.map header_line).flatten.length + (engine_lines
      (should_keep_alive s.num_allocated s.MAX_CLIENTS c.num_served)
      (ds.map cstr).flatten).length)
    (by simp) (le_refl _) hline (hg.mono (by omega))
  obtain ⟨s2, o2, e2, a2, g2, _⟩ := Server.headers_grows alloc halloc hs _ a1 hnames hph g1
  have hd : (decide ((-1 : Int) ≠ 0) && should_keep_alive s.num_allocated s.MAX_CLIENTS
      c.num_served) = should_keep_alive s.num_allocated s.MAX_CLIENTS c.num_served := by
    simp
  obtain ⟨s5, c2, e5, hc2, hcl⟩ := Server.finish_grows alloc halloc a2 (Or.inl rfl) ds hbody hpd
    (by rw [hd]; exact g2)
  refine ⟨s5, c2, ?_, hc2, hcl⟩
  cases hw : Server.writes alloc s2 ds with
  | none => simp [hw] at e5
  | some s6 =>
    simp only [hw, Option.some_bind] at e5
    simp only [Server.respond, e1, Option.some_bind, e2, hw, e5]

/-! ### Keep-alive, misuse, pipelining and the candidate queue -/

/-- C3: from the state left by `wait` (state STATUS, keep-alive unset, target `c` whose
output buffer holds `O`), the sequence `status(c); header(n1,v1) … header(nk,vk);
write(d1) … write(dm); send()` with no reserved header name and a body shorter than
10^9 bytes always returns, in state NOTARGET. Whenever the client is left with an output
buffer whose flags are clear, that buffer holds `O`, the status line, the application
headers in the order added, the `Connection` line, `Content-Length: ` with the body
length left-aligned in nine characters, the empty line and the body. And no append
fails, so the client is left with exactly these bytes, when the heap refuses no request,
every piece appended (status line, names, values, body pieces) has at most 256 bytes, and
the buffer is in order with `used` plus the length of the response at most 2^29. -/
theorem respond_writes_headers_then_engine_lines (alloc : Int → Bool) (s : Server) (h : Nat)
    (c : Client) (code : Int) (hs : List (List Char × List Char)) (ds : List (List Char))
    (hst : s.state = State.STATUS) (hka : s.keep_alive = -1) (ht : s.target = some h)
    (hc : s.client h = some c) (hsound : c.out.sound)
    (hnames : ∀ nv ∈ hs, streq nv.1 "Content-Length".toList = false
      ∧ streq nv.1 "Connection".toList = false)
    (hbody : (ds.map cstr).flatten.length < 10 ^ 9) :
    ∃ s2, s.respond alloc code hs ds = some s2 ∧ s2.state = State.NOTARGET ∧ s2.target = none
      ∧ (∀ c2, s2.client h = some c2 → c2.out.clean →
          c2.out.live = c.out.live ++ response_bytes code hs
            (should_keep_alive s.num_allocated s.MAX_CLIENTS c.num_served)
            (ds.map cstr).flatten)
      ∧ ((∀ n, alloc n = true) → (status_line code).length ≤ 256 →
          (∀ nv ∈ hs, (cstr nv.1).length ≤ 256 ∧ (cstr nv.2).length ≤ 256) →
          (∀ d ∈ ds, (cstr d).length ≤ 256) →
          c.out.Grows (response_bytes code hs
            (should_keep_alive s.num_allocated s.MAX_CLIENTS c.num_served)
            (ds.map cstr).flatten).length →
          ∃ c2, s2.client h = some c2 ∧ c2.out.clean
            ∧ c2.out.live = c.out.live ++ response_bytes code hs
                (should_keep_alive s.num_allocated s.MAX_CLIENTS c.num_served)
                (ds.map cstr).flatten) := by
  obtain ⟨s2, e2, h1, h2, h3⟩ :=
    Server.respond_core alloc s h c code hs ds hst hka ht hc hsound hnames hbody
  refine ⟨s2, e2, h1, h2, h3, ?_⟩
  intro halloc hline hph hpd hg
  obtain ⟨s3, c2, e3, hc2, hcl⟩ := Server.respond_grows alloc halloc s h c code hs ds hst hka
    ht hc hnames hbody hline hph hpd hg
  rw [e2] at e3
  cases e3
  exact ⟨c2, hc2, hcl, h3 c2 hc2 hcl⟩

set_option maxRecDepth 100000 in
/-- C3, instance: the response `status(404)` with two headers and a body in two pieces on
the hello request, whose client has a new, empty output buffer. The client is kept and its
output buffer holds the 124 bytes of the response. -/
theorem respond_writes_headers_then_engine_lines_witness :
    (Server.hello.state = State.STATUS ∧ Server.hello.keep_alive = -1
      ∧ Server.hello.target = some 0 ∧ Server.hello.client 0 = some Client.hello
      ∧ Client.hello.out.sound)
    ∧ (∃ s2, Server.hello.respond alloc_ok 404
          [("Content-Type".toList, "text/plain".toList), ("X-A".toList, "b".toList)]
          ["Hello, ".toList, "world!".toList] = some s2
        ∧ ∃ c2, s2.client 0 = some c2 ∧ c2.out.clean
          ∧ c2.out.live = Client.hello.out.live ++ response_bytes 404
              [("Content-Type".toList, "text/plain".toList), ("X-A".toList, "b".toList)]
              (should_keep_alive Server.hello.num_allocated Server.hello.MAX_CLIENTS
                Client.hello.num_served)
              (["Hello, ".toList, "world!".toList].map cstr).flatten)
    ∧ ((Server.hello.respond alloc_ok 404
          [("Content-Type".toList, "text/plain".toList), ("X-A".toList, "b".toList)]
          ["Hello, ".toList, "world!".toList]).bind fun s => s.out_bytes 0)
        = some "HTTP/1.1 404 Not Found\r\nContent-Type: text/plain\r\nX-A: b\r\nConnection: Keep-Alive\r\nContent-Length: 13       \r\n\r\nHello, world!".toList :=
  ⟨by decide,
    (respond_writes_headers_then_engine_lines alloc_ok Server.hello 0 Client.hello 404
      [("Content-Type".toList, "text/plain".toList), ("X-A".toList, "b".toList)]
      ["Hello, ".toList, "world!".toList] (by decide) (by decide) (by decide) (by decide)
      (by decide) (by decide) (by decide)).imp fun _ hp =>
        ⟨hp.1, hp.2.2.2.2 (fun _ => rfl) (by decide) (by decide) (by decide) (by decide)⟩,
    by decide⟩

/-- C12 (counterexample): with 7 of 10 clients connected the pool is 70% full, yet a
connection that has served no response is kept alive. -/
theorem keep_alive_kept_at_exactly_70_percent :
    (0 : Int) ≤ 7 ∧ (0 : Int) < 10 ∧ (10 * 7 : Int) ≥ 7 * 10
      ∧ should_keep_alive 7 10 0 = true := by
  decide

/-- C12 (amended): with `num_clients` and `max_clients` small enough for the two `int`
products, `should_keep_alive` is false exactly when `10 * num_clients > 7 * max_clients`
or `num_served >= 5`; and in that case the block of `write` that ends the headers
appends "Connection: Close\r\n", the `Content-Length` slot and the empty line, and
leaves `keep_alive` at 0, whatever the application chose. -/
theorem keep_alive_downgraded_above_70_percent (alloc : Int → Bool)
    (num_clients num_served : Int) (max_clients : Nat)
    (h0 : 0 ≤ num_clients) (h1 : num_clients ≤ 214748364) (h2 : 0 < max_clients)
    (h3 : max_clients ≤ 306783378) :
    (should_keep_alive num_clients max_clients num_served = false
      ↔ (10 * num_clients > 7 * (max_clients : Int) ∨ num_served ≥ 5))
    ∧ ∀ (s : Server) (h : Nat) (c : Client) (o : Buffer) (ka ocl oc : Int),
        s.At h c o State.HEADERS ka ocl oc num_clients max_clients →
        c.num_served = num_served → (ka = -1 ∨ ka = 0 ∨ ka = 1) →
        (10 * num_clients > 7 * (max_clients : Int) ∨ num_served ≥ 5) →
        ∃ s2 o2 ocl2, s.preamble alloc = some s2
          ∧ s2.At h c o2 State.CONTENT 0 ocl2 o2.length num_clients max_clients
          ∧ Buffer.Ext o o2 "Connection: Close\r\nContent-Length:          \r\n\r\n".toList := by
  have hiff := should_keep_alive_iff num_clients max_clients num_served h0 h1
    (by exact_mod_cast h2) (by exact_mod_cast h3)
  refine ⟨hiff, ?_⟩
  intro s h c o ka ocl oc ha hns hka hcond
  have hska := hiff.mpr hcond
  obtain ⟨s2, e2, a2⟩ := Server.preamble_any alloc ha hka _ _ _ _ false
    (by rw [hns, hska]; simp) rfl rfl rfl rfl
  refine ⟨s2, _, _, e2, a2, ?_⟩
  have y1 := Buffer.write_cstr_ext alloc o (connection_line false)
  have y2 := Buffer.write_cstr_ext alloc (o.write alloc (connection_line false) (-1))
    "Content-Length: ".toList
  have y3 := Buffer.write_cstr_ext alloc
    ((o.write alloc (connection_line false) (-1)).write alloc "Content-Length: ".toList (-1))
    "         \r\n".toList
  have y4 := Buffer.write_cstr_ext alloc
    (((o.write alloc (connection_line false) (-1)).write alloc "Content-Length: ".toList
      (-1)).write alloc "         \r\n".toList (-1)) "\r\n".toList
  have := ((y1.trans y2).trans y3).trans y4
  have e : cstr (connection_line false) ++ cstr "Content-Length: ".toList
      ++ cstr "         \r\n".toList ++ cstr "\r\n".toList
      = "Connection: Close\r\nContent-Length:          \r\n\r\n".toList := by decide
  rwa [e] at this

/-- C12 (amended), instance: 8 clients of 10, no response served yet. -/
theorem keep_alive_downgraded_above_70_percent_witness :
    ((0 : Int) ≤ 8 ∧ (8 : Int) ≤ 214748364 ∧ 0 < 10 ∧ 10 ≤ 306783378)
      ∧ (should_keep_alive 8 (10 : Nat) 0 = false
        ↔ (10 * (8 : Int) > 7 * ((10 : Nat) : Int) ∨ (0 : Int) ≥ 5)) :=
  ⟨by decide,
    (keep_alive_downgraded_above_70_percent alloc_ok 8 0 10 (by decide) (by decide) (by decide)
      (by decide)).1⟩

set_option maxRecDepth 100000 in
/-- C13 (counterexample): on the hello request the application calls
`header("Connection", "Close")` and then `header("Connection", "Keep-Alive")` before the
first `write`. The last call wins: the response carries "Connection: Keep-Alive\r\n" and
not "Connection: Close\r\n", and `send` leaves `close_when_flushed` clear. -/
theorem later_connection_header_overrides_close :
    ((Server.hello.respond alloc_ok 200
        [("Connection".toList, "Close".toList), ("Connection".toList, "Keep-Alive".toList)]
        ["bye".toList]).bind fun s => s.client 0).map
      (fun c => (c.out.live, c.close_when_flushed))
      = some ("HTTP/1.1 200 OK\r\nConnection: Keep-Alive\r\nContent-Length: 3        \r\n\r\nbye".toList,
          false)
    ∧ ¬ ("Connection: Close\r\n".toList <:+:
        "HTTP/1.1 200 OK\r\nConnection: Keep-Alive\r\nContent-Length: 3        \r\n\r\nbye".toList) := by
  decide

/-- C13 (amended): when the application adds the header `Connection: Close` before the
first `write` and no other `Connection` header, then for every pool occupancy and every
`num_served` the sequence returns, and whenever the client is left with an output buffer
whose flags are clear, the response is the status line, the other headers,
"Connection: Close\r\n" as the line the engine adds, the `Content-Length` line, the empty
line and the body, and `close_when_flushed` is set. No append fails, so the client is
left in this way, when the heap refuses no request, every piece appended has at most 256
bytes and the buffer is in order with `used` plus the length of the response at most
2^29. The SEND handler of a client so marked removes it from the pool in the call in
which the output buffer drains to length 0 (or fails), and keeps it otherwise. -/
theorem connection_close_is_honoured (alloc : Int → Bool) (s : Server) (h : Nat)
    (c : Client) (code : Int) (hs1 hs2 : List (List Char × List Char)) (ds : List (List Char))
    (hst : s.state = State.STATUS) (ht : s.target = some h) (hc : s.client h = some c)
    (hsound : c.out.sound)
    (hn1 : ∀ nv ∈ hs1, streq nv.1 "Content-Length".toList = false
      ∧ streq nv.1 "Connection".toList = false)
    (hn2 : ∀ nv ∈ hs2, streq nv.1 "Content-Length".toList = false
      ∧ streq nv.1 "Connection".toList = false)
    (hbody : (ds.map cstr).flatten.length < 10 ^ 9) :
    (∃ s2, s.respond alloc code (hs1 ++ ("Connection".toList, "Close".toList) :: hs2) ds
          = some s2
        ∧ s2.state = State.NOTARGET
        ∧ (∀ c2, s2.client h = some c2 →
            c2.close_when_flushed = true
            ∧ (c2.out.clean →
                c2.out.live
                  = c.out.live ++ response_bytes code (hs1 ++ hs2) false (ds.map cstr).flatten))
        ∧ ((∀ n, alloc n = true) → (status_line code).length ≤ 256 →
            (∀ nv ∈ hs1 ++ hs2, (cstr nv.1).length ≤ 256 ∧ (cstr nv.2).length ≤ 256) →
            (∀ d ∈ ds, (cstr d).length ≤ 256) →
            c.out.Grows
              (response_bytes code (hs1 ++ hs2) false (ds.map cstr).flatten).length →
            ∃ c2, s2.client h = some c2 ∧ c2.close_when_flushed = true ∧ c2.out.clean
              ∧ c2.out.live
                  = c.out.live ++ response_bytes code (hs1 ++ hs2) false (ds.map cstr).flatten))
      ∧ ∀ (s3 : Server) (c3 : Client) (sock : List Int),
          s3.client h = some c3 → c3.close_when_flushed = true →
          ∃ s4, s3.flush_buffered_bytes_to_client_and_close_if_done alloc h sock = some s4
            ∧ (((c3.out.read_sock alloc sock).buf.length = 0
                  ∨ (c3.out.read_sock alloc sock).buf.failed = true) →
                s4.client h = none ∧ s4.num_allocated = s3.num_allocated - 1)
            ∧ ((c3.out.read_sock alloc sock).buf.failed = false →
                (c3.out.read_sock alloc sock).buf.length ≠ 0 →
                s4 = s3.set_client h { c3 with out := (c3.out.read_sock alloc sock).buf }) := by
  refine ⟨?_, fun s3 c3 sock h3 hcw => Server.flush_closing alloc h3 hcw sock⟩
  have ha0 : s.At h c c.out State.STATUS s.keep_alive s.offset_content_length s.offset_content
      s.num_allocated s.MAX_CLIENTS := ⟨hst, ht, rfl, rfl, rfl, rfl, rfl, hc⟩
  obtain ⟨s1, e1, a1⟩ := Server.status_at alloc ha0 code
  have x1 := Buffer.write_all_ext alloc c.out (status_line code)
  obtain ⟨s2, o2, e2, a2, x2⟩ := Server.headers_at alloc hs1 a1 hn1
  have hclose : streq "Close".toList "Close".toList = true := by decide
  have e3 := Server.header_connection alloc a2.state "Connection".toList "Close".toList
    (by decide) (by decide)
  rw [hclose, if_pos rfl] at e3
  have a3 := a2.set_keep_alive 0
  obtain ⟨s4, o4, e4, a4, x4⟩ := Server.headers_at alloc hs2 a3 hn2
  have hx := (x1.trans x2).trans x4
  obtain ⟨s5, e5, hstate, _, _, hcl⟩ := Server.finish_core alloc a4 (Or.inr (Or.inl rfl)) hx
    hsound ds hbody
  have hresp : s.respond alloc code (hs1 ++ ("Connection".toList, "Close".toList) :: hs2) ds
      = some s5 := by
    cases hw : Server.writes alloc s4 ds with
    | none => simp [hw] at e5
    | some s6 =>
      simp only [hw, Option.some_bind] at e5
      simp only [Server.respond, e1, Option.some_bind, Server.headers_append, e2, Server.headers,
        e3, e4, hw, e5]
  have hguard : ∀ c2, s5.client h = some c2 →
      c2.close_when_flushed = true
      ∧ (c2.out.clean →
          c2.out.live
            = c.out.live ++ response_bytes code (hs1 ++ hs2) false (ds.map cstr).flatten) := by
    intro c2 hc2
    obtain ⟨g1, _, _, _, _, g3⟩ := hcl c2 hc2
    refine ⟨by simpa using g1, fun hclean => ?_⟩
    rw [g3 hclean, response_bytes_eq]
    simp [List.append_assoc]
  refine ⟨s5, hresp, hstate, hguard, ?_⟩
  intro halloc hline hph hpd hg
  rw [response_bytes_eq] at hg
  simp only [List.length_append, List.map_append, List.flatten_append] at hg
  obtain ⟨g1, _⟩ := Buffer.write_grows alloc halloc c.out (status_line code)
    (status_line code).length (status_line code).length
    ((hs1.map header_line).flatten.length + ((hs2.map header_line).flatten.length
      + (engine_lines false (ds.map cstr).flatten).length))
    (by simp) (le_refl _) hline (hg.mono (by omega))
  obtain ⟨t2, p2, f2, b2, g2, _⟩ := Server.headers_grows alloc halloc hs1 _ a1 hn1
    (fun nv hnv => hph nv (List.mem_append_left _ hnv)) g1
  have f3 := Server.header_connection alloc b2.state "Connection".toList "Close".toList
    (by decide) (by decide)
  rw [hclose, if_pos rfl] at f3
  have b3 := b2.set_keep_alive 0
  obtain ⟨t4, p4, f4, b4, g4, _⟩ := Server.headers_grows alloc halloc hs2 _ b3 hn2
    (fun nv hnv => hph nv (List.mem_append_right _ hnv)) g2
  have hd : (decide ((0 : Int) ≠ 0) && should_keep_alive s.num_allocated s.MAX_CLIENTS
      c.num_served) = false := by
    simp
  obtain ⟨t5, c2, f5, hc2, hclean⟩ := Server.finish_grows alloc halloc b4 (Or.inr (Or.inl rfl))
    ds hbody hpd (by rw [hd]; exact g4)
  have hresp2 : s.respond alloc code (hs1 ++ ("Connection".toList, "Close".toList) :: hs2) ds
      = some t5 := by
    cases hw : Server.writes alloc t4 ds with
    | none => simp [hw] at f5
    | some s6 =>
      simp only [hw, Option.some_bind] at f5
      simp only [Server.respond, e1, Option.some_bind, Server.headers_append, f2, Server.headers,
        f3, f4, hw, f5]
  rw [hresp] at hresp2
  cases hresp2
  obtain ⟨k1, k2⟩ := hguard c2 hc2
  exact ⟨c2, hc2, k1, hclean, k2 hclean⟩

/-- C16: in state NOTARGET the calls `status`, `header`, `write` and `send` return the
engine as it was; so does `status` in states HEADERS and CONTENT (a second `status`
included) and `header` in state CONTENT (a `header` after the first `write` included):
engine state, `keep_alive` and every output buffer are those before the call. -/
theorem misuse_calls_change_nothing (alloc : Int → Bool) (s : Server) :
    (s.state = State.NOTARGET → ∀ (code : Int) (name value str : List Char) (len : Int),
        s.status alloc code = some s ∧ s.header alloc name value = some s
        ∧ s.write alloc str len = some s ∧ s.send alloc = some s)
      ∧ (∀ (h : Nat) (c : Client) (code : Int), s.target = some h → s.client h = some c →
          s.state ≠ State.STATUS → s.status alloc code = some s)
      ∧ (s.state = State.CONTENT → ∀ (name value : List Char),
          s.header alloc name value = some s)
      ∧ (∀ (h : Nat) (c : Client) (code code2 : Int), s.state = State.STATUS →
          s.target = some h → s.client h = some c →
          ∃ s1, s.status alloc code = some s1 ∧ s1.state = State.HEADERS
            ∧ s1.status alloc code2 = some s1)
      ∧ (∀ (h : Nat) (c : Client) (str name value : List Char) (len : Int),
          s.state ≠ State.NOTARGET → s.target = some h → s.client h = some c →
          ∃ s1, s.write alloc str len = some s1 ∧ s1.state = State.CONTENT
            ∧ s1.header alloc name value = some s1) := by
  have hstatus : ∀ (t : Server) (h : Nat) (c : Client) (code : Int), t.target = some h →
      t.client h = some c → t.state ≠ State.STATUS → t.status alloc code = some t := by
    intro t h c code ht hc hne
    have htc := Server.target_client_of ht hc
    unfold Server.status
    by_cases h0 : t.state = State.NOTARGET
    · simp [h0]
    · simp [h0, htc, hne]
  have hheader : ∀ (t : Server), t.state = State.CONTENT → ∀ (name value : List Char),
      t.header alloc name value = some t := by
    intro t hst name value
    unfold Server.header
    simp [hst]
  refine ⟨?_, ?_, hheader s, ?_, ?_⟩
  · intro hst code name value str len
    refine ⟨?_, ?_, ?_, ?_⟩
    · unfold Server.status; simp [hst]
    · unfold Server.header; simp [hst]
    · unfold Server.write; simp [hst]
    · unfold Server.send; simp [hst]
  · intro h c code ht hc hne
    exact hstatus s h c code ht hc hne
  · intro h c code code2 hst ht hc
    have ha0 : s.At h c c.out State.STATUS s.keep_alive s.offset_content_length
        s.offset_content s.num_allocated s.MAX_CLIENTS := ⟨hst, ht, rfl, rfl, rfl, rfl, rfl, hc⟩
    obtain ⟨s1, e1, a1⟩ := Server.status_at alloc ha0 code
    refine ⟨s1, e1, a1.state, hstatus s1 h _ code2 a1.target a1.client ?_⟩
    rw [a1.state]
    decide
  · intro h c str name value len hst ht hc
    have ha0 : s.At h c c.out s.state s.keep_alive s.offset_content_length
        s.offset_content s.num_allocated s.MAX_CLIENTS := ⟨rfl, ht, rfl, rfl, rfl, rfl, rfl, hc⟩
    obtain ⟨s1, _, _, _, _, e1, a1, _⟩ := Server.write_returns alloc ha0 hst str len
    exact ⟨s1, e1, a1.state, hheader s1 a1.state name value⟩

/-- C17 (counterexample): on an engine as the constructor leaves it (state NOTARGET,
`target` and `keep_alive` never assigned, here a stale pointer and 1), `send` returns at
once: `target` is not null and `keep_alive` is not UNSET after the call. -/
theorem send_in_notarget_keeps_target :
    ∃ s2, (Server.new 4 (some 0) 0 0 1 0).send alloc_ok = some s2
      ∧ s2.state = State.NOTARGET ∧ s2.target = some 0 ∧ s2.keep_alive = 1 :=
  ⟨Server.new 4 (some 0) 0 0 1 0, rfl, rfl, rfl, rfl⟩

/-- C17 (amended): `send` called in state NOTARGET returns the engine as it was; called
in state STATUS, HEADERS or CONTENT with an allocated target (and, in state CONTENT, a
body length that fits the nine-character field) it returns, on its success branch as on
its failed-output-buffer branch, with state NOTARGET, `target` null, `keep_alive` UNSET
and `req_bytes` -1. In both cases the state is NOTARGET after the call. -/
theorem send_leaves_notarget (alloc : Int → Bool) (s : Server) :
    (s.state = State.NOTARGET → s.send alloc = some s)
      ∧ ∀ (h : Nat) (c : Client), s.state ≠ State.NOTARGET → s.target = some h →
          s.client h = some c →
          (s.state = State.CONTENT →
            -100000000 < c.out.used - s.offset_content
              ∧ c.out.used - s.offset_content < 1000000000) →
          ∃ s2, s.send alloc = some s2 ∧ s2.state = State.NOTARGET ∧ s2.target = none
            ∧ s2.keep_alive = -1 ∧ s2.req_bytes = -1 := by
  refine ⟨fun hst => ?_, fun h c hst ht hc hbody => ?_⟩
  · unfold Server.send
    simp [hst]
  · have ha0 : s.At h c c.out s.state s.keep_alive s.offset_content_length
        s.offset_content s.num_allocated s.MAX_CLIENTS := ⟨rfl, ht, rfl, rfl, rfl, rfl, rfl, hc⟩
    exact Server.send_returns alloc ha0 hst hbody

/-- C15: in state STATUS or HEADERS, once the status line implied in state STATUS is
written, `header("Content-Length", v)` does nothing more, `header("Connection", v)` only
sets `keep_alive`, to 0 (FALSE) when `v` is "Close" and to 1 (TRUE) otherwise, and
`header(name, value)` with any other name appends "name: value\r\n" to the output buffer
of the target and changes no engine field. The append cannot fail, and the buffer holds
its earlier bytes, the implied status line and the header line, when the heap refuses no
request, name and value have at most 256 bytes each and the buffer is in order with
`used` plus the bytes to append at most 2^29. -/
theorem header_intercepts_reserved_names (alloc : Int → Bool) (s : Server) (h : Nat)
    (c : Client) (o : Buffer) (st : State) (ka ocl oc na : Int) (mx : Nat)
    (name value : List Char) (ha : s.At h c o st ka ocl oc na mx)
    (hst : st = State.STATUS ∨ st = State.HEADERS) :
    (streq name "Content-Length".toList = true →
        s.header alloc name value = (if st = State.STATUS then s.status alloc 200 else some s)
        ∧ ∃ s2, s.header alloc name value = some s2
          ∧ s2.At h c (implied_status alloc st o) State.HEADERS ka ocl oc na mx)
      ∧ (streq name "Content-Length".toList = false → streq name "Connection".toList = true →
        s.header alloc name value
          = (if st = State.STATUS then s.status alloc 200 else some s).map (fun s1 =>
              { s1 with keep_alive := if streq value "Close".toList then 0 else 1 })
        ∧ ∃ s2, s.header alloc name value = some s2
          ∧ s2.At h c (implied_status alloc st o) State.HEADERS
              (if streq value "Close".toList then 0 else 1) ocl oc na mx)
      ∧ (streq name "Content-Length".toList = false → streq name "Connection".toList = false →
        ∃ s2 o2, s.header alloc name value = some s2
          ∧ s2.At h c o2 State.HEADERS ka ocl oc na mx
          ∧ Buffer.Ext (implied_status alloc st o) o2 (header_line (name, value))
          ∧ ((∀ n, alloc n = true) → o.sound → (cstr name).length ≤ 256 →
              (cstr value).length ≤ 256 →
              o.Grows ((if st = State.STATUS then (status_line 200).length else 0)
                + (header_line (name, value)).length) →
              o2.clean
                ∧ o2.live = o.live ++ (if st = State.STATUS then status_line 200 else [])
                    ++ header_line (name, value))) := by
  rcases hst with rfl | rfl
  · obtain ⟨s1, e1, a1, e⟩ := Server.header_status alloc ha name value
    have hi : implied_status alloc State.STATUS o
        = o.write alloc (status_line 200) (status_line 200).length := by
      simp [implied_status]
    rw [hi, e]
    simp only [if_true, e1, Option.map_some']
    refine ⟨fun h1 => ?_, fun h1 h2 => ?_, fun h1 h2 => ?_⟩
    · have := Server.header_content_length alloc a1.state name value h1
      exact ⟨this, s1, this, a1⟩
    · have := Server.header_connection alloc a1.state name value h1 h2
      exact ⟨this, _, this, a1.set_keep_alive _⟩
    · obtain ⟨s2, e2, a2⟩ := Server.header_at alloc a1 name value h1 h2
      have x2 := Buffer.header_ext alloc
        (o.write alloc (status_line 200) (status_line 200).length) (name, value)
      refine ⟨s2, _, e2, a2, x2, ?_⟩
      intro halloc hsound hp1 hp2 hg
      obtain ⟨g1, _⟩ := Buffer.write_grows alloc halloc o (status_line 200)
        (status_line 200).length (status_line 200).length (header_line (name, value)).length
        (by simp) (le_refl _) (by decide) hg
      obtain ⟨g2, _⟩ := Buffer.header_grows alloc halloc _ (name, value) 0 hp1 hp2
        (g1.mono (by omega))
      have x1 := Buffer.write_all_ext alloc o (status_line 200)
      exact ⟨g2.1, by rw [((x1.trans x2).2.2 hsound g2.1).2, List.append_assoc]⟩
  · have hi : implied_status alloc State.HEADERS o = o := by
      simp [implied_status]
    rw [hi]
    have hne : ¬ (State.HEADERS = State.STATUS) := by decide
    simp only [hne, if_false, Option.map_some']
    refine ⟨fun h1 => ?_, fun h1 h2 => ?_, fun h1 h2 => ?_⟩
    · have := Server.header_content_length alloc ha.state name value h1
      exact ⟨this, s, this, ha⟩
    · have := Server.header_connection alloc ha.state name value h1 h2
      exact ⟨this, _, this, ha.set_keep_alive _⟩
    · obtain ⟨s2, e2, a2⟩ := Server.header_at alloc ha name value h1 h2
      have x2 := Buffer.header_ext alloc o (name, value)
      refine ⟨s2, _, e2, a2, x2, ?_⟩
      intro halloc hsound hp1 hp2 hg
      obtain ⟨g2, _⟩ := Buffer.header_grows alloc halloc o (name, value) 0 hp1 hp2
        (hg.mono (by omega))
      exact ⟨g2.1, by rw [(x2.2.2 hsound g2.1).2, List.append_nil]⟩

set_option maxRecDepth 100000 in
/-- The first `wait` of the pipelining scenario, evaluated. -/
theorem Server.pipelined_first_eq :
    Server.wait alloc_ok Server.pipelined Request.new
      = some (Server.pipelined_first, Request.pipelined_first) := by
  have hsome : (Server.wait alloc_ok Server.pipelined Request.new).isSome = true := by decide
  unfold Server.pipelined_first Request.pipelined_first
  cases hx : Server.wait alloc_ok Server.pipelined Request.new with
  | none =>
    rw [hx] at hsome
    simp at hsome
  | some r => rfl

set_option maxRecDepth 100000 in
/-- C14: with "GET /a HTTP/1.1\r\n\r\nGET /b HTTP/1.1\r\n\r\n" in the input buffer of the
only client of a server for four, the first `wait` returns the request with path "/a"
and records 19 request bytes; every response without a `Connection` header (keep-alive
resolves to TRUE) returns and, on the success branch of `send`, leaves in the input
buffer exactly the bytes after the first 19, "GET /b HTTP/1.1\r\n\r\n", sets `queued`
and puts the client in the candidate queue; the next `wait` returns the request with
path "/b". -/
theorem pipelined_requests_are_served_in_order (alloc : Int → Bool) (code : Int)
    (hs : List (List Char × List Char)) (ds : List (List Char))
    (hnames : ∀ nv ∈ hs, streq nv.1 "Content-Length".toList = false
      ∧ streq nv.1 "Connection".toList = false)
    (hbody : (ds.map cstr).flatten.length < 10 ^ 9) :
    ∃ s1 r1, Server.wait alloc Server.pipelined Request.new = some (s1, r1)
      ∧ r1.url.path.bytes = "/a".toList ∧ s1.req_bytes = 19
      ∧ ∃ s2, s1.respond alloc code hs ds = some s2
        ∧ ∀ c2, s2.client 0 = some c2 →
            c2.in_.live = pipelined_input.drop 19
            ∧ c2.in_.live = "GET /b HTTP/1.1\r\n\r\n".toList
            ∧ c2.queued = true ∧ s2.queue.size = 1 ∧ s2.queue.pop.2.2 = some 0
            ∧ ∃ s3 r2, Server.wait alloc s2 Request.new = some (s3, r2)
              ∧ r2.url.path.bytes = "/b".toList := by
  have hw := Server.pipelined_first_eq
  rw [Server.wait_notarget alloc_ok alloc Server.pipelined Request.new (by decide)] at hw
  have hc : Server.pipelined_first.client 0 = some Client.pipelined_first := by decide
  have hska : should_keep_alive Server.pipelined_first.num_allocated
      Server.pipelined_first.MAX_CLIENTS Client.pipelined_first.num_served = true := by decide
  have hcon : ((Client.pipelined_first.in_.consume Server.pipelined_first.req_bytes).contains
      "\r\n\r\n".toList).1 = true := by decide
  have hrest : ((Client.pipelined_first.in_.consume Server.pipelined_first.req_bytes).contains
      "\r\n\r\n".toList).2 = Buffer.pipelined_rest := by decide
  obtain ⟨s2, e2, hst2, h2⟩ := Server.respond_requeue alloc Server.pipelined_first 0
    Client.pipelined_first code hs ds (by decide) (by decide) (by decide) hc (by decide) hnames
    hbody
  refine ⟨_, _, hw, by decide, by decide, s2, e2, ?_⟩
  intro c2 hc2
  obtain ⟨g1, g2, g3, _⟩ := h2 c2 hc2
  rw [hska, hcon] at g2 g3
  rw [hska, if_pos rfl, hrest] at g1
  simp only [Bool.and_self, Bool.true_or, if_true] at g2 g3
  have hq1 : ((Server.pipelined_first.queue.push (some 0)).2).size = 1 := by decide
  have hq2 : ((Server.pipelined_first.queue.push (some 0)).2).pop.2.2 = some 0 := by decide
  have hq3 : ((Server.pipelined_first.queue.push (some 0)).2).pop.1 = true := by decide
  have hq4 : ((Server.pipelined_first.queue.push (some 0)).2).empty = false := by decide
  rw [← g3] at hq1 hq2 hq3 hq4
  have hparse : Request.new.parse_slice (Buffer.pipelined_rest.slice_until "\r\n\r\n".toList
      true).1 = some (ParseResult.of_slice (Buffer.pipelined_rest.slice_until "\r\n\r\n".toList
      true).1) := by decide
  rw [← g1] at hparse
  obtain ⟨s3, r2, e3, hurl, _⟩ := Server.wait_candidate alloc Request.new _ 0 hst2 hq4 hq3 hq2
    hc2 hparse (by rw [g1]; decide) (by rw [g1]; decide) (le_refl _) (by rw [g1]; decide)
  refine ⟨by rw [g1]; decide, by rw [g1]; decide, g2, hq1, hq2, s3, r2, e3, ?_⟩
  rw [hurl, g1]
  decide

set_option maxRecDepth 100000 in
/-- C14, instance: the response `status(200); write("hi"); send()`; `send` takes its
success branch, so the client is still connected when the second `wait` runs. -/
theorem pipelined_requests_are_served_in_order_witness :
    ((∀ nv ∈ ([] : List (List Char × List Char)), streq nv.1 "Content-Length".toList = false
        ∧ streq nv.1 "Connection".toList = false)
      ∧ ((["hi".toList].map cstr).flatten.length < 10 ^ 9))
    ∧ (((Server.pipelined_first.respond alloc_ok 200 [] ["hi".toList]).bind fun s =>
          s.client 0).isSome = true)
    ∧ ((((Server.pipelined_first.respond alloc_ok 200 [] ["hi".toList]).bind fun s =>
          Server.wait alloc_ok s Request.new).map fun r => r.2.url.path.bytes)
        = some "/b".toList)
    ∧ ∃ s1 r1, Server.wait alloc_ok Server.pipelined Request.new = some (s1, r1)
      ∧ r1.url.path.bytes = "/a".toList ∧ s1.req_bytes = 19
      ∧ ∃ s2, s1.respond alloc_ok 200 [] ["hi".toList] = some s2
        ∧ ∀ c2, s2.client 0 = some c2 →
            c2.in_.live = pipelined_input.drop 19
            ∧ c2.in_.live = "GET /b HTTP/1.1\r\n\r\n".toList
            ∧ c2.queued = true ∧ s2.queue.size = 1 ∧ s2.queue.pop.2.2 = some 0
            ∧ ∃ s3 r2, Server.wait alloc_ok s2 Request.new = some (s3, r2)
              ∧ r2.url.path.bytes = "/b".toList :=
  ⟨⟨by decide, by decide⟩, by decide, by decide,
    pipelined_requests_are_served_in_order alloc_ok 200 [] ["hi".toList] (by decide)
      (by decide)⟩

set_option maxRecDepth 100000 in
/-- C13 (amended), instance: `status(200); header("Content-Type", "text/plain");
header("Connection", "Close"); write("bye"); send()` on the hello request: the client is
kept with `close_when_flushed` set, the response carries "Connection: Close", and the
SEND handler whose socket takes all 94 bytes removes the client. -/
theorem connection_close_is_honoured_witness :
    (Server.hello.state = State.STATUS ∧ Server.hello.target = some 0
      ∧ Server.hello.client 0 = some Client.hello ∧ Client.hello.out.sound)
    ∧ (((Server.hello.respond alloc_ok 200
          [("Content-Type".toList, "text/plain".toList), ("Connection".toList, "Close".toList)]
          ["bye".toList]).bind fun s => s.out_bytes 0)
        = some "HTTP/1.1 200 OK\r\nContent-Type: text/plain\r\nConnection: Close\r\nContent-Length: 3        \r\n\r\nbye".toList)
    ∧ ((((Server.hello.respond alloc_ok 200
          [("Content-Type".toList, "text/plain".toList), ("Connection".toList, "Close".toList)]
          ["bye".toList]).bind fun s =>
            s.flush_buffered_bytes_to_client_and_close_if_done alloc_ok 0 [94]).map fun s =>
              (s.client 0, s.num_allocated)) = some (none, 0))
    ∧ ∃ s2, Server.hello.respond alloc_ok 200
          ([("Content-Type".toList, "text/plain".toList)]
            ++ ("Connection".toList, "Close".toList) :: []) ["bye".toList] = some s2
        ∧ s2.state = State.NOTARGET
        ∧ ∃ c2, s2.client 0 = some c2 ∧ c2.close_when_flushed = true ∧ c2.out.clean
            ∧ c2.out.live = Client.hello.out.live ++ response_bytes 200
                ([("Content-Type".toList, "text/plain".toList)] ++ []) false
                (["bye".toList].map cstr).flatten :=
  ⟨by decide, by decide, by decide,
    (connection_close_is_honoured alloc_ok Server.hello 0 Client.hello 200
      [("Content-Type".toList, "text/plain".toList)] [] ["bye".toList] (by decide) (by decide)
      (by decide) (by decide) (by decide) (by decide) (by decide)).1.imp fun _ hp =>
        ⟨hp.1, hp.2.1,
          hp.2.2.2 (fun _ => rfl) (by decide) (by decide) (by decide) (by decide)⟩⟩

set_option maxRecDepth 100000 in
/-- C15, instance: the three kinds of header name on the hello request, in state STATUS,
where the status line of `status(200)` is implied. `header("Content-Type", "text/plain")`
leaves "HTTP/1.1 200 OK\r\nContent-Type: text/plain\r\n" in the output buffer;
`header("Connection", "close")`, whose value is not exactly "Close", sets `keep_alive` to
1 and `header("Content-Length", "5")` leaves it unset, both with the status line only in
the buffer. -/
theorem header_intercepts_reserved_names_witness :
    (Server.hello.At 0 Client.hello Client.hello.out State.STATUS (-1) 0 0 1 4
      ∧ (State.STATUS = State.STATUS ∨ State.STATUS = State.HEADERS))
    ∧ (∃ s2 o2, Server.hello.header alloc_ok "Content-Type".toList "text/plain".toList = some s2
        ∧ s2.At 0 Client.hello o2 State.HEADERS (-1) 0 0 1 4
        ∧ o2.clean
        ∧ o2.live = Client.hello.out.live
            ++ (if State.STATUS = State.STATUS then status_line 200 else [])
            ++ header_line ("Content-Type".toList, "text/plain".toList))
    ∧ (Server.hello.header alloc_ok "Connection".toList "close".toList
        = (if State.STATUS = State.STATUS then Server.hello.status alloc_ok 200
            else some Server.hello).map (fun s1 =>
              { s1 with keep_alive := if streq "close".toList "Close".toList then 0 else 1 }))
    ∧ ((Server.hello.header alloc_ok "Content-Type".toList "text/plain".toList).bind fun s =>
          s.out_bytes 0) = some "HTTP/1.1 200 OK\r\nContent-Type: text/plain\r\n".toList
    ∧ ((Server.hello.header alloc_ok "Connection".toList "close".toList).map fun s =>
          (s.keep_alive, s.out_bytes 0)) = some (1, some "HTTP/1.1 200 OK\r\n".toList)
    ∧ ((Server.hello.header alloc_ok "Connection".toList "Close".toList).map fun s =>
          (s.keep_alive, s.out_bytes 0)) = some (0, some "HTTP/1.1 200 OK\r\n".toList)
    ∧ ((Server.hello.header alloc_ok "Content-Length".toList "5".toList).map fun s =>
          (s.keep_alive, s.out_bytes 0)) = some (-1, some "HTTP/1.1 200 OK\r\n".toList) := by
  have hA : Server.hello.At 0 Client.hello Client.hello.out State.STATUS (-1) 0 0 1 4 :=
    ⟨by decide, by decide, by decide, by decide, by decide, by decide, by decide, by decide⟩
  exact ⟨⟨hA, Or.inl rfl⟩,
    ((header_intercepts_reserved_names alloc_ok Server.hello 0 Client.hello Client.hello.out
      State.STATUS (-1) 0 0 1 4 "Content-Type".toList "text/plain".toList hA
      (Or.inl rfl)).2.2 (by decide) (by decide)).imp fun _ hs2 => hs2.imp fun _ hp =>
        ⟨hp.1, hp.2.1, hp.2.2.2 (fun _ => rfl) (by decide) (by decide) (by decide) (by decide)⟩,
    ((header_intercepts_reserved_names alloc_ok Server.hello 0 Client.hello Client.hello.out
      State.STATUS (-1) 0 0 1 4 "Connection".toList "close".toList hA
      (Or.inl rfl)).2.1 (by decide) (by decide)).1,
    by decide, by decide, by decide, by decide⟩

/-- C16, instances: on the hello request a second `status` and a `header` after the first
`write` change nothing, and before `wait` has returned a request none of the four calls
does. -/
theorem misuse_calls_change_nothing_witness :
    (Server.hello.state = State.STATUS ∧ Server.hello.target = some 0
      ∧ Server.hello.client 0 = some Client.hello
      ∧ (Server.with_candidate 4 "GET / HTTP/1.1\r\n\r\n".toList).state = State.NOTARGET)
    ∧ (∃ s1, Server.hello.status alloc_ok 200 = some s1 ∧ s1.state = State.HEADERS
        ∧ s1.status alloc_ok 404 = some s1)
    ∧ (∃ s1, Server.hello.write alloc_ok "hi".toList (-1) = some s1
        ∧ s1.state = State.CONTENT ∧ s1.header alloc_ok "X".toList "y".toList = some s1)
    ∧ ((Server.with_candidate 4 "GET / HTTP/1.1\r\n\r\n".toList).send alloc_ok
        = some (Server.with_candidate 4 "GET / HTTP/1.1\r\n\r\n".toList)) :=
  ⟨by decide,
    (misuse_calls_change_nothing alloc_ok Server.hello).2.2.2.1 0 Client.hello 200 404
      (by decide) (by decide) (by decide),
    (misuse_calls_change_nothing alloc_ok Server.hello).2.2.2.2 0 Client.hello "hi".toList
      "X".toList "y".toList (-1) (by decide) (by decide) (by decide),
    ((misuse_calls_change_nothing alloc_ok
      (Server.with_candidate 4 "GET / HTTP/1.1\r\n\r\n".toList)).1 (by decide) 200 [] [] []
      (-1)).2.2.2⟩

set_option maxRecDepth 100000 in
/-- C17 (amended), instances: `send` on the hello request in state STATUS, with every
allocation succeeding (the client stays, one response served) and with every allocation
failing (the output buffer fails and the client is removed). -/
theorem send_leaves_notarget_witness :
    (Server.hello.state ≠ State.NOTARGET ∧ Server.hello.target = some 0
      ∧ Server.hello.client 0 = some Client.hello)
    ∧ (((Server.hello.send alloc_ok).map fun s =>
          (s.state, s.target, s.keep_alive, (s.client 0).map fun c => c.num_served))
        = some (State.NOTARGET, none, -1, some 1))
    ∧ (((Server.hello.send (fun _ => false)).map fun s =>
          (s.state, s.target, s.keep_alive, (s.client 0).map fun c => c.num_served))
        = some (State.NOTARGET, none, -1, none))
    ∧ ∃ s2, Server.hello.send alloc_ok = some s2 ∧ s2.state = State.NOTARGET
        ∧ s2.target = none ∧ s2.keep_alive = -1 ∧ s2.req_bytes = -1 :=
  ⟨by decide, by decide, by decide,
    (send_leaves_notarget alloc_ok Server.hello).2 0 Client.hello (by decide) (by decide)
      (by decide) (by decide)⟩

/-! ### The end of the head -/

theorem Scanner.consume_str_crlf {src : Scanner} {off : Nat}
    (h : (src.consume_str ['\r', '\n'] off).1 = true) :
    (src.consume_str ['\r', '\n'] off).2 = off + 2 ∧ off + 2 ≤ src.len
      ∧ (src.str.drop off).take 2 = ['\r', '\n'] := by
  have hc : cstr ['\r', '\n'] = ['\r', '\n'] := by decide
  unfold Scanner.consume_str at h ⊢
  simp only [hc, List.length_cons, List.length_nil] at h ⊢
  by_cases h1 : off + (0 + 1 + 1) > src.len
  · rw [if_pos h1] at h
    simp at h
  · rw [if_neg h1] at h ⊢
    by_cases h2 : (!memeq (src.str.drop off) ['\r', '\n'] (0 + 1 + 1)) = true
    · rw [if_pos h2] at h
      simp at h
    · rw [if_neg h2]
      refine ⟨rfl, by omega, ?_⟩
      simp only [Bool.not_eq_true, Bool.not_eq_false', memeq] at h2
      have := eq_of_beq h2
      simpa using this

theorem parse_headers_loop_ends (src : Scanner) :
    ∀ (fuel : Nat) (dst : Request) (off : Nat) (res : ParseResult),
      parse_headers_loop src fuel dst off = some res → res.ok = true →
      res.off ≤ src.len ∧ 2 ≤ res.off ∧ (src.str.drop (res.off - 2)).take 2 = ['\r', '\n'] := by
  intro fuel
  induction fuel with
  | zero =>
    intro dst off res h _
    exact absurd h (by simp [parse_headers_loop])
  | succ n ih =>
    intro dst off res h hok
    unfold parse_headers_loop at h
    cases h1 : src.consume1 (fun c => c != ':') off with
    | none => simp [h1] at h
    | some r =>
      simp only [h1, Option.some_bind] at h
      cases h2 : src.consume_char ':' r.2 with
      | none => simp [h2] at h
      | some r2 =>
        simp only [h2, Option.some_bind] at h
        split at h
        · simp only [Option.some.injEq] at h
          rw [← h] at hok
          exact absurd hok (by simp)
        · cases h3 : src.consume1 (fun c => c != '\r') r2.2 with
          | none => simp [h3] at h
          | some r3 =>
            simp only [h3, Option.some_bind] at h
            split at h
            · simp only [Option.some.injEq] at h
              rw [← h] at hok
              exact absurd hok (by simp)
            · split at h
              · exact ih _ _ _ h hok
              · rename_i hhit
                simp only [Option.some.injEq] at h
                rw [← h]
                simp only [Bool.not_eq_true, Bool.not_eq_false'] at hhit
                obtain ⟨e1, e2, e3⟩ := Scanner.consume_str_crlf hhit
                simp only
                rw [e1]
                exact ⟨e2, by omega, by simpa using e3⟩

theorem parse_request_ends {src : Scanner} {dst : Request} {off : Nat} {res : ParseResult}
    (h : parse_request src dst off = some res) (hok : res.ok = true) :
    res.off = src.len ∧ 2 ≤ res.off
      ∧ (src.str.drop (res.off - 2)).take 2 = ['\r', '\n'] := by
  unfold parse_request at h
  cases hl : parse_request_line src dst off with
  | none => simp [hl] at h
  | some l =>
    simp only [hl, Option.some_bind] at h
    split at h
    · rename_i hbad
      simp only [Option.some.injEq] at h
      rw [← h] at hok
      simp [hok] at hbad
    · have fin : ∀ (hd : ParseResult),
          (2 ≤ hd.off ∧ (src.str.drop (hd.off - 2)).take 2 = ['\r', '\n']) →
          (if (!hd.ok) = true then some hd
            else if (hd.off != src.len) = true then
              some { hd with ok := false, error := some "Bad characters after empty line" }
            else some hd) = some res →
          res.off = src.len ∧ 2 ≤ res.off
            ∧ (src.str.drop (res.off - 2)).take 2 = ['\r', '\n'] := by
        intro hd hhd hx
        split at hx
        · rename_i hb
          simp only [Option.some.injEq] at hx
          rw [← hx] at hok
          simp [hok] at hb
        · split at hx
          · simp only [Option.some.injEq] at hx
            rw [← hx] at hok
            exact absurd hok (by simp)
          · rename_i hne
            simp only [Option.some.injEq] at hx
            rw [← hx]
            simp only [bne_iff_ne, ne_eq, Decidable.not_not] at hne
            exact ⟨hne, hhd⟩
      split at h
      · cases hh : parse_headers_loop src
            (src.len - (src.consume_str ['\r', '\n'] l.off).2 + 1) l.req
            (src.consume_str ['\r', '\n'] l.off).2 with
        | none => simp [hh] at h
        | some hres =>
          simp only [hh, Option.some_bind] at h
          by_cases hro : hres.ok = true
          · obtain ⟨_, b2, b3⟩ := parse_headers_loop_ends src _ _ _ _ hh hro
            exact fin hres ⟨b2, b3⟩ h
          · rw [if_pos (by simpa using hro)] at h
            simp only [Option.some.injEq] at h
            rw [← h] at hok
            exact absurd hok hro
      · rename_i hhit
        simp only [Bool.not_eq_true, Bool.not_eq_false'] at hhit
        obtain ⟨e1, e2, e3⟩ := Scanner.consume_str_crlf hhit
        simp only [Option.some_bind] at h
        refine fin (ParseResult.mk true l.req (src.consume_str ['\r', '\n'] l.off).2 none)
          ⟨?_, ?_⟩ h
        · simp only
          omega
        · simp only
          rw [e1]
          simpa using e3

/-- The header loop on well-formed header lines and the empty line, whatever follows. -/
theorem parse_headers_loop_run {src : Scanner} (E : List Char)
    (rest : List (List Char × List Char)) :
    ∀ (nv : List Char × List Char) (dst : Request) (off fuel : Nat),
      src.Rem off (header_lines (nv :: rest) ++ ('\r' :: '\n' :: E)) → wf_lines (nv :: rest) →
      rest.length < fuel →
      ∃ req, parse_headers_loop src fuel dst off
        = some { ok := true, req := req, off := off + (header_lines (nv :: rest)).length + 2,
                 error := none } := by
  induction rest with
  | nil =>
    intro nv dst off fuel h hw hf
    obtain ⟨n, v⟩ := nv
    have hwn := (hw (n, v) (List.mem_cons_self _ _)).1
    have hwv := (hw (n, v) (List.mem_cons_self _ _)).2
    have h0 : src.Rem off (n ++ ':' :: (v ++ ('\r' :: '\n' :: ('\r' :: '\n' :: E)))) := by
      simpa [header_lines] using h
    obtain ⟨b1, c1⟩ := Scanner.consume1_run (fun c => c != ':') h0
      (fun c hc => by simpa using (hwn c hc).1) (fun c hc => by
        simp only [List.head?_cons, Option.some.injEq] at hc
        rw [← hc]; decide)
    have h1 := Scanner.Rem.advance h0
    have c2 := Scanner.consume_char_hit h1
    have h2 : src.Rem (off + n.length + 1) (v ++ ('\r' :: '\n' :: ('\r' :: '\n' :: E))) :=
      h1.tail
    obtain ⟨b3, c3⟩ := Scanner.consume1_run (fun c => c != '\r') h2
      (fun c hc => by simpa using hwv c hc) (fun c hc => by
        simp only [List.head?_cons, Option.some.injEq] at hc
        rw [← hc]; decide)
    have h3 : src.Rem (off + n.length + 1 + v.length) (['\r', '\n'] ++ ('\r' :: '\n' :: E)) :=
      Scanner.Rem.advance h2
    have c4 := Scanner.consume_str_hit h3 (by decide)
    have h4 : src.Rem (off + n.length + 1 + v.length + 2) (['\r', '\n'] ++ E) :=
      Scanner.Rem.advance h3
    have c5 := Scanner.consume_str_hit h4 (by decide)
    have hoff : off + n.length + 1 + v.length + 2 + 2
        = off + (header_lines [(n, v)]).length + 2 := by
      simp [header_lines]
      omega
    cases fuel with
    | zero => omega
    | succ k =>
      simp only [parse_headers_loop, c1, c2, c3, c4, c5, Option.some_bind, Bool.not_true,
        Bool.false_eq_true, if_false, List.length_cons, List.length_nil]
      rw [← hoff]
      exact ⟨_, rfl⟩
  | cons nv2 rest ih =>
    intro nv dst off fuel h hw hf
    obtain ⟨n, v⟩ := nv
    have hwn := (hw (n, v) (List.mem_cons_self _ _)).1
    have hwv := (hw (n, v) (List.mem_cons_self _ _)).2
    have hw2 : wf_lines (nv2 :: rest) := fun x hx => hw x (List.mem_cons_of_mem _ hx)
    have h0 : src.Rem off (n ++ ':' :: (v ++ ('\r' :: '\n' ::
        (header_lines (nv2 :: rest) ++ ('\r' :: '\n' :: E))))) := by
      rw [header_lines_cons] at h
      simpa [List.append_assoc] using h
    obtain ⟨b1, c1⟩ := Scanner.consume1_run (fun c => c != ':') h0
      (fun c hc => by simpa using (hwn c hc).1) (fun c hc => by
        simp only [List.head?_cons, Option.some.injEq] at hc
        rw [← hc]; decide)
    have h1 := Scanner.Rem.advance h0
    have c2 := Scanner.consume_char_hit h1
    have h2 : src.Rem (off + n.length + 1)
        (v ++ ('\r' :: '\n' :: (header_lines (nv2 :: rest) ++ ('\r' :: '\n' :: E)))) := h1.tail
    obtain ⟨b3, c3⟩ := Scanner.consume1_run (fun c => c != '\r') h2
      (fun c hc => by simpa using hwv c hc) (fun c hc => by
        simp only [List.head?_cons, Option.some.injEq] at hc
        rw [← hc]; decide)
    have h3 : src.Rem (off + n.length + 1 + v.length)
        (['\r', '\n'] ++ (header_lines (nv2 :: rest) ++ ('\r' :: '\n' :: E))) :=
      Scanner.Rem.advance h2
    have c4 := Scanner.consume_str_hit h3 (by decide)
    have h4 : src.Rem (off + n.length + 1 + v.length + 2)
        (header_lines (nv2 :: rest) ++ ('\r' :: '\n' :: E)) := Scanner.Rem.advance h3
    have c5 := Scanner.consume_str_miss (l := ['\r', '\n']) h4 (by decide) (by
      intro hpre
      obtain ⟨t, ht⟩ := hpre
      have := header_lines_head_ne (nv2 :: rest) hw2 ('\r' :: '\n' :: E) '\r' (by simp)
        (by rw [← ht]; rfl)
      exact this rfl)
    have hoff : off + n.length + 1 + v.length + 2 + (header_lines (nv2 :: rest)).length + 2
        = off + (header_lines ((n, v) :: nv2 :: rest)).length + 2 := by
      rw [header_lines_cons (n, v)]
      simp only [List.length_append, List.length_cons]
      omega
    cases fuel with
    | zero => omega
    | succ k =>
      obtain ⟨req, hrec⟩ := ih nv2 (store_one src.str dst off (n, v))
        (off + n.length + 1 + v.length + 2) k h4 hw2 (by simp only [List.length_cons] at hf; omega)
      simp only [store_one] at hrec
      simp only [parse_headers_loop, c1, c2, c3, c4, c5, Option.some_bind, Bool.not_true,
        Bool.false_eq_true, if_false, Bool.not_false, if_true, List.length_cons,
        List.length_nil, Nat.add_sub_cancel_left]
      rw [hrec, hoff]
      exact ⟨_, rfl⟩

/-- A head of the grammar followed by `extra`: the scanner stops after the empty line. -/
theorem Request.parse_trailing {M p V : List Char} {Q : Option (List Char)}
    (lines : List (List Char × List Char)) (extra : List Char)
    (hM : M = "GET".toList ∨ M = "POST".toList)
    (hp : ∀ c ∈ p, (is_pchar c || c == '/') = true) (hnn : p.head? ≠ some '/')
    (hq : ∀ q, Q = some q → ∀ c ∈ q, (is_pchar c || c == '/' || c == '?') = true)
    (hV : is_version V) (hw : wf_lines lines) (hx : extra ≠ []) :
    ∃ res, Request.new.parse
        (request_line M ('/' :: p) Q V ++ (header_lines lines ++ ('\r' :: '\n' :: extra)))
        (request_line M ('/' :: p) Q V ++ (header_lines lines ++ ('\r' :: '\n' :: extra))).length
          = some res
      ∧ res.ok = false ∧ res.error = some "Bad characters after empty line"
      ∧ res.off = (request_line M ('/' :: p) Q V ++ header_lines lines).length + 2 := by
  generalize hhead :
    request_line M ('/' :: p) Q V ++ (header_lines lines ++ ('\r' :: '\n' :: extra)) = head
  generalize hsrc : Scanner.mk head head.length = src
  have h : src.Rem 0
      (request_line M ('/' :: p) Q V ++ (header_lines lines ++ ('\r' :: '\n' :: extra))) := by
    subst hsrc
    rw [hhead]
    exact ⟨rfl, Nat.zero_le _, rfl⟩
  have hsl : src.len = (request_line M ('/' :: p) Q V).length + (header_lines lines).length
      + 2 + extra.length := by
    have := h.length
    simp only [List.length_append, List.length_cons] at this
    omega
  have hxl : 0 < extra.length := List.length_pos.mpr hx
  have hMne : M ≠ [] := by
    rcases hM with rfl | rfl <;> decide
  have hup : ∀ c ∈ M, is_upper_alpha c = true := by
    rcases hM with rfl | rfl <;> decide
  obtain ⟨l, hl, hiff, _, hok⟩ := parse_request_line_spec Request.new h hMne hup hp hnn hq hV
  have hlo : l.ok = true := hiff.mpr hM
  obtain ⟨hoff, _⟩ := hok hlo
  have h2 : src.Rem l.off (header_lines lines ++ ('\r' :: '\n' :: extra)) := by
    have := Scanner.Rem.advance h
    rw [hoff]
    simpa using this
  unfold Request.parse parse_request
  rw [hsrc]
  simp only [hl, Option.some_bind, hlo, Bool.not_true, Bool.false_eq_true, if_false]
  cases lines with
  | nil =>
    have h3 : src.Rem l.off (['\r', '\n'] ++ extra) := by simpa [header_lines] using h2
    have e := Scanner.consume_str_hit h3 (by decide)
    have hne : (l.off + 2 != src.len) = true := by
      simp only [bne_iff_ne, ne_eq]
      rw [hoff, hsl]
      simp only [header_lines, List.map_nil, List.flatten_nil, List.length_nil]
      omega
    simp only [e, Bool.not_true, Bool.false_eq_true, if_false, Option.some_bind,
      List.length_cons, List.length_nil, hne, if_true]
    refine ⟨_, rfl, rfl, rfl, ?_⟩
    simp only [hoff, header_lines, List.map_nil, List.flatten_nil, List.append_nil]
  | cons nv rest =>
    have e := Scanner.consume_str_miss (l := ['\r', '\n']) h2 (by decide) (by
      intro hpre
      obtain ⟨t, ht⟩ := hpre
      have := header_lines_head_ne (nv :: rest) hw ('\r' :: '\n' :: extra) '\r' (by simp)
        (by rw [← ht]; rfl)
      exact this rfl)
    obtain ⟨req, hloop⟩ := parse_headers_loop_run extra rest nv l.req l.off
      (src.len - l.off + 1) h2 hw (by
        have := header_lines_length_ge (nv :: rest)
        simp only [List.length_cons] at this
        omega)
    have hne : (l.off + (header_lines (nv :: rest)).length + 2 != src.len) = true := by
      simp only [bne_iff_ne, ne_eq]
      rw [hoff, hsl]
      omega
    simp only [e, Bool.not_false, if_true, hloop, Option.some_bind, Bool.not_true,
      Bool.false_eq_true, if_false, hne]
    refine ⟨_, rfl, rfl, rfl, ?_⟩
    simp only [hoff, List.length_append]

/-- C11: whenever `Request::parse(str, len)` succeeds, the scanner has consumed all `len`
bytes and the input ends with the CRLF of the empty line; and a head of the grammar
(request line, well-formed header lines, empty line) followed by at least one more byte
is rejected with "Bad characters after empty line", the scanner standing right after the
empty line. -/
theorem parse_rejects_bytes_after_empty_line :
    (∀ (r : Request) (str : List Char) (len : Nat) (res : ParseResult),
        r.parse str len = some res → res.ok = true →
        res.off = len ∧ "\r\n".toList <:+ str.take len)
      ∧ ∀ (M p V : List Char) (Q : Option (List Char)) (lines : List (List Char × List Char))
          (extra : List Char),
          (M = "GET".toList ∨ M = "POST".toList) →
          (∀ c ∈ p, (is_pchar c || c == '/') = true) → p.head? ≠ some '/' →
          (∀ q, Q = some q → ∀ c ∈ q, (is_pchar c || c == '/' || c == '?') = true) →
          is_version V → wf_lines lines → extra ≠ [] →
          ∃ res, Request.new.parse
              (request_line M ('/' :: p) Q V ++ (header_lines lines ++ ('\r' :: '\n' :: extra)))
              (request_line M ('/' :: p) Q V
                ++ (header_lines lines ++ ('\r' :: '\n' :: extra))).length = some res
            ∧ res.ok = false ∧ res.error = some "Bad characters after empty line"
            ∧ res.off = (request_line M ('/' :: p) Q V ++ header_lines lines).length + 2 := by
  refine ⟨?_, fun M p V Q lines extra hM hp hnn hq hV hw hx =>
    Request.parse_trailing lines extra hM hp hnn hq hV hw hx⟩
  intro r str len res h hok
  unfold Request.parse at h
  cases hp : parse_request { str := str, len := len } r 0 with
  | none => simp [hp] at h
  | some p =>
    simp only [hp, Option.some_bind, Option.some.injEq] at h
    have hpok : p.ok = true := by rw [← h] at hok; exact hok
    obtain ⟨e1, e2, e3⟩ := parse_request_ends hp hpok
    have hoff : res.off = p.off := by rw [← h]
    simp only at e1 e3
    rw [hoff, e1]
    refine ⟨rfl, str.take (len - 2), ?_⟩
    rw [e1] at e2 e3
    have hl : len = (len - 2) + 2 := by omega
    conv_rhs => rw [hl, List.take_add]
    rw [e3]
    rfl

set_option maxRecDepth 100000 in
/-- C11, instances: the head "GET / HTTP/1.1\r\nA:b\r\n\r\n" is accepted with the cursor at
its end, and the same head followed by "X" is rejected. -/
theorem parse_rejects_bytes_after_empty_line_witness :
    (Request.new.parse "GET / HTTP/1.1\r\nA:b\r\n\r\n".toList 23
        = some (ParseResult.of "GET / HTTP/1.1\r\nA:b\r\n\r\n".toList)
      ∧ (ParseResult.of "GET / HTTP/1.1\r\nA:b\r\n\r\n".toList).ok = true
      ∧ (ParseResult.of "GET / HTTP/1.1\r\nA:b\r\n\r\n".toList).off = 23
      ∧ "\r\n".toList <:+ "GET / HTTP/1.1\r\nA:b\r\n\r\n".toList.take 23)
    ∧ (((Request.new.parse "GET / HTTP/1.1\r\nA:b\r\n\r\nX".toList 24).map fun res =>
          (res.ok, res.error, res.off))
        = some (false, some "Bad characters after empty line", 23)) :=
  ⟨⟨by decide, by decide,
      (parse_rejects_bytes_after_empty_line.1 Request.new "GET / HTTP/1.1\r\nA:b\r\n\r\n".toList
        23 (ParseResult.of "GET / HTTP/1.1\r\nA:b\r\n\r\n".toList) (by decide) (by decide)).1,
      (parse_rejects_bytes_after_empty_line.1 Request.new "GET / HTTP/1.1\r\nA:b\r\n\r\n".toList
        23 (ParseResult.of "GET / HTTP/1.1\r\nA:b\r\n\r\n".toList) (by decide) (by decide)).2⟩,
    by decide⟩

/-! ### The pool and its bitset -/

theorem Pool.and_pred_odd (n : Nat) : (2 * n + 1) &&& (2 * n) = 2 * n := by
  have h1 : 2 * n + 1 = Nat.bit true n := by simp [Nat.bit_val]
  have h2 : 2 * n = Nat.bit false n := by simp [Nat.bit_val]
  conv_lhs => rw [h1]; arg 2; rw [h2]
  rw [Nat.land_bit]
  simp [Nat.bit_val]

theorem Pool.and_pred_even (n : Nat) (hn : n ≠ 0) :
    (2 * n) &&& (2 * n - 1) = 2 * (n &&& (n - 1)) := by
  have h1 : 2 * n = Nat.bit false n := by simp [Nat.bit_val]
  have h2 : 2 * n - 1 = Nat.bit true (n - 1) := by
    simp [Nat.bit_val]
    omega
  rw [h2]
  conv_lhs => arg 1; rw [h1]
  rw [Nat.land_bit]
  simp [Nat.bit_val]

/-- Clearing the lowest set bit and subtracting isolates that bit. -/
theorem Pool.lowest_bit (w : Nat) (hw : w ≠ 0) :
    ∃ k, w - (w &&& (w - 1)) = 2 ^ k ∧ w.testBit k = true ∧ ∀ j < k, w.testBit j = false := by
  induction w using Nat.strong_induction_on with
  | _ w ih =>
    rcases Nat.even_or_odd' w with ⟨n, hn | hn⟩
    · have hn0 : n ≠ 0 := by omega
      obtain ⟨k, e, t, l⟩ := ih n (by omega) hn0
      refine ⟨k + 1, ?_, ?_, ?_⟩
      · rw [hn, Pool.and_pred_even n hn0, pow_succ]
        have := @Nat.and_le_left n (n - 1)
        omega
      · rw [hn, Nat.testBit_succ]
        simpa using t
      · intro j hj
        cases j with
        | zero => rw [hn, Nat.testBit_zero]; simp
        | succ j =>
          rw [hn, Nat.testBit_succ]
          simpa using l j (by omega)
    · refine ⟨0, ?_, ?_, ?_⟩
      · rw [hn]
        simp only [Nat.add_sub_cancel, Pool.and_pred_odd]
        simp
      · rw [hn, Nat.testBit_zero]
        simp
        omega
      · intro j hj
        omega

set_option maxRecDepth 100000 in
/-- The shifts and the table of `find_first_set_bit` on a single bit. -/
theorem Pool.find_first_set_bit_run (w k : Nat) (hw : w ≠ 0) (hk : k < 64)
    (e : w - (w &&& (w - 1)) = 2 ^ k) : Pool.find_first_set_bit w = (k : Int) := by
  unfold Pool.find_first_set_bit
  simp only [hw, if_false, e]
  interval_cases k <;> decide

/-- `find_first_set_bit` yields the index of the lowest set bit of a 64-bit word. -/
theorem Pool.find_first_set_bit_spec (w : Nat) (hw : w ≠ 0) (hlt : w < 2 ^ 64) :
    ∃ k : Nat, Pool.find_first_set_bit w = (k : Int) ∧ k < 64 ∧ w.testBit k = true
      ∧ ∀ j < k, w.testBit j = false := by
  obtain ⟨k, e, t, l⟩ := Pool.lowest_bit w hw
  have hk : k < 64 := by
    by_contra hge
    have hle : 2 ^ 64 ≤ 2 ^ k := Nat.pow_le_pow_right (by decide) (by omega)
    have := Nat.testBit_lt_two_pow (lt_of_lt_of_le hlt hle)
    rw [this] at t
    exact absurd t (by simp)
  exact ⟨k, Pool.find_first_set_bit_run w k hw hk e, hk, t, l⟩

theorem Pool.and_mask_eq (w j : Nat) : ((w &&& 2 ^ j) == 2 ^ j) = w.testBit j := by
  cases h : w.testBit j with
  | true =>
    have : w &&& 2 ^ j = 2 ^ j := by
      apply Nat.eq_of_testBit_eq
      intro i
      rw [Nat.testBit_and, Nat.testBit_two_pow]
      by_cases hji : j = i
      · subst hji
        simp [h]
      · simp [hji]
    simp [this]
  | false =>
    have : w &&& 2 ^ j ≠ 2 ^ j := by
      intro e
      have := congrArg (fun x => x.testBit j) e
      simp only [Nat.testBit_and, Nat.testBit_two_pow_self, h] at this
      exact absurd this (by simp)
    simp [this]

theorem Pool.shift6 (a : Nat) : a >>> 6 = a / 64 := by
  rw [Nat.shiftRight_eq_div_pow]

theorem Pool.and63 (a : Nat) : a &&& 63 = a % 64 := by
  have := Nat.and_pow_two_sub_one_eq_mod a 6
  simpa using this

theorem Pool.get_bit_eq (p : Pool) (a : Nat) : p.get_bit (a : Int) = p.bit a := by
  unfold Pool.get_bit Pool.bit
  simp only [Int.toNat_ofNat, Pool.shift6, Pool.and63, Nat.one_shiftLeft]
  exact Pool.and_mask_eq _ _

theorem Pool.not64_testBit (w : Nat) (hw : w < 2 ^ 64) (i : Nat) :
    (Pool.not64 w).testBit i = (decide (i < 64) && !w.testBit i) := by
  have e : Pool.not64 w = 2 ^ 64 - (w + 1) := by
    unfold Pool.not64 Pool.ALL_ONES
    omega
  rw [e]
  exact Nat.testBit_two_pow_sub_succ hw i

theorem Pool.not64_lt (w : Nat) : Pool.not64 w < 2 ^ 64 := by
  unfold Pool.not64 Pool.ALL_ONES
  omega

theorem Pool.all_ones_testBit (i : Nat) (hi : i < 64) : Pool.ALL_ONES.testBit i = true := by
  unfold Pool.ALL_ONES
  rw [Nat.testBit_two_pow_sub_one]
  simpa using hi

/-- The word scan stops at the first word with a clear bit. -/
theorem Pool.find_word_spec : ∀ (ws : List Nat) (i0 : Nat), (∃ w ∈ ws, w ≠ Pool.ALL_ONES) →
    ∃ m, Pool.find_word ws i0 = some (i0 + m) ∧ m < ws.length
      ∧ ws.getD m 0 ≠ Pool.ALL_ONES ∧ ∀ k < m, ws.getD k 0 = Pool.ALL_ONES := by
  intro ws
  induction ws with
  | nil =>
    intro i0 h
    obtain ⟨w, hw, _⟩ := h
    exact absurd hw (by simp)
  | cons x r ih =>
    intro i0 h
    by_cases hx : x = Pool.ALL_ONES
    · have h2 : ∃ w ∈ r, w ≠ Pool.ALL_ONES := by
        obtain ⟨w, hw, hne⟩ := h
        rcases List.mem_cons.mp hw with rfl | hr
        · exact absurd hx hne
        · exact ⟨w, hr, hne⟩
      obtain ⟨m, e, hm, hg, hall⟩ := ih (i0 + 1) h2
      refine ⟨m + 1, ?_, by simpa using hm, by simpa using hg, ?_⟩
      · simp only [Pool.find_word, hx, if_true, e]
        congr 1
        omega
      · intro k hk
        cases k with
        | zero => simpa using hx
        | succ k => simpa using hall k (by omega)
    · refine ⟨0, ?_, by simp, by simpa using hx, fun k hk => absurd hk (by omega)⟩
      simp [Pool.find_word, hx]

/-- Counting under a predicate that differs from another one at a single index. -/
theorem Pool.countP_update (f g : Nat → Bool) (a : Nat) (v : Bool)
    (hg : ∀ idx, g idx = if idx = a then v else f idx) :
    ∀ M, (List.range M).countP g + (if a < M ∧ f a = true then 1 else 0)
      = (List.range M).countP f + (if a < M ∧ v = true then 1 else 0) := by
  intro M
  induction M with
  | zero => simp
  | succ M ih =>
    rw [List.range_succ, List.countP_append, List.countP_append]
    simp only [List.countP_cons, List.countP_nil, Nat.zero_add]
    by_cases hMa : M = a
    · subst hMa
      have h1 : ¬ (M < M) := lt_irrefl _
      simp only [h1, false_and, if_false, Nat.add_zero] at ih
      simp only [hg M, if_true, Nat.lt_succ_self, true_and]
      cases v <;> cases f M <;> simp [ih]
    · have hgM : g M = f M := by rw [hg M, if_neg hMa]
      have hlt : (a < M + 1) ↔ (a < M) := by omega
      simp only [hgM, hlt]
      omega

theorem Pool.countP_high (f : Nat → Bool) (N : Nat) (hf : ∀ idx, N ≤ idx → f idx = false) :
    ∀ d, (List.range (N + d)).countP f = (List.range N).countP f := by
  intro d
  induction d with
  | zero => rfl
  | succ d ih =>
    rw [← Nat.add_assoc, List.range_succ, List.countP_append, ih]
    simp [hf (N + d) (by omega)]

theorem Pool.num_bitsets_ge (N : Nat) : N ≤ 64 * Pool.NUM_BITSETS N := by
  unfold Pool.NUM_BITSETS Pool.ceil
  omega

/-- Under the invariant `num_allocated` counts the set bits of the slots `0 … N-1`. -/
theorem Pool.Inv.count_low {p : Pool} (h : p.Inv) :
    p.num_allocated = ((List.range p.N).countP p.bit : Nat) := by
  rw [h.count]
  unfold Pool.popcount
  have hN := Pool.num_bitsets_ge p.N
  rw [h.words]
  have := Pool.countP_high p.bit p.N h.high (64 * Pool.NUM_BITSETS p.N - p.N)
  rw [Nat.add_sub_cancel' hN] at this
  rw [this]

theorem Pool.Inv.full_iff {p : Pool} (h : p.Inv) :
    p.num_allocated = p.N ↔ ∀ idx, idx < p.N → p.bit idx = true := by
  rw [h.count_low]
  constructor
  · intro e idx hidx
    have e2 : (List.range p.N).countP p.bit = (List.range p.N).length := by
      rw [List.length_range]
      exact_mod_cast e
    exact List.countP_eq_length.mp e2 idx (List.mem_range.mpr hidx)
  · intro hall
    have : (List.range p.N).countP p.bit = (List.range p.N).length :=
      List.countP_eq_length.mpr (fun a ha => hall a (List.mem_range.mp ha))
    rw [this, List.length_range]

theorem Pool.div_mod_inj (a b : Nat) (h1 : a / 64 = b / 64) (h2 : a % 64 = b % 64) : a = b := by
  omega

/-- What `set_bit` does to the occupancy bits. -/
theorem Pool.set_bit_spec (p : Pool) (a : Nat) (val : Bool) (ha : a < p.N)
    (hlen : p.used.length = Pool.NUM_BITSETS p.N) (hw : ∀ w ∈ p.used, w < 2 ^ 64) :
    ∃ p2, p.set_bit (a : Int) val = some p2 ∧ p2.N = p.N ∧ p2.num_allocated = p.num_allocated
      ∧ p2.used.length = p.used.length ∧ (∀ w ∈ p2.used, w < 2 ^ 64)
      ∧ ∀ idx, p2.bit idx = if idx = a then val else p.bit idx := by
  have hNb := Pool.num_bitsets_ge p.N
  have hal : a / 64 < p.used.length := by
    rw [hlen]
    omega
  have hcond : (a : Int) ≥ 0 ∧ (a : Int) < p.N := ⟨by omega, by exact_mod_cast ha⟩
  have hj : a % 64 < 64 := Nat.mod_lt _ (by decide)
  have hwa : p.used.getD (a / 64) 0 < 2 ^ 64 := by
    rw [List.getD_eq_getElem _ _ hal]
    exact hw _ (List.getElem_mem _)
  have hmask : 2 ^ (a % 64) < 2 ^ 64 := Nat.pow_lt_pow_right (by decide) hj
  generalize hnew : (if val = true then p.used.getD (a / 64) 0 ||| 2 ^ (a % 64)
      else p.used.getD (a / 64) 0 &&& Pool.not64 (2 ^ (a % 64))) = nw
  have hnw_lt : nw < 2 ^ 64 := by
    rw [← hnew]
    cases val with
    | true => simpa using Nat.or_lt_two_pow hwa hmask
    | false =>
      simp only [Bool.false_eq_true, if_false]
      exact lt_of_le_of_lt Nat.and_le_left hwa
  have hnw_bit : ∀ i, i < 64 → nw.testBit i
      = if i = a % 64 then val else (p.used.getD (a / 64) 0).testBit i := by
    intro i hi
    rw [← hnew]
    cases val with
    | true =>
      simp only [if_true, Nat.testBit_or, Nat.testBit_two_pow]
      by_cases e : i = a % 64
      · simp [e]
      · have : ¬ (a % 64 = i) := fun h => e h.symm
        simp [e, this]
    | false =>
      simp only [Bool.false_eq_true, if_false, Nat.testBit_and,
        Pool.not64_testBit _ hmask, Nat.testBit_two_pow]
      by_cases e : i = a % 64
      · simp [e]
      · have : ¬ (a % 64 = i) := fun h => e h.symm
        simp [e, this, hi]
  refine ⟨{ p with used := p.used.set (a / 64) nw }, ?_, rfl, rfl, by simp, ?_, ?_⟩
  · unfold Pool.set_bit
    simp only [hcond, and_self, not_true_eq_false, if_false, Int.toNat_ofNat, Pool.shift6,
      Pool.and63, Nat.one_shiftLeft, hnew]
  · intro w hwm
    rcases List.mem_or_eq_of_mem_set hwm with h1 | h1
    · exact hw w h1
    · rw [h1]
      exact hnw_lt
  · intro idx
    unfold Pool.bit
    simp only
    by_cases hword : idx / 64 = a / 64
    · rw [hword, List.getD_eq_getElem?_getD, List.getElem?_set_self hal]
      simp only [Option.getD_some]
      rw [hnw_bit _ (Nat.mod_lt _ (by decide))]
      by_cases hia : idx = a
      · simp [hia]
      · have : ¬ (idx % 64 = a % 64) := fun h => hia (Pool.div_mod_inj _ _ hword h)
        simp only [this, hia, if_false]
    · have hia : idx ≠ a := fun h => hword (by rw [h])
      rw [List.getD_eq_getElem?_getD, List.getElem?_set_ne (fun h => hword h.symm)]
      simp only [hia, if_false]
      rw [List.getD_eq_getElem?_getD]

/-- Setting a clear bit or clearing a set bit keeps the invariant once the counter has
been moved by one. -/
theorem Pool.Inv.flip {p p2 : Pool} (h : p.Inv) (a : Nat) (val : Bool) (ha : a < p.N)
    (hN : p2.N = p.N) (hlen : p2.used.length = p.used.length)
    (hw : ∀ w ∈ p2.used, w < 2 ^ 64)
    (hbit : ∀ idx, p2.bit idx = if idx = a then val else p.bit idx)
    (hold : p.bit a = !val)
    (hnum : p2.num_allocated = if val then p.num_allocated + 1 else p.num_allocated - 1) :
    p2.Inv := by
  have hNb := Pool.num_bitsets_ge p.N
  have haM : a < 64 * p.used.length := by
    rw [h.words]
    omega
  have hcnt := Pool.countP_update p.bit p2.bit a val hbit (64 * p.used.length)
  have hfull := h.full_iff
  refine ⟨by rw [hlen, hN]; exact h.words, hw, ?_, ?_, ?_⟩
  · unfold Pool.popcount
    rw [hlen, hnum]
    have hc := h.count
    unfold Pool.popcount at hc
    cases val with
    | true =>
      simp only [Bool.not_true] at hold
      simp only [haM, hold, true_and, Bool.false_eq_true, if_false, and_self, if_true,
        Nat.add_zero] at hcnt
      simp only [if_true]
      rw [hc, hcnt]
      push_cast
      rfl
    | false =>
      simp only [Bool.not_false] at hold
      simp only [haM, hold, true_and, Bool.false_eq_true, if_false, and_self, if_true,
        Nat.add_zero, and_false] at hcnt
      simp only [Bool.false_eq_true, if_false]
      rw [hc, ← hcnt]
      push_cast
      omega
  · rw [hnum, hN]
    cases val with
    | true =>
      simp only [if_true]
      have hne : p.num_allocated ≠ p.N := by
        intro e
        have := hfull.mp e a ha
        rw [hold] at this
        exact absurd this (by simp)
      have := h.le
      omega
    | false =>
      simp only [Bool.false_eq_true, if_false]
      have := h.le
      omega
  · intro idx hidx
    rw [hN] at hidx
    rw [hbit idx, if_neg (by omega)]
    exact h.high idx hidx

/-- `allocate` on a pool that satisfies the invariant. -/
theorem Pool.allocate_spec (p : Pool) (h : p.Inv) :
    (p.num_allocated = p.N → p.allocate = some (none, p))
      ∧ (p.num_allocated ≠ p.N →
        ∃ (a : Nat) (p2 : Pool), p.allocate = some (some (a : Int), p2) ∧ a < p.N
          ∧ p.bit a = false ∧ (∀ idx, idx < a → p.bit idx = true)
          ∧ (∀ idx, p2.bit idx = if idx = a then true else p.bit idx)
          ∧ p2.num_allocated = p.num_allocated + 1 ∧ p2.N = p.N ∧ p2.Inv) := by
  constructor
  · intro e
    unfold Pool.allocate Pool.find_not_allocated
    simp [e]
  · intro hne
    have hNb := Pool.num_bitsets_ge p.N
    -- some slot below `N` is free
    have hfree : ∃ idx, idx < p.N ∧ p.bit idx = false := by
      by_contra hall
      apply hne
      rw [h.full_iff]
      intro idx hidx
      by_contra hb
      exact hall ⟨idx, hidx, by simpa using hb⟩
    obtain ⟨f, hfN, hfb⟩ := hfree
    have hfl : f / 64 < p.used.length := by
      rw [h.words]
      omega
    have hex : ∃ w ∈ p.used, w ≠ Pool.ALL_ONES := by
      refine ⟨p.used[f / 64], List.getElem_mem _, ?_⟩
      intro e
      have := Pool.all_ones_testBit (f % 64) (Nat.mod_lt _ (by decide))
      unfold Pool.bit at hfb
      rw [List.getD_eq_getElem _ _ hfl, e, this] at hfb
      exact absurd hfb (by simp)
    obtain ⟨m, em, hm, hgm, hallm⟩ := Pool.find_word_spec p.used 0 hex
    rw [Nat.zero_add] at em
    have hwm : p.used.getD m 0 < 2 ^ 64 := by
      rw [List.getD_eq_getElem _ _ hm]
      exact h.word_lt _ (List.getElem_mem _)
    have hnz : Pool.not64 (p.used.getD m 0) ≠ 0 := by
      have : p.used.getD m 0 ≠ Pool.ALL_ONES := hgm
      unfold Pool.not64
      unfold Pool.ALL_ONES at this ⊢
      omega
    obtain ⟨j, ej, hj, tj, lj⟩ := Pool.find_first_set_bit_spec _ hnz (Pool.not64_lt _)
    rw [Pool.not64_testBit _ hwm] at tj
    have tj2 : (p.used.getD m 0).testBit j = false := by simpa [hj] using tj
    have hdiv : (64 * m + j) / 64 = m := by omega
    have hmod : (64 * m + j) % 64 = j := by omega
    have hbit_a : p.bit (64 * m + j) = false := by
      unfold Pool.bit
      rw [hdiv, hmod]
      exact tj2
    have hlow : ∀ idx, idx < 64 * m + j → p.bit idx = true := by
      intro idx hidx
      unfold Pool.bit
      by_cases hq : idx / 64 < m
      · rw [hallm _ hq]
        exact Pool.all_ones_testBit _ (Nat.mod_lt _ (by decide))
      · have hq2 : idx / 64 = m := by omega
        have hr : idx % 64 < j := by omega
        have := lj _ hr
        rw [Pool.not64_testBit _ hwm] at this
        rw [hq2]
        have h64 : idx % 64 < 64 := Nat.mod_lt _ (by decide)
        simpa [h64] using this
    have haN : 64 * m + j < p.N := by
      by_contra hge
      have := hlow f (by omega)
      rw [hfb] at this
      exact absurd this (by simp)
    have hnot_alloc : p.allocated (some ((64 * m + j : Nat) : Int)) = false := by
      unfold Pool.allocated
      simp only
      rw [Pool.get_bit_eq, hbit_a]
      simp
    obtain ⟨p2, e2, hN2, hnum2, hlen2, hw2, hbit2⟩ :=
      Pool.set_bit_spec { p with num_allocated := p.num_allocated + 1 } (64 * m + j) true haN
        h.words h.word_lt
    have hinv2 : p2.Inv := by
      refine h.flip (64 * m + j) true haN hN2 hlen2 hw2 ?_ (by simpa using hbit_a) ?_
      · intro idx
        rw [hbit2 idx]
        rfl
      · rw [hnum2]
        rfl
    refine ⟨64 * m + j, p2, ?_, haN, hbit_a, hlow, ?_, hnum2, hN2, hinv2⟩
    · have haddr : (m : Int) * 64 + (j : Int) = ((64 * m + j : Nat) : Int) := by
        push_cast
        ring
      have hjpos : ((j : Int) > -1) := by omega
      unfold Pool.allocate Pool.find_not_allocated
      simp only [hne, if_false, em, Option.some_bind, ej, hjpos, not_true_eq_false, haddr,
        hnot_alloc, Bool.false_eq_true, Pool.mark_allocated, e2]
    · intro idx
      rw [hbit2 idx]
      rfl

/-- `deallocate` with a handle that is not owned or not allocated. -/
theorem Pool.deallocate_stray (p : Pool) (addr : Option Int)
    (hs : p.owned addr = false ∨ p.allocated addr = false) : p.deallocate addr = some p := by
  unfold Pool.deallocate
  rcases hs with hs | hs <;> simp [hs]

theorem Pool.allocated_iff (p : Pool) (addr : Option Int) :
    p.allocated addr = true ↔ ∃ a : Nat, addr = some (a : Int) ∧ a < p.N ∧ p.bit a = true := by
  cases addr with
  | none => simp [Pool.allocated]
  | some i =>
    unfold Pool.allocated Pool.owned
    constructor
    · intro hx
      simp only [Bool.and_eq_true, decide_eq_true_eq] at hx
      obtain ⟨⟨h0, h1⟩, hb⟩ := hx
      obtain ⟨a, rfl⟩ := Int.eq_ofNat_of_zero_le h0
      rw [Pool.get_bit_eq] at hb
      exact ⟨a, rfl, by exact_mod_cast h1, hb⟩
    · rintro ⟨a, e, ha, hb⟩
      have e2 : i = (a : Int) := Option.some.inj e
      subst e2
      simp only
      rw [Pool.get_bit_eq, hb]
      simp only [Bool.and_true, Bool.and_eq_true, decide_eq_true_eq]
      exact ⟨by omega, by exact_mod_cast ha⟩

/-- `deallocate` with the handle of an allocated slot, on a pool that satisfies the
invariant. -/
theorem Pool.deallocate_spec (p : Pool) (h : p.Inv) (a : Nat) (ha : a < p.N)
    (hb : p.bit a = true) :
    ∃ p2, p.deallocate (some (a : Int)) = some p2
      ∧ (∀ idx, p2.bit idx = if idx = a then false else p.bit idx)
      ∧ p2.num_allocated = p.num_allocated - 1 ∧ p2.N = p.N ∧ p2.Inv := by
  have hal : p.allocated (some (a : Int)) = true :=
    (Pool.allocated_iff p _).mpr ⟨a, rfl, ha, hb⟩
  have hown : p.owned (some (a : Int)) = true := by
    unfold Pool.owned
    simp only [Bool.and_eq_true, decide_eq_true_eq]
    exact ⟨by omega, by exact_mod_cast ha⟩
  obtain ⟨p2, e2, hN2, hnum2, hlen2, hw2, hbit2⟩ :=
    Pool.set_bit_spec { p with num_allocated := p.num_allocated - 1 } a false ha
      h.words h.word_lt
  have hinv2 : p2.Inv := by
    refine h.flip a false ha hN2 hlen2 hw2 ?_ (by simpa using hb) ?_
    · intro idx
      rw [hbit2 idx]
      rfl
    · rw [hnum2]
      rfl
  refine ⟨p2, ?_, ?_, hnum2, hN2, hinv2⟩
  · unfold Pool.deallocate
    simp only [hown, hal, Bool.not_true, Bool.or_self, Bool.false_eq_true, if_false,
      Pool.mark_not_allocated, e2]
  · intro idx
    rw [hbit2 idx]
    rfl

theorem Pool.new_inv (N : Nat) : (Pool.new N).Inv := by
  have hbit : ∀ idx, (Pool.new N).bit idx = false := by
    intro idx
    unfold Pool.bit Pool.new
    simp only [List.getD_eq_getElem?_getD]
    by_cases hlt : idx / 64 < Pool.NUM_BITSETS N
    · simp [hlt]
    · rw [List.getElem?_eq_none (by simpa using hlt)]
      simp
  refine ⟨by simp [Pool.new], ?_, ?_, ?_, fun idx _ => hbit idx⟩
  · intro w hw
    have : w = 0 := by
      simp only [Pool.new] at hw
      exact (List.mem_replicate.mp hw).2
    rw [this]
    decide
  · unfold Pool.popcount
    have : (List.range (64 * (Pool.new N).used.length)).countP (Pool.new N).bit = 0 := by
      rw [List.countP_eq_zero]
      intro a _
      simp [hbit a]
    rw [this]
    rfl
  · simp [Pool.new]

/-- Every call keeps the invariant and returns. -/
theorem Pool.run_inv (calls : List Pool.Call) :
    ∀ (p : Pool), p.Inv → ∃ p2 out, p.run calls = some (p2, out) ∧ p2.Inv ∧ p2.N = p.N := by
  induction calls with
  | nil =>
    intro p h
    exact ⟨p, [], rfl, h, rfl⟩
  | cons c cs ih =>
    intro p h
    cases c with
    | allocate =>
      by_cases e : p.num_allocated = p.N
      · have ea := (Pool.allocate_spec p h).1 e
        obtain ⟨p2, out, e2, h2, n2⟩ := ih p h
        exact ⟨p2, none :: out, by simp [Pool.run, ea, e2], h2, n2⟩
      · obtain ⟨a, p1, ea, _, _, _, _, _, n1, h1⟩ := (Pool.allocate_spec p h).2 e
        obtain ⟨p2, out, e2, h2, n2⟩ := ih p1 h1
        exact ⟨p2, some (a : Int) :: out, by simp [Pool.run, ea, e2], h2, n2.trans n1⟩
    | deallocate addr =>
      by_cases hal : p.allocated addr = true
      · obtain ⟨a, rfl, ha, hb⟩ := (Pool.allocated_iff p addr).mp hal
        obtain ⟨p1, e1, _, _, n1, h1⟩ := Pool.deallocate_spec p h a ha hb
        obtain ⟨p2, out, e2, h2, n2⟩ := ih p1 h1
        exact ⟨p2, out, by simp [Pool.run, e1, e2], h2, n2.trans n1⟩
      · have e1 := Pool.deallocate_stray p addr (Or.inr (by simpa using hal))
        obtain ⟨p2, out, e2, h2, n2⟩ := ih p h
        exact ⟨p2, out, by simp [Pool.run, e1, e2], h2, n2⟩

theorem Pool.reachable_inv {N : Nat} {calls : List Pool.Call} {p : Pool}
    {out : List (Option Int)} (hr : (Pool.new N).run calls = some (p, out)) :
    p.Inv ∧ p.N = N := by
  obtain ⟨p2, out2, e2, h2, n2⟩ := Pool.run_inv calls (Pool.new N) (Pool.new_inv N)
  rw [hr] at e2
  have e3 : p = p2 := congrArg Prod.fst (Option.some.inj e2)
  subst e3
  exact ⟨h2, n2⟩

/-- C26: every sequence of `allocate` and `deallocate` calls, with any handle arguments,
on a new `Pool<T, N>` returns, and in the state it reaches `num_allocated` equals the
number of set bits of the occupancy bitset, lies in `[0, N]`, and no bit at an index
`>= N` is set. -/
theorem pool_counter_matches_bitset (N : Nat) (calls : List Pool.Call) :
    ∃ p out, (Pool.new N).run calls = some (p, out)
      ∧ p.num_allocated = p.popcount ∧ 0 ≤ p.num_allocated ∧ p.num_allocated ≤ N
      ∧ ∀ idx, N ≤ idx → p.bit idx = false := by
  obtain ⟨p, out, e, h, n⟩ := Pool.run_inv calls (Pool.new N) (Pool.new_inv N)
  have hN : p.N = N := n
  refine ⟨p, out, e, h.count, ?_, ?_, ?_⟩
  · rw [h.count]
    exact Int.ofNat_nonneg _
  · rw [← hN]
    exact h.le
  · intro idx hidx
    exact h.high idx (by rw [hN]; exact hidx)

/-- C27: in every state reachable from a new `Pool<T, N>`, `allocate` returns; it returns
null exactly when all `N` slots are allocated, and then changes nothing; otherwise it
returns the handle of the free slot with the lowest index, which is below `N`, sets the
bit of that slot and no other, and adds one to `num_allocated`. And
`find_first_set_bit` yields -1 for 0 and, for every other 64-bit word, the index of its
lowest set bit. -/
theorem allocate_returns_lowest_free_slot :
    (∀ (N : Nat) (calls : List Pool.Call) (p : Pool) (out : List (Option Int)),
        (Pool.new N).run calls = some (p, out) →
        ∃ r p2, p.allocate = some (r, p2)
          ∧ (r = none ↔ ∀ idx, idx < N → p.bit idx = true)
          ∧ (r = none → p2 = p)
          ∧ ∀ a : Int, r = some a →
              0 ≤ a ∧ a < N ∧ p.bit a.toNat = false
              ∧ (∀ idx, idx < a.toNat → p.bit idx = true)
              ∧ (∀ idx, p2.bit idx = if idx = a.toNat then true else p.bit idx)
              ∧ p2.num_allocated = p.num_allocated + 1)
      ∧ Pool.find_first_set_bit 0 = -1
      ∧ ∀ w, w ≠ 0 → w < 2 ^ 64 →
          ∃ k : Nat, Pool.find_first_set_bit w = (k : Int) ∧ k < 64 ∧ w.testBit k = true
            ∧ ∀ j, j < k → w.testBit j = false := by
  refine ⟨?_, by decide, fun w hw hlt => Pool.find_first_set_bit_spec w hw hlt⟩
  intro N calls p out hr
  obtain ⟨h, hN⟩ := Pool.reachable_inv hr
  have hfull := h.full_iff
  rw [hN] at hfull
  by_cases e : p.num_allocated = p.N
  · have ea := (Pool.allocate_spec p h).1 e
    rw [hN] at e
    refine ⟨none, p, ea, ?_, fun _ => rfl, fun a ha => absurd ha (by simp)⟩
    exact ⟨fun _ => hfull.mp e, fun _ => rfl⟩
  · obtain ⟨a, p2, ea, haN, hb, hlow, hbit2, hnum2, _, _⟩ := (Pool.allocate_spec p h).2 e
    rw [hN] at e haN
    refine ⟨some (a : Int), p2, ea, ?_, fun hx => absurd hx (by simp), ?_⟩
    · constructor
      · intro hx
        exact absurd hx (by simp)
      · intro hall
        exact absurd (hfull.mpr hall) e
    · intro a2 ha2
      have e3 : (a : Int) = a2 := Option.some.inj ha2
      subst e3
      simp only [Int.toNat_ofNat]
      exact ⟨Int.ofNat_nonneg _, by exact_mod_cast haN, hb, hlow, hbit2, hnum2⟩

set_option maxRecDepth 100000 in
/-- C27, instance: a pool of 70 slots after 64 allocations; the next `allocate` returns
slot 64, the lowest bit of the second word. -/
theorem allocate_returns_lowest_free_slot_witness :
    (Pool.new 70).run (List.replicate 64 Pool.Call.allocate)
        = some ({ N := 70, num_allocated := 64, used := [2 ^ 64 - 1, 0] },
            (List.range 64).map fun i => some (i : Int))
    ∧ Pool.allocate { N := 70, num_allocated := 64, used := [2 ^ 64 - 1, 0] }
        = some (some 64, { N := 70, num_allocated := 65, used := [2 ^ 64 - 1, 1] })
    ∧ ∃ r p2, Pool.allocate { N := 70, num_allocated := 64, used := [2 ^ 64 - 1, 0] }
          = some (r, p2)
        ∧ (r = none ↔ ∀ idx, idx < 70 →
            Pool.bit { N := 70, num_allocated := 64, used := [2 ^ 64 - 1, 0] } idx = true) :=
  ⟨by decide, by decide,
    (allocate_returns_lowest_free_slot.1 70 (List.replicate 64 Pool.Call.allocate)
      { N := 70, num_allocated := 64, used := [2 ^ 64 - 1, 0] }
      ((List.range 64).map fun i => some (i : Int)) (by decide)).imp fun _ hr =>
        hr.imp fun _ hp => ⟨hp.1, hp.2.1⟩⟩

/-- C28: `deallocate` with a handle that lies outside the slot range (the null pointer
included) or that denotes a free slot returns the pool unchanged; and in every state
reachable from a new pool, `deallocate` with the handle of an allocated slot clears the
bit of that slot and no other, subtracts one from `num_allocated`, and a second
`deallocate` with the same handle changes nothing more. -/
theorem deallocate_ignores_stray_handles :
    (∀ (p : Pool) (addr : Option Int),
        (p.owned addr = false ∨ p.allocated addr = false) → p.deallocate addr = some p)
      ∧ ∀ (N : Nat) (calls : List Pool.Call) (p : Pool) (out : List (Option Int)) (a : Int),
          (Pool.new N).run calls = some (p, out) → p.allocated (some a) = true →
          ∃ p1, p.deallocate (some a) = some p1
            ∧ p1.num_allocated = p.num_allocated - 1
            ∧ (∀ idx, p1.bit idx = if idx = a.toNat then false else p.bit idx)
            ∧ p1.deallocate (some a) = some p1 := by
  refine ⟨Pool.deallocate_stray, ?_⟩
  intro N calls p out a hr hal
  obtain ⟨h, hN⟩ := Pool.reachable_inv hr
  obtain ⟨n, e, hn, hb⟩ := (Pool.allocated_iff p (some a)).mp hal
  have ea : a = (n : Int) := Option.some.inj e
  subst ea
  obtain ⟨p1, e1, hbit1, hnum1, hN1, _⟩ := Pool.deallocate_spec p h n hn hb
  refine ⟨p1, e1, hnum1, by simpa using hbit1, ?_⟩
  apply Pool.deallocate_stray
  right
  by_contra hx
  obtain ⟨n2, e2, _, hb2⟩ := (Pool.allocated_iff p1 _).mp (by simpa using hx)
  have : (n : Int) = (n2 : Int) := Option.some.inj e2
  have hnn : n = n2 := by exact_mod_cast this
  subst hnn
  rw [hbit1 n, if_pos rfl] at hb2
  exact absurd hb2 (by simp)

set_option maxRecDepth 100000 in
/-- C28, instance: a pool of three slots with slots 0 and 1 allocated; handles 7, -1 and
null and the free slot 2 are ignored, and slot 1 is released once. -/
theorem deallocate_ignores_stray_handles_witness :
    (Pool.new 3).run [Pool.Call.allocate, Pool.Call.allocate]
        = some ({ N := 3, num_allocated := 2, used := [3] }, [some 0, some 1])
    ∧ Pool.allocated { N := 3, num_allocated := 2, used := [3] } (some 1) = true
    ∧ (Pool.run { N := 3, num_allocated := 2, used := [3] }
          [Pool.Call.deallocate (some 7), Pool.Call.deallocate (some (-1)),
            Pool.Call.deallocate none, Pool.Call.deallocate (some 2)]
        = some ({ N := 3, num_allocated := 2, used := [3] }, []))
    ∧ (Pool.run { N := 3, num_allocated := 2, used := [3] }
          [Pool.Call.deallocate (some 1), Pool.Call.deallocate (some 1)]
        = some ({ N := 3, num_allocated := 1, used := [1] }, []))
    ∧ ∃ p1, Pool.deallocate { N := 3, num_allocated := 2, used := [3] } (some 1) = some p1
        ∧ p1.num_allocated = 2 - 1 ∧ p1.deallocate (some 1) = some p1 :=
  ⟨by decide, by decide, by decide, by decide,
    (deallocate_ignores_stray_handles.2 3 [Pool.Call.allocate, Pool.Call.allocate]
      { N := 3, num_allocated := 2, used := [3] } [some 0, some 1] 1 (by decide)
      (by decide)).imp fun _ hp => ⟨hp.1, hp.2.1, hp.2.2.2⟩⟩

/-! ### Read-out, sticky failure -/

theorem Buffer.live_length {b : Buffer} (hs : b.sound) : (b.live.length : Int) = b.used := by
  unfold Buffer.live
  rw [List.length_take]
  have := hs.1
  have := hs.2
  omega

/-- C30: for every buffer with live bytes `X` and every `Y` whose append leaves the buffer
neither failed nor faulted, `write(Y, |Y|)` followed by `read(dst, max)` with
`max >= |X| + |Y|` returns `|X| + |Y|`, stores `X` followed by `Y` in `dst` and leaves
`used == 0`, no live byte and no failure. -/
theorem append_then_read_out_round_trip (alloc : Int → Bool) (b : Buffer) (Y : List Char)
    (max : Int) (hs : b.sound) (hc : (b.write alloc Y Y.length).clean)
    (hmax : (b.live.length : Int) + Y.length ≤ max) :
    ((b.write alloc Y Y.length).read max).ret = (b.live.length : Int) + Y.length
      ∧ ((b.write alloc Y Y.length).read max).dst = b.live ++ Y
      ∧ ((b.write alloc Y Y.length).read max).buf.used = 0
      ∧ ((b.write alloc Y Y.length).read max).buf.live = []
      ∧ ((b.write alloc Y Y.length).read max).buf.fail = false := by
  have x := Buffer.write_all_ext alloc b Y
  generalize b.write alloc Y Y.length = b2 at x hc
  obtain ⟨hf, hu⟩ := x.1 hc.1
  obtain ⟨hs2, hl2⟩ := x.2.2 hs hc
  have hlen := Buffer.live_length hs
  have hcopy : min b2.used max = b2.used := by
    apply min_eq_left
    rw [hu, ← hlen]
    exact hmax
  unfold Buffer.read
  simp only [hc.1, Bool.false_eq_true, if_false, hcopy, sub_self]
  refine ⟨by rw [hu, hlen], ?_, trivial, ?_, trivial⟩
  · rw [← hl2]
    rfl
  · simp [Buffer.live]

/-- C30, instance: "hello" appended to a new buffer and read out with room for 5 bytes. -/
theorem append_then_read_out_round_trip_witness :
    (Buffer.new.sound ∧ (Buffer.new.write alloc_ok "hello".toList "hello".toList.length).clean
      ∧ ((Buffer.new.live.length : Int) + ("hello".toList.length : Int) ≤ 5))
    ∧ ((Buffer.new.write alloc_ok "hello".toList "hello".toList.length).read 5).ret
        = (Buffer.new.live.length : Int) + "hello".toList.length
    ∧ ((Buffer.new.write alloc_ok "hello".toList "hello".toList.length).read 5).dst
        = Buffer.new.live ++ "hello".toList
    ∧ ((Buffer.new.write alloc_ok "hello".toList "hello".toList.length).read 5).buf.used = 0 :=
  ⟨by decide,
    (append_then_read_out_round_trip alloc_ok Buffer.new "hello".toList 5 (by decide)
      (by decide) (by decide)).1,
    (append_then_read_out_round_trip alloc_ok Buffer.new "hello".toList 5 (by decide)
      (by decide) (by decide)).2.1,
    (append_then_read_out_round_trip alloc_ok Buffer.new "hello".toList 5 (by decide)
      (by decide) (by decide)).2.2.1⟩

/-- C29: on a buffer whose `fail` flag is set, append, overwrite, read-out, socket ingest
and socket egress return at once and leave the buffer as it is. `consume(num)` does not
test the flag: the flag and the capacity stay, but `used` becomes `used - num`, and for
`0 <= num <= used`, with the `used` live bytes all written, the first `num` live bytes
are dropped. -/
theorem consume_ignores_failure_flag (alloc : Int → Bool) (b : Buffer) (src : List Char)
    (len off max num : Int) (ingest : List Recv) (egress : List Int) (h : b.fail = true) :
    b.write alloc src len = b
    ∧ b.overwrite off src len = b
    ∧ b.read max = { ret := 0, buf := b, dst := [] }
    ∧ b.write_sock alloc ingest = (false, b)
    ∧ b.read_sock alloc egress = { ret := 0, buf := b, sent := [] }
    ∧ (b.consume num).fail = true
    ∧ (b.consume num).size = b.size
    ∧ (b.consume num).used = b.used - num
    ∧ (0 ≤ num → num ≤ b.used → b.used ≤ (b.data.length : Int) →
        (b.consume num).live = b.live.drop num.toNat) := by
  refine ⟨?_, ?_, ?_, ?_, ?_, h, rfl, rfl, ?_⟩
  · unfold Buffer.write
    rw [if_pos h]
  · unfold Buffer.overwrite
    rw [if_pos h]
  · unfold Buffer.read
    rw [if_pos h]
  · unfold Buffer.write_sock
    rw [if_pos h]
  · unfold Buffer.read_sock
    rw [if_pos h]
  · intro h0 h1 h2
    obtain ⟨n, rfl⟩ := Int.eq_ofNat_of_zero_le h0
    obtain ⟨u, hu⟩ := Int.eq_ofNat_of_zero_le (le_trans h0 h1)
    have hnu : n ≤ u := by rw [hu] at h1; exact_mod_cast h1
    have hul : u ≤ b.data.length := by rw [hu] at h2; exact_mod_cast h2
    have e : ((u : Int) - (n : Int)).toNat = u - n := by omega
    unfold Buffer.consume Buffer.live
    simp only [hu, Int.toNat_ofNat, e, memcpy, List.take_zero, List.nil_append, Nat.zero_add]
    rw [List.take_append_eq_append_take, List.take_take, Nat.min_self, List.length_take,
      List.drop_take]
    have hz : u - n - min (u - n) (b.data.drop n).length = 0 := by
      simp only [List.length_drop]
      omega
    rw [hz, List.take_zero, List.append_nil]

/-- C29, instance: a buffer holding "abc" whose `fail` flag was set by an `overwrite`
outside the live bytes. Append, overwrite, read-out, socket ingest and socket egress
leave it as it is, but `consume(2)` takes `used` from 3 to 1 and the live bytes from
"abc" to "c". -/
theorem consume_ignores_failure_flag_witness :
    (((Buffer.of "abc".toList).overwrite 2 "xyz".toList 3).fail = true
      ∧ ((Buffer.of "abc".toList).overwrite 2 "xyz".toList 3).used = 3
      ∧ ((Buffer.of "abc".toList).overwrite 2 "xyz".toList 3).live = "abc".toList)
    ∧ (((Buffer.of "abc".toList).overwrite 2 "xyz".toList 3).write alloc_ok "z".toList 1
        = (Buffer.of "abc".toList).overwrite 2 "xyz".toList 3)
    ∧ (((Buffer.of "abc".toList).overwrite 2 "xyz".toList 3).overwrite 0 "z".toList 1
        = (Buffer.of "abc".toList).overwrite 2 "xyz".toList 3)
    ∧ ((((Buffer.of "abc".toList).overwrite 2 "xyz".toList 3).read 3).buf
        = (Buffer.of "abc".toList).overwrite 2 "xyz".toList 3)
    ∧ ((((Buffer.of "abc".toList).overwrite 2 "xyz".toList 3).write_sock alloc_ok
          [Recv.bytes "z".toList]).2
        = (Buffer.of "abc".toList).overwrite 2 "xyz".toList 3)
    ∧ ((((Buffer.of "abc".toList).overwrite 2 "xyz".toList 3).read_sock alloc_ok [3]).buf
        = (Buffer.of "abc".toList).overwrite 2 "xyz".toList 3)
    ∧ (((Buffer.of "abc".toList).overwrite 2 "xyz".toList 3).consume 2).used = 1
    ∧ (((Buffer.of "abc".toList).overwrite 2 "xyz".toList 3).consume 2).live = "c".toList
    ∧ (((Buffer.of "abc".toList).overwrite 2 "xyz".toList 3).consume 2).fail = true :=
  ⟨by decide,
    (consume_ignores_failure_flag alloc_ok ((Buffer.of "abc".toList).overwrite 2 "xyz".toList 3)
      "z".toList 1 0 3 2 [Recv.bytes "z".toList] [3] (by decide)).1,
    (consume_ignores_failure_flag alloc_ok ((Buffer.of "abc".toList).overwrite 2 "xyz".toList 3)
      "z".toList 1 0 3 2 [Recv.bytes "z".toList] [3] (by decide)).2.1,
    by decide⟩

/-! ### Removal from the queue -/

theorem Queue.index_ring (hd i N : Nat) (hN : N ≤ 2 ^ 30) (hhd : hd < N) (hi : i ≤ N) :
    Queue.index ((hd : Int) + (i : Int)) (N : Int) = (((hd + i) % N : Nat) : Int) := by
  rw [← Queue.index_eq _ _ (by omega)]
  norm_cast

theorem Queue.item_at {α : Type} {q : Queue α} {N : Nat} {l : List α} (h : q.Holds N l)
    {hd : Nat} (hhd : q.head = (hd : Int)) (i : Nat) (x : α) (hx : l[i]? = some x) :
    q.items.getD ((hd + i) % N) q.dflt = x := by
  have hi : i < l.length := by
    by_contra hc
    rw [List.getElem?_eq_none (by omega)] at hx
    cases hx
  have := h.get i hi
  rw [hhd, Int.toNat_ofNat, hx] at this
  rw [List.getD_eq_getElem?_getD, this]
  rfl

theorem Queue.remove_find_hit {α : Type} [DecidableEq α] {q : Queue α} {N : Nat}
    {pre post : List α} {item : α} (h : q.Holds N (pre ++ item :: post)) (hN : N ≤ 2 ^ 30)
    (hpre : item ∉ pre) :
    ∀ (n i : Nat), i + n = (pre ++ item :: post).length → i ≤ pre.length →
      Queue.remove_find q item n (i : Int) false = ((pre.length : Int), false) := by
  obtain ⟨hd, hhd⟩ := Int.eq_ofNat_of_zero_le h.head_nonneg
  have hlt : hd < N := by have := h.head_lt; omega
  have hlen := h.len
  simp only [List.length_append, List.length_cons] at hlen
  intro n
  induction n with
  | zero =>
    intro i hi hip
    simp only [List.length_append, List.length_cons] at hi
    omega
  | succ n ih =>
    intro i hi hip
    simp only [List.length_append, List.length_cons] at hi
    have hidx : Queue.index (q.head + (i : Int)) q.N = (((hd + i) % N : Nat) : Int) := by
      rw [hhd, h.cap]
      exact Queue.index_ring hd i N hN hlt (by omega)
    have hbad : Queue.bad q.N (((hd + i) % N : Nat) : Int) = false := by
      rw [h.cap]
      exact Queue.bad_mod _ _ (by omega)
    unfold Queue.remove_find
    simp only [hidx, Int.toNat_ofNat, hbad, Bool.or_false]
    by_cases hip2 : i = pre.length
    · have hx : (pre ++ item :: post)[i]? = some item := by
        rw [hip2, List.getElem?_append_right (le_refl _)]
        simp
      rw [Queue.item_at h hhd i item hx, if_pos rfl, hip2]
    · have hil : i < pre.length := by omega
      have hx : (pre ++ item :: post)[i]? = some (pre.get ⟨i, hil⟩) := by
        rw [List.getElem?_append_left hil]
        simp
      have hne : pre.get ⟨i, hil⟩ ≠ item := by
        intro e
        exact hpre (e ▸ List.get_mem pre i hil)
      rw [Queue.item_at h hhd i _ hx, if_neg hne]
      have := ih (i + 1) (by simp only [List.length_append, List.length_cons]; omega) (by omega)
      rw [← this]
      norm_cast

theorem Queue.remove_find_miss {α : Type} [DecidableEq α] {q : Queue α} {N : Nat}
    {l : List α} {item : α} (h : q.Holds N l) (hN : N ≤ 2 ^ 30) (hmiss : item ∉ l) :
    ∀ (n i : Nat), i + n = l.length →
      Queue.remove_find q item n (i : Int) false = ((l.length : Int), false) := by
  obtain ⟨hd, hhd⟩ := Int.eq_ofNat_of_zero_le h.head_nonneg
  have hlt : hd < N := by have := h.head_lt; omega
  have hlen := h.len
  intro n
  induction n with
  | zero =>
    intro i hi
    unfold Queue.remove_find
    rw [← hi]
    simp
  | succ n ih =>
    intro i hi
    have hidx : Queue.index (q.head + (i : Int)) q.N = (((hd + i) % N : Nat) : Int) := by
      rw [hhd, h.cap]
      exact Queue.index_ring hd i N hN hlt (by omega)
    have hbad : Queue.bad q.N (((hd + i) % N : Nat) : Int) = false := by
      rw [h.cap]
      exact Queue.bad_mod _ _ (by omega)
    have hil : i < l.length := by omega
    have hx : l[i]? = some (l.get ⟨i, hil⟩) := by simp
    have hne : l.get ⟨i, hil⟩ ≠ item := by
      intro e
      exact hmiss (e ▸ List.get_mem l i hil)
    unfold Queue.remove_find
    simp only [hidx, Int.toNat_ofNat, hbad, Bool.or_false]
    rw [Queue.item_at h hhd i _ hx, if_neg hne]
    have := ih (i + 1) (by omega)
    rw [← this]
    norm_cast

theorem Queue.remove_shift_spec {α : Type} (N hd : Nat) (dflt : α) (hN : N ≤ 2 ^ 30)
    (hhd : hd < N) (l : List α) (hL : l.length ≤ N) (idx : Nat) :
    ∀ (n i : Nat) (items : List α), i + n + 1 = l.length → idx ≤ i → items.length = N →
      (∀ m, m < l.length →
        items[(hd + m) % N]? = if idx ≤ m ∧ m < i then l[m + 1]? else l[m]?) →
      ∃ items2, Queue.remove_shift (N : Int) (hd : Int) dflt n (i : Int) items false
            = (items2, false)
          ∧ items2.length = N
          ∧ ∀ m, m < l.length →
              items2[(hd + m) % N]? = if idx ≤ m ∧ m + 1 < l.length then l[m + 1]? else l[m]? := by
  intro n
  induction n with
  | zero =>
    intro i items hi hidx hlen hinv
    refine ⟨items, rfl, hlen, ?_⟩
    intro m hm
    rw [hinv m hm]
    split_ifs <;> first | rfl | (exfalso; omega)
  | succ n ih =>
    intro i items hi hidx hlen hinv
    have hpos : N > 0 := by omega
    have hj : Queue.index ((hd : Int) + (i : Int)) (N : Int) = (((hd + i) % N : Nat) : Int) :=
      Queue.index_ring hd i N hN hhd (by omega)
    have hk : Queue.index ((((hd + i) % N : Nat) : Int) + 1) (N : Int)
        = (((hd + (i + 1)) % N : Nat) : Int) := by
      have hlt := Nat.mod_lt (hd + i) hpos
      have := Queue.index_eq ((hd + i) % N + 1) N (by omega)
      rw [← Nat.cast_add_one, this, Nat.add_mod, Nat.mod_mod, ← Nat.add_mod]
      rfl
    have hbj : Queue.bad (N : Int) (((hd + i) % N : Nat) : Int) = false :=
      Queue.bad_mod _ _ (by omega)
    have hbk : Queue.bad (N : Int) (((hd + (i + 1)) % N : Nat) : Int) = false :=
      Queue.bad_mod _ _ (by omega)
    unfold Queue.remove_shift
    simp only [hj, hk, hbj, hbk, Bool.or_false, Int.toNat_ofNat]
    have hnext := hinv (i + 1) (by omega)
    rw [if_neg (by omega)] at hnext
    have hi1 : i + 1 < l.length := by omega
    have hget : items.getD ((hd + (i + 1)) % N) dflt = l.get ⟨i + 1, hi1⟩ := by
      rw [List.getD_eq_getElem?_getD, hnext, List.getElem?_eq_getElem hi1]
      rfl
    rw [hget]
    have := ih (i + 1) (items.set ((hd + i) % N) (l.get ⟨i + 1, hi1⟩)) (by omega) (by omega)
      (by simp [hlen]) (by
        intro m hm
        by_cases hmi : m = i
        · subst hmi
          rw [List.getElem?_set_self (by rw [hlen]; exact Nat.mod_lt _ hpos), if_pos (by omega)]
          simp
        · have hne : (hd + i) % N ≠ (hd + m) % N := by
            rcases Nat.lt_or_gt_of_ne hmi with hlt | hgt
            · exact Ne.symm (Queue.ring_ne hd m i N hlt (by omega))
            · exact Queue.ring_ne hd i m N hgt (by omega)
          rw [List.getElem?_set_ne hne, hinv m hm]
          split_ifs <;> first | rfl | (exfalso; omega))
    obtain ⟨items2, e1, e2, e3⟩ := this
    rw [Nat.cast_add_one] at e1
    exact ⟨items2, e1, e2, e3⟩

theorem Queue.remove_miss {α : Type} [DecidableEq α] {q : Queue α} {N : Nat} {l : List α}
    (h : q.Holds N l) (hN : N ≤ 2 ^ 30) (item : α) (hmiss : item ∉ l) :
    q.remove item = (false, q) := by
  have hf := Queue.remove_find_miss h hN hmiss l.length 0 (by omega)
  have hut : q.used.toNat = l.length := by rw [h.used, Int.toNat_ofNat]
  have hu : ((l.length : Nat) : Int) = q.used := h.used.symm
  rw [show ((0 : Nat) : Int) = 0 from rfl] at hf
  unfold Queue.remove
  simp only [hut, h.fault, hf, hu, beq_self_eq_true, if_true]
  congr 1
  cases q with
  | mk N0 head used items dflt fault =>
    have hfa : fault = false := h.fault
    subst hfa
    rfl

theorem Queue.remove_hit {α : Type} [DecidableEq α] {q : Queue α} {N : Nat}
    {pre post : List α} {item : α} (h : q.Holds N (pre ++ item :: post)) (hN : N ≤ 2 ^ 30)
    (hpre : item ∉ pre) :
    (q.remove item).1 = true ∧ (q.remove item).2.Holds N (pre ++ post ++ [q.dflt]) := by
  obtain ⟨hd, hhd⟩ := Int.eq_ofNat_of_zero_le h.head_nonneg
  have hlt : hd < N := by have := h.head_lt; omega
  have hlen := h.len
  have hL : (pre ++ item :: post).length = pre.length + post.length + 1 := by
    simp only [List.length_append, List.length_cons]; omega
  have hpos : N > 0 := by omega
  have hf := Queue.remove_find_hit h hN hpre (pre ++ item :: post).length 0 (by omega)
    (Nat.zero_le _)
  rw [show ((0 : Nat) : Int) = 0 from rfl] at hf
  have hget := h.get
  rw [hhd, Int.toNat_ofNat] at hget
  obtain ⟨items2, e1, e2, e3⟩ := Queue.remove_shift_spec N hd q.dflt hN hlt
    (pre ++ item :: post) hlen pre.length post.length pre.length q.items
    hL.symm (le_refl _) h.items (by
      intro m hm
      rw [hget m hm, if_neg (by omega)])
  have hlast : Queue.index (q.head + q.used - 1) q.N
      = (((hd + (pre.length + post.length)) % N : Nat) : Int) := by
    rw [hhd, h.used, h.cap, hL, ← Queue.index_ring hd _ N hN hlt (by omega)]
    congr 1
    push_cast
    omega
  have hbl : Queue.bad q.N (((hd + (pre.length + post.length)) % N : Nat) : Int) = false := by
    rw [h.cap]
    exact Queue.bad_mod _ _ (by omega)
  have hu : q.used = ((pre.length + post.length + 1 : Nat) : Int) := by rw [h.used, hL]
  have hut : q.used.toNat = (pre ++ item :: post).length := by rw [h.used, Int.toNat_ofNat]
  have hne : ¬ ((pre.length : Int) = q.used) := by
    rw [hu]; push_cast; omega
  have hcount : (q.used - 1 - (pre.length : Int)).toNat = post.length := by
    rw [hu]; push_cast; omega
  rw [← h.cap, ← hhd] at e1
  unfold Queue.remove
  simp only [hut, h.fault, hf, beq_iff_eq, hne, if_false, hlast, hbl, hcount, Bool.or_false,
    Int.toNat_ofNat, e1]
  refine ⟨trivial, ⟨h.cap, h.head_nonneg, h.head_lt, ?_, ?_, ?_, rfl, ?_⟩⟩
  · show q.used = _
    rw [h.used]
    simp only [List.length_append, List.length_cons, List.length_nil]
    push_cast
    omega
  · simp only [List.length_append, List.length_cons, List.length_nil]
    omega
  · show (items2.set _ _).length = N
    simp [e2]
  · intro m hm
    simp only [List.length_append, List.length_cons, List.length_nil] at hm
    show (items2.set _ _)[(Int.toNat q.head + m) % N]? = _
    rw [hhd, Int.toNat_ofNat]
    by_cases hml : m = pre.length + post.length
    · subst hml
      rw [List.getElem?_set_self (by rw [e2]; exact Nat.mod_lt _ hpos),
        List.getElem?_append_right (by simp)]
      simp
    · have hm2 : m < pre.length + post.length := by omega
      have hne2 : (hd + (pre.length + post.length)) % N ≠ (hd + m) % N :=
        Ne.symm (Queue.ring_ne hd m _ N hm2 (by omega))
      have r1 : (pre ++ post ++ [q.dflt])[m]? = (pre ++ post)[m]? :=
        List.getElem?_append_left (by simp only [List.length_append]; omega)
      rw [List.getElem?_set_ne hne2, e3 m (by rw [hL]; omega), r1]
      by_cases hmp : m < pre.length
      · have r2 : (pre ++ item :: post)[m]? = pre[m]? := List.getElem?_append_left hmp
        have r3 : (pre ++ post)[m]? = pre[m]? := List.getElem?_append_left hmp
        rw [if_neg (by omega), r2, r3]
      · have r2 : (pre ++ item :: post)[m + 1]? = (item :: post)[m + 1 - pre.length]? :=
          List.getElem?_append_right (by omega)
        have r3 : (pre ++ post)[m]? = post[m - pre.length]? :=
          List.getElem?_append_right (by omega)
        have e : m + 1 - pre.length = (m - pre.length) + 1 := by omega
        rw [if_pos (by rw [hL]; omega), r2, r3, e, List.getElem?_cons_succ]

/-- C21: on a queue of capacity `N <= 2^30` holding the entries `l`, `remove(v)` returns
false and leaves the queue as it is when `v` does not occur in `l`. When `v` occurs it
returns true and deletes the first occurrence, keeping the order of the others, but
`size()` stays what it was: the queue then holds `l` without that occurrence followed by
one default-constructed entry. -/
theorem remove_keeps_size {α : Type} [DecidableEq α] (q : Queue α) (N : Nat) (l : List α)
    (v : α) (h : q.Holds N l) (hN : N ≤ 2 ^ 30) :
    (v ∉ l → q.remove v = (false, q))
    ∧ (v ∈ l → (q.remove v).1 = true ∧ (q.remove v).2.size = q.size
        ∧ (q.remove v).2.size = (l.length : Int)
        ∧ (q.remove v).2.Holds N (l.erase v ++ [q.dflt])) := by
  refine ⟨Queue.remove_miss h hN v, ?_⟩
  intro hv
  obtain ⟨pre, post, e, hpre⟩ := List.eq_append_cons_of_mem hv
  subst e
  obtain ⟨h1, h2⟩ := Queue.remove_hit h hN hpre
  have he : (pre ++ v :: post).erase v = pre ++ post := by
    rw [List.erase_append_right _ hpre, List.erase_cons_head]
  rw [he]
  have hs : (q.remove v).2.size = ((pre ++ v :: post).length : Int) := by
    have := h2.used
    simp only [List.length_append, List.length_cons, List.length_nil] at this ⊢
    unfold Queue.size
    rw [this]
    push_cast
    omega
  refine ⟨h1, ?_, hs, h2⟩
  rw [hs]
  exact h.used.symm

set_option maxRecDepth 100000 in
/-- C21, instance: the queue of capacity 4 after `push(1)`, `push(2)`, `push(3)`.
`remove(2)` returns true, `size()` is 3 before and after, the items are 1, 3 and a
default-constructed 0, which three further `pop` calls hand out; `remove(7)` returns
false. -/
theorem remove_keeps_size_witness :
    ((2 : Int) ∈ [1, 2, 3] ∧ (7 : Int) ∉ [1, 2, 3]
      ∧ (Queue.push (Queue.push (Queue.push (Queue.new 4 (0 : Int)) 1).2 2).2 3).2.size = 3)
    ∧ ((Queue.push (Queue.push (Queue.push (Queue.new 4 (0 : Int)) 1).2 2).2 3).2.remove 2).1
        = true
    ∧ ((Queue.push (Queue.push (Queue.push (Queue.new 4 (0 : Int)) 1).2 2).2 3).2.remove 2).2.size
        = (([1, 2, 3] : List Int).length : Int)
    ∧ ((Queue.push (Queue.push (Queue.push (Queue.new 4 (0 : Int)) 1).2 2).2 3).2.remove 2).2.items
        = [1, 3, 0, 0]
    ∧ (Queue.run
          ((Queue.push (Queue.push (Queue.push (Queue.new 4 (0 : Int)) 1).2 2).2 3).2.remove 2).2
          [Queue.Call.pop, Queue.Call.pop, Queue.Call.pop, Queue.Call.pop]).2
        = [Queue.Outcome.popped (some 1), Queue.Outcome.popped (some 3),
            Queue.Outcome.popped (some 0), Queue.Outcome.popped none]
    ∧ (Queue.push (Queue.push (Queue.push (Queue.new 4 (0 : Int)) 1).2 2).2 3).2.remove 7
        = (false, (Queue.push (Queue.push (Queue.push (Queue.new 4 (0 : Int)) 1).2 2).2 3).2) :=
  ⟨by decide,
    ((remove_keeps_size (Queue.push (Queue.push (Queue.push (Queue.new 4 (0 : Int)) 1).2 2).2 3).2
      4 [1, 2, 3] 2
      (Queue.push_holds (Queue.push_holds (Queue.push_holds (Queue.new_holds 4 (0 : Int)
        (by decide)) (by decide) (by decide) 1).2 (by decide) (by decide) 2).2 (by decide)
        (by decide) 3).2
      (by decide)).2 (by decide)).1,
    ((remove_keeps_size (Queue.push (Queue.push (Queue.push (Queue.new 4 (0 : Int)) 1).2 2).2 3).2
      4 [1, 2, 3] 2
      (Queue.push_holds (Queue.push_holds (Queue.push_holds (Queue.new_holds 4 (0 : Int)
        (by decide)) (by decide) (by decide) 1).2 (by decide) (by decide) 2).2 (by decide)
        (by decide) 3).2
      (by decide)).2 (by decide)).2.2.1,
    by decide, by decide,
    (remove_keeps_size (Queue.push (Queue.push (Queue.push (Queue.new 4 (0 : Int)) 1).2 2).2 3).2
      4 [1, 2, 3] 7
      (Queue.push_holds (Queue.push_holds (Queue.push_holds (Queue.new_holds 4 (0 : Int)
        (by decide)) (by decide) (by decide) 1).2 (by decide) (by decide) 2).2 (by decide)
        (by decide) 3).2
      (by decide)).1 (by decide)⟩

/-! ### Dotted quads -/

set_option maxRecDepth 1000000 in
theorem repr_u8_all : ∀ n, n < 256 →
    ((Nat.repr n).toList ≠ [] ∧ (∀ x ∈ (Nat.repr n).toList, is_digit x = true)
      ∧ decimal_from 0 (Nat.repr n).toList = n) := by
  decide

theorem zero_char_toNat : (('0'.toNat : Nat) : Int) = 48 := by decide

theorem parse_num_loop_digits {src : Scanner} (t : List Char)
    (ht : ∀ x, t.head? = some x → is_digit x = false) :
    ∀ (ds : List Char) (c : Char) (n acc off : Nat),
      src.Rem off (c :: ds ++ t) → is_digit c = true → (∀ x ∈ ds, is_digit x = true) →
      decimal_from acc (c :: ds) ≤ 255 → ds.length < n →
      parse_num_loop src 10 255 is_digit n (acc : Int) off
        = some ((decimal_from acc (c :: ds) : Int), off + ds.length + 1) := by
  intro ds
  induction ds with
  | nil =>
    intro c n acc off hrem hc _ hv hn
    obtain ⟨n, rfl⟩ : ∃ k, n = k + 1 := ⟨n - 1, by simp at hn; omega⟩
    have hb := digit_bounds hc
    have hrem1 : src.Rem (off + 1) t := (by simpa using hrem : src.Rem off (c :: t)).tail
    have hval : decimal_from acc [c] = acc * 10 + (c.toNat - 48) := rfl
    rw [hval] at hv
    unfold parse_num_loop
    simp only [hrem.curr_cons, Option.bind, zero_char_toNat, hrem.consume_cons]
    rw [if_neg (by omega), if_neg (by omega)]
    have hres : (acc : Int) * 10 + ((c.toNat : Int) - 48)
        = ((decimal_from acc [c] : Nat) : Int) := by
      rw [hval]; push_cast; omega
    cases t with
    | nil =>
      simp only [hrem1.end_nil, if_true, hres]
      rfl
    | cons x t2 =>
      have hx := ht x rfl
      simp only [hrem1.end_cons, hrem1.curr_cons, hx, hres]
      rfl
  | cons y ds ih =>
    intro c n acc off hrem hc hds hv hn
    obtain ⟨n, rfl⟩ : ∃ k, n = k + 1 := ⟨n - 1, by simp at hn; omega⟩
    have hb := digit_bounds hc
    have hrem1 : src.Rem (off + 1) (y :: ds ++ t) :=
      (by simpa using hrem : src.Rem off (c :: (y :: ds ++ t))).tail
    have hval : decimal_from acc (c :: y :: ds)
        = decimal_from (acc * 10 + (c.toNat - 48)) (y :: ds) := rfl
    have hmono := decimal_from_mono (y :: ds) (acc * 10 + (c.toNat - 48))
    have hy : is_digit y = true := hds y (List.mem_cons_self _ _)
    unfold parse_num_loop
    simp only [hrem.curr_cons, Option.bind, zero_char_toNat, hrem.consume_cons]
    rw [if_neg (by omega), if_neg (by rw [hval] at hv; omega)]
    have hacc : (acc : Int) * 10 + ((c.toNat : Int) - 48)
        = ((acc * 10 + (c.toNat - 48) : Nat) : Int) := by
      push_cast; omega
    simp only [hrem1.end_cons, hrem1.curr_cons, hy, if_true, hacc]
    have := ih y n (acc * 10 + (c.toNat - 48)) (off + 1) hrem1 hy
      (fun x hx => hds x (List.mem_cons_of_mem _ hx)) (by rw [← hval]; exact hv)
      (by simp only [List.length_cons] at hn; omega)
    simp only [Bool.false_eq_true, if_false]
    rw [this, hval]
    simp only [List.length_cons]
    congr 2
    omega

theorem parse_num_loop_returns {src : Scanner} :
    ∀ (n : Nat) (c : Char) (rest : List Char) (acc : Int) (off : Nat),
      src.Rem off (c :: rest) → is_digit c = true → (acc = 0 ∨ 0 < off) → 0 ≤ acc →
      rest.length < n →
      ∃ v o, parse_num_loop src 10 255 is_digit n acc off = some (v, o) := by
  intro n
  induction n with
  | zero =>
    intro c rest acc off _ _ _ _ hn
    omega
  | succ n ih =>
    intro c rest acc off hrem hc h0 hacc hn
    have hb := digit_bounds hc
    have hrem1 : src.Rem (off + 1) rest := hrem.tail
    unfold parse_num_loop
    simp only [hrem.curr_cons, Option.bind, zero_char_toNat, hrem.consume_cons]
    rw [if_neg (by omega)]
    by_cases hov : acc > (255 - ((c.toNat : Int) - 48)) / 10
    · rw [if_pos hov]
      have hoff : 0 < off := by
        rcases h0 with h0 | h0
        · exfalso; omega
        · exact h0
      unfold Scanner.back
      rw [if_pos hoff]
      exact ⟨_, _, rfl⟩
    · rw [if_neg hov]
      cases rest with
      | nil =>
        simp only [hrem1.end_nil, if_true]
        exact ⟨_, _, rfl⟩
      | cons x t2 =>
        simp only [hrem1.end_cons, hrem1.curr_cons, Bool.false_eq_true, if_false]
        by_cases hx : is_digit x = true
        · rw [if_pos hx]
          exact ih x t2 _ (off + 1) hrem1 hx (Or.inr (by omega)) (by omega)
            (by simp only [List.length_cons] at hn; omega)
        · rw [if_neg hx]
          exact ⟨_, _, rfl⟩

theorem parse_u8_base10_run {src : Scanner} {off : Nat} (c : Char) (ds t : List Char)
    (h : src.Rem off (c :: ds ++ t)) (hc : is_digit c = true)
    (hds : ∀ x ∈ ds, is_digit x = true) (ht : ∀ x, t.head? = some x → is_digit x = false)
    (hv : decimal_from 0 (c :: ds) ≤ 255) (dst : Int) :
    parse_u8_base10 src dst off
      = some (true, (decimal_from 0 (c :: ds) : Int), off + ds.length + 1) := by
  have hlen := h.length
  simp only [List.length_append, List.length_cons] at hlen
  have := parse_num_loop_digits t ht ds c (src.len - off) 0 off h hc hds hv (by omega)
  unfold parse_u8_base10
  simp only [h.end_cons, h.curr_cons, Option.bind, hc, Bool.not_true, Bool.false_eq_true,
    if_false]
  rw [show ((0 : Nat) : Int) = 0 from rfl] at this
  rw [this]

theorem parse_u8_base10_returns {src : Scanner} {off : Nat} (c : Char) (rest : List Char)
    (h : src.Rem off (c :: rest)) (hc : is_digit c = true) (dst : Int) :
    ∃ v o, parse_u8_base10 src dst off = some (true, v, o) := by
  have hlen := h.length
  simp only [List.length_cons] at hlen
  obtain ⟨v, o, e⟩ := parse_num_loop_returns (src.len - off) c rest 0 off h hc (Or.inl rfl)
    (le_refl _) (by omega)
  unfold parse_u8_base10
  simp only [h.end_cons, h.curr_cons, Option.bind, hc, Bool.not_true, Bool.false_eq_true,
    if_false]
  rw [e]
  exact ⟨v, o, rfl⟩

theorem repr_u8 (n : Nat) (h : n ≤ 255) :
    ∃ c ds, (Nat.repr n).toList = c :: ds ∧ is_digit c = true
      ∧ (∀ x ∈ ds, is_digit x = true) ∧ decimal_from 0 (c :: ds) = n := by
  obtain ⟨h1, h2, h3⟩ := repr_u8_all n (by omega)
  cases e : (Nat.repr n).toList with
  | nil => exact absurd e h1
  | cons c ds =>
    rw [e] at h2 h3
    exact ⟨c, ds, rfl, h2 c (List.mem_cons_self _ _),
      fun x hx => h2 x (List.mem_cons_of_mem _ hx), h3⟩

theorem dot_not_digit (t : List Char) : ∀ x, ('.' :: t).head? = some x → is_digit x = false := by
  intro x hx
  simp only [List.head?_cons, Option.some.injEq] at hx
  subst hx
  decide

theorem nil_not_digit : ∀ x, ([] : List Char).head? = some x → is_digit x = false := by
  intro x hx
  simp at hx

/-- A field `n <= 255` in decimal followed by `t`, which does not start with a digit, is
read by `parse_u8_base10` in full. -/
theorem parse_u8_base10_repr {src : Scanner} {off : Nat} (n : Nat) (hn : n ≤ 255)
    (t : List Char) (ht : ∀ x, t.head? = some x → is_digit x = false)
    (h : src.Rem off ((Nat.repr n).toList ++ t)) (dst : Int) :
    parse_u8_base10 src dst off = some (true, (n : Int), off + (Nat.repr n).toList.length) := by
  obtain ⟨c, ds, e, hc, hds, hv⟩ := repr_u8 n hn
  rw [e] at h ⊢
  have := parse_u8_base10_run c ds t (by simpa using h) hc hds ht (by rw [hv]; exact hn) dst
  rw [this, hv]
  rfl

/-- A field `n <= 255` in decimal followed by any bytes: `parse_u8_base10` returns true. -/
theorem parse_u8_base10_repr_any {src : Scanner} {off : Nat} (n : Nat) (hn : n ≤ 255)
    (t : List Char) (h : src.Rem off ((Nat.repr n).toList ++ t)) (dst : Int) :
    ∃ v o, parse_u8_base10 src dst off = some (true, v, o) := by
  obtain ⟨c, ds, e, hc, _, _⟩ := repr_u8 n hn
  rw [e] at h
  exact parse_u8_base10_returns c (ds ++ t) (by simpa using h) hc dst

theorem parse_ipv4_loop_first {src : Scanner} (n : Nat) (word : Int) (off f : Nat)
    (hf : f ≤ 255) (t : List Char) (ht : ∀ x, t.head? = some x → is_digit x = false)
    (h : src.Rem off ((Nat.repr f).toList ++ t)) :
    parse_ipv4_loop src (n + 1) 0 word off
      = parse_ipv4_loop src n 1 ((word * 256 + (f : Int)) % 4294967296)
          (off + (Nat.repr f).toList.length) := by
  have e := parse_u8_base10_repr f hf t ht h 0
  conv_lhs => unfold parse_ipv4_loop
  simp only [gt_iff_lt, lt_self_iff_false, if_false, Option.bind, Bool.not_true,
    Bool.false_eq_true, e, zero_add]

theorem parse_ipv4_loop_dot {src : Scanner} (n i : Nat) (hi : 0 < i) (word : Int) (off f : Nat)
    (hf : f ≤ 255) (t : List Char) (ht : ∀ x, t.head? = some x → is_digit x = false)
    (h : src.Rem off ('.' :: ((Nat.repr f).toList ++ t))) :
    parse_ipv4_loop src (n + 1) i word off
      = parse_ipv4_loop src n (i + 1) ((word * 256 + (f : Int)) % 4294967296)
          (off + 1 + (Nat.repr f).toList.length) := by
  have c := Scanner.consume_char_hit h
  have e := parse_u8_base10_repr f hf t ht h.tail 0
  conv_lhs => unfold parse_ipv4_loop
  simp only [gt_iff_lt, hi, if_true, Option.bind, Bool.not_true, Bool.false_eq_true,
    if_false, c, e]

theorem parse_ipv4_loop_last {src : Scanner} (word : Int) (off f : Nat) (hf : f ≤ 255)
    (t : List Char) (h : src.Rem off ('.' :: ((Nat.repr f).toList ++ t))) :
    ∃ w o, parse_ipv4_loop src 1 3 word off = some (true, w, o) := by
  have c := Scanner.consume_char_hit h
  obtain ⟨v, o, e⟩ := parse_u8_base10_repr_any f hf t h.tail 0
  refine ⟨(word * 256 + v) % 4294967296, o, ?_⟩
  unfold parse_ipv4_loop
  simp only [gt_iff_lt, Nat.ofNat_pos, if_true, Option.bind, Bool.not_true,
    Bool.false_eq_true, if_false, c, e]
  unfold parse_ipv4_loop
  rfl

theorem Scanner.rem_zero (text : List Char) :
    Scanner.Rem { str := text, len := text.length } 0 text :=
  ⟨rfl, Nat.zero_le _, rfl⟩

theorem repr_u8_no_nul (n : Nat) (h : n ≤ 255) : ∀ x ∈ (Nat.repr n).toList, x ≠ Char.ofNat 0 := by
  intro x hx e
  have := digit_bounds ((repr_u8_all n (by omega)).2.1 x hx)
  rw [e] at this
  revert this
  decide

theorem dotted_no_nul (a b c d : Nat) (ha : a ≤ 255) (hb : b ≤ 255) (hc : c ≤ 255)
    (hd : d ≤ 255) : ∀ x ∈ dotted a b c d, x ≠ Char.ofNat 0 := by
  intro x hx
  simp only [dotted, List.mem_append, List.mem_cons] at hx
  have hdot : '.' ≠ Char.ofNat 0 := by decide
  rcases hx with h | h | h | h | h | h | h
  · exact repr_u8_no_nul a ha x h
  · exact h ▸ hdot
  · exact repr_u8_no_nul b hb x h
  · exact h ▸ hdot
  · exact repr_u8_no_nul c hc x h
  · exact h ▸ hdot
  · exact repr_u8_no_nul d hd x h

theorem parse_ipv4_dotted_three {src : Scanner} (a b c d : Nat) (ha : a ≤ 255) (hb : b ≤ 255)
    (hc : c ≤ 255) (t : List Char) (h : src.Rem 0 (dotted a b c d ++ t)) :
    parse_ipv4_loop src 4 0 0 0
        = parse_ipv4_loop src 1 3 ((a : Int) * 2 ^ 16 + (b : Int) * 2 ^ 8 + (c : Int))
            (0 + (Nat.repr a).toList.length + 1 + (Nat.repr b).toList.length + 1
              + (Nat.repr c).toList.length)
      ∧ src.Rem (0 + (Nat.repr a).toList.length + 1 + (Nat.repr b).toList.length + 1
              + (Nat.repr c).toList.length) ('.' :: ((Nat.repr d).toList ++ t)) := by
  have h0 : src.Rem 0 ((Nat.repr a).toList ++ '.' :: ((Nat.repr b).toList ++ '.' ::
      ((Nat.repr c).toList ++ '.' :: ((Nat.repr d).toList ++ t)))) := by
    simpa [dotted] using h
  have s1 := parse_ipv4_loop_first 3 0 0 a ha _ (dot_not_digit _) h0
  have h1 := h0.advance
  have s2 := parse_ipv4_loop_dot 2 1 (by decide) ((0 * 256 + (a : Int)) % 4294967296)
    (0 + (Nat.repr a).toList.length) b hb _ (dot_not_digit _) h1
  have h2 := h1.tail.advance
  have s3 := parse_ipv4_loop_dot 1 2 (by decide)
    ((((0 * 256 + (a : Int)) % 4294967296) * 256 + (b : Int)) % 4294967296)
    (0 + (Nat.repr a).toList.length + 1 + (Nat.repr b).toList.length) c hc _
    (dot_not_digit _) h2
  have h3 := h2.tail.advance
  refine ⟨?_, h3⟩
  rw [s1, s2, s3]
  congr 1
  omega

theorem parse_ipv4_dotted_any {src : Scanner} (a b c d : Nat) (ha : a ≤ 255) (hb : b ≤ 255)
    (hc : c ≤ 255) (hd : d ≤ 255) (t : List Char) (h : src.Rem 0 (dotted a b c d ++ t))
    (dst : Int) : ∃ w o, parse_ipv4 src dst 0 = some (true, w, o) := by
  obtain ⟨e, hrem⟩ := parse_ipv4_dotted_three a b c d ha hb hc t h
  obtain ⟨w, o, e2⟩ := parse_ipv4_loop_last ((a : Int) * 2 ^ 16 + (b : Int) * 2 ^ 8 + (c : Int))
    _ d hd t hrem
  refine ⟨w, o, ?_⟩
  unfold parse_ipv4
  rw [e, e2]
  rfl

theorem parse_ipv4_dotted_exact {src : Scanner} (a b c d : Nat) (ha : a ≤ 255) (hb : b ≤ 255)
    (hc : c ≤ 255) (hd : d ≤ 255) (t : List Char)
    (ht : ∀ x, t.head? = some x → is_digit x = false) (h : src.Rem 0 (dotted a b c d ++ t))
    (dst : Int) :
    parse_ipv4 src dst 0
      = some (true, (a : Int) * 2 ^ 24 + (b : Int) * 2 ^ 16 + (c : Int) * 2 ^ 8 + (d : Int),
          (dotted a b c d).length) := by
  obtain ⟨e, hrem⟩ := parse_ipv4_dotted_three a b c d ha hb hc t h
  have s4 := parse_ipv4_loop_dot 0 3 (by decide)
    ((a : Int) * 2 ^ 16 + (b : Int) * 2 ^ 8 + (c : Int)) _ d hd t ht hrem
  unfold parse_ipv4
  rw [e, s4]
  have hw : (((a : Int) * 2 ^ 16 + (b : Int) * 2 ^ 8 + (c : Int)) * 256 + (d : Int)) % 4294967296
      = (a : Int) * 2 ^ 24 + (b : Int) * 2 ^ 16 + (c : Int) * 2 ^ 8 + (d : Int) := by
    omega
  have hl : 0 + (Nat.repr a).toList.length + 1 + (Nat.repr b).toList.length + 1
      + (Nat.repr c).toList.length + 1 + (Nat.repr d).toList.length = (dotted a b c d).length := by
    simp only [dotted, List.length_append, List.length_cons]
    omega
  rw [hw, hl]
  unfold parse_ipv4_loop
  rfl

theorem ipv4_parse_sized (data : Int) (text : List Char) :
    IPv4.parse data text (text.length : Int)
      = (parse_ipv4 { str := text, len := text.length } data 0).bind
          fun r => some (r.1, r.2.1) := by
  unfold IPv4.parse
  simp only [Int.toNat_ofNat]
  rw [if_neg (by omega)]
  rfl

theorem ipv4_parse_cstr (data : Int) (text : List Char) (h : ∀ x ∈ text, x ≠ Char.ofNat 0) :
    IPv4.parse data text (-1)
      = (parse_ipv4 { str := text, len := text.length } data 0).bind
          fun r => some (r.1, r.2.1) := by
  unfold IPv4.parse
  simp only [strlen, cstr_of_no_nul text h]
  rw [if_pos (by decide)]
  rfl

/-- C22: `IPv4::parse` accepts every text that starts with four decimal fields
`a.b.c.d` (each at most 255), whatever bytes follow: it returns true when called with the
length of the text, and when called without a length on a text free of NUL bytes. When
the bytes that follow do not start with a digit, the address stored is that of
`a.b.c.d`. So the text need not end after the fourth field. -/
theorem ipv4_parse_accepts_trailing_bytes (data : Int) (a b c d : Nat) (t : List Char)
    (ha : a ≤ 255) (hb : b ≤ 255) (hc : c ≤ 255) (hd : d ≤ 255) :
    (IPv4.parse data (dotted a b c d ++ t) ((dotted a b c d ++ t).length : Int)).map
        (fun r => r.1) = some true
    ∧ ((∀ x ∈ t, x ≠ Char.ofNat 0) →
        (IPv4.parse data (dotted a b c d ++ t) (-1)).map (fun r => r.1) = some true)
    ∧ ((∀ x, t.head? = some x → is_digit x = false) →
        IPv4.parse data (dotted a b c d ++ t) ((dotted a b c d ++ t).length : Int)
          = some (true, (a : Int) * 2 ^ 24 + (b : Int) * 2 ^ 16 + (c : Int) * 2 ^ 8 + (d : Int))) := by
  have hrem := Scanner.rem_zero (dotted a b c d ++ t)
  obtain ⟨w, o, e⟩ := parse_ipv4_dotted_any a b c d ha hb hc hd t hrem data
  refine ⟨?_, ?_, ?_⟩
  · rw [ipv4_parse_sized, e]
    rfl
  · intro hnul
    rw [ipv4_parse_cstr data _ (by
      intro x hx
      rcases List.mem_append.1 hx with h | h
      · exact dotted_no_nul a b c d ha hb hc hd x h
      · exact hnul x h), e]
    rfl
  · intro ht
    rw [ipv4_parse_sized, parse_ipv4_dotted_exact a b c d ha hb hc hd t ht hrem data]
    rfl

set_option maxRecDepth 100000 in
/-- C22, instance: "1.2.3.4x" is accepted. Evaluated next to it: "1.2.3.4.5" is
accepted as 1.2.3.4 and "1.2.3.256" as 1.2.3.25, while the texts of the unit test behave
as the test expects: "", "@", "1", "500" and "45." are rejected and "45.54.56.98" is
accepted. -/
theorem ipv4_parse_accepts_trailing_bytes_witness :
    (dotted 1 2 3 4 ++ "x".toList = "1.2.3.4x".toList ∧ ∀ x ∈ "x".toList, x ≠ Char.ofNat 0)
    ∧ (IPv4.parse 0 (dotted 1 2 3 4 ++ "x".toList) (-1)).map (fun r => r.1) = some true
    ∧ IPv4.parse 0 "1.2.3.4x".toList (-1) = some (true, 16909060)
    ∧ IPv4.parse 0 "1.2.3.4.5".toList (-1) = some (true, 16909060)
    ∧ IPv4.parse 0 "1.2.3.4".toList (-1) = some (true, 16909060)
    ∧ IPv4.parse 0 "1.2.3.256".toList (-1) = some (true, 16909081)
    ∧ IPv4.parse 0 "1.2.3.25".toList (-1) = some (true, 16909081)
    ∧ IPv4.parse 0 "".toList (-1) = some (false, 0)
    ∧ IPv4.parse 0 "@".toList (-1) = some (false, 0)
    ∧ IPv4.parse 0 "1".toList (-1) = some (false, 0)
    ∧ IPv4.parse 0 "500".toList (-1) = some (false, 0)
    ∧ IPv4.parse 0 "45.".toList (-1) = some (false, 0)
    ∧ (IPv4.parse 0 "45.54.56.98".toList (-1)).map (fun r => r.1) = some true :=
  ⟨by decide,
    (ipv4_parse_accepts_trailing_bytes 0 1 2 3 4 "x".toList (by decide) (by decide) (by decide)
      (by decide)).2.1 (by decide),
    by decide⟩

/-- C23: for every "a.b.c.d" with the four fields at most 255, `IPv4::parse` succeeds and
stores `a*2^24 + b*2^16 + c*2^8 + d`, the first field in the most significant byte. This
equals the `s_addr` of `inet_pton` on a little-endian host, `a + b*2^8 + c*2^16 + d*2^24`,
exactly when `a = d` and `b = c`. -/
theorem ipv4_word_is_most_significant_first (data : Int) (a b c d : Nat)
    (ha : a ≤ 255) (hb : b ≤ 255) (hc : c ≤ 255) (hd : d ≤ 255) :
    IPv4.parse data (dotted a b c d) (-1)
      = some (true, (a : Int) * 2 ^ 24 + (b : Int) * 2 ^ 16 + (c : Int) * 2 ^ 8 + (d : Int))
    ∧ (IPv4.parse data (dotted a b c d) (-1) = some (true, s_addr_le a b c d)
        ↔ (a = d ∧ b = c)) := by
  have hrem := Scanner.rem_zero (dotted a b c d ++ [])
  have e := parse_ipv4_dotted_exact a b c d ha hb hc hd [] nil_not_digit hrem data
  rw [List.append_nil] at e
  have e2 : IPv4.parse data (dotted a b c d) (-1)
      = some (true, (a : Int) * 2 ^ 24 + (b : Int) * 2 ^ 16 + (c : Int) * 2 ^ 8 + (d : Int)) := by
    rw [ipv4_parse_cstr data _ (dotted_no_nul a b c d ha hb hc hd), e]
    rfl
  refine ⟨e2, ?_⟩
  rw [e2]
  simp only [Option.some.injEq, Prod.mk.injEq, true_and, s_addr_le]
  constructor
  · intro h
    constructor <;> omega
  · rintro ⟨h1, h2⟩
    subst h1 h2
    ring

set_option maxRecDepth 100000 in
/-- C23, instance: for "1.2.3.4" the word stored is 16909060, while `s_addr` read on a
little-endian host is 67305985; for "45.54.56.98" it is 758528098. -/
theorem ipv4_word_is_most_significant_first_witness :
    (dotted 1 2 3 4 = "1.2.3.4".toList ∧ s_addr_le 1 2 3 4 = 67305985)
    ∧ IPv4.parse 0 (dotted 1 2 3 4) (-1) = some (true, 16909060)
    ∧ IPv4.parse 0 (dotted 1 2 3 4) (-1) ≠ some (true, s_addr_le 1 2 3 4)
    ∧ IPv4.parse 0 "45.54.56.98".toList (-1) = some (true, 758528098) :=
  ⟨by decide,
    (ipv4_word_is_most_significant_first 0 1 2 3 4 (by decide) (by decide) (by decide)
      (by decide)).1,
    fun h => absurd ((ipv4_word_is_most_significant_first 0 1 2 3 4 (by decide) (by decide)
      (by decide) (by decide)).2.1 h).1 (by decide),
    by decide⟩

/-! ### Groups of an IPv6 address -/

theorem is_hex_of_digit {c : Char} (h : is_digit c = true) : is_hex c = true := by
  simp only [is_digit, Bool.and_eq_true, decide_eq_true_eq] at h
  simp [is_hex, h.1, h.2]

theorem hex_letter_bounds {c : Char} (h : is_hex c = true) (hl : is_digit c = false) :
    (97 ≤ c.toNat ∧ c.toNat ≤ 102) ∨ (65 ≤ c.toNat ∧ c.toNat ≤ 70) := by
  simp only [is_hex, is_digit] at h hl
  rw [hl] at h
  simp only [Bool.false_or, Bool.or_eq_true, Bool.and_eq_true, decide_eq_true_eq] at h
  rcases h with ⟨h1, h2⟩ | ⟨h1, h2⟩
  · left
    rw [Char.le_def] at h1 h2
    exact ⟨h1, h2⟩
  · right
    rw [Char.le_def] at h1 h2
    exact ⟨h1, h2⟩

theorem hex_from_mono (ds : List Char) : ∀ acc, acc ≤ hex_from acc ds := by
  induction ds with
  | nil => intro acc; exact Nat.le_refl _
  | cons c t ih =>
    intro acc
    have := ih (acc * 16 + (c.toNat - 48))
    simp only [hex_from, List.foldl_cons] at this ⊢
    omega

theorem hex_from_short (ds : List Char) (hds : ∀ x ∈ ds, is_digit x = true)
    (hlen : ds.length ≤ 3) : hex_from 0 ds ≤ 4095 := by
  match ds, hds, hlen with
  | [], _, _ => simp [hex_from]
  | [x], hds, _ =>
    have := digit_bounds (hds x (by simp))
    simp only [hex_from, List.foldl_cons, List.foldl_nil]
    omega
  | [x, y], hds, _ =>
    have := digit_bounds (hds x (by simp))
    have := digit_bounds (hds y (by simp))
    simp only [hex_from, List.foldl_cons, List.foldl_nil]
    omega
  | [x, y, z], hds, _ =>
    have := digit_bounds (hds x (by simp))
    have := digit_bounds (hds y (by simp))
    have := digit_bounds (hds z (by simp))
    simp only [hex_from, List.foldl_cons, List.foldl_nil]
    omega
  | _ :: _ :: _ :: _ :: _, _, hlen => simp at hlen

theorem parse_num_loop_hex_letter {src : Scanner} (c : Char) (rest : List Char)
    (hc : is_hex c = true) (hl : is_digit c = false) :
    ∀ (ds : List Char) (n acc off : Nat),
      src.Rem off (ds ++ c :: rest) → (∀ x ∈ ds, is_digit x = true) →
      hex_from acc ds ≤ 4095 → ds.length < n →
      parse_num_loop src 16 65535 is_hex n (acc : Int) off = none := by
  intro ds
  induction ds with
  | nil =>
    intro n acc off hrem _ _ hn
    obtain ⟨n, rfl⟩ : ∃ k, n = k + 1 := ⟨n - 1, by simp at hn; omega⟩
    have hrem0 : src.Rem off (c :: rest) := by simpa using hrem
    have hb := hex_letter_bounds hc hl
    unfold parse_num_loop
    simp only [hrem0.curr_cons, Option.bind, zero_char_toNat]
    rw [if_pos (by omega)]
  | cons x ds ih =>
    intro n acc off hrem hds hv hn
    obtain ⟨n, rfl⟩ : ∃ k, n = k + 1 := ⟨n - 1, by simp at hn; omega⟩
    have hrem0 : src.Rem off (x :: (ds ++ c :: rest)) := by simpa using hrem
    have hx := hds x (List.mem_cons_self _ _)
    have hb := digit_bounds hx
    have hval : hex_from acc (x :: ds) = hex_from (acc * 16 + (x.toNat - 48)) ds := rfl
    have hmono := hex_from_mono ds (acc * 16 + (x.toNat - 48))
    rw [hval] at hv
    have hrem1 : src.Rem (off + 1) (ds ++ c :: rest) := hrem0.tail
    have hacc : (acc : Int) * 16 + ((x.toNat : Int) - 48)
        = ((acc * 16 + (x.toNat - 48) : Nat) : Int) := by
      push_cast; omega
    have hrec := ih n (acc * 16 + (x.toNat - 48)) (off + 1) hrem1
      (fun y hy => hds y (List.mem_cons_of_mem _ hy)) hv
      (by simp only [List.length_cons] at hn; omega)
    unfold parse_num_loop
    simp only [hrem0.curr_cons, Option.bind, zero_char_toNat, hrem0.consume_cons]
    rw [if_neg (by omega), if_neg (by omega)]
    cases hds2 : ds with
    | nil =>
      rw [hds2] at hrem1
      have hrem2 : src.Rem (off + 1) (c :: rest) := by simpa using hrem1
      simp only [hrem2.end_cons, hrem2.curr_cons, hc, if_true, Bool.false_eq_true, if_false,
        hacc]
      exact hrec
    | cons y ds2 =>
      rw [hds2] at hrem1
      have hrem2 : src.Rem (off + 1) (y :: (ds2 ++ c :: rest)) := by simpa using hrem1
      have hy : is_hex y = true :=
        is_hex_of_digit (hds y (by rw [hds2]; simp))
      simp only [hrem2.end_cons, hrem2.curr_cons, hy, if_true, Bool.false_eq_true, if_false,
        hacc]
      exact hrec

theorem parse_u16_base16_letter {src : Scanner} {off : Nat} (ds : List Char) (c : Char)
    (rest : List Char) (h : src.Rem off (ds ++ c :: rest))
    (hds : ∀ x ∈ ds, is_digit x = true) (hlen : ds.length ≤ 3) (hc : is_hex c = true)
    (hl : is_digit c = false) (dst : Int) : parse_u16_base16 src dst off = none := by
  have hl2 := h.length
  simp only [List.length_append, List.length_cons] at hl2
  have hloop := parse_num_loop_hex_letter c rest hc hl ds (src.len - off) 0 off h hds
    (hex_from_short ds hds hlen) (by omega)
  rw [show ((0 : Nat) : Int) = 0 from rfl] at hloop
  have hfirst : ∃ y t, ds ++ c :: rest = y :: t ∧ is_hex y = true := by
    cases ds with
    | nil => exact ⟨c, rest, rfl, hc⟩
    | cons y t => exact ⟨y, t ++ c :: rest, rfl, is_hex_of_digit (hds y (List.mem_cons_self _ _))⟩
  obtain ⟨y, t, e, hy⟩ := hfirst
  rw [e] at h
  unfold parse_u16_base16
  simp only [h.end_cons, h.curr_cons, Option.bind, hy, Bool.not_true, Bool.false_eq_true,
    if_false, hloop]

theorem parse_num_loop_hex_digits {src : Scanner} (t : List Char)
    (ht : ∀ x, t.head? = some x → is_hex x = false) :
    ∀ (ds : List Char) (c : Char) (n acc off : Nat),
      src.Rem off (c :: ds ++ t) → is_digit c = true → (∀ x ∈ ds, is_digit x = true) →
      hex_from acc (c :: ds) ≤ 65535 → ds.length < n →
      parse_num_loop src 16 65535 is_hex n (acc : Int) off
        = some ((hex_from acc (c :: ds) : Int), off + ds.length + 1) := by
  intro ds
  induction ds with
  | nil =>
    intro c n acc off hrem hc _ hv hn
    obtain ⟨n, rfl⟩ : ∃ k, n = k + 1 := ⟨n - 1, by simp at hn; omega⟩
    have hb := digit_bounds hc
    have hrem1 : src.Rem (off + 1) t := (by simpa using hrem : src.Rem off (c :: t)).tail
    have hval : hex_from acc [c] = acc * 16 + (c.toNat - 48) := rfl
    rw [hval] at hv
    unfold parse_num_loop
    simp only [hrem.curr_cons, Option.bind, zero_char_toNat, hrem.consume_cons]
    rw [if_neg (by omega), if_neg (by omega)]
    have hres : (acc : Int) * 16 + ((c.toNat : Int) - 48)
        = ((hex_from acc [c] : Nat) : Int) := by
      rw [hval]; push_cast; omega
    cases t with
    | nil =>
      simp only [hrem1.end_nil, if_true, hres]
      rfl
    | cons x t2 =>
      have hx := ht x rfl
      simp only [hrem1.end_cons, hrem1.curr_cons, hx, hres]
      rfl
  | cons y ds ih =>
    intro c n acc off hrem hc hds hv hn
    obtain ⟨n, rfl⟩ : ∃ k, n = k + 1 := ⟨n - 1, by simp at hn; omega⟩
    have hb := digit_bounds hc
    have hrem1 : src.Rem (off + 1) (y :: ds ++ t) :=
      (by simpa using hrem : src.Rem off (c :: (y :: ds ++ t))).tail
    have hval : hex_from acc (c :: y :: ds)
        = hex_from (acc * 16 + (c.toNat - 48)) (y :: ds) := rfl
    have hmono := hex_from_mono (y :: ds) (acc * 16 + (c.toNat - 48))
    have hy : is_hex y = true := is_hex_of_digit (hds y (List.mem_cons_self _ _))
    unfold parse_num_loop
    simp only [hrem.curr_cons, Option.bind, zero_char_toNat, hrem.consume_cons]
    rw [if_neg (by omega), if_neg (by rw [hval] at hv; omega)]
    have hacc : (acc : Int) * 16 + ((c.toNat : Int) - 48)
        = ((acc * 16 + (c.toNat - 48) : Nat) : Int) := by
      push_cast; omega
    simp only [hrem1.end_cons, hrem1.curr_cons, hy, if_true, hacc]
    have := ih y n (acc * 16 + (c.toNat - 48)) (off + 1) hrem1
      (hds y (List.mem_cons_self _ _))
      (fun x hx => hds x (List.mem_cons_of_mem _ hx)) (by rw [← hval]; exact hv)
      (by simp only [List.length_cons] at hn; omega)
    simp only [Bool.false_eq_true, if_false]
    rw [this, hval]
    simp only [List.length_cons]
    congr 2
    omega

theorem hex_from_group (g : List Char) (hg : dec_group g) : hex_from 0 g ≤ 65535 := by
  obtain ⟨_, hlen, hds⟩ := hg
  match g, hlen, hds with
  | [], _, _ => simp [hex_from]
  | [x], _, hds =>
    have := digit_bounds (hds x (by simp))
    simp only [hex_from, List.foldl_cons, List.foldl_nil]
    omega
  | [x, y], _, hds =>
    have := digit_bounds (hds x (by simp))
    have := digit_bounds (hds y (by simp))
    simp only [hex_from, List.foldl_cons, List.foldl_nil]
    omega
  | [x, y, z], _, hds =>
    have := digit_bounds (hds x (by simp))
    have := digit_bounds (hds y (by simp))
    have := digit_bounds (hds z (by simp))
    simp only [hex_from, List.foldl_cons, List.foldl_nil]
    omega
  | [x, y, z, w], _, hds =>
    have := digit_bounds (hds x (by simp))
    have := digit_bounds (hds y (by simp))
    have := digit_bounds (hds z (by simp))
    have := digit_bounds (hds w (by simp))
    simp only [hex_from, List.foldl_cons, List.foldl_nil]
    omega
  | _ :: _ :: _ :: _ :: _ :: _, hlen, _ => simp at hlen

/-- A group of one to four of the digits 0 to 9, followed by `t`, which does not start
with a hex digit, is read by `parse_u16_base16` in full. -/
theorem parse_u16_base16_group {src : Scanner} {off : Nat} (g t : List Char)
    (hg : dec_group g) (ht : ∀ x, t.head? = some x → is_hex x = false)
    (h : src.Rem off (g ++ t)) (dst : Int) :
    parse_u16_base16 src dst off = some (true, (hex_from 0 g : Int), off + g.length) := by
  have hv := hex_from_group g hg
  obtain ⟨hne, _, hds⟩ := hg
  cases g with
  | nil => exact absurd rfl hne
  | cons c ds =>
    have hrem : src.Rem off (c :: ds ++ t) := by simpa using h
    have hlen := hrem.length
    simp only [List.length_append, List.length_cons] at hlen
    have hc := hds c (List.mem_cons_self _ _)
    have := parse_num_loop_hex_digits t ht ds c (src.len - off) 0 off hrem hc
      (fun x hx => hds x (List.mem_cons_of_mem _ hx)) hv (by omega)
    rw [show ((0 : Nat) : Int) = 0 from rfl] at this
    unfold parse_u16_base16
    simp only [hrem.end_cons, hrem.curr_cons, Option.bind, is_hex_of_digit hc, Bool.not_true,
      Bool.false_eq_true, if_false, this]
    rfl

theorem colon_not_hex (t : List Char) : ∀ x, (':' :: t).head? = some x → is_hex x = false := by
  intro x hx
  simp only [List.head?_cons, Option.some.injEq] at hx
  subst hx
  decide

theorem nil_not_hex : ∀ x, ([] : List Char).head? = some x → is_hex x = false := by
  intro x hx
  simp at hx

theorem colon_groups_head (gs : List (List Char)) (rest : List Char)
    (hr : ∀ x, rest.head? = some x → is_hex x = false) :
    ∀ x, (colon_groups gs rest).head? = some x → is_hex x = false := by
  cases gs with
  | nil => exact hr
  | cons g gs => exact colon_not_hex _

theorem cstr_colon : cstr [':'] = [':'] := by decide

theorem cstr_colons : cstr [':', ':'] = [':', ':'] := by decide

theorem group_not_colons (g t : List Char) (hg : dec_group g) :
    ¬ [':', ':'] <+: g ++ t := by
  obtain ⟨hne, _, hds⟩ := hg
  cases g with
  | nil => exact absurd rfl hne
  | cons c ds =>
    rintro ⟨s, hs⟩
    have hc := hds c (List.mem_cons_self _ _)
    simp only [List.cons_append, List.cons.injEq] at hs
    rw [← hs.1] at hc
    revert hc
    decide

theorem colon_group_not_colons (g t : List Char) (hg : dec_group g) :
    ¬ [':', ':'] <+: ':' :: (g ++ t) := by
  obtain ⟨hne, _, hds⟩ := hg
  cases g with
  | nil => exact absurd rfl hne
  | cons c ds =>
    rintro ⟨s, hs⟩
    have hc := hds c (List.mem_cons_self _ _)
    simp only [List.cons_append, List.cons.injEq] at hs
    rw [← hs.2.1] at hc
    revert hc
    decide

theorem parse_ipv6_head_groups {src : Scanner} (rest : List Char) :
    ∀ (gs : List (List Char)) (n count : Nat) (data : List Int) (off : Nat),
      src.Rem off (colon_groups gs (':' :: ':' :: rest)) → (∀ g ∈ gs, dec_group g) →
      0 < count → gs.length < n →
      ∃ data2 off2, parse_ipv6_head src n count data off
          = some (true, count + gs.length, data2, off2) ∧ src.Rem off2 rest := by
  intro gs
  induction gs with
  | nil =>
    intro n count data off hrem _ _ hn
    obtain ⟨n, rfl⟩ : ∃ k, n = k + 1 := ⟨n - 1, by simp at hn; omega⟩
    have hrem0 : src.Rem off ([':', ':'] ++ rest) := by simpa [colon_groups] using hrem
    have c := Scanner.consume_str_hit hrem0 cstr_colons
    unfold parse_ipv6_head
    simp only [c, if_true]
    exact ⟨data, _, rfl, hrem0.advance⟩
  | cons g gs ih =>
    intro n count data off hrem hgs hcount hn
    obtain ⟨n, rfl⟩ : ∃ k, n = k + 1 := ⟨n - 1, by simp at hn; omega⟩
    have hg := hgs g (List.mem_cons_self _ _)
    have hrem0 : src.Rem off (':' :: (g ++ colon_groups gs (':' :: ':' :: rest))) := by
      simpa [colon_groups] using hrem
    have c1 := Scanner.consume_str_miss hrem0 cstr_colons (colon_group_not_colons g _ hg)
    have hrem0b : src.Rem off ([':'] ++ (g ++ colon_groups gs (':' :: ':' :: rest))) := hrem0
    have c2 := Scanner.consume_str_hit hrem0b cstr_colon
    have hrem1 := hrem0.tail
    have e := parse_u16_base16_group g _ hg
      (colon_groups_head gs (':' :: ':' :: rest) (colon_not_hex _)) hrem1 (data.getD count 0)
    have hrem2 := hrem1.advance
    obtain ⟨data2, off2, e2, hr2⟩ := ih n (count + 1) (data.set count (hex_from 0 g : Int))
      (off + 1 + g.length) hrem2 (fun x hx => hgs x (List.mem_cons_of_mem _ hx)) (by omega)
      (by simp only [List.length_cons] at hn; omega)
    refine ⟨data2, off2, ?_, hr2⟩
    unfold parse_ipv6_head
    simp only [c1, Bool.false_eq_true, if_false, gt_iff_lt, hcount, if_true, c2,
      List.length_singleton, Bool.not_true, e, Option.bind]
    rw [e2]
    simp only [List.length_cons]
    congr 3
    omega

theorem parse_ipv6_head_text {src : Scanner} (hs : List (List Char)) (rest : List Char)
    (data : List Int) (h : src.Rem 0 (colon_join hs (':' :: ':' :: rest)))
    (hgs : ∀ g ∈ hs, dec_group g) (hlen : hs.length < 8) :
    ∃ data2 off2, parse_ipv6_head src 8 0 data 0 = some (true, hs.length, data2, off2)
      ∧ src.Rem off2 rest := by
  cases hs with
  | nil =>
    have hrem0 : src.Rem 0 ([':', ':'] ++ rest) := by simpa [colon_join] using h
    have c := Scanner.consume_str_hit hrem0 cstr_colons
    unfold parse_ipv6_head
    simp only [c, if_true]
    exact ⟨data, _, rfl, hrem0.advance⟩
  | cons g gs =>
    have hg := hgs g (List.mem_cons_self _ _)
    have hrem0 : src.Rem 0 (g ++ colon_groups gs (':' :: ':' :: rest)) := by
      simpa [colon_join] using h
    have c1 := Scanner.consume_str_miss hrem0 cstr_colons (group_not_colons g _ hg)
    have e := parse_u16_base16_group g _ hg
      (colon_groups_head gs (':' :: ':' :: rest) (colon_not_hex _)) hrem0 (data.getD 0 0)
    have hrem1 := hrem0.advance
    obtain ⟨data2, off2, e2, hr2⟩ := parse_ipv6_head_groups rest gs 7 1
      (data.set 0 (hex_from 0 g : Int)) (0 + g.length) hrem1
      (fun x hx => hgs x (List.mem_cons_of_mem _ hx)) (by decide)
      (by simp only [List.length_cons] at hlen; omega)
    refine ⟨data2, off2, ?_, hr2⟩
    unfold parse_ipv6_head
    simp only [c1, Bool.false_eq_true, if_false, gt_iff_lt, lt_self_iff_false, Bool.not_true,
      e, Option.bind, zero_add]
    rw [zero_add] at e2
    rw [e2]
    simp only [List.length_cons]
    congr 3
    omega

theorem parse_ipv6_tail_groups {src : Scanner} :
    ∀ (gs : List (List Char)) (n : Nat) (tail : List Int) (off : Nat),
      src.Rem off (colon_groups gs []) → (∀ g ∈ gs, dec_group g) → 0 < tail.length →
      gs.length < n →
      ∃ tl off2, parse_ipv6_tail src n tail off = some (false, tl, off2) := by
  intro gs
  induction gs with
  | nil =>
    intro n tail off hrem _ htl hn
    obtain ⟨n, rfl⟩ : ∃ k, n = k + 1 := ⟨n - 1, by simp at hn; omega⟩
    have hrem0 : src.Rem off [] := by simpa [colon_groups] using hrem
    have c := Scanner.consume_str_miss hrem0 cstr_colon (by simp)
    unfold parse_ipv6_tail
    simp only [gt_iff_lt, htl, if_true, c, Bool.not_false]
    exact ⟨_, _, rfl⟩
  | cons g gs ih =>
    intro n tail off hrem hgs htl hn
    obtain ⟨n, rfl⟩ : ∃ k, n = k + 1 := ⟨n - 1, by simp at hn; omega⟩
    have hg := hgs g (List.mem_cons_self _ _)
    have hrem0 : src.Rem off ([':'] ++ (g ++ colon_groups gs [])) := by
      simpa [colon_groups] using hrem
    have c := Scanner.consume_str_hit hrem0 cstr_colon
    have hrem1 := hrem0.advance
    have e := parse_u16_base16_group g _ hg (colon_groups_head gs [] nil_not_hex) hrem1 0
    have hrem2 := hrem1.advance
    obtain ⟨tl, off2, e2⟩ := ih n (tail ++ [(hex_from 0 g : Int)]) _ hrem2
      (fun x hx => hgs x (List.mem_cons_of_mem _ hx)) (by simp)
      (by simp only [List.length_cons] at hn; omega)
    refine ⟨tl, off2, ?_⟩
    unfold parse_ipv6_tail
    simp only [gt_iff_lt, htl, if_true, c, Bool.not_true, Bool.false_eq_true, if_false, e,
      Option.bind]
    exact e2

theorem parse_ipv6_tail_text {src : Scanner} (ts : List (List Char)) (n off : Nat)
    (h : src.Rem off (colon_join ts [])) (hgs : ∀ g ∈ ts, dec_group g) (hn : ts.length < n) :
    ∃ tl off2, parse_ipv6_tail src n [] off = some (false, tl, off2) := by
  obtain ⟨n, rfl⟩ : ∃ k, n = k + 1 := ⟨n - 1, by omega⟩
  cases ts with
  | nil =>
    have hrem0 : src.Rem off [] := by simpa [colon_join] using h
    unfold parse_ipv6_tail
    unfold parse_u16_base16
    simp only [List.length_nil, gt_iff_lt, lt_self_iff_false, if_false, Bool.not_true,
      Bool.false_eq_true, hrem0.end_nil, if_true, Option.bind, Bool.not_false]
    exact ⟨_, _, rfl⟩
  | cons g gs =>
    have hg := hgs g (List.mem_cons_self _ _)
    have hrem0 : src.Rem off (g ++ colon_groups gs []) := by simpa [colon_join] using h
    have e := parse_u16_base16_group g _ hg (colon_groups_head gs [] nil_not_hex) hrem0 0
    have hrem1 := hrem0.advance
    obtain ⟨tl, off2, e2⟩ := parse_ipv6_tail_groups gs n ([] ++ [(hex_from 0 g : Int)]) _ hrem1
      (fun x hx => hgs x (List.mem_cons_of_mem _ hx)) (by simp)
      (by simp only [List.length_cons] at hn; omega)
    refine ⟨tl, off2, ?_⟩
    unfold parse_ipv6_tail
    simp only [List.length_nil, gt_iff_lt, lt_self_iff_false, if_false, Bool.not_true,
      Bool.false_eq_true, e, Option.bind]
    exact e2

/-- On a text of `h` groups, "::" and `t` groups with `h + t < 7`, all written with the
digits 0 to 9, `parse_ipv6` returns false. -/
theorem parse_ipv6_short {src : Scanner} (hs ts : List (List Char)) (data : List Int)
    (h : src.Rem 0 (ipv6_text hs ts)) (hh : ∀ g ∈ hs, dec_group g)
    (ht : ∀ g ∈ ts, dec_group g) (hlen : hs.length + ts.length < 7) :
    ∃ d o, parse_ipv6 src data 0 = some (false, d, o) := by
  obtain ⟨data2, off2, e, hrem⟩ := parse_ipv6_head_text hs (colon_join ts []) data h hh
    (by omega)
  obtain ⟨tl, off3, e2⟩ := parse_ipv6_tail_text ts (7 - hs.length) off2 hrem ht (by omega)
  unfold parse_ipv6
  simp only [e, Option.bind, Bool.not_true, Bool.false_eq_true, if_false]
  rw [if_pos (by omega)]
  simp only [e2, Bool.not_false, if_true]
  exact ⟨_, _, rfl⟩

theorem ipv6_parse_sized (data : List Int) (text : List Char) :
    IPv6.parse data text (text.length : Int)
      = (parse_ipv6 { str := text, len := text.length } data 0).bind
          fun r => some (r.1, r.2.1) := by
  unfold IPv6.parse
  simp only [Int.toNat_ofNat]
  rw [if_neg (by omega)]
  rfl

theorem ipv6_parse_cstr (data : List Int) (text : List Char)
    (h : ∀ x ∈ text, x ≠ Char.ofNat 0) :
    IPv6.parse data text (-1)
      = (parse_ipv6 { str := text, len := text.length } data 0).bind
          fun r => some (r.1, r.2.1) := by
  unfold IPv6.parse
  simp only [strlen, cstr_of_no_nul text h]
  rw [if_pos (by decide)]
  rfl

theorem dec_group_no_nul {g : List Char} (hg : dec_group g) : ∀ x ∈ g, x ≠ Char.ofNat 0 := by
  intro x hx e
  have := digit_bounds (hg.2.2 x hx)
  rw [e] at this
  revert this
  decide

theorem colon_groups_no_nul (gs : List (List Char)) (rest : List Char)
    (hgs : ∀ g ∈ gs, dec_group g) (hr : ∀ x ∈ rest, x ≠ Char.ofNat 0) :
    ∀ x ∈ colon_groups gs rest, x ≠ Char.ofNat 0 := by
  induction gs with
  | nil => exact hr
  | cons g gs ih =>
    intro x hx
    have hx2 : x ∈ ':' :: (g ++ colon_groups gs rest) := hx
    simp only [List.mem_cons, List.mem_append] at hx2
    rcases hx2 with h | h | h
    · rw [h]; decide
    · exact dec_group_no_nul (hgs g (List.mem_cons_self _ _)) x h
    · exact ih (fun y hy => hgs y (List.mem_cons_of_mem _ hy)) x h

theorem colon_join_no_nul (gs : List (List Char)) (rest : List Char)
    (hgs : ∀ g ∈ gs, dec_group g) (hr : ∀ x ∈ rest, x ≠ Char.ofNat 0) :
    ∀ x ∈ colon_join gs rest, x ≠ Char.ofNat 0 := by
  cases gs with
  | nil => exact hr
  | cons g gs =>
    intro x hx
    have hx2 : x ∈ g ++ colon_groups gs rest := hx
    rcases List.mem_append.1 hx2 with h | h
    · exact dec_group_no_nul (hgs g (List.mem_cons_self _ _)) x h
    · exact colon_groups_no_nul gs rest (fun y hy => hgs y (List.mem_cons_of_mem _ hy)) hr x h

theorem ipv6_text_no_nul (hs ts : List (List Char)) (hh : ∀ g ∈ hs, dec_group g)
    (ht : ∀ g ∈ ts, dec_group g) : ∀ x ∈ ipv6_text hs ts, x ≠ Char.ofNat 0 := by
  apply colon_join_no_nul hs _ hh
  intro x hx
  simp only [List.mem_cons] at hx
  rcases hx with h | h | h
  · rw [h]; decide
  · rw [h]; decide
  · exact colon_join_no_nul ts [] ht (fun y hy => absurd hy (List.not_mem_nil y)) x h

/-- C24: a text of `h` groups, "::" and `t` groups with `h + t < 7`, the groups written
with one to four of the digits 0 to 9, is rejected by `IPv6::parse`, whether it is called
without a length or with the length of the text: the loop that reads the groups after
"::" runs until seven groups are read in all. -/
theorem ipv6_parse_rejects_short_forms (data : List Int) (hs ts : List (List Char))
    (hh : ∀ g ∈ hs, dec_group g) (ht : ∀ g ∈ ts, dec_group g)
    (hlen : hs.length + ts.length < 7) :
    (IPv6.parse data (ipv6_text hs ts) (-1)).map (fun r => r.1) = some false
    ∧ (IPv6.parse data (ipv6_text hs ts) ((ipv6_text hs ts).length : Int)).map
        (fun r => r.1) = some false := by
  obtain ⟨d, o, e⟩ := parse_ipv6_short hs ts data (Scanner.rem_zero (ipv6_text hs ts)) hh ht
    hlen
  constructor
  · rw [ipv6_parse_cstr data _ (ipv6_text_no_nul hs ts hh ht), e]
    rfl
  · rw [ipv6_parse_sized, e]
    rfl

set_option maxRecDepth 100000 in
/-- C24, instance: "::1" is rejected. Evaluated next to it: "1::", "::" and
"1:2:3:4:5:6::" are rejected too, while with exactly seven groups around "::" the address
is read with the zeros in place of "::", and so are eight groups without "::". -/
theorem ipv6_parse_rejects_short_forms_witness :
    (ipv6_text [] [['1']] = "::1".toList)
    ∧ (IPv6.parse IPv6.new (ipv6_text [] [['1']]) (-1)).map (fun r => r.1) = some false
    ∧ IPv6.parse IPv6.new "::1".toList (-1) = some (false, [0, 0, 0, 0, 0, 0, 0, 0])
    ∧ IPv6.parse IPv6.new "1::".toList (-1) = some (false, [1, 0, 0, 0, 0, 0, 0, 0])
    ∧ IPv6.parse IPv6.new "::".toList (-1) = some (false, [0, 0, 0, 0, 0, 0, 0, 0])
    ∧ IPv6.parse IPv6.new "1:2:3:4:5:6::".toList (-1) = some (false, [1, 2, 3, 4, 5, 6, 0, 0])
    ∧ IPv6.parse IPv6.new "1:2:3::4:5:6:7".toList (-1) = some (true, [1, 2, 3, 0, 4, 5, 6, 7])
    ∧ IPv6.parse IPv6.new "::1:2:3:4:5:6:7".toList (-1) = some (true, [0, 1, 2, 3, 4, 5, 6, 7])
    ∧ IPv6.parse IPv6.new "1:2:3:4:5:6:7::".toList (-1) = some (true, [1, 2, 3, 4, 5, 6, 7, 0])
    ∧ IPv6.parse IPv6.new "1:2:3:4:5:6:7:8".toList (-1)
        = some (true, [1, 2, 3, 4, 5, 6, 7, 8]) :=
  ⟨by decide,
    (ipv6_parse_rejects_short_forms IPv6.new [] [['1']]
      (fun g hg => absurd hg (List.not_mem_nil g))
      (fun g hg => by
        rw [List.mem_singleton] at hg
        subst hg
        exact ⟨by decide, by decide, by decide⟩)
      (by decide)).1,
    by decide⟩

theorem hex_not_colons (y : Char) (t : List Char) (hy : is_hex y = true) :
    ¬ [':', ':'] <+: y :: t := by
  rintro ⟨s, hs⟩
  simp only [List.cons_append, List.cons.injEq] at hs
  rw [← hs.1] at hy
  revert hy
  decide

/-- C25: a group that consists of at most three of the digits 0 to 9 followed by a letter
`a-f` or `A-F` stops `parse_u16_base16` on its assertion `d >= 0 && d < 16`, wherever the
group stands in the input and whatever follows the letter; `IPv6::parse` of a text that
starts with such a group stops on the same assertion. -/
theorem hex_letter_fails_assertion (ds : List Char) (c : Char) (rest : List Char)
    (dst : Int) (data : List Int) (hds : ∀ x ∈ ds, is_digit x = true) (hlen : ds.length ≤ 3)
    (hc : is_hex c = true) (hl : is_digit c = false) :
    (∀ (src : Scanner) (off : Nat), src.Rem off (ds ++ c :: rest) →
        parse_u16_base16 src dst off = none)
    ∧ IPv6.parse data (ds ++ c :: rest) ((ds ++ c :: rest).length : Int) = none := by
  have h1 : ∀ (dst : Int) (src : Scanner) (off : Nat), src.Rem off (ds ++ c :: rest) →
      parse_u16_base16 src dst off = none :=
    fun dst src off h => parse_u16_base16_letter ds c rest h hds hlen hc hl dst
  refine ⟨h1 dst, ?_⟩
  have hrem := Scanner.rem_zero (ds ++ c :: rest)
  have hfirst : ∃ y t, ds ++ c :: rest = y :: t ∧ is_hex y = true := by
    cases ds with
    | nil => exact ⟨c, rest, rfl, hc⟩
    | cons y t => exact ⟨y, t ++ c :: rest, rfl, is_hex_of_digit (hds y (List.mem_cons_self _ _))⟩
  obtain ⟨y, t, e, hy⟩ := hfirst
  have c1 := Scanner.consume_str_miss hrem cstr_colons (by rw [e]; exact hex_not_colons y t hy)
  have e1 := h1 (data.getD 0 0) _ 0 hrem
  rw [ipv6_parse_sized]
  unfold parse_ipv6
  unfold parse_ipv6_head
  simp only [c1, Bool.false_eq_true, if_false, gt_iff_lt, lt_self_iff_false, Bool.not_true, e1,
    Option.bind]

set_option maxRecDepth 100000 in
/-- C25, instance: the group "db8". Evaluated next to it: "ff" and "F" fail in the same
way, and so do `IPv6::parse` of "2001:db8::1:2" and of "a:b:c:d:e:f:10:ff"; groups of the
digits 0 to 9 are read, "9999" as 0x9999. -/
theorem hex_letter_fails_assertion_witness :
    (([] : List Char) ++ 'd' :: "b8".toList = "db8".toList ∧ is_hex 'd' = true
      ∧ is_digit 'd' = false)
    ∧ parse_u16_base16 { str := "db8".toList, len := 3 } 0 0 = none
    ∧ parse_u16_base16 { str := "ff".toList, len := 2 } 0 0 = none
    ∧ parse_u16_base16 { str := "F".toList, len := 1 } 0 0 = none
    ∧ IPv6.parse IPv6.new "2001:db8::1:2".toList (-1) = none
    ∧ IPv6.parse IPv6.new "a:b:c:d:e:f:10:ff".toList (-1) = none
    ∧ parse_u16_base16 { str := "9999".toList, len := 4 } 0 0 = some (true, 39321, 4)
    ∧ IPv6.parse IPv6.new "2001:1234:0:0:0:0:1:2".toList (-1)
        = some (true, [8193, 4660, 0, 0, 0, 0, 1, 2]) :=
  ⟨by decide,
    (hex_letter_fails_assertion [] 'd' "b8".toList 0 IPv6.new
      (fun x hx => absurd hx (List.not_mem_nil x)) (by decide) (by decide) (by decide)).1
      { str := "db8".toList, len := 3 } 0 (Scanner.rem_zero "db8".toList),
    by decide⟩

/-! ### Views of the live bytes and the cached search -/

/-- C32: `slice(off, end)` is the view of the live bytes `[off, end)`, of length
`end - off`, for `0 <= off <= end < used`; for every other pair it is the empty slice,
and that includes every pair with `end == used`: a slice cannot reach the last live
byte. -/
theorem slice_rejects_end_at_used (b : Buffer) (off e : Int) :
    (0 ≤ off → off ≤ e → e < b.used → b.used ≤ (b.data.length : Int) →
        (b.slice off e).len = (e - off).toNat
        ∧ (b.slice off e).bytes = (b.live.drop off.toNat).take (e - off).toNat)
    ∧ (e = b.used → b.slice off e = Slice.mk2 [] 0)
    ∧ (¬ (0 ≤ off ∧ off ≤ e ∧ e ≤ b.used) → b.slice off e = Slice.mk2 [] 0) := by
  refine ⟨?_, ?_, ?_⟩
  · intro h0 h1 h2 h3
    unfold Buffer.slice
    rw [if_neg (by omega)]
    refine ⟨rfl, ?_⟩
    obtain ⟨o, rfl⟩ := Int.eq_ofNat_of_zero_le h0
    obtain ⟨u, hu⟩ := Int.eq_ofNat_of_zero_le (le_trans (le_trans h0 h1) (le_of_lt h2))
    obtain ⟨n, hn⟩ := Int.eq_ofNat_of_zero_le (sub_nonneg.mpr h1)
    have hle : n ≤ u - o := by omega
    simp only [Slice.mk2, Slice.bytes, Buffer.live, hu, hn, Int.toNat_ofNat, List.drop_zero,
      List.drop_take, List.take_take, Nat.min_eq_left hle]
  · intro he
    unfold Buffer.slice
    rw [if_pos (by omega)]
  · intro h
    unfold Buffer.slice
    rw [if_pos (by omega)]

/-- C32, instance: on a buffer holding "hello", `slice(0, 5)` is the empty slice, while
`slice(0, 4)` is the view "hell". -/
theorem slice_rejects_end_at_used_witness :
    ((Buffer.of "hello".toList).used = 5 ∧ (Buffer.of "hello".toList).live = "hello".toList)
    ∧ (Buffer.of "hello".toList).slice 0 5 = Slice.mk2 [] 0
    ∧ ((Buffer.of "hello".toList).slice 0 5).len = 0
    ∧ ((Buffer.of "hello".toList).slice 0 4).bytes = "hell".toList :=
  ⟨by decide,
    (slice_rejects_end_at_used (Buffer.of "hello".toList) 0 5).2.1 (by decide),
    by decide, by decide⟩

theorem Buffer.seek_loop_miss (data needle : List Char) (len : Nat) :
    ∀ (n : Nat) (i : Nat),
      (∀ j, i ≤ j → j < i + n → memeq (data.drop j) needle len = false) →
      Buffer.seek_loop data needle len n (i : Int) = ((i + n : Nat) : Int) := by
  intro n
  induction n with
  | zero => intro i _; rfl
  | succ n ih =>
    intro i h
    have h0 := h i (le_refl _) (by omega)
    unfold Buffer.seek_loop
    simp only [Int.toNat_ofNat, h0, Bool.not_false, if_true]
    have := ih (i + 1) (fun j hj1 hj2 => h j (by omega) (by omega))
    rw [show ((i : Int) + 1) = ((i + 1 : Nat) : Int) by push_cast; rfl, this]
    congr 1
    omega

theorem Buffer.seek_loop_hit (data needle : List Char) (len : Nat) :
    ∀ (n : Nat) (i k : Nat), i ≤ k → k < i + n →
      (∀ j, i ≤ j → j < k → memeq (data.drop j) needle len = false) →
      memeq (data.drop k) needle len = true →
      Buffer.seek_loop data needle len n (i : Int) = (k : Int) := by
  intro n
  induction n with
  | zero => intro i k h1 h2; omega
  | succ n ih =>
    intro i k h1 h2 hm hk
    unfold Buffer.seek_loop
    by_cases e : i = k
    · subst e
      simp only [Int.toNat_ofNat, hk, Bool.not_true, Bool.false_eq_true, if_false]
    · have h0 := hm i (le_refl _) (by omega)
      simp only [Int.toNat_ofNat, h0, Bool.not_false, if_true]
      have := ih (i + 1) k (by omega) (by omega) (fun j hj1 hj2 => hm j (by omega) hj2) hk
      rw [show ((i : Int) + 1) = ((i + 1 : Nat) : Int) by push_cast; rfl, this]

theorem cstr_crlfcrlf : cstr CRLFCRLF = CRLFCRLF := by decide

theorem strlen_crlfcrlf : strlen CRLFCRLF = 4 := by decide

theorem streq_crlfcrlf : streq CRLFCRLF ['\r', '\n', '\r', '\n'] = true := by decide

/-- Inside the live bytes, the comparison `memcmp(data + j, "\r\n\r\n", 4) == 0` of
`seek` is the test that the needle starts at index `j` of the live bytes. -/
theorem Buffer.memeq_live (b : Buffer) (hs : b.sound) (j : Nat) (hj : (j : Int) + 4 ≤ b.used) :
    memeq (b.data.drop j) CRLFCRLF 4 = CRLFCRLF.isPrefixOf (b.live.drop j) := by
  obtain ⟨u, hu⟩ := Int.eq_ofNat_of_zero_le hs.1
  have hju : j + 4 ≤ u := by rw [hu] at hj; exact_mod_cast hj
  have e : (b.live.drop j).take 4 = (b.data.drop j).take 4 := by
    simp only [Buffer.live, hu, Int.toNat_ofNat, List.drop_take, List.take_take]
    rw [Nat.min_eq_left (by omega)]
  have hp : CRLFCRLF.isPrefixOf (b.live.drop j)
      = decide ((b.live.drop j).take 4 = CRLFCRLF) := by
    rw [Bool.eq_iff_iff, List.isPrefixOf_iff_prefix, decide_eq_true_iff]
    constructor
    · intro h
      have := List.prefix_iff_eq_take.mp h
      rw [show CRLFCRLF.length = 4 from rfl] at this
      exact this.symm
    · intro h
      rw [← h]
      exact List.take_prefix _ _
  rw [hp, e]
  simp only [memeq]
  rw [show List.take 4 CRLFCRLF = CRLFCRLF from rfl, Bool.eq_iff_iff]
  simp

theorem naive_seek_none {needle hay : List Char} (h : naive_seek needle hay = -1) :
    ∀ i, i ≤ hay.length → needle.isPrefixOf (hay.drop i) = false := by
  intro i hi
  unfold naive_seek at h
  cases e : (List.range (hay.length + 1)).find? (fun i => needle.isPrefixOf (hay.drop i)) with
  | some k =>
    rw [e] at h
    simp only at h
    omega
  | none =>
    have := List.find?_range_eq_none.mp e i (by omega)
    simpa using this

theorem naive_seek_some {needle hay : List Char} {k : Nat}
    (h : naive_seek needle hay = (k : Int)) :
    k ≤ hay.length ∧ needle.isPrefixOf (hay.drop k) = true
      ∧ ∀ j, j < k → needle.isPrefixOf (hay.drop j) = false := by
  unfold naive_seek at h
  cases e : (List.range (hay.length + 1)).find? (fun i => needle.isPrefixOf (hay.drop i)) with
  | none =>
    rw [e] at h
    simp only at h
    omega
  | some k2 =>
    rw [e] at h
    simp only at h
    have hk : k2 = k := by exact_mod_cast h
    subst hk
    obtain ⟨hp, hmem, hlow⟩ := List.find?_range_eq_some.mp e
    refine ⟨by have := List.mem_range.mp hmem; omega, hp, ?_⟩
    intro j hj
    simpa using hlow j hj

theorem naive_seek_cases (needle hay : List Char) :
    naive_seek needle hay = -1 ∨ ∃ k : Nat, naive_seek needle hay = (k : Int) := by
  unfold naive_seek
  cases (List.range (hay.length + 1)).find? (fun i => needle.isPrefixOf (hay.drop i)) with
  | none => exact Or.inl rfl
  | some k => exact Or.inr ⟨k, rfl⟩

theorem crlfcrlf_prefix_length {l : List Char} (h : CRLFCRLF.isPrefixOf l = true) :
    4 ≤ l.length := by
  rw [List.isPrefixOf_iff_prefix] at h
  exact h.length_le

theorem Buffer.seek_unfold (b : Buffer) (hc : ¬ b.crlfcrlf > -1) :
    b.seek CRLFCRLF =
      if Buffer.seek_loop b.data CRLFCRLF 4 (b.used - 3).toNat 0 > b.used - 3 then (-1, b)
      else (Buffer.seek_loop b.data CRLFCRLF 4 (b.used - 3).toNat 0,
        { b with crlfcrlf := Buffer.seek_loop b.data CRLFCRLF 4 (b.used - 3).toNat 0 }) := by
  have e : b.used - 4 + 1 = b.used - 3 := by omega
  unfold Buffer.seek
  simp only [strlen_crlfcrlf, cstr_crlfcrlf, streq_crlfcrlf, decide_True, Bool.and_self, hc,
    decide_False, Bool.and_false, Bool.false_eq_true, if_false, if_true, e]
  rfl

/-- What `seek("\r\n\r\n")` does on a buffer whose cache is empty: it returns the result
of the naive search when the needle occurs in the live bytes; when it does not, it
returns -1 only if fewer than three bytes are live, and `used - 3` otherwise; every
result other than -1 is written to the cache. -/
theorem Buffer.seek_fresh (b : Buffer) (hs : b.sound) (hc : b.crlfcrlf = -1) :
    b.seek CRLFCRLF =
      if naive_seek CRLFCRLF b.live = -1 then
        (if 3 ≤ b.used then (b.used - 3, { b with crlfcrlf := b.used - 3 }) else (-1, b))
      else (naive_seek CRLFCRLF b.live, { b with crlfcrlf := naive_seek CRLFCRLF b.live }) := by
  obtain ⟨u, hu⟩ := Int.eq_ofNat_of_zero_le hs.1
  have hlive : b.live.length = u := by
    have := Buffer.live_length hs
    rw [hu] at this
    exact_mod_cast this
  rw [Buffer.seek_unfold b (by rw [hc]; decide)]
  have hlim : (b.used - 3).toNat = u - 3 := by omega
  rw [hlim]
  rcases naive_seek_cases CRLFCRLF b.live with hn | ⟨k, hn⟩
  · rw [if_pos hn]
    by_cases h3 : 3 ≤ b.used
    · rw [if_pos h3]
      have hloop := Buffer.seek_loop_miss b.data CRLFCRLF 4 (u - 3) 0 (by
        intro j _ hj
        rw [Buffer.memeq_live b hs j (by omega)]
        exact naive_seek_none hn j (by omega))
      rw [show ((0 : Nat) : Int) = 0 from rfl] at hloop
      have e : ((0 + (u - 3) : Nat) : Int) = b.used - 3 := by omega
      rw [hloop, e, if_neg (by omega)]
    · rw [if_neg h3]
      have hz : u - 3 = 0 := by omega
      rw [hz]
      simp only [Buffer.seek_loop]
      rw [if_pos (by omega)]
  · obtain ⟨hk1, hk2, hk3⟩ := naive_seek_some hn
    have hk4 : 4 ≤ (b.live.drop k).length := crlfcrlf_prefix_length hk2
    simp only [List.length_drop, hlive] at hk4
    have hne : ¬ (naive_seek CRLFCRLF b.live = -1) := by
      rw [hn]; omega
    rw [if_neg hne, hn]
    have hloop := Buffer.seek_loop_hit b.data CRLFCRLF 4 (u - 3) 0 k
      (Nat.zero_le _) (by omega) (by
        intro j _ hj
        rw [Buffer.memeq_live b hs j (by omega)]
        exact hk3 j hj) (by
        rw [Buffer.memeq_live b hs k (by omega)]
        exact hk2)
    rw [show ((0 : Nat) : Int) = 0 from rfl] at hloop
    rw [hloop, if_neg (by omega)]

theorem Buffer.seek_cached (b : Buffer) (h : b.crlfcrlf > -1) :
    b.seek CRLFCRLF = (b.crlfcrlf, b) := by
  unfold Buffer.seek
  simp only [strlen_crlfcrlf, streq_crlfcrlf, decide_True, Bool.and_self, h, if_true]

theorem Buffer.ensure_keeps_cache (alloc : Int → Bool) (b : Buffer) (min : Int) :
    (b.ensure_unused_space alloc min).2.crlfcrlf = b.crlfcrlf := by
  unfold Buffer.ensure_unused_space
  simp only
  split_ifs <;> rfl

theorem Buffer.write_keeps_cache (alloc : Int → Bool) (b : Buffer) (src : List Char)
    (len : Int) : (b.write alloc src len).crlfcrlf = b.crlfcrlf := by
  unfold Buffer.write
  by_cases hf : b.fail = true
  · rw [if_pos hf]
  · rw [if_neg hf]
    simp only
    generalize (if len < 0 then strlen src else len) = L
    by_cases h1 : b.used > INT_MAX - L
    · rw [if_pos h1]
    · rw [if_neg h1]
      have hk := Buffer.ensure_keeps_cache alloc b L
      rcases he : b.ensure_unused_space alloc L with ⟨ok, b1⟩
      rw [he] at hk
      cases ok <;> exact hk

/-- C31: `seek("\r\n\r\n")` answers from its cache whenever the cache holds a value
above -1, without looking at the bytes, and an append leaves the cache as it is. On a
buffer with an empty cache and at least three live bytes that do not contain the needle,
the query returns `used - 3` instead of -1 and caches it, so the query that follows an
append of any bytes `Y` still returns that stale index, while the naive search over the
new live bytes returns the first occurrence in them. When the needle occurs, the query
on an empty cache returns what the naive search returns. -/
theorem seek_cache_goes_stale (alloc : Int → Bool) (b : Buffer) (Y : List Char)
    (hs : b.sound) (hc : b.crlfcrlf = -1) :
    (naive_seek CRLFCRLF b.live ≠ -1 → (b.seek CRLFCRLF).1 = naive_seek CRLFCRLF b.live)
    ∧ (naive_seek CRLFCRLF b.live = -1 → b.used < 3 → (b.seek CRLFCRLF).1 = -1)
    ∧ (naive_seek CRLFCRLF b.live = -1 → 3 ≤ b.used →
        (b.seek CRLFCRLF).1 = b.used - 3
        ∧ (((b.seek CRLFCRLF).2.write alloc Y Y.length).seek CRLFCRLF).1 = b.used - 3) := by
  have hf := Buffer.seek_fresh b hs hc
  refine ⟨?_, ?_, ?_⟩
  · intro hn
    rw [hf, if_neg hn]
  · intro hn hu
    rw [hf, if_pos hn, if_neg (by omega)]
  · intro hn hu
    rw [hf, if_pos hn, if_pos hu]
    refine ⟨rfl, ?_⟩
    have hk := Buffer.write_keeps_cache alloc
      { b with crlfcrlf := b.used - 3 } Y Y.length
    have hk2 : (Buffer.write alloc { b with crlfcrlf := b.used - 3 } Y Y.length).crlfcrlf
        = b.used - 3 := hk
    rw [Buffer.seek_cached _ (by rw [hk2]; omega), hk2]

set_option maxRecDepth 100000 in
/-- C31, instance: the buffer holding "abc", on which no query was made. The query
returns 0, not -1; after "\r\n\r\n" is appended the query returns 0 again, while the
naive search over the live bytes "abc\r\n\r\n" returns 3, which is also what the query
returns on a buffer to which the same seven bytes were appended without a query in
between. -/
theorem seek_cache_goes_stale_witness :
    ((Buffer.of "abc".toList).sound ∧ (Buffer.of "abc".toList).crlfcrlf = -1
      ∧ naive_seek CRLFCRLF (Buffer.of "abc".toList).live = -1
      ∧ (3 : Int) ≤ (Buffer.of "abc".toList).used)
    ∧ ((Buffer.of "abc".toList).seek CRLFCRLF).1 = (Buffer.of "abc".toList).used - 3
    ∧ ((Buffer.of "abc".toList).seek CRLFCRLF).1 = 0
    ∧ ((((Buffer.of "abc".toList).seek CRLFCRLF).2.write alloc_ok CRLFCRLF
          CRLFCRLF.length).seek CRLFCRLF).1 = 0
    ∧ (((Buffer.of "abc".toList).seek CRLFCRLF).2.write alloc_ok CRLFCRLF
          CRLFCRLF.length).live = "abc\r\n\r\n".toList
    ∧ naive_seek CRLFCRLF "abc\r\n\r\n".toList = 3
    ∧ ((Buffer.of "abc\r\n\r\n".toList).seek CRLFCRLF).1 = 3
    ∧ (Buffer.new.seek CRLFCRLF).1 = -1 :=
  ⟨by decide,
    ((seek_cache_goes_stale alloc_ok (Buffer.of "abc".toList) CRLFCRLF (by decide)
      (by decide)).2.2 (by decide) (by decide)).1,
    by decide⟩

/-! ### The scheme of a URL -/

/-- C33: `parse_scheme` on a candidate `S` that starts with an upper-case letter and goes
on with upper-case letters, digits, '+', '-' and '.'. When ':' follows, the slice stored
has `str` set to the text after the ':', `off` to the position where the scheme starts and
`len` to `|S| + 1`, so for a URL at the start of the text its bytes are the `|S| + 1` bytes
that follow the ':', not `S`. When the first byte is not an upper-case letter, a
lower-case letter included, the scheme is empty and the cursor does not move; when no
':' follows the candidate, the scheme is empty and the cursor is back at the start. -/
theorem scheme_slice_is_misplaced (src : Scanner) (off : Nat) (a : Char) (run t : List Char)
    (ha : is_upper_alpha a = true)
    (hrun : ∀ c ∈ run,
      (is_upper_alpha c || is_digit c || c == '+' || c == '-' || c == '.') = true) :
    (src.Rem off (a :: run ++ ':' :: t) →
        parse_scheme src off
          = some ({ str := src.str.drop (off + (a :: run).length + 1), off := off,
                    len := (a :: run).length + 1 }, off + (a :: run).length + 1)
        ∧ (off = 0 → (parse_scheme src off).map (fun r => r.1.bytes)
            = some (t.take ((a :: run).length + 1))))
    ∧ (∀ c, is_upper_alpha c = false → src.Rem off (c :: t) →
        parse_scheme src off = some (Slice.whipe, off))
    ∧ (src.Rem off (a :: run ++ t) →
        (∀ c, t.head? = some c →
          (is_upper_alpha c || is_digit c || c == '+' || c == '-' || c == '.') = false
            ∧ c ≠ ':') →
        parse_scheme src off = some (Slice.whipe, off)) := by
  refine ⟨?_, ?_, ?_⟩
  · intro h
    have hstop : ∀ c, (':' :: t).head? = some c →
        (is_upper_alpha c || is_digit c || c == '+' || c == '-' || c == '.') = false := by
      intro c hc
      simp only [List.head?_cons, Option.some.injEq] at hc
      subst hc
      decide
    have e1 := Scanner.consume2_run (fun c => is_upper_alpha c)
      (fun c => is_upper_alpha c || is_digit c || c == '+' || c == '-' || c == '.') h ha hrun
      hstop
    have h2 : src.Rem (off + (a :: run).length) (':' :: t) := h.advance
    have e2 := Scanner.consume_char_hit h2
    have e : parse_scheme src off
        = some ({ str := src.str.drop (off + (a :: run).length + 1), off := off,
                  len := (a :: run).length + 1 }, off + (a :: run).length + 1) := by
      unfold parse_scheme
      simp only [e1, Option.bind, Bool.not_true, Bool.false_eq_true, if_false, e2]
      congr 3
      omega
    refine ⟨e, ?_⟩
    intro h0
    subst h0
    rw [e]
    have h3 := h2.tail
    obtain ⟨_, _, hd⟩ := h3
    simp only [Option.map, Slice.bytes, List.drop_zero]
    rw [hd]
  · intro c hc h
    have := Scanner.consume2_none (fun c => is_upper_alpha c)
      (fun c => is_upper_alpha c || is_digit c || c == '+' || c == '-' || c == '.') h (by
        intro x hx
        simp only [List.head?_cons, Option.some.injEq] at hx
        subst hx
        exact hc)
    unfold parse_scheme
    simp only [this, Option.bind, Bool.not_false, if_true]
  · intro h hstop
    have e1 := Scanner.consume2_run (fun c => is_upper_alpha c)
      (fun c => is_upper_alpha c || is_digit c || c == '+' || c == '-' || c == '.') h ha hrun
      (fun c hc => (hstop c hc).1)
    have h2 : src.Rem (off + (a :: run).length) t := h.advance
    have e2 := Scanner.consume_char_miss (c := ':') h2 (by
      intro hh
      exact (hstop ':' hh).2 rfl)
    unfold parse_scheme
    simp only [e1, Option.bind, Bool.not_true, Bool.false_eq_true, if_false, e2, Bool.not_false,
      if_true]

set_option maxRecDepth 100000 in
/-- C33, instance: for "HTTP://example.com/" the scheme slice has length 5 and its bytes
are "//exa"; for "http://example.com/" the scheme is empty; for "HTTP//example.com/",
where no ':' follows, the scheme is empty and the cursor is at 0. -/
theorem scheme_slice_is_misplaced_witness :
    ("HTTP://example.com/".toList = 'H' :: "TTP".toList ++ ':' :: "//example.com/".toList)
    ∧ (parse_scheme { str := "HTTP://example.com/".toList, len := 19 } 0).map
        (fun r => r.1.bytes) = some ("//example.com/".toList.take 5)
    ∧ (parse_scheme { str := "HTTP://example.com/".toList, len := 19 } 0).map
        (fun r => (r.1.bytes, r.1.len, r.2)) = some ("//exa".toList, 5, 5)
    ∧ parse_scheme { str := "http://example.com/".toList, len := 19 } 0 = some (Slice.whipe, 0)
    ∧ parse_scheme { str := "HTTP//example.com/".toList, len := 18 } 0 = some (Slice.whipe, 0)
    ∧ (parse_url { str := "HTTP://example.com/a".toList, len := 20 } URL.new 0).map
        (fun r => (r.1, r.2.1.scheme.bytes, r.2.1.authority.host.text.bytes))
        = some (true, "//exa".toList, "example.com".toList) :=
  ⟨by decide,
    ((scheme_slice_is_misplaced { str := "HTTP://example.com/".toList, len := 19 } 0 'H'
      "TTP".toList "//example.com/".toList (by decide) (by decide)).1
      (Scanner.rem_zero "HTTP://example.com/".toList)).2 rfl,
    by decide⟩

/-! ### Hosts -/

theorem parse_u16_base16_not_hex {src : Scanner} {off : Nat} {c : Char} {t : List Char}
    (h : src.Rem off (c :: t)) (hc : is_hex c = false) (dst : Int) :
    parse_u16_base16 src dst off = some (false, dst, off) := by
  unfold parse_u16_base16
  simp [h.end_cons, h.curr_cons, hc]

theorem parse_ipv6_at_bracket {src : Scanner} {off : Nat} {rest : List Char}
    (h : src.Rem off ('[' :: rest)) (data : List Int) :
    parse_ipv6 src data off = some (false, data, off) := by
  have c1 := Scanner.consume_str_miss h cstr_colons (by
    rintro ⟨s, hs⟩
    simp only [List.cons_append, List.cons.injEq] at hs
    exact absurd hs.1 (by decide))
  have e := parse_u16_base16_not_hex h (by decide) (data.getD 0 0)
  unfold parse_ipv6
  unfold parse_ipv6_head
  simp only [c1, Bool.false_eq_true, if_false, gt_iff_lt, lt_self_iff_false, Bool.not_true, e,
    Option.bind, Bool.not_false, if_true]

/-- C34: `parse_host` hands the scanner to `parse_ipv6` while it is still on the '[', so
every host that starts with '[' is rejected: `parse_host` returns false with the cursor
where it was and the host unchanged, whatever follows the bracket, and `parse_authority`
and `parse_url` return false for an authority that starts with '['. -/
theorem bracketed_host_is_rejected (src : Scanner) (off : Nat) (rest : List Char)
    (h : src.Rem off ('[' :: rest)) :
    (∀ dst : Host, parse_host src dst off = some (false, dst, off))
    ∧ (∀ dst : Authority, ∃ a, parse_authority src dst off = some (false, a, off))
    ∧ (∀ (dst : URL) (start : Nat), src.Rem start ('/' :: '/' :: '[' :: rest) →
        off = start + 2 → ∃ u o, parse_url src dst start = some (false, u, o)) := by
  have hhost : ∀ dst : Host, parse_host src dst off = some (false, dst, off) := by
    intro dst
    unfold parse_host parse_ipv6_host
    simp only [h.end_cons, h.curr_cons, Option.bind, Bool.false_eq_true, if_false,
      beq_self_eq_true, if_true, parse_ipv6_at_bracket h, Bool.not_false]
  have hauth : ∀ dst : Authority, ∃ a, parse_authority src dst off = some (false, a, off) := by
    intro dst
    have hu : src.consume1 (fun c => is_unreserved c || is_subdelim c || c == ':') off
        = some (false, off) :=
      Scanner.consume2_none _ _ h (by
        intro c hc
        simp only [List.head?_cons, Option.some.injEq] at hc
        subst hc
        decide)
    unfold parse_authority parse_user_info
    simp only [hu, Option.bind, Bool.false_eq_true, if_false, hhost, Bool.not_false, if_true]
    exact ⟨_, rfl⟩
  refine ⟨hhost, hauth, ?_⟩
  intro dst start hstart hoff
  subst hoff
  have hsch : parse_scheme src start = some (Slice.whipe, start) := by
    have := Scanner.consume2_none (fun c => is_upper_alpha c)
      (fun c => is_upper_alpha c || is_digit c || c == '+' || c == '-' || c == '.') hstart (by
        intro c hc
        simp only [List.head?_cons, Option.some.injEq] at hc
        subst hc
        decide)
    unfold parse_scheme
    simp only [this, Option.bind, Bool.not_false, if_true]
  have hsl : src.consume_str ['/', '/'] start = (true, start + 2) :=
    Scanner.consume_str_hit (l := ['/', '/']) (t := '[' :: rest) hstart (by decide)
  obtain ⟨a, ha⟩ := hauth { dst with scheme := Slice.whipe }.authority
  unfold parse_url
  simp only [hsch, Option.bind, hsl, if_true, ha, Bool.not_false]
  exact ⟨_, _, rfl⟩

set_option maxRecDepth 100000 in
/-- C34, instance: the host "[1:2:3:4:5:6:7:8]". Evaluated next to it: the address
without brackets is read by `IPv6::parse`, and the request head
"GET //[1:2:3:4:5:6:7:8]/ HTTP/1.1\r\n\r\n" is refused with "Invalid URL". -/
theorem bracketed_host_is_rejected_witness :
    parse_host { str := "[1:2:3:4:5:6:7:8]".toList, len := 17 } Host.new 0
        = some (false, Host.new, 0)
    ∧ IPv6.parse IPv6.new "1:2:3:4:5:6:7:8".toList (-1) = some (true, [1, 2, 3, 4, 5, 6, 7, 8])
    ∧ parse_host { str := "[1:2:3:4:5:6:7:8".toList, len := 16 } Host.new 0
        = some (false, Host.new, 0)
    ∧ (Request.parse Request.new "GET //[1:2:3:4:5:6:7:8]/ HTTP/1.1\r\n\r\n".toList 37).map
        (fun r => (r.ok, r.error)) = some (false, some "Invalid URL") :=
  ⟨(bracketed_host_is_rejected { str := "[1:2:3:4:5:6:7:8]".toList, len := 17 } 0
      "1:2:3:4:5:6:7:8]".toList (Scanner.rem_zero "[1:2:3:4:5:6:7:8]".toList)).1 Host.new,
    by decide⟩

/-- C36: a host that starts with a run `D` of digits denoting at most 255 and goes on
with a name `R` whose first byte is neither a digit nor '.'. The IPv4 attempt reads `D`
and fails, and the registered name is taken from the position the failed attempt left
the cursor at: the host has discriminant NAME and its text is `R`, without `D`. -/
theorem digit_host_loses_leading_digits (src : Scanner) (dst : Host) (off : Nat) (c x : Char)
    (ds R t : List Char) (h : src.Rem off (c :: ds ++ (x :: R ++ t)))
    (hc : is_digit c = true) (hds : ∀ y ∈ ds, is_digit y = true)
    (hv : decimal_from 0 (c :: ds) ≤ 255) (hx : is_digit x = false) (hxd : x ≠ '.')
    (hR : ∀ y ∈ x :: R, (is_unreserved y || is_subdelim y) = true)
    (ht : ∀ y, t.head? = some y → (is_unreserved y || is_subdelim y) = false) :
    ∃ host, parse_host src dst off
        = some (true, host, off + (c :: ds).length + (x :: R).length)
      ∧ host.type = HostType.NAME
      ∧ host.text = { str := src.str, off := off + (c :: ds).length, len := (x :: R).length }
      ∧ host.text.bytes = x :: R := by
  have h0 : src.Rem off (c :: (ds ++ (x :: R ++ t))) := by simpa using h
  have hnd : ∀ y, (x :: R ++ t).head? = some y → is_digit y = false := by
    intro y hy
    simp only [List.cons_append, List.head?_cons, Option.some.injEq] at hy
    subst hy
    exact hx
  have e1 := parse_u8_base10_run c ds (x :: R ++ t) h hc hds hnd hv 0
  have h1 : src.Rem (off + (c :: ds).length) (x :: R ++ t) := h.advance
  have h1b : src.Rem (off + ds.length + 1) (x :: R ++ t) := h1
  have e2 := Scanner.consume_char_miss (c := '.') h1b (by
    simp only [List.cons_append, List.head?_cons, ne_eq, Option.some.injEq]
    exact hxd)
  have e3 : parse_ipv4 src dst.ipv4 off = some (false, dst.ipv4, off + ds.length + 1) := by
    unfold parse_ipv4
    unfold parse_ipv4_loop
    simp only [gt_iff_lt, lt_self_iff_false, if_false, Option.bind, Bool.not_true,
      Bool.false_eq_true, e1]
    unfold parse_ipv4_loop
    simp only [gt_iff_lt, Nat.lt_add_one, zero_add, if_true, Option.bind, e2, Bool.not_false,
      Bool.false_eq_true, if_false]
  have e4 := Scanner.consume1_run_true (fun y => is_unreserved y || is_subdelim y) h1b
    (List.cons_ne_nil _ _) hR ht
  have hb := Slice.bytes_of_rem h1b
  have hlen : off + ds.length + 1 + (x :: R).length - (off + ds.length + 1)
      = (x :: R).length := by omega
  rw [hlen] at hb
  refine ⟨Host.mk HostType.NAME (Slice.mk src.str (off + (c :: ds).length) (x :: R).length)
    dst.ipv4 dst.ipv6, ?_, rfl, rfl, hb⟩
  unfold parse_host parse_ipv4_host
  have hcb : (c == '[') = false := by
    have := digit_bounds hc
    rw [beq_eq_false_iff_ne]
    intro e
    rw [e] at this
    revert this
    decide
  simp only [h0.end_cons, h0.curr_cons, Option.bind, Bool.false_eq_true, if_false, hcb, hc,
    if_true, e3, Bool.not_false, e4, hlen]
  rfl

set_option maxRecDepth 100000 in
/-- C36, instance: for the authority "1example.com" the host has discriminant NAME and
its text is "example.com"; evaluated next to it, for "10.0.0.example" the host text is
"example". -/
theorem digit_host_loses_leading_digits_witness :
    ("1example.com".toList = '1' :: [] ++ ('e' :: "xample.com".toList ++ []))
    ∧ (∃ host, parse_host { str := "1example.com".toList, len := 12 } Host.new 0
          = some (true, host, 0 + ['1'].length + ('e' :: "xample.com".toList).length)
        ∧ host.type = HostType.NAME ∧ host.text.bytes = "example.com".toList)
    ∧ (parse_authority { str := "1example.com".toList, len := 12 } Authority.new 0).map
        (fun r => (r.1, r.2.1.host.type, r.2.1.host.text.bytes, r.2.2))
        = some (true, HostType.NAME, "example.com".toList, 12)
    ∧ (parse_authority { str := "10.0.0.example".toList, len := 14 } Authority.new 0).map
        (fun r => (r.1, r.2.1.host.type, r.2.1.host.text.bytes, r.2.2))
        = some (true, HostType.NAME, "example".toList, 14) :=
  ⟨by decide,
    (digit_host_loses_leading_digits { str := "1example.com".toList, len := 12 } Host.new 0
      '1' 'e' [] "xample.com".toList [] (Scanner.rem_zero "1example.com".toList) (by decide)
      (by decide) (by decide) (by decide) (by decide) (by decide) (by decide)).imp
      fun _ hp => ⟨hp.1, hp.2.1, hp.2.2.2⟩,
    by decide⟩

/-! ### The look-ahead after an authority -/

theorem Scanner.Rem.peek_short {src : Scanner} {off : Nat} {t : List Char}
    (h : src.Rem off t) (hlen : t.length ≤ 1) : src.peek off = none := by
  have := h.length
  unfold Scanner.peek
  rw [if_neg (by omega)]

theorem Scanner.Rem.peek_cons {src : Scanner} {off : Nat} {y z : Char} {t : List Char}
    (h : src.Rem off (y :: z :: t)) : src.peek off = some z := by
  have hc := h.tail.curr_cons
  have hl := h.tail.length
  simp only [List.length_cons] at hl
  unfold Scanner.curr at hc
  rw [if_pos (by omega)] at hc
  unfold Scanner.peek
  rw [if_pos (by omega)]
  exact hc

theorem name_char_not_bracket {x : Char}
    (hx : (is_unreserved x || is_subdelim x) = true) : (x == '[') = false := by
  rw [beq_eq_false_iff_ne]
  intro e
  rw [e] at hx
  revert hx
  decide

theorem name_char_userinfo {x : Char} (hx : (is_unreserved x || is_subdelim x) = true) :
    (is_unreserved x || is_subdelim x || x == ':') = true := by
  rw [hx]
  rfl

/-- `parse_authority` on a registered name `H` that does not start with a digit, followed
by bytes `t` that start neither with a byte of a user-info nor with '@': no user-info, no
port, the host is the name `H`, and the cursor is left on `t`. -/
theorem parse_authority_name {src : Scanner} {off : Nat} (x : Char) (R t : List Char)
    (dst : Authority) (h : src.Rem off (x :: R ++ t)) (hx : is_digit x = false)
    (hR : ∀ y ∈ x :: R, (is_unreserved y || is_subdelim y) = true)
    (ht : ∀ y, t.head? = some y →
      (is_unreserved y || is_subdelim y || y == ':') = false ∧ y ≠ '@') :
    ∃ a, parse_authority src dst off = some (true, a, off + (x :: R).length)
      ∧ a.host.type = HostType.NAME ∧ a.host.text.bytes = x :: R ∧ a.port = -1
      ∧ a.userinfo = Slice.whipe := by
  have h0 : src.Rem off (x :: (R ++ t)) := by simpa using h
  have h1 : src.Rem (off + (x :: R).length) t := h.advance
  have e1 := Scanner.consume1_run_true (fun c => is_unreserved c || is_subdelim c || c == ':') h
    (List.cons_ne_nil _ _) (fun y hy => name_char_userinfo (hR y hy)) (fun y hy => (ht y hy).1)
  have e2 : src.consume_str ['@'] (off + (x :: R).length) = (false, off + (x :: R).length) := by
    apply Scanner.consume_str_miss h1 (by decide)
    rintro ⟨s, hs⟩
    cases t with
    | nil => simp at hs
    | cons y t2 =>
      simp only [List.cons_append, List.cons.injEq] at hs
      exact (ht y rfl).2 hs.1.symm
  have e3 := Scanner.consume1_run_true (fun c => is_unreserved c || is_subdelim c) h
    (List.cons_ne_nil _ _) hR (fun y hy => by
      have := (ht y hy).1
      simp only [Bool.or_eq_false_iff] at this
      simp only [Bool.or_eq_false_iff]
      exact this.1)
  have e4 := Scanner.consume_char_miss (c := ':') h1 (by
    intro hh
    have := (ht ':' hh).1
    revert this
    decide)
  have hb := Slice.bytes_of_rem h
  refine ⟨Authority.mk Slice.whipe
      (Host.mk HostType.NAME (Slice.mk src.str off (off + (x :: R).length - off))
        dst.host.ipv4 dst.host.ipv6) (-1),
    ?_, rfl, hb, rfl, rfl⟩
  unfold parse_authority parse_user_info parse_host
  simp only [e1, Option.bind, if_true, e2, Bool.not_false, h0.end_cons, h0.curr_cons,
    Bool.false_eq_true, if_false, name_char_not_bracket (hR x (List.mem_cons_self _ _)), hx, e3,
    Bool.not_true, e4]

theorem parse_scheme_at_slash {src : Scanner} {off : Nat} {t : List Char}
    (h : src.Rem off ('/' :: t)) : parse_scheme src off = some (Slice.whipe, off) := by
  have := Scanner.consume2_none (fun c => is_upper_alpha c)
    (fun c => is_upper_alpha c || is_digit c || c == '+' || c == '-' || c == '.') h (by
      intro c hc
      simp only [List.head?_cons, Option.some.injEq] at hc
      subst hc
      decide)
  unfold parse_scheme
  simp only [this, Option.bind, Bool.not_false, if_true]

/-- `parse_url` on "//" and a registered name followed by at most one byte: the
look-ahead `src.peek()` fails its assertion `off + 1 < len`. -/
theorem parse_url_peek_fails {src : Scanner} {start : Nat} (x : Char) (R t : List Char)
    (dst : URL) (h : src.Rem start ('/' :: '/' :: (x :: R ++ t))) (hx : is_digit x = false)
    (hR : ∀ y ∈ x :: R, (is_unreserved y || is_subdelim y) = true)
    (ht : ∀ y, t.head? = some y →
      (is_unreserved y || is_subdelim y || y == ':') = false ∧ y ≠ '@')
    (hlen : t.length ≤ 1) : parse_url src dst start = none := by
  have hsch := parse_scheme_at_slash h
  have hsl : src.consume_str ['/', '/'] start = (true, start + 2) :=
    Scanner.consume_str_hit (l := ['/', '/']) (t := x :: R ++ t) h (by decide)
  have h2 : src.Rem (start + 2) (x :: R ++ t) := h.tail.tail
  obtain ⟨a, ea, _⟩ := parse_authority_name x R t { dst with scheme := Slice.whipe }.authority h2
    hx hR ht
  have hp := (h2.advance).peek_short hlen
  unfold parse_url
  simp only [hsch, Option.bind, hsl, if_true, ea, Bool.not_true, Bool.false_eq_true, if_false, hp]

/-- `parse_url` on "//", a registered name and a path "/z…" whose second byte is not
'/': the look-ahead reads that second byte, the path is not parsed, and the cursor stays
on the '/' that starts the path. -/
theorem parse_url_skips_path {src : Scanner} {start : Nat} (x : Char) (R : List Char)
    (z : Char) (rest : List Char) (dst : URL)
    (h : src.Rem start ('/' :: '/' :: (x :: R ++ '/' :: z :: rest))) (hx : is_digit x = false)
    (hR : ∀ y ∈ x :: R, (is_unreserved y || is_subdelim y) = true) (hz : z ≠ '/') :
    ∃ u, parse_url src dst start = some (true, u, start + 2 + (x :: R).length)
      ∧ u.path = dst.path ∧ u.authority.host.type = HostType.NAME
      ∧ u.authority.host.text.bytes = x :: R := by
  have hsch := parse_scheme_at_slash h
  have hsl : src.consume_str ['/', '/'] start = (true, start + 2) :=
    Scanner.consume_str_hit (l := ['/', '/']) (t := x :: R ++ '/' :: z :: rest) h (by decide)
  have h2 : src.Rem (start + 2) (x :: R ++ '/' :: z :: rest) := h.tail.tail
  obtain ⟨a, ea, ha1, ha2, _, _⟩ := parse_authority_name x R ('/' :: z :: rest)
    { dst with scheme := Slice.whipe }.authority h2 hx hR (by
      intro y hy
      simp only [List.head?_cons, Option.some.injEq] at hy
      subst hy
      exact ⟨by decide, by decide⟩)
  have h3 := h2.advance
  have hp := h3.peek_cons
  have hzb : (z == '/') = false := by rw [beq_eq_false_iff_ne]; exact hz
  have q1 := Scanner.consume_char_miss (c := '?') h3 (by simp)
  have q2 := Scanner.consume_char_miss (c := '#') h3 (by simp)
  refine ⟨URL.mk (Slice.mk src.str start (start + 2 + (x :: R).length - start)) Slice.whipe a
    dst.path dst.query dst.fragment, ?_, rfl, ha1, ha2⟩
  unfold parse_url
  simp only [hsch, Option.bind, hsl, if_true, ea, Bool.not_true, Bool.false_eq_true, if_false, hp,
    hzb, q1, q2]

theorem parse_request_line_get {src : Scanner} (dst : Request) {t : List Char}
    (h : src.Rem 0 ('G' :: 'E' :: 'T' :: ' ' :: t)) :
    parse_request_line src dst 0
      = (parse_url src URL.new 4).bind fun u =>
          if !u.1 then
            some { ok := false, req := { dst with method := Method.GET }, off := u.2.2,
                   error := some "Invalid URL" }
          else
            let dst2 := { { dst with method := Method.GET } with url := u.2.1 }
            let v1 := src.consume_str [' ', 'H', 'T', 'T', 'P', '/', '1', '\r', '\n'] u.2.2
            let v2 := if v1.1 then v1
              else src.consume_str [' ', 'H', 'T', 'T', 'P', '/', '1', '.', '0', '\r', '\n'] v1.2
            let v3 := if v2.1 then v2
              else src.consume_str [' ', 'H', 'T', 'T', 'P', '/', '1', '.', '1', '\r', '\n'] v2.2
            if !v3.1 then
              some { ok := false, req := dst2, off := v3.2,
                     error := some "Invalid HTTP version token\n" }
            else some { ok := true, req := dst2, off := v3.2, error := none } := by
  have hm := parse_method_run (M := "GET".toList) (t := t) dst.method (by simpa using h)
    (by decide) (by decide)
  rw [if_pos rfl] at hm
  have h3 : src.Rem (0 + "GET".toList.length) (' ' :: t) :=
    Scanner.Rem.advance (a := "GET".toList) (b := ' ' :: t) (by simpa using h)
  have hsp := Scanner.consume_char_hit h3
  unfold parse_request_line
  simp only [hm, Option.bind, Bool.not_true, Bool.false_eq_true, if_false, hsp]
  rfl

/-- C35: a request target "//" authority path whose authority is a registered name `H`
(not starting with a digit) and whose path starts with "/" and a byte other than '/'.
`parse_url` looks at the byte after the '/', not at the '/', so it returns true with the
path left as it was and the cursor on the '/' that starts the path; `Request::parse` of
the head "GET //H/z…" then fails on the version token. -/
theorem authority_path_is_not_parsed (r : Request) (x : Char) (R : List Char) (z : Char)
    (rest : List Char) (hx : is_digit x = false)
    (hR : ∀ y ∈ x :: R, (is_unreserved y || is_subdelim y) = true) (hz : z ≠ '/') :
    (∀ (src : Scanner) (start : Nat) (dst : URL),
        src.Rem start ('/' :: '/' :: (x :: R ++ '/' :: z :: rest)) →
        ∃ u, parse_url src dst start = some (true, u, start + 2 + (x :: R).length)
          ∧ u.path = dst.path ∧ u.authority.host.type = HostType.NAME
          ∧ u.authority.host.text.bytes = x :: R)
    ∧ (Request.parse r ("GET //".toList ++ (x :: R ++ '/' :: z :: rest))
          ("GET //".toList ++ (x :: R ++ '/' :: z :: rest)).length).map
        (fun p => (p.ok, p.error, p.off, p.req.url.path))
        = some (false, some "Invalid HTTP version token\n", 6 + (x :: R).length,
            Slice.whipe) := by
  refine ⟨fun src start dst h => parse_url_skips_path x R z rest dst h hx hR hz, ?_⟩
  have hrem := Scanner.rem_zero ("GET //".toList ++ (x :: R ++ '/' :: z :: rest))
  have hrem0 : Scanner.Rem
      { str := "GET //".toList ++ (x :: R ++ '/' :: z :: rest),
        len := ("GET //".toList ++ (x :: R ++ '/' :: z :: rest)).length } 0
      ('G' :: 'E' :: 'T' :: ' ' :: ('/' :: '/' :: (x :: R ++ '/' :: z :: rest))) := hrem
  have hrem4 : Scanner.Rem
      { str := "GET //".toList ++ (x :: R ++ '/' :: z :: rest),
        len := ("GET //".toList ++ (x :: R ++ '/' :: z :: rest)).length } 4
      ('/' :: '/' :: (x :: R ++ '/' :: z :: rest)) := hrem0.tail.tail.tail.tail
  obtain ⟨u, eu, hpath, _, _⟩ := parse_url_skips_path x R z rest URL.new hrem4 hx hR hz
  have hrem5 := (hrem4.tail.tail).advance
  have v1 := Scanner.consume_str_miss (l := [' ', 'H', 'T', 'T', 'P', '/', '1', '\r', '\n'])
    hrem5 (by decide) (by simp)
  have v2 := Scanner.consume_str_miss
    (l := [' ', 'H', 'T', 'T', 'P', '/', '1', '.', '0', '\r', '\n']) hrem5 (by decide) (by simp)
  have v3 := Scanner.consume_str_miss
    (l := [' ', 'H', 'T', 'T', 'P', '/', '1', '.', '1', '\r', '\n']) hrem5 (by decide) (by simp)
  unfold Request.parse parse_request
  rw [parse_request_line_get r hrem0, eu]
  simp only [Option.bind, Bool.not_true, Bool.false_eq_true, if_false, v1, v2, v3, Bool.not_false,
    if_true, Option.map, hpath]
  rfl

set_option maxRecDepth 100000 in
/-- C35, instance: the head "GET //example.com/a/b HTTP/1.1\r\n\r\n" is refused with
"Invalid HTTP version token", the cursor on the '/' at index 17 and the path empty.
Evaluated next to it: the same head with an empty path is accepted, and so is the head
whose path starts with "//". -/
theorem authority_path_is_not_parsed_witness :
    ("GET //".toList ++ ('e' :: "xample.com".toList ++ '/' :: 'a' :: "/b HTTP/1.1\r\n\r\n".toList)
        = "GET //example.com/a/b HTTP/1.1\r\n\r\n".toList)
    ∧ (Request.parse Request.new
          ("GET //".toList ++ ('e' :: "xample.com".toList ++ '/' :: 'a' ::
            "/b HTTP/1.1\r\n\r\n".toList))
          ("GET //".toList ++ ('e' :: "xample.com".toList ++ '/' :: 'a' ::
            "/b HTTP/1.1\r\n\r\n".toList)).length).map
        (fun p => (p.ok, p.error, p.off, p.req.url.path))
        = some (false, some "Invalid HTTP version token\n",
            6 + ('e' :: "xample.com".toList).length, Slice.whipe)
    ∧ (Request.parse Request.new "GET //example.com/a/b HTTP/1.1\r\n\r\n".toList 34).map
        (fun p => (p.ok, p.off, p.req.url.path.bytes)) = some (false, 17, [])
    ∧ (Request.parse Request.new "GET //example.com HTTP/1.1\r\n\r\n".toList 30).map
        (fun p => (p.ok, p.req.url.path.bytes, p.req.url.authority.host.text.bytes))
        = some (true, [], "example.com".toList)
    ∧ (Request.parse Request.new "GET //example.com//a HTTP/1.1\r\n\r\n".toList 33).map
        (fun p => (p.ok, p.req.url.path.bytes, p.req.url.authority.host.text.bytes))
        = some (true, "//a".toList, "example.com".toList) :=
  ⟨by decide,
    (authority_path_is_not_parsed Request.new 'e' "xample.com".toList 'a'
      "/b HTTP/1.1\r\n\r\n".toList (by decide) (by decide) (by decide)).2,
    by decide⟩

/-- C40: a request head "GET //" followed by a registered name `H` (not starting with a
digit) and at most one more byte, which is neither a byte of a user-info nor '@'. After
the authority `parse_url` calls `src.peek()`, whose assertion `off + 1 < len` fails: the
byte it would read, `str[off + 1]`, lies at index `len` or `len + 1`. -/
theorem peek_after_authority_fails_assertion (r : Request) (x : Char) (R t : List Char)
    (hx : is_digit x = false)
    (hR : ∀ y ∈ x :: R, (is_unreserved y || is_subdelim y) = true)
    (ht : ∀ y, t.head? = some y →
      (is_unreserved y || is_subdelim y || y == ':') = false ∧ y ≠ '@')
    (hlen : t.length ≤ 1) :
    (∀ (src : Scanner) (start : Nat) (dst : URL),
        src.Rem start ('/' :: '/' :: (x :: R ++ t)) →
        parse_url src dst start = none
          ∧ src.len ≤ start + 2 + (x :: R).length + 1)
    ∧ Request.parse r ("GET //".toList ++ (x :: R ++ t))
        ("GET //".toList ++ (x :: R ++ t)).length = none := by
  refine ⟨fun src start dst h =>
    ⟨parse_url_peek_fails x R t dst h hx hR ht hlen, ?_⟩, ?_⟩
  · have := h.length
    simp only [List.length_cons, List.length_append] at this ⊢
    omega
  · have hrem := Scanner.rem_zero ("GET //".toList ++ (x :: R ++ t))
    have hrem0 : Scanner.Rem
        { str := "GET //".toList ++ (x :: R ++ t),
          len := ("GET //".toList ++ (x :: R ++ t)).length } 0
        ('G' :: 'E' :: 'T' :: ' ' :: ('/' :: '/' :: (x :: R ++ t))) := hrem
    have hrem4 := hrem0.tail.tail.tail.tail
    have eu := parse_url_peek_fails x R t URL.new hrem4 hx hR ht hlen
    unfold Request.parse parse_request
    rw [parse_request_line_get r hrem0, eu]
    rfl

set_option maxRecDepth 100000 in
/-- C40, instance: "GET //a" and "GET //a " stop on the assertion of `peek`; with two
bytes after the authority, "GET //a  ", the parse fails cleanly. -/
theorem peek_after_authority_fails_assertion_witness :
    ("GET //".toList ++ ('a' :: [] ++ []) = "GET //a".toList
      ∧ "GET //".toList ++ ('a' :: [] ++ [' ']) = "GET //a ".toList)
    ∧ Request.parse Request.new ("GET //".toList ++ ('a' :: [] ++ []))
        ("GET //".toList ++ ('a' :: [] ++ [])).length = none
    ∧ Request.parse Request.new ("GET //".toList ++ ('a' :: [] ++ [' ']))
        ("GET //".toList ++ ('a' :: [] ++ [' '])).length = none
    ∧ Request.parse Request.new "GET //a".toList 7 = none
    ∧ Request.parse Request.new "GET //a ".toList 8 = none
    ∧ Scanner.peek { str := "GET //a".toList, len := 7 } 7 = none
    ∧ Scanner.peek { str := "GET //a ".toList, len := 8 } 7 = none
    ∧ (Request.parse Request.new "GET //a  ".toList 9).map (fun p => (p.ok, p.error))
        = some (false, some "Invalid HTTP version token\n")
    ∧ (Request.parse Request.new "GET /a".toList 6).map (fun p => (p.ok, p.error))
        = some (false, some "Invalid HTTP version token\n") :=
  ⟨by decide,
    (peek_after_authority_fails_assertion Request.new 'a' [] [] (by decide) (by decide)
      (by simp) (by decide)).2,
    (peek_after_authority_fails_assertion Request.new 'a' [] [' '] (by decide) (by decide)
      (by decide) (by decide)).2,
    by decide⟩

/-! ### A request object used twice, and the length of a request -/

/-- C38: `Request::parse` into a `Request` that already holds `count` headers (at most
32). For a head with an accepted request line and `n >= 1` well-formed header lines the
parse succeeds, but the headers found are stored after the ones already there:
`count` becomes `min(count + n, 32)`, the headers counted in `ignored_count` are added to
the earlier ones, and the first `count` entries of `headers` are those of the earlier
parse. -/
theorem parse_keeps_earlier_headers (dst : Request) (M p V : List Char)
    (Q : Option (List Char)) (nv : List Char × List Char)
    (rest : List (List Char × List Char))
    (hM : M = "GET".toList ∨ M = "POST".toList)
    (hp : ∀ c ∈ p, (is_pchar c || c == '/') = true) (hnn : p.head? ≠ some '/')
    (hq : ∀ q, Q = some q → ∀ c ∈ q, (is_pchar c || c == '/' || c == '?') = true)
    (hV : is_version V) (hw : wf_lines (nv :: rest))
    (hc : dst.count ≤ MAX_REQUEST_HEADERS) :
    ∃ res, dst.parse
        (request_line M ('/' :: p) Q V ++ (header_lines (nv :: rest) ++ "\r\n".toList))
        (request_line M ('/' :: p) Q V ++ (header_lines (nv :: rest) ++ "\r\n".toList)).length
          = some res
      ∧ res.ok = true
      ∧ res.req.count = min (dst.count + (nv :: rest).length) MAX_REQUEST_HEADERS
      ∧ res.req.ignored_count = dst.ignored_count
          + (dst.count + (nv :: rest).length
              - min (dst.count + (nv :: rest).length) MAX_REQUEST_HEADERS)
      ∧ ∀ j, j < dst.count → res.req.headers[j]? = dst.headers[j]? := by
  obtain ⟨res, base, hres, hok, _, hh, hcnt, hign, hreq⟩ :=
    Request.parse_with_headers dst nv rest hM hp hnn hq hV hw
  obtain ⟨c1, c2⟩ := store_headers_count
    (request_line M ('/' :: p) Q V ++ (header_lines (nv :: rest) ++ "\r\n".toList)) (nv :: rest)
    base (request_line M ('/' :: p) Q V).length (by rw [hcnt]; exact hc)
  refine ⟨res, hres, hok, ?_, ?_, ?_⟩
  · rw [hreq]
    simp only
    rw [c1, hcnt]
  · rw [hreq]
    simp only
    rw [c2, hcnt, hign]
  · intro j hj
    rw [hreq]
    simp only
    rw [store_headers_keep _ _ base _ j (by rw [hcnt]; exact hj), hh]

set_option maxRecDepth 100000 in
/-- C38, instance: "GET / HTTP/1.1\r\nA: b\r\n\r\n" parsed into the `Request` that an
earlier parse of the same head filled: `count` is 2, not 1. Evaluated next to it: after a
head with "Content-Length: 5" the same object, given a head without that header, reports
`content_length() == 5`, where a fresh object reports 0; and a failed parse leaves the
earlier `count`. -/
theorem parse_keeps_earlier_headers_witness :
    ((request_line "GET".toList ('/' :: []) none "HTTP/1.1".toList
          ++ (header_lines [("A".toList, " b".toList)] ++ "\r\n".toList)
        = "GET / HTTP/1.1\r\nA: b\r\n\r\n".toList)
      ∧ (Request.new.parse "GET / HTTP/1.1\r\nA: b\r\n\r\n".toList 24).map
          (fun r => (r.ok, r.req.count)) = some (true, 1)
      ∧ (ParseResult.of "GET / HTTP/1.1\r\nA: b\r\n\r\n".toList).req.count = 1)
    ∧ (∃ res, (ParseResult.of "GET / HTTP/1.1\r\nA: b\r\n\r\n".toList).req.parse
          (request_line "GET".toList ('/' :: []) none "HTTP/1.1".toList
            ++ (header_lines [("A".toList, " b".toList)] ++ "\r\n".toList))
          (request_line "GET".toList ('/' :: []) none "HTTP/1.1".toList
            ++ (header_lines [("A".toList, " b".toList)] ++ "\r\n".toList)).length = some res
        ∧ res.ok = true
        ∧ res.req.count
            = min ((ParseResult.of "GET / HTTP/1.1\r\nA: b\r\n\r\n".toList).req.count
                + [("A".toList, " b".toList)].length) MAX_REQUEST_HEADERS)
    ∧ ((Request.new.parse "GET / HTTP/1.1\r\nA: b\r\n\r\n".toList 24).bind fun r =>
          r.req.parse "GET / HTTP/1.1\r\nA: b\r\n\r\n".toList 24).map
        (fun r => (r.ok, r.req.count)) = some (true, 2)
    ∧ ((Request.new.parse "POST / HTTP/1.1\r\nContent-Length: 5\r\n\r\n".toList 38).bind fun r =>
          r.req.parse "GET / HTTP/1.1\r\nA: b\r\n\r\n".toList 24).map
        (fun r => (r.ok, r.req.count, r.req.content_length)) = some (true, 2, some 5)
    ∧ (Request.new.parse "GET / HTTP/1.1\r\nA: b\r\n\r\n".toList 24).map
        (fun r => (r.ok, r.req.count, r.req.content_length)) = some (true, 1, some 0)
    ∧ ((Request.new.parse "GET / HTTP/1.1\r\nA: b\r\n\r\n".toList 24).bind fun r =>
          r.req.parse "BAD".toList 3).map
        (fun r => (r.ok, r.req.count)) = some (false, 1)
    ∧ (Request.new.parse "BAD".toList 3).map (fun r => (r.ok, r.req.count))
        = some (false, 0) :=
  ⟨by decide,
    (parse_keeps_earlier_headers (ParseResult.of "GET / HTTP/1.1\r\nA: b\r\n\r\n".toList).req
      "GET".toList [] "HTTP/1.1".toList none ("A".toList, " b".toList) [] (Or.inl rfl)
      (by decide) (by decide) (fun q hq => by simp at hq) (Or.inr (Or.inr rfl))
      (fun nv hnv => by
        rw [List.mem_singleton] at hnv
        subst hnv
        decide)
      (by decide)).imp fun _ hp => ⟨hp.1, hp.2.1, hp.2.2.1⟩,
    by decide⟩

/-- C39: `wait` adds the length of the head and `content_length()` as `int`s without a
check. Whenever the candidate at the front of the queue has a head that parses and a
`content_length()` of `n <= 2^31 - 1` with `head_len + n > 2^31 - 1`, the sum wraps to
`head_len + n - 2^32`, a negative number, the test `in.length() >= total_len` passes, and
`wait` returns that request with a negative `req_bytes`; `consume(req_bytes)` on any
buffer then copies from before the buffer and makes `used` grow. -/
theorem wait_accepts_wrapped_total_length (alloc : Int → Bool) (s : Server) (h : Nat)
    (c : Client) (req : Request) (pr : ParseResult) (n : Int)
    (hst : s.state = State.NOTARGET) (hne : s.queue.empty = false)
    (hp1 : s.queue.pop.1 = true) (hp2 : s.queue.pop.2.2 = some h) (hc : s.client h = some c)
    (hparse : req.parse_slice (c.in_.slice_until "\r\n\r\n".toList true).1 = some pr)
    (hok : pr.ok = true) (hcl : pr.req.content_length = some n) (hn : n ≤ 2147483647)
    (hhead : ((c.in_.slice_until "\r\n\r\n".toList true).1.len : Int) ≤ 2147483647)
    (hused : 0 ≤ (c.in_.slice_until "\r\n\r\n".toList true).2.length)
    (hwrap : 2147483647 < ((c.in_.slice_until "\r\n\r\n".toList true).1.len : Int) + n) :
    ∃ s3 r, Server.wait alloc s req = some (s3, r) ∧ s3.state = State.STATUS
      ∧ s3.target = some h
      ∧ s3.req_bytes
          = ((c.in_.slice_until "\r\n\r\n".toList true).1.len : Int) + n - 4294967296
      ∧ s3.req_bytes < 0
      ∧ ∀ b : Buffer, (b.consume s3.req_bytes).fault = true
          ∧ b.used < (b.consume s3.req_bytes).used := by
  have hw : wrap32 (((c.in_.slice_until "\r\n\r\n".toList true).1.len : Int) + n)
      = ((c.in_.slice_until "\r\n\r\n".toList true).1.len : Int) + n - 4294967296 := by
    unfold wrap32
    omega
  obtain ⟨s3, r, e, _, _, h1, h2, h3⟩ := Server.wait_candidate alloc req pr n hst hne hp1 hp2 hc
    hparse hok hcl (by omega) (by rw [hw]; omega)
  rw [hw] at h3
  have hneg : s3.req_bytes < 0 := by rw [h3]; omega
  refine ⟨s3, r, e, h1, h2, h3, hneg, ?_⟩
  intro b
  constructor
  · unfold Buffer.consume
    simp only [Bool.or_eq_true, decide_eq_true_eq]
    exact Or.inr hneg
  · unfold Buffer.consume
    show b.used < b.used - s3.req_bytes
    omega

set_option maxRecDepth 100000 in
/-- C39, instance: the only client of a server for four has sent the 47 bytes
"POST / HTTP/1.1\r\nContent-Length: 2147483647\r\n\r\n" and no body. `wait` returns this
request with `req_bytes == 47 + 2147483647 - 2^32 == -2147483602` and an empty body.
With "Content-Length: 2147483600", where the sum does not wrap, the pass does not return
the request. -/
theorem wait_accepts_wrapped_total_length_witness :
    ((Server.with_candidate 4
          "POST / HTTP/1.1\r\nContent-Length: 2147483647\r\n\r\n".toList).client 0).isSome
        = true
    ∧ (∃ s3 r, Server.wait alloc_ok (Server.with_candidate 4
            "POST / HTTP/1.1\r\nContent-Length: 2147483647\r\n\r\n".toList) Request.new
          = some (s3, r) ∧ s3.state = State.STATUS ∧ s3.target = some 0 ∧ s3.req_bytes < 0)
    ∧ (Server.wait alloc_ok (Server.with_candidate 4
          "POST / HTTP/1.1\r\nContent-Length: 2147483647\r\n\r\n".toList) Request.new).map
        (fun r => (r.1.req_bytes, r.2.body, r.2.content_length))
        = some (-2147483602, Slice.mk2 [] 0, some 2147483647)
    ∧ (Server.wait_pass (Server.with_candidate 4
          "POST / HTTP/1.1\r\nContent-Length: 2147483600\r\n\r\n".toList) Request.new).map
        (fun r => (r.1, r.2.1.state, r.2.2.content_length))
        = some (false, State.NOTARGET, some 2147483600) :=
  ⟨by decide,
    (wait_accepts_wrapped_total_length alloc_ok
      (Server.with_candidate 4 "POST / HTTP/1.1\r\nContent-Length: 2147483647\r\n\r\n".toList) 0
      { Client.new Event.RECV with
        in_ := ((Buffer.of
          "POST / HTTP/1.1\r\nContent-Length: 2147483647\r\n\r\n".toList).contains
            "\r\n\r\n".toList).2, queued := true }
      Request.new
      (ParseResult.of "POST / HTTP/1.1\r\nContent-Length: 2147483647\r\n\r\n".toList)
      2147483647 (by decide) (by decide) (by decide) (by decide) (by decide) (by decide)
      (by decide) (by decide) (by decide) (by decide) (by decide) (by decide)).imp
      fun _ hs => hs.imp fun _ hp => ⟨hp.1, hp.2.1, hp.2.2.1, hp.2.2.2.2.1⟩,
    by decide⟩

/-! ### The event loop -/

theorem EventLoop.skip_loop_spec (bufs : List pollfd) (count : Int) :
    ∀ (fuel : Nat) (cursor : Int), (count - cursor).toNat ≤ fuel → cursor ≤ count →
      cursor ≤ EventLoop.skip_loop bufs count fuel cursor
      ∧ EventLoop.skip_loop bufs count fuel cursor ≤ count
      ∧ (∀ i : Int, cursor ≤ i → i < EventLoop.skip_loop bufs count fuel cursor →
          (EventLoop.buf_at bufs i).revents = 0)
      ∧ (EventLoop.skip_loop bufs count fuel cursor < count →
          (EventLoop.buf_at bufs (EventLoop.skip_loop bufs count fuel cursor)).revents ≠ 0) := by
  intro fuel
  induction fuel with
  | zero =>
    intro cursor hf hc
    have e : cursor = count := by omega
    subst e
    simp only [EventLoop.skip_loop]
    refine ⟨le_refl _, le_refl _, fun i h1 h2 => by omega, fun h => by omega⟩
  | succ k ih =>
    intro cursor hf hc
    unfold EventLoop.skip_loop
    by_cases hcond : cursor < count ∧ (EventLoop.buf_at bufs cursor).revents = 0
    · rw [if_pos hcond]
      obtain ⟨r1, r2, r3, r4⟩ := ih (cursor + 1) (by omega) (by omega)
      refine ⟨by omega, r2, ?_, r4⟩
      intro i h1 h2
      by_cases e : i = cursor
      · rw [e]; exact hcond.2
      · exact r3 i (by omega) h2
    · rw [if_neg hcond]
      refine ⟨le_refl _, hc, fun i h1 h2 => by omega, fun h hz => hcond ⟨h, hz⟩⟩

theorem EventLoop.skip_loop_first (bufs : List pollfd) (count cursor j : Int) (fuel : Nat)
    (hf : (count - cursor).toNat ≤ fuel) (hcj : cursor ≤ j) (hj : j < count)
    (hz : ∀ i : Int, cursor ≤ i → i < j → (EventLoop.buf_at bufs i).revents = 0)
    (hm : (EventLoop.buf_at bufs j).revents ≠ 0) :
    EventLoop.skip_loop bufs count fuel cursor = j := by
  obtain ⟨r1, r2, r3, r4⟩ := EventLoop.skip_loop_spec bufs count fuel cursor hf (by omega)
  by_contra hne
  rcases lt_or_gt_of_ne hne with h | h
  · exact r4 (by omega) (hz _ r1 h)
  · exact hm (r3 j hcj h)

theorem EventLoop.find_loop_range (bufs : List pollfd) (count sock : Int) :
    ∀ (fuel : Nat) (i : Int), EventLoop.find_loop bufs count sock fuel i = -1
      ∨ (i ≤ EventLoop.find_loop bufs count sock fuel i
        ∧ EventLoop.find_loop bufs count sock fuel i < count) := by
  intro fuel
  induction fuel with
  | zero => intro i; left; rfl
  | succ k ih =>
    intro i
    unfold EventLoop.find_loop
    by_cases h1 : i < count
    · rw [if_pos h1]
      by_cases h2 : (EventLoop.buf_at bufs i).fd = sock
      · rw [if_pos h2]; right; exact ⟨le_refl _, h1⟩
      · rw [if_neg h2]
        rcases ih (i + 1) with h | h
        · left; exact h
        · right; exact ⟨by omega, h.2⟩
    · rw [if_neg h1]; left; rfl

theorem EventLoop.add_inv (l : EventLoop) (sock : Int) (ev : Nat) (ptr : Option Nat)
    (h : l.Inv) : (l.add sock ev ptr).2.Inv := by
  unfold EventLoop.add
  obtain ⟨h1, h2, h3⟩ := h
  by_cases e : l.count = (l.N : Int)
  · rw [if_pos e]; exact ⟨h1, h2, h3⟩
  · rw [if_neg e]
    refine ⟨h1, ?_, ?_⟩
    · show l.cursor ≤ l.count + 1
      omega
    · show l.count + 1 ≤ (l.N : Int)
      omega

theorem EventLoop.remove_inv (l : EventLoop) (sock : Int) (h : l.Inv) :
    (l.remove sock).2.Inv := by
  unfold EventLoop.remove
  obtain ⟨h1, h2, h3⟩ := h
  have hr := EventLoop.find_loop_range l.bufs l.count sock l.count.toNat 0
  simp only
  by_cases e : l.find_socket_index sock < 0
  · rw [if_pos e]; exact ⟨h1, h2, h3⟩
  · rw [if_neg e]
    have hi : 0 ≤ l.find_socket_index sock ∧ l.find_socket_index sock < l.count := by
      unfold EventLoop.find_socket_index at e ⊢
      rcases hr with h | h
      · omega
      · exact h
    unfold EventLoop.Inv
    show 0 ≤ (if l.cursor > l.find_socket_index sock then l.cursor - 1 else l.cursor)
      ∧ (if l.cursor > l.find_socket_index sock then l.cursor - 1 else l.cursor) ≤ l.count - 1
      ∧ l.count - 1 ≤ (l.N : Int)
    split_ifs <;> omega

theorem EventLoop.skip_inv (l : EventLoop) (h : 0 ≤ l.cursor ∧ l.cursor ≤ l.count) :
    l.skip.N = l.N ∧ l.skip.count = l.count ∧ l.cursor ≤ l.skip.cursor
      ∧ l.skip.cursor ≤ l.count := by
  obtain ⟨r1, r2, _, _⟩ := EventLoop.skip_loop_spec l.bufs l.count (l.count - l.cursor).toNat
    l.cursor (le_refl _) h.2
  exact ⟨rfl, rfl, r1, r2⟩

theorem EventLoop.poll_loop_inv :
    ∀ (polls : List (Option (List Nat))) (l : EventLoop) (ok : Bool) (l1 : EventLoop)
      (rest : List (Option (List Nat))), l.Inv →
      EventLoop.poll_loop polls l = some (ok, l1, rest) →
      l1.Inv ∧ (ok = true → l1.cursor ≠ l1.count) := by
  intro polls
  induction polls with
  | nil =>
    intro l ok l1 rest hinv h
    unfold EventLoop.poll_loop at h
    by_cases e : l.cursor = l.count
    · rw [if_pos e] at h; cases h
    · rw [if_neg e] at h; cases h; exact ⟨hinv, fun _ => e⟩
  | cons p ps ih =>
    intro l ok l1 rest hinv h
    cases p with
    | none =>
      unfold EventLoop.poll_loop at h
      by_cases e : l.cursor = l.count
      · rw [if_pos e] at h; cases h; exact ⟨hinv, fun hc => by cases hc⟩
      · rw [if_neg e] at h; cases h; exact ⟨hinv, fun _ => e⟩
    | some ms =>
      unfold EventLoop.poll_loop at h
      by_cases e : l.cursor = l.count
      · rw [if_pos e] at h
        refine ih _ ok l1 rest ?_ h
        obtain ⟨h1, h2, h3⟩ := hinv
        obtain ⟨s1, s2, s3, s4⟩ := EventLoop.skip_inv
          { l with bufs := EventLoop.store_revents l.bufs ms l.count.toNat, cursor := 0 }
          ⟨le_refl _, by show (0 : Int) ≤ l.count; omega⟩
        refine ⟨?_, ?_, ?_⟩
        · exact s3
        · rw [s2]; exact s4
        · rw [s2, s1]; exact h3
      · rw [if_neg e] at h; cases h; exact ⟨hinv, fun _ => e⟩

theorem EventLoop.poll_loop_pending (polls : List (Option (List Nat))) (l : EventLoop)
    (h : l.cursor ≠ l.count) : EventLoop.poll_loop polls l = some (true, l, polls) := by
  cases polls with
  | nil => unfold EventLoop.poll_loop; rw [if_neg h]
  | cons p ps =>
    cases p with
    | none => unfold EventLoop.poll_loop; rw [if_neg h]
    | some ms => unfold EventLoop.poll_loop; rw [if_neg h]

theorem EventLoop.wait_result (l : EventLoop) (polls : List (Option (List Nat))) (e : Event)
    (l2 : EventLoop) (rest : List (Option (List Nat))) (h : l.wait polls = some (e, l2, rest)) :
    ∃ ok l1, EventLoop.poll_loop polls l.skip = some (ok, l1, rest) ∧ l2.N = l1.N
      ∧ l2.count = l1.count ∧ l2.cursor = l1.cursor := by
  unfold EventLoop.wait at h
  rcases hp : EventLoop.poll_loop polls l.skip with _ | ⟨ok, l1, r⟩
  · rw [hp] at h; cases h
  · rw [hp] at h
    cases ok with
    | false =>
      simp only at h
      cases h
      exact ⟨false, l2, rfl, rfl, rfl, rfl⟩
    | true =>
      simp only at h
      split_ifs at h <;> (cases h; exact ⟨true, l1, rfl, rfl, rfl, rfl⟩)

theorem EventLoop.wait_inv (l : EventLoop) (polls : List (Option (List Nat))) (e : Event)
    (l2 : EventLoop) (rest : List (Option (List Nat))) (hinv : l.Inv)
    (h : l.wait polls = some (e, l2, rest)) : l2.Inv := by
  obtain ⟨ok, l1, hp, e1, e2, e3⟩ := EventLoop.wait_result l polls e l2 rest h
  obtain ⟨s1, s2, s3, s4⟩ := EventLoop.skip_inv l ⟨hinv.1, hinv.2.1⟩
  have hs : l.skip.Inv :=
    ⟨le_trans hinv.1 s3, by rw [s2]; exact s4, by rw [s2, s1]; exact hinv.2.2⟩
  obtain ⟨⟨i1, i2, i3⟩, _⟩ := EventLoop.poll_loop_inv polls l.skip ok l1 rest hs hp
  exact ⟨by rw [e3]; exact i1, by rw [e3, e2]; exact i2, by rw [e2, e1]; exact i3⟩

theorem clear_bits_and (m a b c : Nat) (h : (65535 ^^^ a) &&& b = c) :
    clear_bits m a &&& b = m &&& c := by
  unfold clear_bits
  rw [Nat.and_assoc, h]

theorem EventLoop.revents_set_self (l : EventLoop) (m : Nat) (h0 : 0 ≤ l.cursor)
    (h : l.cursor < (l.bufs.length : Int)) : (l.set_revents m).revents_at l.cursor = m := by
  unfold EventLoop.set_revents EventLoop.revents_at EventLoop.buf_at
  simp only [List.getD_eq_getElem?_getD]
  rw [List.getElem?_set_self (by omega)]
  rfl

theorem EventLoop.revents_set_other (l : EventLoop) (m : Nat) (i : Int) (h0 : 0 ≤ l.cursor)
    (hi : 0 ≤ i) (h : i ≠ l.cursor) : (l.set_revents m).revents_at i = l.revents_at i := by
  unfold EventLoop.set_revents EventLoop.revents_at EventLoop.buf_at
  simp only [List.getD_eq_getElem?_getD]
  rw [List.getElem?_set_ne (by omega)]

/-- The step of `wait` when an entry at or after the cursor has a reported event: no poll
is made and the first such entry `j` is reported. -/
theorem EventLoop.wait_pending (l : EventLoop) (polls : List (Option (List Nat))) (j : Int)
    (hcj : l.cursor ≤ j) (hj : j < l.count)
    (hz : ∀ i : Int, l.cursor ≤ i → i < j → l.revents_at i = 0)
    (hm : l.revents_at j ≠ 0) (hpri : l.revents_at j &&& POLLPRI = 0) :
    l.wait polls = some
      (if l.revents_at j &&& POLLIN ≠ 0 then
        (Event.mk Event.RECV (l.ptr_at j),
          EventLoop.set_revents { l with cursor := j } (clear_bits (l.revents_at j) POLLIN), polls)
      else if l.revents_at j &&& POLLOUT ≠ 0 then
        (Event.mk Event.SEND (l.ptr_at j),
          EventLoop.set_revents { l with cursor := j } (clear_bits (l.revents_at j) POLLOUT), polls)
      else
        (Event.mk Event.FAILURE (l.ptr_at j),
          EventLoop.set_revents { l with cursor := j } 0, polls)) := by
  have hs : l.skip = { l with cursor := j } := by
    unfold EventLoop.skip
    rw [EventLoop.skip_loop_first l.bufs l.count l.cursor j _ (le_refl _) hcj hj hz hm]
  have hp : EventLoop.poll_loop polls { l with cursor := j } = some (true, { l with cursor := j }, polls) :=
    EventLoop.poll_loop_pending polls _ (by show j ≠ l.count; omega)
  unfold EventLoop.wait
  rw [hs, hp]
  have e1 : EventLoop.revents_at { l with cursor := j } j = l.revents_at j := rfl
  have e2 : EventLoop.ptr_at { l with cursor := j } j = l.ptr_at j := rfl
  simp only [e1, e2, not_lt]
  rw [if_neg (by omega), if_neg hm, if_neg (by rw [hpri]; exact fun h => h rfl)]
  split_ifs <;> rfl

theorem EventLoop.wait_pending_spec (l : EventLoop) (polls : List (Option (List Nat)))
    (j : Int) (h0 : 0 ≤ l.cursor) (hlen : l.count ≤ (l.bufs.length : Int))
    (hcj : l.cursor ≤ j) (hj : j < l.count)
    (hz : ∀ i : Int, l.cursor ≤ i → i < j → l.revents_at i = 0)
    (hm : l.revents_at j ≠ 0) (hpri : l.revents_at j &&& POLLPRI = 0) :
    ∃ ty l1, l.wait polls = some (Event.mk ty (l.ptr_at j), l1, polls)
      ∧ l1.cursor = j ∧ l1.count = l.count ∧ l1.N = l.N ∧ l1.ptrs = l.ptrs
      ∧ l1.bufs.length = l.bufs.length
      ∧ (∀ i : Int, 0 ≤ i → i ≠ j → l1.revents_at i = l.revents_at i)
      ∧ (l.revents_at j &&& POLLIN ≠ 0 →
          ty = Event.RECV ∧ l1.revents_at j = clear_bits (l.revents_at j) POLLIN)
      ∧ (l.revents_at j &&& POLLIN = 0 → l.revents_at j &&& POLLOUT ≠ 0 →
          ty = Event.SEND ∧ l1.revents_at j = clear_bits (l.revents_at j) POLLOUT)
      ∧ (l.revents_at j &&& POLLIN = 0 → l.revents_at j &&& POLLOUT = 0 →
          ty = Event.FAILURE ∧ l1.revents_at j = 0) := by
  have hw := EventLoop.wait_pending l polls j hcj hj hz hm hpri
  have hself : ∀ m : Nat,
      (EventLoop.set_revents { l with cursor := j } m).revents_at j = m := fun m =>
    EventLoop.revents_set_self { l with cursor := j } m (by show 0 ≤ j; omega)
      (by show j < (l.bufs.length : Int); omega)
  have hother : ∀ (m : Nat) (i : Int), 0 ≤ i → i ≠ j →
      (EventLoop.set_revents { l with cursor := j } m).revents_at i = l.revents_at i :=
    fun m i hi hne =>
      EventLoop.revents_set_other { l with cursor := j } m i (by show 0 ≤ j; omega) hi hne
  have hl : ∀ m : Nat,
      (EventLoop.set_revents { l with cursor := j } m).bufs.length = l.bufs.length := fun m => by
    unfold EventLoop.set_revents
    simp only [List.length_set]
  by_cases hin : l.revents_at j &&& POLLIN ≠ 0
  · rw [if_pos hin] at hw
    exact ⟨Event.RECV, _, hw, rfl, rfl, rfl, rfl, hl _, hother _, fun _ => ⟨rfl, hself _⟩,
      fun h => absurd h hin, fun h => absurd h hin⟩
  · rw [if_neg hin] at hw
    have hin0 : l.revents_at j &&& POLLIN = 0 := not_not.mp hin
    by_cases hout : l.revents_at j &&& POLLOUT ≠ 0
    · rw [if_pos hout] at hw
      exact ⟨Event.SEND, _, hw, rfl, rfl, rfl, rfl, hl _, hother _, fun h => absurd hin0 h,
        fun _ _ => ⟨rfl, hself _⟩, fun _ h => absurd h hout⟩
    · rw [if_neg hout] at hw
      exact ⟨Event.FAILURE, _, hw, rfl, rfl, rfl, rfl, hl _, hother _, fun h => absurd hin0 h,
        fun _ h => absurd h hout, fun _ _ => ⟨rfl, hself _⟩⟩

theorem EventLoop.wait_nil_cursor (l : EventLoop) (j : Int) (hc : l.cursor = j)
    (hj : j < l.count) (hm : l.revents_at j = 0) (e : Event) (l2 : EventLoop)
    (rest : List (Option (List Nat))) (h : l.wait [] = some (e, l2, rest)) :
    j < l2.cursor := by
  obtain ⟨ok, l1, hp, _, _, e3⟩ := EventLoop.wait_result l [] e l2 rest h
  unfold EventLoop.poll_loop at hp
  by_cases hcc : l.skip.cursor = l.skip.count
  · rw [if_pos hcc] at hp; cases hp
  · rw [if_neg hcc] at hp
    cases hp
    rw [e3]
    obtain ⟨r1, r2, r3, r4⟩ := EventLoop.skip_loop_spec l.bufs l.count
      (l.count - l.cursor).toNat l.cursor (le_refl _) (by omega)
    have hne : l.skip.cursor ≠ j := by
      intro hh
      have h5 := r4 (by show l.skip.cursor < l.count; omega)
      apply h5
      show l.revents_at l.skip.cursor = 0
      rw [hh]; exact hm
    have hge : l.cursor ≤ l.skip.cursor := r1
    omega

/-- C37: the counters of an event loop stay within `0 <= cursor <= count <= N` under
`add`, `remove` and `wait`. When some entry at or after the cursor has a reported event
and `j` is the first such entry, with no `POLLPRI` bit (a bit `convert_event_flags`
never requests), `wait` makes no poll and reports `j` with its token: `RECV` with the
`POLLIN` bit cleared when that bit is set, else `SEND` with the `POLLOUT` bit cleared
when that bit is set, else `FAILURE` with the whole mask cleared; every other mask is
left alone, the cursor stays on `j`, and if no entry before the cursor had an event then
none has afterwards, so no reported event is passed over. With both bits set two calls
give `RECV` and then `SEND` with the same token; with neither bit the entry is reported
once: a next call that makes no poll reports an entry after `j`. -/
theorem wait_reports_pending_events_in_order (l : EventLoop) (hinv : l.Inv)
    (hlen : l.bufs.length = l.N) :
    (∀ (sock : Int) (ev : Nat) (ptr : Option Nat), (l.add sock ev ptr).2.Inv)
    ∧ (∀ sock : Int, (l.remove sock).2.Inv)
    ∧ (∀ (polls : List (Option (List Nat))) (e : Event) (l1 : EventLoop)
        (rest : List (Option (List Nat))), l.wait polls = some (e, l1, rest) → l1.Inv)
    ∧ (∀ ev : Nat, EventLoop.convert_event_flags ev &&& POLLPRI = 0)
    ∧ (∀ (polls : List (Option (List Nat))) (j : Int), l.cursor ≤ j → j < l.count →
        (∀ i : Int, l.cursor ≤ i → i < j → l.revents_at i = 0) →
        l.revents_at j ≠ 0 → l.revents_at j &&& POLLPRI = 0 →
        (∃ ty l1, l.wait polls = some (Event.mk ty (l.ptr_at j), l1, polls)
          ∧ l1.cursor = j ∧ l1.Inv ∧ (l.Settled → l1.Settled)
          ∧ (∀ i : Int, 0 ≤ i → i ≠ j → l1.revents_at i = l.revents_at i)
          ∧ (l.revents_at j &&& POLLIN ≠ 0 →
              ty = Event.RECV ∧ l1.revents_at j = clear_bits (l.revents_at j) POLLIN)
          ∧ (l.revents_at j &&& POLLIN = 0 → l.revents_at j &&& POLLOUT ≠ 0 →
              ty = Event.SEND ∧ l1.revents_at j = clear_bits (l.revents_at j) POLLOUT)
          ∧ (l.revents_at j &&& POLLIN = 0 → l.revents_at j &&& POLLOUT = 0 →
              ty = Event.FAILURE ∧ l1.revents_at j = 0))
        ∧ (l.revents_at j &&& POLLIN ≠ 0 → l.revents_at j &&& POLLOUT ≠ 0 →
            ∃ l1 l2, l.wait polls = some (Event.mk Event.RECV (l.ptr_at j), l1, polls)
              ∧ l1.wait polls = some (Event.mk Event.SEND (l.ptr_at j), l2, polls)
              ∧ l1.revents_at j &&& POLLIN = 0
              ∧ l1.revents_at j &&& POLLOUT = l.revents_at j &&& POLLOUT
              ∧ l2.revents_at j &&& POLLIN = 0 ∧ l2.revents_at j &&& POLLOUT = 0)
        ∧ (l.revents_at j &&& POLLIN = 0 → l.revents_at j &&& POLLOUT = 0 →
            ∃ l1, l.wait polls = some (Event.mk Event.FAILURE (l.ptr_at j), l1, polls)
              ∧ l1.revents_at j = 0
              ∧ ∀ (e : Event) (l2 : EventLoop) (rest : List (Option (List Nat))),
                  l1.wait [] = some (e, l2, rest) → j < l2.cursor)) := by
  obtain ⟨h0, h1, h2⟩ := hinv
  refine ⟨fun sock ev ptr => EventLoop.add_inv l sock ev ptr ⟨h0, h1, h2⟩,
    fun sock => EventLoop.remove_inv l sock ⟨h0, h1, h2⟩,
    fun polls e l1 rest h => EventLoop.wait_inv l polls e l1 rest ⟨h0, h1, h2⟩ h, ?_, ?_⟩
  · intro ev
    unfold EventLoop.convert_event_flags
    simp only
    split_ifs <;> decide
  · intro polls j hcj hj hz hm hpri
    have hcl : l.count ≤ (l.bufs.length : Int) := by rw [hlen]; exact h2
    obtain ⟨ty, l1, hw, c1, c2, c3, c4, c5, c6, c7, c8, c9⟩ :=
      EventLoop.wait_pending_spec l polls j h0 hcl hcj hj hz hm hpri
    have hinv1 : l1.Inv := ⟨by rw [c1]; omega, by rw [c1, c2]; omega, by rw [c2, c3]; exact h2⟩
    refine ⟨⟨ty, l1, hw, c1, hinv1, ?_, c6, c7, c8, c9⟩, ?_, ?_⟩
    · intro hs i hi0 hi
      rw [c1] at hi
      rw [c6 i hi0 (by omega)]
      by_cases hic : i < l.cursor
      · exact hs i hi0 hic
      · exact hz i (by omega) hi
    · intro hin hout
      obtain ⟨e1, e2⟩ := c7 hin
      subst e1
      have m1 : l1.revents_at j &&& POLLIN = 0 := by
        rw [e2, clear_bits_and _ _ _ 0 (by decide)]; exact Nat.and_zero _
      have m2 : l1.revents_at j &&& POLLOUT = l.revents_at j &&& POLLOUT := by
        rw [e2, clear_bits_and _ _ _ POLLOUT (by decide)]
      have m3 : l1.revents_at j &&& POLLPRI = 0 := by
        rw [e2, clear_bits_and _ _ _ POLLPRI (by decide)]; exact hpri
      have hm1 : l1.revents_at j ≠ 0 := by
        intro hh
        rw [hh] at m2
        exact hout (by rw [← m2]; decide)
      obtain ⟨ty2, l2, hw2, d1, d2, d3, d4, d5, d6, d7, d8, d9⟩ :=
        EventLoop.wait_pending_spec l1 polls j (by rw [c1]; omega) (by rw [c5, c2]; exact hcl)
          (by rw [c1]) (by rw [c2]; exact hj) (fun i hi1 hi2 => by rw [c1] at hi1; omega)
          hm1 m3
      obtain ⟨f1, f2⟩ := d8 m1 (by rw [m2]; exact hout)
      subst f1
      have hp : l1.ptr_at j = l.ptr_at j := by
        unfold EventLoop.ptr_at
        rw [c4]
      rw [hp] at hw2
      refine ⟨l1, l2, hw, hw2, m1, m2, ?_, ?_⟩
      · rw [f2, clear_bits_and _ _ _ POLLIN (by decide)]; exact m1
      · rw [f2, clear_bits_and _ _ _ 0 (by decide)]; exact Nat.and_zero _
    · intro hin hout
      obtain ⟨e1, e2⟩ := c9 hin hout
      subst e1
      exact ⟨l1, hw, e2, fun e l2 rest h =>
        EventLoop.wait_nil_cursor l1 j c1 (by rw [c2]; exact hj) e2 e l2 rest h⟩

set_option maxRecDepth 100000 in
/-- C37, instance: a loop for four sockets holds three entries with the masks 0,
`POLLIN | POLLOUT` and `POLLERR` and the tokens 10, 11 and 12. Four calls without a new
poll give `RECV` and `SEND` for token 11, `FAILURE` for token 12 with its mask cleared,
and then nothing more to report. -/
theorem wait_reports_pending_events_in_order_witness :
    EventLoop.polled3.Inv ∧ EventLoop.polled3.bufs.length = EventLoop.polled3.N
    ∧ (∃ l1 l2, EventLoop.polled3.wait [] = some (Event.mk Event.RECV (some 11), l1, [])
        ∧ l1.wait [] = some (Event.mk Event.SEND (some 11), l2, [])
        ∧ l1.revents_at 1 &&& POLLIN = 0
        ∧ l1.revents_at 1 &&& POLLOUT = EventLoop.polled3.revents_at 1 &&& POLLOUT
        ∧ l2.revents_at 1 &&& POLLIN = 0 ∧ l2.revents_at 1 &&& POLLOUT = 0)
    ∧ (EventLoop.polled3.wait []).map (fun r => (r.1, r.2.1.cursor, r.2.1.bufs.map pollfd.revents))
        = some (Event.mk Event.RECV (some 11), 1, [0, 4, 8, 0])
    ∧ ((EventLoop.polled3.wait []).bind fun r => r.2.1.wait []).map
          (fun r => (r.1, r.2.1.cursor, r.2.1.bufs.map pollfd.revents))
        = some (Event.mk Event.SEND (some 11), 1, [0, 0, 8, 0])
    ∧ (((EventLoop.polled3.wait []).bind fun r => r.2.1.wait []).bind
          fun r => r.2.1.wait []).map
          (fun r => (r.1, r.2.1.cursor, r.2.1.bufs.map pollfd.revents))
        = some (Event.mk Event.FAILURE (some 12), 2, [0, 0, 0, 0])
    ∧ ((((EventLoop.polled3.wait []).bind fun r => r.2.1.wait []).bind
          fun r => r.2.1.wait []).bind fun r => r.2.1.wait []) = none :=
  ⟨⟨by decide, by decide, by decide⟩, by decide,
    ((wait_reports_pending_events_in_order EventLoop.polled3
      ⟨by decide, by decide, by decide⟩ (by decide)).2.2.2.2 [] 1 (by decide) (by decide)
      (fun i h1 h2 => by
        have e : i = 0 := by
          have h3 : (0 : Int) ≤ i := h1
          omega
        subst e
        decide)
      (by decide) (by decide)).2.1 (by decide) (by decide),
    by decide, by decide, by decide, by decide⟩

/-! ### The candidate queue of the engine -/

theorem Server.client_of_slots {s s2 : Server} {h : Nat} (x : Option Client)
    (hs : s2.slots = s.slots.set h x) (k : Nat) :
    s2.client k = if h = k then (if h < s.slots.length then x else none) else s.client k := by
  unfold Server.client
  rw [hs, List.getElem?_set]
  by_cases e : h = k
  · rw [if_pos e, if_pos e]
    by_cases e2 : h < s.slots.length
    · rw [if_pos e2, if_pos e2]
      rfl
    · rw [if_neg e2, if_neg e2]
      rfl
  · rw [if_neg e, if_neg e]

theorem Server.queued_of_slots_some {s s2 : Server} {h : Nat} {c : Client} (c2 : Client)
    (hc : s.client h = some c) (hs : s2.slots = s.slots.set h (some c2)) (k : Nat) :
    s2.queued k = if h = k then some c2.queued else s.queued k := by
  have hlt := Server.client_lt hc
  unfold Server.queued
  rw [Server.client_of_slots (some c2) hs k]
  by_cases e : h = k
  · rw [if_pos e, if_pos e, if_pos hlt]
    rfl
  · rw [if_neg e, if_neg e]

theorem Server.queued_of_slots_none {s s2 : Server} {h : Nat}
    (hs : s2.slots = s.slots.set h none) (k : Nat) :
    s2.queued k = if h = k then none else s.queued k := by
  unfold Server.queued
  rw [Server.client_of_slots none hs k]
  by_cases e : h = k
  · rw [if_pos e, if_pos e]
    by_cases e2 : h < s.slots.length
    · rw [if_pos e2]
      rfl
    · rw [if_neg e2]
      rfl
  · rw [if_neg e, if_neg e]

theorem Server.queued_of_client {s : Server} {h : Nat} {c : Client} (hc : s.client h = some c) :
    s.queued h = some c.queued := by
  unfold Server.queued
  rw [hc]
  rfl

/-- Nothing that the invariant looks at has changed, except possibly the state and the
target. -/
theorem Server.QueueInv.frame {s s2 : Server} {l : List Nat} (hi : s.QueueInv l)
    (hm : s2.MAX_CLIENTS = s.MAX_CLIENTS) (hl : s2.slots.length = s.slots.length)
    (hq : s2.queue = s.queue) (hqd : ∀ k, s2.queued k = s.queued k)
    (ht : s2.state ≠ State.NOTARGET → ∃ h, s2.target = some h ∧ s2.queued h = some false) :
    s2.QueueInv l :=
  ⟨by rw [hm]; exact hi.cap_pos, by rw [hm]; exact hi.cap_le, by rw [hl, hm]; exact hi.slots,
    by rw [hq, hm]; exact hi.holds, hi.nodup, fun k => by rw [hqd k]; exact hi.queued k, ht⟩

/-- A client that is not queued leaves the pool. -/
theorem Server.QueueInv.remove {s s2 : Server} {l : List Nat} {h : Nat} (hi : s.QueueInv l)
    (hn : s.queued h ≠ some true) (hs : s2.slots = s.slots.set h none)
    (hm : s2.MAX_CLIENTS = s.MAX_CLIENTS) (hq : s2.queue = s.queue)
    (hst : s2.state = State.NOTARGET) : s2.QueueInv l := by
  refine ⟨by rw [hm]; exact hi.cap_pos, by rw [hm]; exact hi.cap_le, ?_,
    by rw [hq, hm]; exact hi.holds, hi.nodup, fun k => ?_, fun hne => absurd hst hne⟩
  · rw [hs, List.length_set, hm]
    exact hi.slots
  · rw [Server.queued_of_slots_none hs k]
    by_cases e : h = k
    · rw [if_pos e]
      subst e
      constructor
      · intro hx
        cases hx
      · intro hx
        exact absurd ((hi.queued h).mpr hx) hn
    · rw [if_neg e]
      exact hi.queued k

theorem nodup_length_le {l : List Nat} {n : Nat} (hn : l.Nodup)
    (hl : ∀ x ∈ l, x < n) : l.length ≤ n := by
  have hsub : l ⊆ List.range n := fun x hx => List.mem_range.mpr (hl x hx)
  have := (List.subperm_of_subset hn hsub).length_le
  simpa using this

theorem Server.queued_lt {s : Server} {h : Nat} {b : Bool} (hq : s.queued h = some b) :
    h < s.slots.length := by
  unfold Server.queued at hq
  cases hc : s.client h with
  | none => rw [hc] at hq; cases hq
  | some c => exact Server.client_lt hc

/-- A client that is allocated and not queued enters the queue. -/
theorem Server.QueueInv.push {s s2 : Server} {l : List Nat} {h : Nat} {c : Client}
    (c2 : Client) (hi : s.QueueInv l) (hc : s.client h = some c) (hn : c.queued = false)
    (hs : s2.slots = s.slots.set h (some c2)) (hc2 : c2.queued = true)
    (hm : s2.MAX_CLIENTS = s.MAX_CLIENTS) (hq : s2.queue = (s.queue.push (some h)).2)
    (ht : s2.state ≠ State.NOTARGET → ∃ k, s2.target = some k ∧ s2.queued k = some false) :
    s2.QueueInv (l ++ [h]) := by
  have hqh : s.queued h = some false := by rw [Server.queued_of_client hc, hn]
  have hnotin : h ∉ l := by
    intro hx
    have := (hi.queued h).mpr hx
    rw [hqh] at this
    cases this
  have hnd : (h :: l).Nodup := List.nodup_cons.mpr ⟨hnotin, hi.nodup⟩
  have hlen : (h :: l).length ≤ s.MAX_CLIENTS := by
    refine nodup_length_le hnd ?_
    intro x hx
    rw [← hi.slots]
    rcases List.mem_cons.mp hx with rfl | hx
    · exact Server.queued_lt hqh
    · exact Server.queued_lt ((hi.queued x).mpr hx)
  have hroom : (l.map some).length < s.MAX_CLIENTS := by
    rw [List.length_map]
    simp only [List.length_cons] at hlen
    omega
  obtain ⟨_, hh⟩ := Queue.push_holds hi.holds hi.cap_le hroom (some h)
  refine ⟨by rw [hm]; exact hi.cap_pos, by rw [hm]; exact hi.cap_le, ?_, ?_, ?_, fun k => ?_, ht⟩
  · rw [hs, List.length_set, hm]
    exact hi.slots
  · rw [hq, hm]
    simpa using hh
  · rw [List.nodup_append]
    refine ⟨hi.nodup, List.nodup_singleton h, ?_⟩
    intro x hx hy
    rw [List.mem_singleton] at hy
    subst hy
    exact hnotin hx
  · rw [Server.queued_of_slots_some c2 hc hs k, List.mem_append, List.mem_singleton]
    by_cases e : h = k
    · rw [if_pos e, hc2]
      exact ⟨fun _ => Or.inr e.symm, fun _ => rfl⟩
    · rw [if_neg e, hi.queued k]
      constructor
      · intro hx
        exact Or.inl hx
      · intro hx
        rcases hx with hx | hx
        · exact hx
        · exact absurd hx.symm e

/-- The front of a queue that is not empty. -/
theorem Server.QueueInv.front {s : Server} {l : List Nat} (hi : s.QueueInv l)
    (hne : s.queue.empty = false) :
    ∃ h t c, l = h :: t ∧ s.queue.pop.1 = true ∧ s.queue.pop.2.2 = some h
      ∧ s.client h = some c ∧ c.queued = true
      ∧ s.queue.pop.2.1.Holds s.MAX_CLIENTS (t.map some) := by
  cases l with
  | nil =>
    have hu := hi.holds.used
    simp only [List.map_nil, List.length_nil] at hu
    unfold Queue.empty at hne
    rw [hu] at hne
    exact absurd hne (by decide)
  | cons h t =>
    have hh : s.queue.Holds s.MAX_CLIENTS (some h :: t.map some) := by
      simpa using hi.holds
    obtain ⟨p1, p2, p3⟩ := Queue.pop_holds hh hi.cap_le
    have hq := (hi.queued h).mpr (List.mem_cons_self _ _)
    unfold Server.queued at hq
    cases hc : s.client h with
    | none => rw [hc] at hq; cases hq
    | some c =>
      rw [hc] at hq
      exact ⟨h, t, c, rfl, p1, p2, hc, by simpa using hq, p3⟩

/-- The client at the front leaves the queue. -/
theorem Server.QueueInv.pop {s s2 : Server} {h : Nat} {t : List Nat} {c : Client}
    (c2 : Client) (hi : s.QueueInv (h :: t)) (hc : s.client h = some c)
    (hp : s.queue.pop.2.1.Holds s.MAX_CLIENTS (t.map some))
    (hs : s2.slots = s.slots.set h (some c2)) (hc2 : c2.queued = false)
    (hm : s2.MAX_CLIENTS = s.MAX_CLIENTS) (hq : s2.queue = s.queue.pop.2.1)
    (ht : s2.state ≠ State.NOTARGET → ∃ k, s2.target = some k ∧ s2.queued k = some false) :
    s2.QueueInv t := by
  have hnd := List.nodup_cons.mp hi.nodup
  refine ⟨by rw [hm]; exact hi.cap_pos, by rw [hm]; exact hi.cap_le, ?_,
    by rw [hq, hm]; exact hp, hnd.2, fun k => ?_, ht⟩
  · rw [hs, List.length_set, hm]
    exact hi.slots
  · rw [Server.queued_of_slots_some c2 hc hs k]
    by_cases e : h = k
    · rw [if_pos e, hc2]
      subst e
      constructor
      · intro hx
        cases hx
      · intro hx
        exact absurd hx hnd.1
    · rw [if_neg e, hi.queued k, List.mem_cons]
      constructor
      · intro hx
        rcases hx with hx | hx
        · exact absurd hx.symm e
        · exact hx
      · intro hx
        exact Or.inr hx

theorem Server.first_free_spec :
    ∀ (slots : List (Option Client)) (i h : Nat), Server.first_free slots i = some h →
      i ≤ h ∧ slots[h - i]? = some none := by
  intro slots
  induction slots with
  | nil =>
    intro i h e
    cases e
  | cons x rest ih =>
    intro i h e
    cases x with
    | none =>
      simp only [Server.first_free, Option.some.injEq] at e
      subst e
      simp
    | some c =>
      simp only [Server.first_free] at e
      obtain ⟨r1, r2⟩ := ih (i + 1) h e
      refine ⟨by omega, ?_⟩
      have e2 : h - i = (h - (i + 1)) + 1 := by omega
      rw [e2, List.getElem?_cons_succ]
      exact r2

/-- A client constructed in a free slot. -/
theorem Server.QueueInv.allocate {s : Server} {l : List Nat} (hi : s.QueueInv l) (h : Nat)
    (s1 : Server) (e : s.allocate = (some h, s1)) :
    s1.QueueInv l ∧ s1.queued h = some false ∧ s1.state = s.state := by
  unfold Server.allocate at e
  split at e
  · cases e
  · cases hf : Server.first_free s.slots 0 with
    | none =>
      rw [hf] at e
      cases e
    | some k =>
      rw [hf] at e
      simp only [Prod.mk.injEq, Option.some.injEq] at e
      obtain ⟨e1, e2⟩ := e
      subst e1
      obtain ⟨_, hfree⟩ := Server.first_free_spec s.slots 0 k hf
      rw [Nat.sub_zero] at hfree
      have hlt : k < s.slots.length := by
        by_contra hge
        rw [List.getElem?_eq_none (by omega)] at hfree
        cases hfree
      have hcl : s.client k = none := by
        unfold Server.client
        rw [hfree]
        rfl
      have hs : s1.slots = s.slots.set k (some (Client.new Event.RECV)) := by rw [← e2]
      have hqd : ∀ j, s1.queued j = if k = j then some false else s.queued j := by
        intro j
        unfold Server.queued
        rw [Server.client_of_slots _ hs j]
        by_cases ej : k = j
        · rw [if_pos ej, if_pos ej, if_pos hlt]
          rfl
        · rw [if_neg ej, if_neg ej]
      have hnotin : k ∉ l := by
        intro hx
        have := (hi.queued k).mpr hx
        unfold Server.queued at this
        rw [hcl] at this
        cases this
      refine ⟨⟨?_, ?_, ?_, ?_, hi.nodup, fun j => ?_, ?_⟩, ?_, by rw [← e2]⟩
      · rw [← e2]; exact hi.cap_pos
      · rw [← e2]; exact hi.cap_le
      · rw [hs, List.length_set]
        rw [← e2]
        exact hi.slots
      · rw [← e2]
        exact hi.holds
      · rw [hqd j]
        by_cases ej : k = j
        · rw [if_pos ej]
          subst ej
          constructor
          · intro hx
            cases hx
          · intro hx
            exact absurd hx hnotin
        · rw [if_neg ej]
          exact hi.queued j
      · intro hne
        have hne2 : s.state ≠ State.NOTARGET := by rw [← e2] at hne; exact hne
        obtain ⟨t, ht1, ht2⟩ := hi.target hne2
        refine ⟨t, by rw [← e2]; exact ht1, ?_⟩
        rw [hqd t]
        by_cases et : k = t
        · rw [if_pos et]
        · rw [if_neg et]
          exact ht2
      · rw [hqd k, if_pos rfl]

theorem Server.remove_client_shape {s s2 : Server} {h : Nat} {c : Client}
    (hc : s.client h = some c) (hn : c.queued = false) (e : s.remove_client h = some s2) :
    s2.slots = s.slots.set h none ∧ s2.queue = s.queue ∧ s2.MAX_CLIENTS = s.MAX_CLIENTS
      ∧ s2.state = s.state ∧ s2.target = s.target := by
  unfold Server.remove_client at e
  rw [hc] at e
  simp only [Option.some_bind, hn, Bool.false_eq_true, if_false, Option.some.injEq] at e
  rw [← e]
  exact ⟨rfl, rfl, rfl, rfl, rfl⟩

theorem Server.SameQueue.of_self (s : Server) : s.SameQueue s :=
  ⟨rfl, rfl, rfl, fun _ => rfl, rfl, fun h => h⟩

theorem Server.SameQueue.chain {s s1 s2 : Server} (a : s.SameQueue s1) (b : s1.SameQueue s2) :
    s.SameQueue s2 :=
  ⟨b.max.trans a.max, b.len.trans a.len, b.queue.trans a.queue,
    fun k => (b.queued k).trans (a.queued k), b.target.trans a.target,
    fun h => a.state (b.state h)⟩

theorem Server.QueueInv.same {s s2 : Server} {l : List Nat} (hi : s.QueueInv l)
    (h : s.SameQueue s2) : s2.QueueInv l := by
  refine hi.frame h.max h.len h.queue h.queued ?_
  intro hne
  obtain ⟨t, t1, t2⟩ := hi.target (h.state hne)
  exact ⟨t, by rw [h.target]; exact t1, by rw [h.queued]; exact t2⟩

theorem Server.target_client_some {s : Server} {t : Nat × Client}
    (h : s.target_client = some t) : s.target = some t.1 ∧ s.client t.1 = some t.2 := by
  unfold Server.target_client at h
  cases ht : s.target with
  | none => rw [ht] at h; cases h
  | some k =>
    rw [ht] at h
    simp only [Option.some_bind] at h
    cases hc : s.client k with
    | none => rw [hc] at h; cases h
    | some c =>
      rw [hc] at h
      simp only [Option.some_bind, Option.some.injEq] at h
      subst h
      exact ⟨rfl, hc⟩

/-- A client keeps its `queued` flag and the engine a state other than NOTARGET. -/
theorem Server.SameQueue.of_slots {s s2 : Server} {h : Nat} {c : Client} (c2 : Client)
    (hc : s.client h = some c) (hs : s2.slots = s.slots.set h (some c2))
    (hq2 : c2.queued = c.queued) (hm : s2.MAX_CLIENTS = s.MAX_CLIENTS) (hq : s2.queue = s.queue)
    (ht : s2.target = s.target) (hst : s2.state ≠ State.NOTARGET → s.state ≠ State.NOTARGET) :
    s.SameQueue s2 := by
  refine ⟨hm, by rw [hs, List.length_set], hq, fun k => ?_, ht, hst⟩
  rw [Server.queued_of_slots_some c2 hc hs k]
  by_cases e : h = k
  · rw [if_pos e, hq2, ← e, Server.queued_of_client hc]
  · rw [if_neg e]

theorem Server.status_same (alloc : Int → Bool) {s s2 : Server} (code : Int)
    (e : s.status alloc code = some s2) : s.SameQueue s2 := by
  unfold Server.status at e
  split at e
  · cases e
    exact Server.SameQueue.of_self s
  · rename_i hne
    cases ht : s.target_client with
    | none => simp [ht] at e
    | some t =>
      obtain ⟨_, hc⟩ := Server.target_client_some ht
      simp only [ht, Option.some_bind] at e
      split at e
      · cases e
        exact Server.SameQueue.of_self s
      · split at e
        · simp at e
        · cases e
          exact Server.SameQueue.of_slots _ hc rfl (by rfl) rfl rfl rfl (fun _ => hne)

theorem Server.preamble_same (alloc : Int → Bool) {s s2 : Server}
    (hne : s.state ≠ State.NOTARGET) (e : s.preamble alloc = some s2) : s.SameQueue s2 := by
  unfold Server.preamble at e
  cases ht : s.target_client with
  | none => simp [ht] at e
  | some t =>
    obtain ⟨_, hc⟩ := Server.target_client_some ht
    simp only [ht, Option.some_bind] at e
    cases e
    exact Server.SameQueue.of_slots _ hc rfl (by rfl) rfl rfl rfl (fun _ => hne)

theorem Server.write_same (alloc : Int → Bool) {s s2 : Server} (str : List Char) (len : Int)
    (e : s.write alloc str len = some s2) : s.SameQueue s2 := by
  unfold Server.write at e
  simp only at e
  split at e
  · cases e
    exact Server.SameQueue.of_self s
  · rename_i hne
    cases ht : s.target_client with
    | none => simp [ht] at e
    | some t =>
      simp only [ht, Option.some_bind] at e
      cases h0 : (if s.state = State.STATUS then s.status alloc 200 else some s) with
      | none => simp [h0] at e
      | some s0 =>
        have k0 : s.SameQueue s0 ∧ s0.state ≠ State.NOTARGET := by
          split at h0
          · refine ⟨Server.status_same alloc 200 h0, ?_⟩
            rename_i hs
            unfold Server.status at h0
            rw [if_neg hne, ht] at h0
            simp only [Option.some_bind, hs, ne_eq, not_true_eq_false, if_false] at h0
            split at h0
            · cases h0
            · cases h0
              simp
          · cases h0
            exact ⟨Server.SameQueue.of_self s, hne⟩
        simp only [h0, Option.some_bind] at e
        cases h2 : (if s0.state = State.HEADERS then s0.preamble alloc else some s0) with
        | none => simp [h2] at e
        | some s2' =>
          have k2 : s0.SameQueue s2' := by
            split at h2
            · exact Server.preamble_same alloc k0.2 h2
            · cases h2
              exact Server.SameQueue.of_self s0
          simp only [h2, Option.some_bind] at e
          cases ht2 : s2'.target_client with
          | none => simp [ht2] at e
          | some t2 =>
            obtain ⟨_, hc⟩ := Server.target_client_some ht2
            simp only [ht2, Option.some_bind] at e
            cases e
            exact (k0.1.chain k2).chain
              (Server.SameQueue.of_slots _ hc rfl (by rfl) rfl rfl rfl (fun h => h))

/-- The buffers or the event mask of a client change, its `queued` flag does not, and
the engine is left with no target. -/
theorem Server.QueueInv.set_idle {s s2 : Server} {l : List Nat} {h : Nat} {c : Client}
    (c2 : Client) (hi : s.QueueInv l) (hc : s.client h = some c) (hq2 : c2.queued = c.queued)
    (hs : s2.slots = s.slots.set h (some c2)) (hm : s2.MAX_CLIENTS = s.MAX_CLIENTS)
    (hq : s2.queue = s.queue) (hst : s2.state = State.NOTARGET) : s2.QueueInv l := by
  refine hi.frame hm (by rw [hs, List.length_set]) hq (fun k => ?_) (fun hx => absurd hst hx)
  rw [Server.queued_of_slots_some c2 hc hs k]
  by_cases e : h = k
  · rw [if_pos e, hq2, ← e, Server.queued_of_client hc]
  · rw [if_neg e]

/-- The call `send`: the target, which is not queued, is removed, queued again or left. -/
theorem Server.QueueInv.send {s s2 : Server} {l : List Nat} (alloc : Int → Bool)
    (hi : s.QueueInv l) (e : s.send alloc = some s2) : ∃ l2, s2.QueueInv l2 := by
  unfold Server.send at e
  split at e
  · cases e
    exact ⟨l, hi⟩
  · rename_i hne
    obtain ⟨k, tk, qk⟩ := hi.target hne
    cases ht : s.target_client with
    | none => simp [ht] at e
    | some t0 =>
      simp only [ht, Option.some_bind] at e
      cases hw : s.write alloc [] (-1) with
      | none => simp [hw] at e
      | some s1 =>
        simp only [hw, Option.some_bind] at e
        have k1 := Server.write_same alloc [] (-1) hw
        have i1 := hi.same k1
        cases ht1 : s1.target_client with
        | none => simp [ht1] at e
        | some t =>
          obtain ⟨tt, hc⟩ := Server.target_client_some ht1
          simp only [ht1, Option.some_bind] at e
          have hq : t.2.queued = false := by
            have h1 : s1.queued t.1 = some false := by
              rw [k1.target, tk] at tt
              cases tt
              rw [k1.queued]
              exact qk
            rw [Server.queued_of_client hc] at h1
            exact Option.some.inj h1
          split at e
          · cases hr : s1.remove_client t.1 with
            | none => simp [hr] at e
            | some s3 =>
              simp only [hr, Option.some_bind, Option.some.injEq] at e
              subst e
              obtain ⟨r1, r2, r3, _, _⟩ := Server.remove_client_shape hc hq hr
              refine ⟨l, i1.remove (h := t.1) ?_ r1 r3 r2 rfl⟩
              rw [Server.queued_of_client hc, hq]
              intro hx
              cases hx
          · split at e
            · simp at e
            · simp only [Option.some_bind, Option.some.injEq] at e
              subst e
              by_cases hag : (if s1.keep_alive ≠ 0
                  then (t.2.in_.consume s1.req_bytes).contains "\r\n\r\n".toList
                  else (false, t.2.in_.consume s1.req_bytes)).1 = true
              · refine ⟨l ++ [t.1], i1.push _ hc hq rfl ?_ rfl ?_ (fun hx => absurd rfl hx)⟩
                · show (if _ then true else _) = true
                  rw [if_pos hag]
                · show (if _ then _ else _) = _
                  rw [if_pos hag]
              · refine ⟨l, i1.set_idle _ hc ?_ rfl rfl ?_ rfl⟩
                · show (if _ then true else _) = _
                  rw [if_neg hag]
                · show (if _ then _ else _) = _
                  rw [if_neg hag]

/-- One pass of the loop of `wait`: the front candidate is popped and then removed,
returned as the target, or left connected. -/
theorem Server.QueueInv.wait_pass {s : Server} {l : List Nat} {req : Request}
    {r : Bool × Server × Request} (hi : s.QueueInv l) (hst : s.state = State.NOTARGET)
    (hne : s.queue.empty = false) (e : s.wait_pass req = some r) :
    ∃ l2, r.2.1.QueueInv l2 := by
  obtain ⟨h, t, c, hl, p1, p2, hc, hq, hp⟩ := hi.front hne
  subst hl
  unfold Server.wait_pass at e
  simp only [p1, Bool.not_true, Bool.false_eq_true, if_false, p2, Option.some_bind, hc] at e
  generalize c.in_.slice_until "\r\n\r\n".toList true = hd at e
  have hcq : ({ c with queued := false, in_ := hd.2 } : Client).queued = false := rfl
  generalize ({ c with queued := false, in_ := hd.2 } : Client) = c1 at e hcq
  have i1 : Server.QueueInv { s.set_client h c1 with queue := s.queue.pop.2.1 } t :=
    hi.pop c1 hc hp rfl hcq rfl rfl (fun hx => absurd hst hx)
  have hc1 : Server.client { s.set_client h c1 with queue := s.queue.pop.2.1 } h = some c1 := by
    rw [Server.client_of_slots (some c1) (s := s) rfl h, if_pos rfl, if_pos (Server.client_lt hc)]
  have hs1 : Server.state { s.set_client h c1 with queue := s.queue.pop.2.1 }
      = State.NOTARGET := hst
  generalize hs1e : ({ s.set_client h c1 with queue := s.queue.pop.2.1 } : Server) = s1
    at e i1 hc1 hs1
  have rem : ∀ s3, s1.remove_client h = some s3 → s3.QueueInv t := by
    intro s3 hr
    obtain ⟨r1, r2, r3, r4, _⟩ := Server.remove_client_shape hc1 hcq hr
    refine i1.remove (h := h) ?_ r1 r3 r2 (r4.trans hs1)
    rw [Server.queued_of_client hc1, hcq]
    intro hx
    cases hx
  cases hpr : req.parse_slice hd.1 with
  | none => simp [hpr] at e
  | some pr =>
    simp only [hpr, Option.some_bind] at e
    split at e
    · cases hr : s1.remove_client h with
      | none => simp [hr] at e
      | some s3 =>
        simp only [hr, Option.some_bind, Option.some.injEq] at e
        subst e
        exact ⟨t, rem s3 hr⟩
    · cases hcl : pr.req.content_length with
      | none => simp [hcl] at e
      | some body_len =>
        simp only [hcl, Option.some_bind] at e
        split at e
        · cases hr : s1.remove_client h with
          | none => simp [hr] at e
          | some s3 =>
            simp only [hr, Option.some_bind, Option.some.injEq] at e
            subst e
            exact ⟨t, rem s3 hr⟩
        · split at e
          · simp only [Option.some.injEq] at e
            subst e
            subst hs1e
            refine ⟨t, i1.frame rfl rfl rfl (fun _ => rfl) (fun _ => ⟨h, rfl, ?_⟩)⟩
            exact (Server.queued_of_client hc1).trans (congrArg some hcq)
          · simp only [Option.some.injEq] at e
            subst e
            exact ⟨t, i1⟩

end Cpphttp
